import Mathlib

/-!
# Chess rules engine and game sessions: a shallow embedding

Embedding of `internal/game_logic` (board_functions.go, move_functions.go,
king_logic.go) and of the session handlers of `internal/api`.

Conventions of the embedding

* A Go `rune` (a board cell, a colour) is an `Int`.  The codes used by the
  program: `' '` = 32 (Empty), `'w'` = 119, `'b'` = 98, `'n'` = 110, `'r'` = 114,
  `'p'` = 112, `'k'` = 107, `'q'` = 113, `'x'` = 120 and the upper-case letters
  `'P'` = 80, `'K'` = 75, `'B'` = 66, `'R'` = 82, `'Q'` = 81, `'X'` = 88.
* A Go `int` (a row, a column) is an `Int`; `[2]int` is `Int × Int`.
* `[8][8]rune` is a function `Fin 8 → Fin 8 → Int`.
* A Go `string` that holds text is a Lean `String` (valid UTF-8).
* The linked list `*Move` (field `Next`) is a `List Move`; `addMove` appends at
  the end.
* A call that returns `(value, error)` returns a `Res`: `ok v` is `(v, nil)`,
  `fail v e` is `(v, e)` and `panic` is a run-time panic (index out of range).
-/

namespace Chess

/-! ## Results and errors -/

/-- Error values.  `text s` is `errors.New(s)`; `notTurn c` is
`fmt.Errorf("it's not %q's turn", c)`. -/
inductive Err where
  | text (msg : String)
  | notTurn (color : Int)
deriving DecidableEq

/-- Outcome of a Go call returning `(value, error)`. -/
inductive Res (α : Type) where
  | ok (a : α)
  | fail (a : α) (e : Err)
  | panic
deriving DecidableEq

/-! ## Data model -/

/-- The grid `[8][8]rune`. -/
abbrev Grid := Fin 8 → Fin 8 → Int

/-- The constant `Empty = ' '`. -/
abbrev Empty : Int := 32

/-- Go `Move` without the `Next` pointer. -/
structure Move where
  From : Int × Int
  To : Int × Int
  Color : Int
  Capture : Bool
deriving DecidableEq

/-- Go `BoardState`. -/
structure BoardState where
  Board : Grid
  LastMove : String
  WhiteKingPos : Int × Int
  BlackKingPos : Int × Int
  WhiteKingMoved : Bool
  BlackKingMoved : Bool
  Winner : String
  TurnColor : String
  EnPassant : Int × Int

/-- Read `board[row][col]`; meaningful for `0 ≤ row, col < 8` only (out of that
range Go panics, which every caller below guards against or models). -/
def cell (board : Grid) (row col : Int) : Int :=
  board (Fin.ofNat row.toNat) (Fin.ofNat col.toNat)

/-- Write `board[row][col] = v`. -/
def setCell (board : Grid) (row col : Int) (v : Int) : Grid :=
  fun i j => if ((i : Nat) : Int) = row ∧ ((j : Nat) : Int) = col then v else board i j

/-- Go `isValid`. -/
def isValid (row col : Int) : Bool :=
  decide (0 ≤ row) && decide (row < 8) && decide (0 ≤ col) && decide (col < 8)

/-- Go `isInBounds`. -/
def isInBounds (pos : Int × Int) : Bool :=
  decide (0 ≤ pos.1) && decide (pos.1 < 8) && decide (0 ≤ pos.2) && decide (pos.2 < 8)

/-- The rune `rune(strings.ToLower(string(p))[0])`: the first byte of the
lower-cased UTF-8 text of the rune `p`.  ASCII letters are lower-cased, other
ASCII runes are kept; U+0130 and U+212A (Kelvin sign) lower-case to the ASCII
letters `i` and `k`; a rune that is not a Unicode scalar value becomes U+FFFD,
whose first byte is 0xEF.  For every other rune the result is a UTF-8 lead
byte (0xC2 or more): the lead byte of the rune itself is taken, the Unicode
case tables not being part of the program (no function compares the result
with anything but ASCII letters). -/
def lowerFirstByte (p : Int) : Int :=
  if 65 ≤ p ∧ p ≤ 90 then p + 32
  else if 0 ≤ p ∧ p < 128 then p
  else if p = 304 then 105
  else if p = 8490 then 107
  else if p < 0 ∨ 1114111 < p ∨ (55296 ≤ p ∧ p ≤ 57343) then 239
  else if p < 2048 then 192 + p / 64
  else if p < 65536 then 224 + p / 4096
  else 240 + p / 262144

/-- Go `getColorAndPiece`: colour (`'w'`, `'b'` or `'n'`) and lower-case piece
letter of a square; `('n', Empty)` for an empty or out-of-bounds square. -/
def getColorAndPiece (row col : Int) (board : Grid) : Int × Int :=
  if row < 0 ∨ row > 7 ∨ col < 0 ∨ col > 7 then (110, Empty)
  else
    let p := cell board row col
    if p = Empty then (110, Empty)
    else if 97 ≤ p ∧ p ≤ 122 then (119, lowerFirstByte p)
    else (98, lowerFirstByte p)

/-! ## Move lists -/

/-- Go `EqMove` on two non-nil moves: `Capture` is not compared. -/
def EqMove (move1 move2 : Move) : Bool :=
  decide (move1.From = move2.From) && decide (move1.To = move2.To) &&
    decide (move1.Color = move2.Color)

/-- Go `IsMoveInMoves`. -/
def IsMoveInMoves (move : Move) : List Move → Bool
  | [] => false
  | m :: rest => if EqMove move m then true else IsMoveInMoves move rest

/-- Go `NMoves`. -/
def NMoves (moves : List Move) : Nat := moves.length

/-- Go `MoveAt`: the `n`-th node, the last one when the list is shorter, `nil`
(`none`) for the empty list. -/
def MoveAt : List Move → Nat → Option Move
  | [], _ => none
  | m :: _, 0 => some m
  | m :: [], _ + 1 => some m
  | _ :: m2 :: rest, n + 1 => MoveAt (m2 :: rest) n

/-- Go `addMove`: append a new node at the end of the list. -/
def addMove (fromRow fromCol toRow toCol : Int) (color : Int) (capture : Bool)
    (moves : List Move) : List Move :=
  moves ++ [{ From := (fromRow, fromCol), To := (toRow, toCol), Color := color,
              Capture := capture }]

/-! ## Move generation -/

/-- One pass of the capture loop of `pawnMoves` for one `offset`. -/
def pawnCapture (row col : Int) (color : Int) (direction : Int) (board : Grid)
    (moves : List Move) (offset : Int) : List Move :=
  if isValid (row + direction) (col + offset) then
    let tc := getColorAndPiece (row + direction) (col + offset) board
    if tc.2 = Empty then moves
    else if color ≠ tc.1 then
      addMove row col (row + direction) (col + offset) color true moves
    else moves
  else moves

/-- Go `pawnMoves`. -/
def pawnMoves (row col : Int) (color : Int) (boardState : BoardState)
    (moves : List Move) : List Move :=
  let direction : Int := if color = 98 then 1 else -1
  let board := boardState.Board
  let moves1 :=
    if isValid (row + direction) col && decide (cell board (row + direction) col = Empty) then
      addMove row col (row + direction) col color false moves
    else moves
  let startRow : Int := if color = 98 then 1 else 6
  let moves2 :=
    if decide (row = startRow) && isValid (row + 2 * direction) col &&
        decide (cell board (row + direction) col = Empty) &&
        decide (cell board (row + 2 * direction) col = Empty) then
      addMove row col (row + 2 * direction) col color false moves1
    else moves1
  [(-1 : Int), 1].foldl (pawnCapture row col color direction board) moves2

/-- The loop body shared, word for word, by `knightMoves` and `kingMoves`. -/
def jumpStep (row col : Int) (color : Int) (boardState : BoardState)
    (moves : List Move) (offset : Int × Int) : List Move :=
  let r := row + offset.1
  let c := col + offset.2
  if !isValid r c then moves
  else
    let tc := getColorAndPiece r c boardState.Board
    if tc.2 = Empty then addMove row col r c color false moves
    else if color ≠ tc.1 then addMove row col r c color true moves
    else moves

/-- The table `knightOffsets`. -/
def knightOffsets : List (Int × Int) :=
  [(-2, -1), (-2, 1), (-1, -2), (-1, 2), (1, -2), (1, 2), (2, -1), (2, 1)]

/-- The table `kingOffsets`. -/
def kingOffsets : List (Int × Int) :=
  [(-1, -1), (-1, 0), (-1, 1), (0, -1), (0, 1), (1, -1), (1, 0), (1, 1)]

/-- Go `knightMoves`. -/
def knightMoves (row col : Int) (color : Int) (boardState : BoardState)
    (moves : List Move) : List Move :=
  knightOffsets.foldl (jumpStep row col color boardState) moves

/-- Go `kingMoves`. -/
def kingMoves (row col : Int) (color : Int) (boardState : BoardState)
    (moves : List Move) : List Move :=
  kingOffsets.foldl (jumpStep row col color boardState) moves

/-- The closure `getDeltas` of `lineMoves`. -/
def getDeltas (direction : String) : List (Int × Int) :=
  if direction ≠ "straight" ∧ direction ≠ "diagonal" then [(0, 0), (0, 0), (0, 0), (0, 0)]
  else if direction = "straight" then [(-1, 0), (1, 0), (0, -1), (0, 1)]
  else if direction = "diagonal" then [(-1, -1), (-1, 1), (1, -1), (1, 1)]
  else [(0, 0), (0, 0), (0, 0), (0, 0)]

/-- The inner `for` loop of `lineMoves` along one `delta`, from the square
`(row, col)` reached so far.  The loop leaves the board after at most 7 steps;
`fuel` bounds the number of iterations (8 are given by `lineMoves`). -/
def rayMoves (start_row start_col : Int) (color : Int) (boardState : BoardState)
    (delta : Int × Int) : Nat → Int → Int → List Move → List Move
  | 0, _, _, moves => moves
  | fuel + 1, row, col, moves =>
    let row1 := row + delta.1
    let col1 := col + delta.2
    if !isValid row1 col1 then moves
    else
      let tc := getColorAndPiece row1 col1 boardState.Board
      if color = tc.1 then moves
      else if tc.2 = Empty then
        rayMoves start_row start_col color boardState delta fuel row1 col1
          (addMove start_row start_col row1 col1 color false moves)
      else if color ≠ tc.1 then addMove start_row start_col row1 col1 color true moves
      else moves

/-- Go `lineMoves`. -/
def lineMoves (start_row start_col : Int) (color : Int) (boardState : BoardState)
    (moves : List Move) (direction : String) : List Move :=
  (getDeltas direction).foldl
    (fun acc delta => rayMoves start_row start_col color boardState delta 8 start_row start_col acc)
    moves

/-- Go `GenerateMovesForPiece`; the list behind `moves **Move` is passed in and
the extended list is returned. -/
def GenerateMovesForPiece (row col : Int) (boardState : BoardState)
    (moves : List Move) : List Move :=
  let cp := getColorAndPiece row col boardState.Board
  let color := cp.1
  let piece := cp.2
  if piece = 112 ∨ piece = 80 then pawnMoves row col color boardState moves
  else if piece = 107 ∨ piece = 75 then knightMoves row col color boardState moves
  else if piece = 98 ∨ piece = 66 then lineMoves row col color boardState moves "diagonal"
  else if piece = 114 ∨ piece = 82 then lineMoves row col color boardState moves "straight"
  else if piece = 113 ∨ piece = 81 then
    lineMoves row col color boardState
      (lineMoves row col color boardState moves "diagonal") "straight"
  else if piece = 120 ∨ piece = 88 then kingMoves row col color boardState moves
  else moves

/-- Go `isExcluded`. -/
def isExcluded (piece : Int) (exclude : List Int) : Bool :=
  exclude.any (fun excluded => decide (piece = excluded))

/-- The body of the two nested loops of `AllPossibleMoves` for one square. -/
def allMovesStep (color : Int) (boardState : BoardState) (exclude : List Int)
    (row : Nat) (head : List Move) (col : Nat) : List Move :=
  let tcp := getColorAndPiece row col boardState.Board
  if tcp.2 = Empty then head
  else if color = tcp.1 then
    if isExcluded tcp.2 exclude then head
    else GenerateMovesForPiece row col boardState head
  else head

/-- Go `AllPossibleMoves`. -/
def AllPossibleMoves (color : Int) (boardState : BoardState) (exclude : List Int) :
    List Move :=
  (List.range 8).foldl
    (fun head row => (List.range 8).foldl (allMovesStep color boardState exclude row) head)
    []

/-! ## Strings and notation -/

/-- The UTF-8 bytes of one character. -/
def charBytes (c : Char) : List Int :=
  let v : Int := c.toNat
  if v < 128 then [v]
  else if v < 2048 then [192 + v / 64, 128 + v % 64]
  else if v < 65536 then [224 + v / 4096, 128 + (v / 64) % 64, 128 + v % 64]
  else [240 + v / 262144, 128 + (v / 4096) % 64, 128 + (v / 64) % 64, 128 + v % 64]

/-- The bytes of a Go string (`s[i]` is the `i`-th element, `len(s)` the length). -/
def strBytes (s : String) : List Int :=
  s.data.flatMap charBytes

/-- Go `string(rune(x))` for an `int` `x`: the conversion to `rune` keeps the
low 32 bits (signed); a value that is not a Unicode scalar value gives U+FFFD. -/
def runeString (x : Int) : String :=
  let v : Int := (x + 2147483648) % 4294967296 - 2147483648
  if 0 ≤ v ∧ (v < 55296 ∨ (57344 ≤ v ∧ v ≤ 1114111)) then
    String.singleton (Char.ofNat v.toNat)
  else String.singleton (Char.ofNat 65533)

/-- The closure `rowColToField` of `MoveToString`. -/
def rowColToField (pos : Int × Int) : String :=
  runeString (97 + pos.2) ++ runeString (49 + (7 - pos.1))

/-- Go `MoveToString`. -/
def MoveToString (move : Move) : String :=
  rowColToField move.From ++ " " ++ rowColToField move.To

/-! ## King logic -/

/-- Go `getKingdataFromColor`: the cached king square of `color` and the
enemy colour. -/
def getKingdataFromColor (color : Int) (boardState : BoardState) : Int × Int × Int :=
  if color = 119 then (boardState.WhiteKingPos.1, boardState.WhiteKingPos.2, 98)
  else (boardState.BlackKingPos.1, boardState.BlackKingPos.2, 119)

/-- The traversal loop of `fieldAttacked` with its counter `i`. -/
def attackScan (row col : Int) : List Move → Nat → Res Bool
  | [], _ => .ok false
  | m :: rest, i =>
    if i = 1000 then .fail false (.text "error when traversing moves in FieldAttacked")
    else if m.To.1 ≠ row ∨ m.To.2 ≠ col then attackScan row col rest (i + 1)
    else if !m.Capture then attackScan row col rest (i + 1)
    else .ok true

/-- Go `fieldAttacked`.  The square is overwritten with the defender's king,
the attacker's moves are generated, and the square is written back (line 125)
before the list is scanned, so the state the pointer refers to is the same
after the call; the indexing `Board[row][col]` panics out of bounds. -/
def fieldAttacked (row col : Int) (attackerColor : Int) (boardState : BoardState) :
    Res Bool :=
  if !isValid row col then .panic
  else
    let sentinel : Int := if attackerColor = 119 then 88 else 120
    let probe : BoardState :=
      { boardState with Board := setCell boardState.Board row col sentinel }
    attackScan row col (AllPossibleMoves attackerColor probe []) 0

/-- Go `kingAttacked`. -/
def kingAttacked (color : Int) (boardState : BoardState) : Res Bool :=
  let kd := getKingdataFromColor color boardState
  fieldAttacked kd.1 kd.2.1 kd.2.2 boardState

/-- The loop of `kingMoveable` over the king's candidate moves. -/
def kingMoveableLoop (enemy_color : Int) (boardState : BoardState) : List Move → Res Bool
  | [] => .ok false
  | m :: rest =>
    match fieldAttacked m.To.1 m.To.2 enemy_color boardState with
    | .panic => .panic
    | .fail _ e => .fail false e
    | .ok attacked =>
      if !attacked then .ok true else kingMoveableLoop enemy_color boardState rest

/-- Go `kingMoveable`. -/
def kingMoveable (color : Int) (boardState : BoardState) : Res Bool :=
  let kd := getKingdataFromColor color boardState
  kingMoveableLoop kd.2.2 boardState (GenerateMovesForPiece kd.1 kd.2.1 boardState [])

/-- Go `fieldAttacked` with the state it is given by reference threaded through:
the cell is saved, overwritten by the sentinel king, the moves are generated,
the cell is written back, and the list is scanned.  The second component is the
referenced state afterwards. -/
def fieldAttackedSt (row col : Int) (attackerColor : Int) (boardState : BoardState) :
    Res Bool × BoardState :=
  if !isValid row col then (.panic, boardState)
  else
    let tmp := cell boardState.Board row col
    let s1 : BoardState :=
      { boardState with
        Board := setCell boardState.Board row col (if attackerColor = 119 then 88 else 120) }
    let allMoves := AllPossibleMoves attackerColor s1 []
    let s2 : BoardState := { s1 with Board := setCell s1.Board row col tmp }
    (attackScan row col allMoves 0, s2)

/-- Go `kingAttacked`, state threaded through. -/
def kingAttackedSt (color : Int) (boardState : BoardState) : Res Bool × BoardState :=
  let kd := getKingdataFromColor color boardState
  fieldAttackedSt kd.1 kd.2.1 kd.2.2 boardState

/-- The loop of `kingMoveable`, state threaded through. -/
def kingMoveableLoopSt (enemy_color : Int) : BoardState → List Move → Res Bool × BoardState
  | boardState, [] => (.ok false, boardState)
  | boardState, m :: rest =>
    match fieldAttackedSt m.To.1 m.To.2 enemy_color boardState with
    | (.panic, s) => (.panic, s)
    | (.fail _ e, s) => (.fail false e, s)
    | (.ok attacked, s) =>
      if !attacked then (.ok true, s) else kingMoveableLoopSt enemy_color s rest

/-- Go `kingMoveable`, state threaded through. -/
def kingMoveableSt (color : Int) (boardState : BoardState) : Res Bool × BoardState :=
  let kd := getKingdataFromColor color boardState
  kingMoveableLoopSt kd.2.2 boardState
    (GenerateMovesForPiece kd.1 kd.2.1 boardState [])

/-- The loop "check if another piece can block" of `isCheckmatePlayer`, with
its counter `i`.  Each candidate is tried on the board with the origin emptied
and the piece put on the destination; both squares are written back before the
next candidate, so every candidate is tried on the same board. -/
def checkmateLoop (row col enemy_color : Int) (boardState : BoardState) :
    List Move → Nat → Res Bool
  | [], _ => .ok true
  | m :: rest, i =>
    if i + 1 ≥ 1000 then .fail false (.text "move loop didn't terminate")
    else
      let tmp_from := cell boardState.Board m.From.1 m.From.2
      let tried : BoardState :=
        { boardState with
          Board := setCell (setCell boardState.Board m.From.1 m.From.2 Empty)
                     m.To.1 m.To.2 tmp_from }
      match fieldAttacked row col enemy_color tried with
      | .panic => .panic
      | .fail _ e => .fail false e
      | .ok attacked =>
        if !attacked then .ok false
        else checkmateLoop row col enemy_color boardState rest (i + 1)

/-- Go `isCheckmatePlayer`. -/
def isCheckmatePlayer (color : Int) (boardState : BoardState) : Res Bool :=
  let kd := getKingdataFromColor color boardState
  match fieldAttacked kd.1 kd.2.1 kd.2.2 boardState with
  | .panic => .panic
  | .fail _ e => .fail false e
  | .ok attacked =>
    if !attacked then .ok false
    else
      match kingMoveable color boardState with
      | .panic => .panic
      | .fail _ e => .fail false e
      | .ok dodge =>
        if dodge then .ok false
        else checkmateLoop kd.1 kd.2.1 kd.2.2 boardState
               (AllPossibleMoves color boardState [120]) 0

/-- Go `isRemisPlayer`. -/
def isRemisPlayer (color : Int) (boardState : BoardState) : Res Bool :=
  let kd := getKingdataFromColor color boardState
  match fieldAttacked kd.1 kd.2.1 kd.2.2 boardState with
  | .panic => .panic
  | .fail _ e => .fail false e
  | .ok attacked =>
    if attacked then .ok false
    else
      match kingMoveable color boardState with
      | .panic => .panic
      | .fail _ e => .fail false e
      | .ok moveable =>
        if moveable then .ok false
        else if AllPossibleMoves color boardState [120] ≠ [] then .ok false
        else .ok true

/-- Go `isCheckmate`: the colour of the winner, `'n'` if neither side is
checkmated. -/
def isCheckmate (boardState : BoardState) : Res Int :=
  match isCheckmatePlayer 119 boardState with
  | .panic => .panic
  | .fail _ e => .fail 110 e
  | .ok whiteCheckmated =>
    if whiteCheckmated then .ok 98
    else
      match isCheckmatePlayer 98 boardState with
      | .panic => .panic
      | .fail _ e => .fail 110 e
      | .ok blackCheckmated =>
        if blackCheckmated then .ok 119 else .ok 110

/-- Go `isLinearCorrelated`; the quotient is Go's integer division, which
truncates towards zero, taken before the conversion to `float64`. -/
def isLinearCorrelated (row1 col1 row2 col2 : Int) : Bool :=
  decide (row1 = row2) || decide (col1 = col2) ||
    (decide (col1 - col2 ≠ 0) &&
      decide ((Int.tdiv (row1 - row2) (col1 - col2)).natAbs = 1))

/-- Go `getDirectionDeltas`. -/
def getDirectionDeltas (row col king_row king_col : Int) : Res (Int × Int) :=
  if !isLinearCorrelated row col king_row king_col then
    .fail (0, 0) (.text "can't generate direction deltas for uncorrelated fields")
  else if row = king_row then
    if col < king_col then .ok (0, -1) else .ok (0, 1)
  else if col = king_col then
    if row < king_row then .ok (-1, 0) else .ok (1, 0)
  else if row < king_row ∧ col > king_col then .ok (-1, 1)
  else if row > king_row ∧ col > king_col then .ok (1, 1)
  else if row > king_row ∧ col < king_col then .ok (1, -1)
  else if row < king_row ∧ col < king_col then .ok (-1, -1)
  else .fail (0, 0) (.text "delta direction couldn't be determined")

/-- The loop of `isPinned` from the square `(row_i, col_i)` reached so far.
The counter `i` fails the tenth iteration: nine iterations are left when the
loop is entered, and `fuel` counts them down. -/
def pinnedLoop (color drow dcol : Int) (boardState : BoardState) : Nat → Int → Int → Res Bool
  | 0, _, _ => .fail false (.text "loop didn't terminate")
  | fuel + 1, row_i, col_i =>
    let row1 := row_i + drow
    let col1 := col_i + dcol
    if !isInBounds (row1, col1) then .ok false
    else
      let tc := getColorAndPiece row1 col1 boardState.Board
      if tc.2 = Empty then pinnedLoop color drow dcol boardState fuel row1 col1
      else if tc.1 = color then .ok false
      else if (decide (drow ≠ 0) && decide (dcol ≠ 0)) && (decide (tc.2 = 98) || decide (tc.2 = 113))
        then .ok true
      else if (decide (drow = 0) || decide (dcol = 0)) &&
          (decide (tc.2 = 114) || decide (tc.2 = 113)) then .ok true
      else pinnedLoop color drow dcol boardState fuel row1 col1

/-- Go `isPinned`. -/
def isPinned (row col : Int) (boardState : BoardState) : Res Bool :=
  let cp := getColorAndPiece row col boardState.Board
  if cp.2 = 120 then .ok false
  else
    let king : Int × Int :=
      if cp.1 = 119 then boardState.WhiteKingPos else boardState.BlackKingPos
    if !isLinearCorrelated row col king.1 king.2 then .ok false
    else
      match getDirectionDeltas row col king.1 king.2 with
      | .panic => .panic
      | .fail _ e => .fail false e
      | .ok d => pinnedLoop cp.1 d.1 d.2 boardState 9 row col

/-! ## Move application -/

/-- The part of `MakeMove` before `if realMove`: the clone (a JSON round trip,
the identity on this data), the king cache, the en-passant square, the
notation, the relocation of the piece and the turn.  No bounds are checked
here; `MakeMove` does. -/
def applyMove (move : Move) (bstate : BoardState) : BoardState :=
  let fromRow := move.From.1
  let fromCol := move.From.2
  let toRow := move.To.1
  let toCol := move.To.2
  let cp := getColorAndPiece fromRow fromCol bstate.Board
  let fromColor := cp.1
  let fromPiece := cp.2
  let whiteKing : Bool := decide (fromPiece = 120) && decide (fromColor = 119)
  let blackKing : Bool := decide (fromPiece = 120) && decide (fromColor = 98)
  { Board := setCell (setCell bstate.Board toRow toCol (cell bstate.Board fromRow fromCol))
               fromRow fromCol Empty
    LastMove := MoveToString move
    WhiteKingPos := if whiteKing then (toRow, toCol) else bstate.WhiteKingPos
    BlackKingPos := if blackKing then (toRow, toCol) else bstate.BlackKingPos
    WhiteKingMoved := if whiteKing then true else bstate.WhiteKingMoved
    BlackKingMoved := if blackKing then true else bstate.BlackKingMoved
    Winner := bstate.Winner
    TurnColor := if fromColor = 119 then "b" else "w"
    EnPassant :=
      if fromPiece = 112 ∧ (fromRow - toRow).natAbs = 2 then (toRow, toCol) else (-1, -1) }

/-- The boolean a caller of `isCheckmatePlayer` or `isRemisPlayer` goes on with
when it only prints the error (as `MakeMove` does). -/
def Res.flag : Res Bool → Option Bool
  | .ok b => some b
  | .fail b _ => some b
  | .panic => none

/-- Go `MakeMove`; `none` is a panic (a square out of bounds at the board
update, or a cached king square out of bounds in the terminal check). -/
def MakeMove (move : Move) (bstate : BoardState) (realMove : Bool) : Option BoardState :=
  if !isInBounds move.From || !isInBounds move.To then none
  else
    let newBstate := applyMove move bstate
    if realMove then
      let fromColor := (getColorAndPiece move.From.1 move.From.2 bstate.Board).1
      let enemyColor : Int := if fromColor = 119 then 98 else 119
      match (isCheckmatePlayer enemyColor newBstate).flag with
      | none => none
      | some checkmate =>
        let s1 : BoardState :=
          if checkmate then
            { newBstate with Winner := runeString fromColor, TurnColor := "n" }
          else newBstate
        match (isRemisPlayer enemyColor s1).flag with
        | none => none
        | some remis =>
          if remis then some { s1 with Winner := "r", TurnColor := "n" } else some s1
    else some newBstate

/-! ## Legality filter and validation -/

/-- The loop of `FilterInvalidMoves`; `ret` is the list built so far. -/
def filterLoop (bstate : BoardState) : List Move → List Move → Res (List Move)
  | [], ret => .ok ret
  | m :: rest, ret =>
    match MakeMove m bstate false with
    | none => .panic
    | some nextBState =>
      match kingAttacked m.Color nextBState with
      | .panic => .panic
      | .fail _ e => .fail ret e
      | .ok check =>
        if check then filterLoop bstate rest ret
        else filterLoop bstate rest (ret ++ [m])

/-- Go `FilterInvalidMoves`. -/
def FilterInvalidMoves (move : List Move) (bstate : BoardState) : Res (List Move) :=
  filterLoop bstate move []

/-- Go `ValidateMove`: `ok ()` is the `nil` error. -/
def ValidateMove (move : Move) (bstate : BoardState) : Res Unit :=
  match (strBytes bstate.TurnColor).head? with
  | none => .panic
  | some turn =>
    if move.Color ≠ turn then .fail () (.notTurn move.Color)
    else if !isInBounds move.From || !isInBounds move.To then
      .fail () (.text "move out of bounds")
    else if (getColorAndPiece move.From.1 move.From.2 bstate.Board).1 ≠ move.Color then
      .fail () (.text "the piece to be moved is not owned")
    else if (getColorAndPiece move.To.1 move.To.2 bstate.Board).1 = move.Color then
      .fail () (.text "the target position contains an owned piece")
    else
      let moves := GenerateMovesForPiece move.From.1 move.From.2 bstate []
      if !IsMoveInMoves move moves then .fail () (.text "move doesn't exist")
      else
        match FilterInvalidMoves moves bstate with
        | .panic => .panic
        | .fail _ e => .fail () e
        | .ok validMoves =>
          if !IsMoveInMoves move validMoves then .fail () (.text "move is not valid")
          else
            match MakeMove move bstate false with
            | none => .panic
            | some new_bstate =>
              match kingAttacked move.Color new_bstate with
              | .panic => .panic
              | .fail _ e => .fail () e
              | .ok attacked =>
                if attacked then .fail () (.text "king is under attack") else .ok ()

/-! ## Boards -/

/-- A grid written row by row, as the `[8][8]rune` literals of the tests. -/
def gridOf (rows : List (List Int)) : Grid :=
  fun i j => (rows.getD i.val []).getD j.val 0

/-- The state built by `InitializeBoard`. -/
def initialState : BoardState :=
  { Board := gridOf
      [[82, 75, 66, 81, 88, 66, 75, 82],
       [80, 80, 80, 80, 80, 80, 80, 80],
       [32, 32, 32, 32, 32, 32, 32, 32],
       [32, 32, 32, 32, 32, 32, 32, 32],
       [32, 32, 32, 32, 32, 32, 32, 32],
       [32, 32, 32, 32, 32, 32, 32, 32],
       [112, 112, 112, 112, 112, 112, 112, 112],
       [114, 107, 98, 113, 120, 98, 107, 114]]
    LastMove := ""
    WhiteKingPos := (7, 4)
    BlackKingPos := (0, 4)
    WhiteKingMoved := false
    BlackKingMoved := false
    Winner := "n"
    TurnColor := "n"
    EnPassant := (-1, -1) }

/-- Go `InitializeBoard`: append the starting state to the history. -/
def InitializeBoard (boardStates : List BoardState) : List BoardState :=
  boardStates ++ [initialState]

/-- The loops `for i := 0; i < 8; i++ { board[row][i] = v }` of
`InitializeBoard`. -/
def fillRow (board : Grid) (row : Int) (v : Int) : Grid :=
  (List.range 8).foldl (fun b (i : Nat) => setCell b row i v) board

/-- The board of `InitializeBoard`, assignment by assignment, starting from the
zero value of `[8][8]rune`. -/
def assignedBoard : Grid :=
  let b : Grid := fun _ _ => 0
  let b := setCell b 0 0 82
  let b := setCell b 0 1 75
  let b := setCell b 0 2 66
  let b := setCell b 0 3 81
  let b := setCell b 0 4 88
  let b := setCell b 0 5 66
  let b := setCell b 0 6 75
  let b := setCell b 0 7 82
  let b := fillRow b 1 80
  let b := (List.range' 2 4).foldl (fun b (i : Nat) => fillRow b i Empty) b
  let b := fillRow b 6 112
  let b := setCell b 7 0 114
  let b := setCell b 7 1 107
  let b := setCell b 7 2 98
  let b := setCell b 7 3 113
  let b := setCell b 7 4 120
  let b := setCell b 7 5 98
  let b := setCell b 7 6 107
  setCell b 7 7 114

/-! ## Notation parsing -/

/-- The closure `chessToIndex` of `StringToMoveStruct`, on the bytes of a
two-byte field; the subtractions are on `uint8` and wrap around. -/
def chessToIndex (pos : List Int) : Res (Int × Int) :=
  match pos with
  | [b0, b1] =>
    let col : Int := (b0 - 97) % 256
    let row : Int := 8 - (b1 - 48) % 256
    if col < 0 ∨ col > 7 ∨ row < 0 ∨ row > 7 then
      .fail (0, 0) (.text "position out of bounds")
    else .ok (row, col)
  | _ => .fail (0, 0) (.text "invalid position format")

/-- The zero `Move{}` returned next to an error. -/
def zeroMove : Move := { From := (0, 0), To := (0, 0), Color := 0, Capture := false }

/-- Go `StringToMoveStruct`. -/
def StringToMoveStruct (moveStr : String) (color : Int) : Res Move :=
  let bytes := strBytes moveStr
  if bytes.length ≠ 5 ∨ bytes.getD 2 0 ≠ 32 then
    .fail zeroMove (.text "invalid move string format")
  else
    match chessToIndex (bytes.take 2) with
    | .panic => .panic
    | .fail _ (.text msg) => .fail zeroMove (.text ("invalid 'From' position: " ++ msg))
    | .fail _ e => .fail zeroMove e
    | .ok src =>
      match chessToIndex ((bytes.drop 3).take 2) with
      | .panic => .panic
      | .fail _ (.text msg) => .fail zeroMove (.text ("invalid 'To' position: " ++ msg))
      | .fail _ e => .fail zeroMove e
      | .ok dst => .ok { From := src, To := dst, Color := color, Capture := false }

/-! ## Sessions (`internal/api`, `internal/data`) -/

/-- Go `data.Game` without its lock. -/
structure Game where
  Name : String
  ID : Int
  Password : String
  Started : Bool
  HasWPlayer : Bool
  WPlayerToken : String
  HasBPlayer : Bool
  BPlayerToken : String
  Winner : String
  BoardData : List BoardState

/-- Go `initializeNewGame`; the id read from the counter and the generated
password are parameters. -/
def initializeNewGame (name : String) (id : Int) (password : String) : Game :=
  { Name := name
    ID := id
    Password := password
    Started := false
    HasWPlayer := false
    WPlayerToken := ""
    HasBPlayer := false
    BPlayerToken := ""
    Winner := "n"
    BoardData := InitializeBoard [] }

/-- Go `verifyBoardAccess`: `none` when access is granted, otherwise the HTTP
status of the refusal. -/
def verifyBoardAccess (game : Game) (color : String) (token : String) : Option Nat :=
  if color = "w" then
    if !game.HasWPlayer then some 404
    else if game.WPlayerToken ≠ token then some 401
    else none
  else if color = "b" then
    if !game.HasBPlayer then some 404
    else if game.BPlayerToken ≠ token then some 401
    else none
  else some 400

/-- The assignment `game.BoardData[0].TurnColor = "w"`; `none` is the panic on
an empty history. -/
def startHistory : List BoardState → Option (List BoardState)
  | [] => none
  | S :: rest => some ({ S with TurnColor := "w" } :: rest)

/-- Go `PutSessions` on the game found in the registry: the game after the
request and the HTTP status; `none` is a panic.  `auth` is the bearer text of
the Authorization header (`none` if missing or malformed), `token` the value
`generateToken` returns. -/
def PutSessions (game : Game) (auth : Option String) (color : String) (token : String) :
    Option (Game × Nat) :=
  match auth with
  | none => some (game, 401)
  | some password =>
    if password ≠ game.Password then some (game, 401)
    else if game.HasWPlayer && game.HasBPlayer then some (game, 403)
    else if color = "w" then
      if game.HasWPlayer then some (game, 403)
      else if game.HasBPlayer then
        match startHistory game.BoardData with
        | none => none
        | some history =>
          some ({ game with HasWPlayer := true, WPlayerToken := token, Started := true,
                            BoardData := history }, 200)
      else some ({ game with HasWPlayer := true, WPlayerToken := token }, 200)
    else if color = "b" then
      if game.HasBPlayer then some (game, 403)
      else if game.HasWPlayer then
        match startHistory game.BoardData with
        | none => none
        | some history =>
          some ({ game with HasBPlayer := true, BPlayerToken := token, Started := true,
                            BoardData := history }, 200)
      else some ({ game with HasBPlayer := true, BPlayerToken := token }, 200)
    else some (game, 400)

/-- Go `ReqPutGame` (the board id has already selected the game). -/
structure ReqPutGame where
  Color : String
  Move : String
  ReqType : String

/-- The move a `move` or `randommove` request of `PutGame` settles on:
`ok move`, or `fail _ e` when the handler answers with an error status, or
`panic`.  `randomIdx` stands for the value drawn by `rand.Intn`. -/
def chooseMove (req : ReqPutGame) (latestBoardState : BoardState) (randomIdx : Nat) :
    Res Move :=
  match (strBytes req.Color).head? with
  | none => .panic
  | some color =>
    if req.ReqType = "move" then
      match StringToMoveStruct req.Move color with
      | .panic => .panic
      | .fail _ e => .fail zeroMove e
      | .ok move =>
        match ValidateMove move latestBoardState with
        | .panic => .panic
        | .fail _ e => .fail zeroMove e
        | .ok _ => .ok move
    else if req.ReqType = "randommove" then
      match FilterInvalidMoves (AllPossibleMoves color latestBoardState []) latestBoardState with
      | .panic => .panic
      | .fail _ e => .fail zeroMove e
      | .ok validMoves =>
        if NMoves validMoves = 0 then .fail zeroMove (.text "No moves found.")
        else
          match MoveAt validMoves (randomIdx % NMoves validMoves) with
          | none => .panic
          | some move => .ok move
    else .ok zeroMove

/-- Go `PutGame` on the game found in the registry: the game after the request
and the HTTP status; `none` is a panic. -/
def PutGame (game : Game) (auth : Option String) (req : ReqPutGame) (randomIdx : Nat) :
    Option (Game × Nat) :=
  match auth with
  | none => some (game, 401)
  | some token =>
    if req.ReqType ≠ "forfeit" ∧ req.ReqType ≠ "move" ∧ req.ReqType ≠ "randommove" then
      some (game, 400)
    else
      match verifyBoardAccess game req.Color token with
      | some status => some (game, status)
      | none =>
        match game.BoardData.getLast? with
        | none => none
        | some latestBoardState =>
          if req.ReqType = "forfeit" then
            let winner : String := if req.Color = "w" then "b" else "w"
            some ({ game with
                    Winner := winner
                    BoardData := game.BoardData.dropLast ++
                      [{ latestBoardState with TurnColor := "n", Winner := winner }] }, 200)
          else if !game.Started then some (game, 400)
          else if game.Winner ≠ "n" then some (game, 400)
          else if latestBoardState.TurnColor ≠ req.Color then some (game, 400)
          else
            match chooseMove req latestBoardState randomIdx with
            | .panic => none
            | .fail _ _ => some (game, if req.ReqType = "move" then 400 else 500)
            | .ok move =>
              match MakeMove move latestBoardState true with
              | none => none
              | some newBstate =>
                some ({ game with Winner := newBstate.Winner
                                  BoardData := game.BoardData ++ [newBstate] }, 200)

/-- What `PutGame` has settled on when it reaches its final `game.Mu.Lock()`:
the answer it has already written (with the game as it has left it), or the
move it goes on to apply. -/
inductive PutGameDecision where
  | answer (game : Game) (status : Nat)
  | proceed (move : Move)

/-- Go `PutGame` up to its final `game.Mu.Lock()`: the checks, the forfeit
branch (which takes the lock itself), the read of `Started`, `Winner` and the
last snapshot under `game.Mu.RLock()`, and the choice of the move, validated
against that copy of the last snapshot.  The result `none` is a panic. -/
def PutGamePrepare (game : Game) (auth : Option String) (req : ReqPutGame) (randomIdx : Nat) :
    Option PutGameDecision :=
  match auth with
  | none => some (.answer game 401)
  | some token =>
    if req.ReqType ≠ "forfeit" ∧ req.ReqType ≠ "move" ∧ req.ReqType ≠ "randommove" then
      some (.answer game 400)
    else
      match verifyBoardAccess game req.Color token with
      | some status => some (.answer game status)
      | none =>
        match game.BoardData.getLast? with
        | none => none
        | some latestBoardState =>
          if req.ReqType = "forfeit" then
            let winner : String := if req.Color = "w" then "b" else "w"
            some (.answer { game with
                    Winner := winner
                    BoardData := game.BoardData.dropLast ++
                      [{ latestBoardState with TurnColor := "n", Winner := winner }] } 200)
          else if !game.Started then some (.answer game 400)
          else if game.Winner ≠ "n" then some (.answer game 400)
          else if latestBoardState.TurnColor ≠ req.Color then some (.answer game 400)
          else
            match chooseMove req latestBoardState randomIdx with
            | .panic => none
            | .fail _ _ => some (.answer game (if req.ReqType = "move" then 400 else 500))
            | .ok move => some (.proceed move)

/-- The end of Go `PutGame`, from its final `game.Mu.Lock()` to the answer: the
move is applied to the last snapshot the game has at that moment, the result is
appended and its winner copied.  The result `none` is a panic. -/
def PutGameCommit (game : Game) (move : Move) : Option (Game × Nat) :=
  match game.BoardData.getLast? with
  | none => none
  | some last =>
    match MakeMove move last true with
    | none => none
    | some newBstate =>
      some ({ game with Winner := newBstate.Winner
                        BoardData := game.BoardData ++ [newBstate] }, 200)

/-- The registry of `internal/data`: the map `GamesMap` and the counter
`NextFreeBoardID`, without their locks. -/
structure Registry where
  GamesMap : Int → Option Game
  NextFreeBoardID : Int

/-- The registry at program start: no game, counter 1. -/
def initialRegistry : Registry := { GamesMap := fun _ => none, NextFreeBoardID := 1 }

/-- The value of an `int32` after an arithmetic operation (two's complement
wrap-around). -/
def wrapInt32 (x : Int) : Int := (x + 2147483648) % 4294967296 - 2147483648

/-- Go `PostSessions`: the registry afterwards and the board id of the response;
`name` is `none` when the body does not decode (status 400, nothing created),
`password` is the value `generateToken` returns.  The first three statements of
`initializeNewGame` read the counter into the id and increase the counter. -/
def PostSessions (reg : Registry) (name : Option String) (password : String) :
    Registry × Option Int :=
  match name with
  | none => (reg, none)
  | some name =>
    let newGame := initializeNewGame name reg.NextFreeBoardID password
    ({ GamesMap := fun id => if id = newGame.ID then some newGame else reg.GamesMap id
       NextFreeBoardID := wrapInt32 (reg.NextFreeBoardID + 1) }, some newGame.ID)

/-- Go `verifyGameAccess`: `none` when access is granted, otherwise the HTTP
status of the refusal. -/
def verifyGameAccess (reg : Registry) (id : Int) (password : String) : Option Nat :=
  match reg.GamesMap id with
  | none => some 404
  | some game => if password ≠ game.Password then some 401 else none

/-- Go `DeleteSessions`: the registry afterwards and the HTTP status; `auth` is
the bearer text of the Authorization header, `boardID` the decoded body. -/
def DeleteSessions (reg : Registry) (auth : Option String) (boardID : Option Int) :
    Registry × Nat :=
  match auth with
  | none => (reg, 401)
  | some password =>
    match boardID with
    | none => (reg, 400)
    | some id =>
      match verifyGameAccess reg id password with
      | some status => (reg, status)
      | none =>
        ({ reg with GamesMap := fun i => if i = id then none else reg.GamesMap i }, 200)

/-- Go `ReqGetGame`. -/
structure ReqGetGame where
  Moveidx : Int
  BoardID : Int
  Color : String
  Row : Int
  Col : Int
  ReqType : String

/-- Go `GetGame`: the HTTP status of the answer, `none` for a panic.  `auth` is
the bearer text of the Authorization header, `req` the decoded query (`none` if
it does not decode).  After the lookup `game, exists := GamesMap[id]` the
handler evaluates `len(game.BoardData)` before it tests `exists`; for a missing
id `game` is the nil pointer and the evaluation panics.  The polling loop of
`"turn"` is given for a game that no other request changes while this one
waits: 200 if it is the player's turn, 408 otherwise. -/
def GetGame (reg : Registry) (auth : Option String) (req : Option ReqGetGame) : Option Nat :=
  match auth with
  | none => some 401
  | some token =>
    match req with
    | none => some 400
    | some req =>
      if req.ReqType ≠ "state" ∧ req.ReqType ≠ "turn" ∧ req.ReqType ≠ "moves" then some 400
      else
        match reg.GamesMap req.BoardID with
        | none => none
        | some game =>
          let nSteps : Int := game.BoardData.length
          let access : Option Nat :=
            if req.ReqType = "turn" then verifyGameAccess reg req.BoardID token
            else verifyBoardAccess game req.Color token
          match access with
          | some status => some status
          | none =>
            if req.ReqType = "state" then
              let idx : Int := if req.Moveidx = -1 then nSteps - 1 else req.Moveidx
              if idx > nSteps - 1 then some 404
              else if idx < 0 then none
              else some 200
            else if req.ReqType = "turn" then
              match game.BoardData.getLast? with
              | none => none
              | some last => if last.TurnColor = req.Color then some 200 else some 408
            else if req.ReqType = "moves" then
              match game.BoardData.getLast? with
              | none => none
              | some bstate =>
                match FilterInvalidMoves (GenerateMovesForPiece req.Row req.Col bstate []) bstate with
                | .panic => none
                | .fail _ _ => some 500
                | .ok _ => some 200
            else some 400

/-- The `case "state"` branch of Go `GetGame`, reached by an authorised request
on the game found in the registry: the HTTP status together with the snapshot
written to the body (`none` next to an error status).  The result `none` is the
panic of the indexing `game.BoardData[idx]` with an index out of range. -/
def GetGameState (game : Game) (moveidx : Int) : Option (Nat × Option BoardState) :=
  let nSteps : Int := game.BoardData.length
  let idx : Int := if moveidx = -1 then nSteps - 1 else moveidx
  if idx > nSteps - 1 then some (404, none)
  else if idx < 0 then none
  else
    match game.BoardData[idx.toNat]? with
    | none => none
    | some resp => some (200, some resp)

/-! ## Auxiliary notions used in the statements -/

/-- What every move generated for the piece on `(row, col)` satisfies. -/
def GenOK (S : BoardState) (row col : Int) (m : Move) : Prop :=
  m.From = (row, col) ∧ isValid m.To.1 m.To.2 = true ∧
    m.Color = (getColorAndPiece row col S.Board).1 ∧
    (getColorAndPiece m.To.1 m.To.2 S.Board).1 ≠ m.Color ∧
    (m.Capture = true ↔ (getColorAndPiece m.To.1 m.To.2 S.Board).2 ≠ 32)

/-- Two states with the same grid and the same king cache. -/
def sameCore (S1 S2 : BoardState) : Prop :=
  S1.Board = S2.Board ∧ S1.WhiteKingPos = S2.WhiteKingPos ∧ S1.BlackKingPos = S2.BlackKingPos

/-- The cached king square of `color`. -/
def kingSquare (color : Int) (S : BoardState) : Int × Int :=
  if color = 119 then S.WhiteKingPos else S.BlackKingPos

/-- The enemy of `color` as `getKingdataFromColor` computes it. -/
def enemyOf (color : Int) : Int := if color = 119 then 98 else 119

/-- The test `FilterInvalidMoves` applies to a candidate: the move is applied
without terminal check and the mover's king is then found not attacked. -/
def leavesKingSafe (S : BoardState) (m : Move) : Bool :=
  match MakeMove m S false with
  | some N => decide (kingAttacked m.Color N = .ok false)
  | none => false

/-- A state with the given grid, king cache and turn, and no winner. -/
def stateOf (rows : List (List Int)) (whiteKing blackKing : Int × Int) (turn : String) :
    BoardState :=
  { Board := gridOf rows
    LastMove := ""
    WhiteKingPos := whiteKing
    BlackKingPos := blackKing
    WhiteKingMoved := true
    BlackKingMoved := true
    Winner := "n"
    TurnColor := turn
    EnPassant := (-1, -1) }

/-- The board of `TestIsCheckmate`: black king (0,1), white queen (2,0), white
bishop (2,3), white king (4,1). -/
def testCheckmateBoard : BoardState :=
  stateOf
    [[32, 88, 32, 32, 32, 32, 32, 32],
     [32, 32, 32, 32, 32, 32, 32, 32],
     [113, 32, 32, 98, 32, 32, 32, 32],
     [32, 32, 32, 32, 32, 32, 32, 32],
     [32, 120, 32, 32, 32, 32, 32, 32],
     [32, 32, 32, 32, 32, 32, 32, 32],
     [32, 32, 32, 32, 32, 32, 32, 32],
     [32, 32, 32, 32, 32, 32, 32, 32]] (4, 1) (0, 1) "b"

/-- White to move: black king (0,1), white rooks (5,7) and (1,6), white king
(7,4).  The rook move (5,7) to (0,7) mates. -/
def beforeBackRankMate : BoardState :=
  stateOf
    [[32, 88, 32, 32, 32, 32, 32, 32],
     [32, 32, 32, 32, 32, 32, 114, 32],
     [32, 32, 32, 32, 32, 32, 32, 32],
     [32, 32, 32, 32, 32, 32, 32, 32],
     [32, 32, 32, 32, 32, 32, 32, 32],
     [32, 32, 32, 32, 32, 32, 32, 114],
     [32, 32, 32, 32, 32, 32, 32, 32],
     [32, 32, 32, 32, 120, 32, 32, 32]] (7, 4) (0, 1) "w"

/-- The mating rook move (5,7) to (0,7), "h3 h8". -/
def backRankMove : Move :=
  { From := (5, 7), To := (0, 7), Color := 119, Capture := false }

/-- Black to move and mated: black king (0,1), white rooks (0,7) and (1,6),
white king (7,4).  The only square not attacked with the king on (0,1) is
(0,0), behind the king on the rook's row. -/
def backRankMate : BoardState :=
  stateOf
    [[32, 88, 32, 32, 32, 32, 32, 114],
     [32, 32, 32, 32, 32, 32, 114, 32],
     [32, 32, 32, 32, 32, 32, 32, 32],
     [32, 32, 32, 32, 32, 32, 32, 32],
     [32, 32, 32, 32, 32, 32, 32, 32],
     [32, 32, 32, 32, 32, 32, 32, 32],
     [32, 32, 32, 32, 32, 32, 32, 32],
     [32, 32, 32, 32, 120, 32, 32, 32]] (7, 4) (0, 1) "b"

/-- The first board of `TestRemisPlayer`: black king (0,1), white queen (2,0),
white king (2,4), white rook (5,2). -/
def testRemisBoard : BoardState :=
  stateOf
    [[32, 88, 32, 32, 32, 32, 32, 32],
     [32, 32, 32, 32, 32, 32, 32, 32],
     [113, 32, 32, 32, 120, 32, 32, 32],
     [32, 32, 32, 32, 32, 32, 32, 32],
     [32, 32, 32, 32, 32, 32, 32, 32],
     [32, 32, 114, 32, 32, 32, 32, 32],
     [32, 32, 32, 32, 32, 32, 32, 32],
     [32, 32, 32, 32, 32, 32, 32, 32]] (2, 4) (0, 1) "b"

/-- The second board of `TestRemisPlayer`: the first one with a black rook on
(6,5). -/
def testRemisBoardRook : BoardState :=
  stateOf
    [[32, 88, 32, 32, 32, 32, 32, 32],
     [32, 32, 32, 32, 32, 32, 32, 32],
     [113, 32, 32, 32, 120, 32, 32, 32],
     [32, 32, 32, 32, 32, 32, 32, 32],
     [32, 32, 32, 32, 32, 32, 32, 32],
     [32, 32, 114, 32, 32, 32, 32, 32],
     [32, 32, 32, 32, 32, 82, 32, 32],
     [32, 32, 32, 32, 32, 32, 32, 32]] (2, 4) (0, 1) "b"

/-- Black to move and stalemated: black king (0,0), black knight (0,1) pinned
by the white rook (0,7), white rook (1,6) guarding row 1, white king (7,4). -/
def pinnedKnightStalemate : BoardState :=
  stateOf
    [[88, 75, 32, 32, 32, 32, 32, 114],
     [32, 32, 32, 32, 32, 32, 114, 32],
     [32, 32, 32, 32, 32, 32, 32, 32],
     [32, 32, 32, 32, 32, 32, 32, 32],
     [32, 32, 32, 32, 32, 32, 32, 32],
     [32, 32, 32, 32, 32, 32, 32, 32],
     [32, 32, 32, 32, 32, 32, 32, 32],
     [32, 32, 32, 32, 120, 32, 32, 32]] (7, 4) (0, 0) "b"

/-- The cell that is the king of `color`: `'x'` for white, `'X'` for black. -/
def kingCell (color : Int) : Int := if color = 119 then 120 else 88

/-- The colour of a cell value, as `getColorAndPiece` computes it. -/
def colorOf (v : Int) : Int :=
  if v = 32 then 110 else if 97 ≤ v ∧ v ≤ 122 then 119 else 98

/-- The board holds the king of `color` on the cached square and nowhere else. -/
def KingOK (color : Int) (S : BoardState) : Prop :=
  isInBounds (kingSquare color S) = true ∧
    ∀ r c : Int, isValid r c = true →
      (cell S.Board r c = kingCell color ↔ (r, c) = kingSquare color S)

/-- No pseudo-legal move of `attacker` lands on `sq`. -/
def safeFrom (attacker : Int) (S : BoardState) (sq : Int × Int) : Prop :=
  ∀ x ∈ AllPossibleMoves attacker S [], x.To ≠ sq

/-- The text of a colour in `TurnColor`. -/
def colorName (color : Int) : String := if color = 119 then "w" else "b"

/-- The invariant carried along a game: both kings are where the cache says,
and the side to move cannot capture the other side's king. -/
def GameInv (S : BoardState) : Prop :=
  KingOK 119 S ∧ KingOK 98 S ∧
    (S.TurnColor = "n" ∨
      ∃ c : Int, (c = 119 ∨ c = 98) ∧ S.TurnColor = colorName c ∧
        safeFrom c S (kingSquare (enemyOf c) S))

/-- The states of a game: the starting position with white to move, closed
under applying (with terminal check) a move that `ValidateMove` accepts. -/
inductive Reachable : BoardState → Prop where
  | init : Reachable { initialState with TurnColor := "w" }
  | step {S N : BoardState} {m : Move} :
      Reachable S → ValidateMove m S = .ok () → MakeMove m S true = some N → Reachable N

/-- The last snapshot after a forfeit: the turn is `"n"` and the winner is set. -/
def forfeited (S : BoardState) (w : String) : BoardState :=
  { S with TurnColor := "n", Winner := w }

/-- The history of `g2` is at least as long as that of `g` and has the same grid
at every index of `g`. -/
def Extends (g g2 : Game) : Prop :=
  g.BoardData.length ≤ g2.BoardData.length ∧
    ∀ (i : Nat) (S : BoardState), g.BoardData[i]? = some S →
      ∃ S2, g2.BoardData[i]? = some S2 ∧ S2.Board = S.Board

/-- One accepted move: `T` is what `MakeMove` with terminal check returns for a
move `ValidateMove` accepts on `S`. -/
def LegalStep (S T : BoardState) : Prop :=
  ∃ m : Move, ValidateMove m S = .ok () ∧ MakeMove m S true = some T

/-- The games a session can be in: `initializeNewGame`, closed under
`PutSessions` and `PutGame` requests executed one at a time. -/
inductive GameReachable : Game → Prop where
  | init (name : String) (id : Int) (password : String) :
      GameReachable (initializeNewGame name id password)
  | putSessions {g g2 : Game} {status : Nat} (auth : Option String) (color token : String) :
      GameReachable g → PutSessions g auth color token = some (g2, status) → GameReachable g2
  | putGame {g g2 : Game} {status : Nat} (auth : Option String) (req : ReqPutGame)
      (randomIdx : Nat) :
      GameReachable g → PutGame g auth req randomIdx = some (g2, status) → GameReachable g2

/-- The invariant of a session: cached king squares in bounds in every
snapshot, a history longer than one entry only in a started game, and a
history that is a chain of accepted moves, up to the turn and winner a forfeit
has written into the last snapshot. -/
def HistInv (g : Game) : Prop :=
  (∀ S ∈ g.BoardData, isInBounds S.WhiteKingPos = true ∧ isInBounds S.BlackKingPos = true) ∧
  (g.Started = true → g.HasWPlayer = true ∧ g.HasBPlayer = true) ∧
  (1 < g.BoardData.length → g.Started = true) ∧
  ∃ orig : List BoardState, orig ≠ [] ∧ List.Chain' LegalStep orig ∧
    (g.BoardData = orig ∨
      (g.Winner ≠ "n" ∧ ∃ last w, orig.getLast? = some last ∧
        g.BoardData = orig.dropLast ++ [forfeited last w]))

/-- The starting position with white to move (what `PutSessions` leaves in
`BoardData[0]` when the second seat is taken). -/
def startState : BoardState := { initialState with TurnColor := "w" }

/-- The pawn advance (6,4) to (4,4), "e2 e4". -/
def openingMove : Move := { From := (6, 4), To := (4, 4), Color := 119, Capture := false }

/-- The position after "e2 e4". -/
def afterOpening : BoardState := applyMove openingMove startState

/-- A new session. -/
def demoGame0 : Game := initializeNewGame "game" 1 "secret"

/-- The session after white has joined. -/
def demoGame1 : Game := { demoGame0 with HasWPlayer := true, WPlayerToken := "tw" }

/-- The session after black has joined: the game is started. -/
def demoGame2 : Game :=
  { demoGame1 with HasBPlayer := true, BPlayerToken := "tb", Started := true,
                   BoardData := [startState] }

/-- The request `{"color": "w", "move": "e2 e4", "reqtype": "move"}`. -/
def demoRequest : ReqPutGame := { Color := "w", Move := "e2 e4", ReqType := "move" }

/-- The session after white has played "e2 e4". -/
def demoGame3 : Game :=
  { demoGame2 with Winner := afterOpening.Winner, BoardData := [startState, afterOpening] }

/-- The move from `(r, c)` to `dest` by colour `k`. -/
def moveTo (r c : Int) (k : Int) (dest : Int × Int) (capture : Bool) : Move :=
  { From := (r, c), To := dest, Color := k, Capture := capture }

/-- The pawn rule in the words of the specification: the step to `(r+d, c)` if
in bounds and empty; the double step to `(r+2d, c)` from the start row if both
squares are empty; the captures on `(r+d, c-1)` and `(r+d, c+1)`, each if in
bounds and holding a piece of the other colour. -/
def pawnRule (S : BoardState) (r c k d start : Int) : List Move :=
  (if isValid (r + d) c = true ∧ cell S.Board (r + d) c = 32 then
      [moveTo r c k (r + d, c) false] else []) ++
  (if r = start ∧ cell S.Board (r + d) c = 32 ∧ cell S.Board (r + 2 * d) c = 32 then
      [moveTo r c k (r + 2 * d, c) false] else []) ++
  (if isValid (r + d) (c - 1) = true ∧
        (getColorAndPiece (r + d) (c - 1) S.Board).1 = enemyOf k then
      [moveTo r c k (r + d, c - 1) true] else []) ++
  (if isValid (r + d) (c + 1) = true ∧
        (getColorAndPiece (r + d) (c + 1) S.Board).1 = enemyOf k then
      [moveTo r c k (r + d, c + 1) true] else [])

/-- The rule of the jumping pieces in the words of the specification: in the
order of the offset table, one move for each offset whose target is in bounds
and does not hold a piece of colour `k`, a capture exactly when the target
holds a piece of the other colour. -/
def jumpRule (S : BoardState) (r c k : Int) (offsets : List (Int × Int)) : List Move :=
  offsets.flatMap (fun o =>
    if isValid (r + o.1) (c + o.2) = true ∧
        (getColorAndPiece (r + o.1) (c + o.2) S.Board).1 ≠ k then
      [moveTo r c k (r + o.1, c + o.2)
        (decide ((getColorAndPiece (r + o.1) (c + o.2) S.Board).1 = enemyOf k))]
    else [])

/-- The board of `TestGenerateMovesForEmptySquare`: no piece at all. -/
def emptyBoard : BoardState :=
  stateOf
    [[32, 32, 32, 32, 32, 32, 32, 32],
     [32, 32, 32, 32, 32, 32, 32, 32],
     [32, 32, 32, 32, 32, 32, 32, 32],
     [32, 32, 32, 32, 32, 32, 32, 32],
     [32, 32, 32, 32, 32, 32, 32, 32],
     [32, 32, 32, 32, 32, 32, 32, 32],
     [32, 32, 32, 32, 32, 32, 32, 32],
     [32, 32, 32, 32, 32, 32, 32, 32]] (0, 0) (0, 0) ""

/-- The first board of `TestGenerateMovesForPiece`: a white king in the corner
(0,0). -/
def testCornerKing : BoardState :=
  stateOf
    [[120, 32, 32, 32, 32, 32, 32, 32],
     [32, 32, 32, 32, 32, 32, 32, 32],
     [32, 32, 32, 32, 32, 32, 32, 32],
     [32, 32, 32, 32, 32, 32, 32, 32],
     [32, 32, 32, 32, 32, 32, 32, 32],
     [32, 32, 32, 32, 32, 32, 32, 32],
     [32, 32, 32, 32, 32, 32, 32, 32],
     [32, 32, 32, 32, 32, 32, 32, 32]] (0, 0) (0, 0) ""

/-- The second board of `TestGenerateMovesForPiece`: a white knight on (5,5), a
black pawn on (3,4). -/
def testKnightBoard : BoardState :=
  stateOf
    [[82, 75, 66, 81, 88, 66, 75, 82],
     [80, 80, 80, 80, 32, 80, 80, 80],
     [32, 32, 32, 32, 32, 32, 32, 32],
     [32, 32, 32, 32, 80, 32, 32, 32],
     [32, 32, 32, 32, 32, 32, 32, 32],
     [32, 32, 32, 32, 32, 107, 32, 32],
     [112, 112, 112, 112, 112, 112, 112, 112],
     [114, 107, 98, 113, 120, 98, 32, 114]] (0, 0) (0, 0) ""

/-- The cells of one row of a board, from column 0 to column 7. -/
def rowOf (board : Grid) (row : Int) : List Int :=
  (List.range 8).map (fun (col : Nat) => cell board row col)

/-- The first board of `TestFieldAttacked`: a white bishop on (0,0). -/
def testAttackBoard1 : BoardState :=
  stateOf
    [[98, 32, 32, 32, 32, 32, 32, 32],
     [32, 32, 32, 32, 32, 32, 32, 32],
     [32, 32, 32, 32, 32, 32, 32, 32],
     [32, 32, 32, 32, 32, 32, 32, 32],
     [32, 32, 32, 32, 32, 32, 32, 32],
     [32, 32, 32, 32, 32, 32, 32, 32],
     [32, 32, 32, 32, 32, 32, 32, 32],
     [32, 32, 88, 32, 120, 32, 32, 32]] (7, 4) (7, 2) ""

/-- The second board of `TestFieldAttacked`: a black bishop on (2,1). -/
def testAttackBoard2 : BoardState :=
  stateOf
    [[32, 114, 32, 32, 32, 32, 32, 32],
     [32, 32, 32, 32, 32, 32, 32, 32],
     [32, 66, 32, 32, 32, 32, 32, 32],
     [32, 32, 32, 32, 32, 32, 32, 32],
     [32, 88, 32, 32, 32, 32, 32, 32],
     [32, 32, 32, 32, 32, 32, 32, 32],
     [32, 32, 32, 32, 32, 32, 32, 32],
     [32, 32, 120, 32, 32, 32, 32, 32]] (7, 2) (4, 1) ""

/-- The four orthogonal directions, in the order of `getDeltas "straight"`. -/
def straightDeltas : List (Int × Int) := [(-1, 0), (1, 0), (0, -1), (0, 1)]

/-- The four diagonal directions, in the order of `getDeltas "diagonal"`. -/
def diagonalDeltas : List (Int × Int) := [(-1, -1), (-1, 1), (1, -1), (1, 1)]

/-- Every square strictly between `(r, c)` and the `n`-th square of the ray in
direction `d` is empty. -/
def pathClear (S : BoardState) (r c : Int) (d : Int × Int) (n : Nat) : Bool :=
  (List.range' 1 (n - 1)).all
    (fun j => decide (cell S.Board (r + (j : Int) * d.1) (c + (j : Int) * d.2) = 32))

/-- The move to the `n`-th square of the ray from `(r, c)` in direction `d`, in
the words of the specification: present when that square is in bounds, every
square strictly between is empty, and the square does not hold a piece of colour
`k`; a capture exactly when the square is occupied. -/
def rayStep (S : BoardState) (r c k : Int) (d : Int × Int) (n : Nat) : List Move :=
  if isValid (r + (n : Int) * d.1) (c + (n : Int) * d.2) = true ∧ pathClear S r c d n = true ∧
      (getColorAndPiece (r + (n : Int) * d.1) (c + (n : Int) * d.2) S.Board).1 ≠ k then
    [moveTo r c k (r + (n : Int) * d.1, c + (n : Int) * d.2)
      (decide (cell S.Board (r + (n : Int) * d.1) (c + (n : Int) * d.2) ≠ 32))]
  else []

/-- The moves along one ray, nearest square first. -/
def rayRule (S : BoardState) (r c k : Int) (d : Int × Int) : List Move :=
  (List.range' 1 7).flatMap (rayStep S r c k d)

/-- The rule of the sliding pieces: the rays in the order of `deltas`. -/
def slideRule (S : BoardState) (r c k : Int) (deltas : List (Int × Int)) : List Move :=
  deltas.flatMap (rayRule S r c k)

/-- The specification of a list `L` of sliding moves from `(r, c)` for colour
`k`: `L` holds a move to `T` exactly when `T` is in bounds on a ray of `deltas`
with every square strictly between empty and `T` not holding a piece of colour
`k`; the move is a capture exactly when `T` is occupied; no target occurs
twice. -/
def SlideSpec (S : BoardState) (r c k : Int) (deltas : List (Int × Int)) (L : List Move) :
    Prop :=
  (∀ m : Move, m ∈ L ↔
    (m.From = (r, c) ∧ m.Color = k ∧ isValid m.To.1 m.To.2 = true ∧
      (∃ d ∈ deltas, ∃ n : Nat, 1 ≤ n ∧ m.To = (r + (n : Int) * d.1, c + (n : Int) * d.2) ∧
        ∀ j : Nat, 1 ≤ j → j < n →
          cell S.Board (r + (j : Int) * d.1) (c + (j : Int) * d.2) = 32) ∧
      (getColorAndPiece m.To.1 m.To.2 S.Board).1 ≠ k ∧
      (m.Capture = true ↔ cell S.Board m.To.1 m.To.2 ≠ 32))) ∧
  (L.map (fun m => m.To)).Nodup

/-- The board of `TestGenerateMoves`: a white rook on (3,2), a black knight on
(6,2), a black rook on (4,5), a white king on (1,1). -/
def testGenerateBoard : BoardState :=
  stateOf
    [[32, 32, 32, 32, 32, 32, 32, 32],
     [32, 120, 32, 32, 32, 32, 32, 32],
     [32, 32, 32, 32, 32, 32, 32, 32],
     [32, 32, 114, 32, 32, 32, 32, 32],
     [32, 32, 32, 32, 32, 82, 32, 32],
     [32, 32, 32, 32, 32, 32, 32, 32],
     [32, 32, 75, 32, 32, 32, 32, 32],
     [32, 32, 32, 32, 32, 32, 32, 32]] (0, 0) (0, 0) ""

/-- The pawn advance (6,3) to (4,3), "d2 d4". -/
def queenPawnMove : Move := { From := (6, 3), To := (4, 3), Color := 119, Capture := false }

/-- Two squares on a common row, column or diagonal. -/
def onCommonLine (r c kr kc : Int) : Prop :=
  r = kr ∨ c = kc ∨ (r - kr).natAbs = (c - kc).natAbs

instance (r c kr kc : Int) : Decidable (onCommonLine r c kr kc) := by
  unfold onCommonLine
  infer_instance

/-- A piece letter that slides along direction `d`: rook or queen on a row or
column, bishop or queen on a diagonal. -/
def slidesAlong (d : Int × Int) (piece : Int) : Bool :=
  if d.1 = 0 ∨ d.2 = 0 then decide (piece = 114 ∨ piece = 113)
  else decide (piece = 98 ∨ piece = 113)

/-- The pin of the specification for the piece of colour `k` on `(r, c)`: the
square shares a line with the cached king square of `k`, every square strictly
between the king and the piece is empty, and the first occupied square beyond
the piece, on the ray from the king through the piece, holds a piece of the
other colour that slides along that line. -/
def pinSpec (S : BoardState) (r c k : Int) : Bool :=
  let king := kingSquare k S
  let d : Int × Int := (Int.sign (r - king.1), Int.sign (c - king.2))
  let dist : Nat := max (r - king.1).natAbs (c - king.2).natAbs
  decide (onCommonLine r c king.1 king.2) &&
  pathClear S king.1 king.2 d dist &&
  (List.range' 1 7).any (fun n =>
    isValid (r + (n : Int) * d.1) (c + (n : Int) * d.2) &&
    decide (cell S.Board (r + (n : Int) * d.1) (c + (n : Int) * d.2) ≠ 32) &&
    pathClear S r c d n &&
    decide ((getColorAndPiece (r + (n : Int) * d.1) (c + (n : Int) * d.2) S.Board).1 =
      enemyOf k) &&
    slidesAlong d (getColorAndPiece (r + (n : Int) * d.1) (c + (n : Int) * d.2) S.Board).2)

/-- The first board of `TestIsPinned`: black rook (2,2) between the black king
(3,3) and the white bishop (0,0). -/
def testPinBoard1 : BoardState :=
  stateOf
    [[98, 32, 32, 32, 32, 32, 32, 32],
     [32, 32, 32, 32, 32, 32, 32, 32],
     [32, 32, 82, 32, 32, 32, 32, 32],
     [32, 32, 32, 88, 32, 32, 32, 32],
     [32, 32, 32, 32, 32, 32, 32, 32],
     [32, 32, 32, 32, 32, 32, 32, 32],
     [32, 32, 32, 32, 32, 32, 32, 32],
     [32, 32, 120, 32, 32, 32, 32, 32]] (7, 2) (3, 3) ""

/-- The second board of `TestIsPinned`: black rook (2,2) above the black king
(3,2), nothing beyond it on the column. -/
def testPinBoard2 : BoardState :=
  stateOf
    [[98, 32, 32, 32, 32, 32, 32, 32],
     [32, 32, 32, 32, 32, 32, 32, 32],
     [32, 32, 82, 32, 32, 32, 32, 32],
     [32, 32, 88, 32, 32, 32, 32, 32],
     [32, 32, 32, 32, 32, 32, 32, 32],
     [32, 32, 32, 32, 32, 32, 32, 32],
     [32, 32, 32, 32, 32, 32, 32, 32],
     [32, 32, 120, 32, 32, 32, 32, 32]] (7, 2) (3, 2) ""

/-- White king (5,4), white rook (2,2), black bishop (0,0), black king (0,7):
the rook is on no line with its king. -/
def unalignedPinBoard : BoardState :=
  stateOf
    [[66, 32, 32, 32, 32, 32, 32, 88],
     [32, 32, 32, 32, 32, 32, 32, 32],
     [32, 32, 114, 32, 32, 32, 32, 32],
     [32, 32, 32, 32, 32, 32, 32, 32],
     [32, 32, 32, 32, 32, 32, 32, 32],
     [32, 32, 32, 32, 120, 32, 32, 32],
     [32, 32, 32, 32, 32, 32, 32, 32],
     [32, 32, 32, 32, 32, 32, 32, 32]] (5, 4) (0, 7) "w"

/-- White king (4,4), white pawn (3,3), white rook (2,2), black bishop (0,0),
black king (0,7): the pawn stands between the king and the rook. -/
def shieldedPinBoard : BoardState :=
  stateOf
    [[66, 32, 32, 32, 32, 32, 32, 88],
     [32, 32, 32, 32, 32, 32, 32, 32],
     [32, 32, 114, 32, 32, 32, 32, 32],
     [32, 32, 32, 112, 32, 32, 32, 32],
     [32, 32, 32, 32, 120, 32, 32, 32],
     [32, 32, 32, 32, 32, 32, 32, 32],
     [32, 32, 32, 32, 32, 32, 32, 32],
     [32, 32, 32, 32, 32, 32, 32, 32]] (4, 4) (0, 7) "w"

/-- White king (4,4), white rook (3,3), black knight (2,2), black bishop (1,1),
black king (0,7): the first piece beyond the rook is the knight. -/
def screenedPinBoard : BoardState :=
  stateOf
    [[32, 32, 32, 32, 32, 32, 32, 88],
     [32, 66, 32, 32, 32, 32, 32, 32],
     [32, 32, 75, 32, 32, 32, 32, 32],
     [32, 32, 32, 114, 32, 32, 32, 32],
     [32, 32, 32, 32, 120, 32, 32, 32],
     [32, 32, 32, 32, 32, 32, 32, 32],
     [32, 32, 32, 32, 32, 32, 32, 32],
     [32, 32, 32, 32, 32, 32, 32, 32]] (4, 4) (0, 7) "w"

/-- The invariant of the start of a game: `Started` holds exactly when both
seats are taken, and a game that has not started has a single snapshot whose
turn is `"n"`. -/
def StartInv (g : Game) : Prop :=
  (g.Started = true ↔ (g.HasWPlayer = true ∧ g.HasBPlayer = true)) ∧
  (g.Started = false → ∃ S0 : BoardState, g.BoardData = [S0] ∧ S0.TurnColor = "n")

/-- The winner of the game is the winner recorded in its last snapshot. -/
def MirrorInv (g : Game) : Prop :=
  ∃ last : BoardState, g.BoardData.getLast? = some last ∧ g.Winner = last.Winner

/-- A request to the registry: a session creation or a session deletion. -/
inductive RegistryRequest where
  | post (name : Option String) (password : String)
  | delete (auth : Option String) (boardID : Option Int)

/-- Requests served one after the other: the registry afterwards and the ids
handed out, in creation order. -/
def serveAll : Registry → List RegistryRequest → Registry × List Int
  | reg, [] => (reg, [])
  | reg, .post name password :: rest =>
    let r := PostSessions reg name password
    let out := serveAll r.1 rest
    match r.2 with
    | some id => (out.1, id :: out.2)
    | none => out
  | reg, .delete auth boardID :: rest => serveAll (DeleteSessions reg auth boardID).1 rest

/-- The ids `c, c+1, ...`, `n` of them. -/
def idsFrom (c : Int) : Nat → List Int
  | 0 => []
  | n + 1 => c :: idsFrom (c + 1) n

/-- Two creations, the deletion of the first game, and a third creation. -/
def demoRequests : List RegistryRequest :=
  [.post (some "a") "pa", .post (some "b") "pb", .delete (some "pa") (some 1),
   .post (some "c") "pc"]

/-- A registry holding only the game with id 1. -/
def demoRegistry : Registry := (PostSessions initialRegistry (some "a") "pa").1

/-- A `"state"` request for the board id 7. -/
def demoGetRequest : ReqGetGame :=
  { Moveidx := -1, BoardID := 7, Color := "w", Row := 0, Col := 0, ReqType := "state" }

/-- The sign of an integer. -/
def sgn (x : Int) : Int := if x < 0 then -1 else if x = 0 then 0 else 1

/-- The square a move lands on, together with the way back to its origin: the
difference itself for a knight's jump, the unit step towards the origin
otherwise. -/
def moveKey (m : Move) : (Int × Int) × (Int × Int) :=
  let v : Int × Int := (m.From.1 - m.To.1, m.From.2 - m.To.2)
  (m.To, if v ∈ knightOffsets then v else (sgn v.1, sgn v.2))

/-- Every pair of a square of the board and one of the sixteen steps (eight
directions, eight knight's jumps) that leads from it to a square of the board. -/
def allKeys : List ((Int × Int) × (Int × Int)) :=
  (List.range 8).flatMap (fun (r : Nat) =>
    (List.range 8).flatMap (fun (c : Nat) =>
      ((kingOffsets ++ knightOffsets).filter
        (fun v => isValid ((r : Int) + v.1) ((c : Int) + v.2))).map
        (fun v => (((r : Int), (c : Int)), v))))

/-- What determines the origin of a generated move from its key: the origin is
an occupied square of the board, and it is either a knight's jump away from the
destination or the first occupied square seen from the destination in one of
the eight directions. -/
def Sourced (S : BoardState) (m : Move) : Prop :=
  isValid m.From.1 m.From.2 = true ∧ isValid m.To.1 m.To.2 = true ∧
  cell S.Board m.From.1 m.From.2 ≠ 32 ∧
  ((m.From.1 - m.To.1, m.From.2 - m.To.2) ∈ knightOffsets ∨
    ∃ u ∈ kingOffsets, ∃ n : Nat, 1 ≤ n ∧
      m.From = (m.To.1 + (n : Int) * u.1, m.To.2 + (n : Int) * u.2) ∧
      ∀ j : Nat, 1 ≤ j → j < n →
        cell S.Board (m.To.1 + (j : Int) * u.1) (m.To.2 + (j : Int) * u.2) = 32)

/-- The moves of a list start on `(r, c)`, have their origin determined by
their key, and no two of them land on the same square. -/
def GoodList (S : BoardState) (r c : Int) (L : List Move) : Prop :=
  (∀ m ∈ L, m.From = (r, c) ∧ Sourced S m) ∧ (L.map (fun m => m.To)).Nodup

/-- The request `{"color": color, "reqtype": "forfeit"}`. -/
def forfeitRequest (color : String) : ReqPutGame :=
  { Color := color, Move := "", ReqType := "forfeit" }

/-- The started session after white has forfeited. -/
def demoResigned : Game :=
  { demoGame2 with Winner := "b", BoardData := [forfeited startState "b"] }

/-- The session of `demoResigned` after black has forfeited as well. -/
def demoResignedTwice : Game :=
  { demoGame2 with Winner := "w", BoardData := [forfeited startState "w"] }

/-- The session in which white has joined and forfeited before black joined. -/
def demoEarlyForfeit : Game :=
  { demoGame1 with Winner := "b", BoardData := [forfeited initialState "b"] }

/-- The session of `demoEarlyForfeit` after black has joined. -/
def demoLateStart : Game :=
  { demoEarlyForfeit with HasBPlayer := true, BPlayerToken := "tb", Started := true,
                          BoardData := [{ forfeited initialState "b" with TurnColor := "w" }] }

/-- A registry that holds the game `g` under the board id 1. -/
def registryOf (g : Game) : Registry :=
  { GamesMap := fun id => if id = 1 then some g else none, NextFreeBoardID := 2 }

/-- The `"state"` request of white for the index `idx` of board 1. -/
def stateRequest (idx : Int) : ReqGetGame :=
  { Moveidx := idx, BoardID := 1, Color := "w", Row := 0, Col := 0, ReqType := "state" }

/-- The `"turn"` request of `color` for board 1. -/
def turnRequest (color : String) : ReqGetGame :=
  { Moveidx := 0, BoardID := 1, Color := color, Row := 0, Col := 0, ReqType := "turn" }

/-- The advance (1,4) to (3,4) of a black pawn, "e7 e5". -/
def replyMove : Move := { From := (1, 4), To := (3, 4), Color := 98, Capture := false }

/-- The position after "e2 e4" has been applied a second time: the origin (6,4)
is empty by then, so the empty cell is written over the pawn on (4,4). -/
def lostPawn : BoardState := applyMove openingMove afterOpening

/-- The session after two `"e2 e4"` requests of white have both been applied. -/
def demoGame4 : Game :=
  { demoGame3 with Winner := lostPawn.Winner,
                   BoardData := [startState, afterOpening, lostPawn] }

/-- The board `S2` is the board `S1` with the square `K` emptied. -/
def Vacated (K : Int × Int) (S1 S2 : BoardState) : Prop :=
  (∀ r c : Int, isValid r c = true → (r, c) ≠ K → cell S2.Board r c = cell S1.Board r c) ∧
    cell S2.Board K.1 K.2 = 32

/-- The direction of the pawns of colour `k`, as `pawnMoves` computes it. -/
def pawnDirection (k : Int) : Int := if k = 98 then 1 else -1

/-- The start row of the pawns of colour `k`, as `pawnMoves` computes it. -/
def pawnStartRow (k : Int) : Int := if k = 98 then 1 else 6

/-- The rule of the piece `p` (lower-cased letter) of colour `k` on `(r, c)`, in
the order of the cases of `GenerateMovesForPiece`. -/
def pieceRule (S : BoardState) (r c k p : Int) : List Move :=
  if p = 112 ∨ p = 80 then pawnRule S r c k (pawnDirection k) (pawnStartRow k)
  else if p = 107 ∨ p = 75 then jumpRule S r c k knightOffsets
  else if p = 98 ∨ p = 66 then slideRule S r c k diagonalDeltas
  else if p = 114 ∨ p = 82 then slideRule S r c k straightDeltas
  else if p = 113 ∨ p = 81 then
    slideRule S r c k diagonalDeltas ++ slideRule S r c k straightDeltas
  else if p = 120 ∨ p = 88 then jumpRule S r c k kingOffsets
  else []

/-- Two white kings: the cached one on (7,7), mated by the black rooks on (7,0)
and (6,0), and a second one on (0,4); black king (4,2). -/
def twoKingsMate : BoardState :=
  stateOf
    [[32, 32, 32, 32, 120, 32, 32, 32],
     [32, 32, 32, 32, 32, 32, 32, 32],
     [32, 32, 32, 32, 32, 32, 32, 32],
     [32, 32, 32, 32, 32, 32, 32, 32],
     [32, 32, 88, 32, 32, 32, 32, 32],
     [32, 32, 32, 32, 32, 32, 32, 32],
     [82, 32, 32, 32, 32, 32, 32, 32],
     [82, 32, 32, 32, 32, 32, 32, 120]] (7, 7) (4, 2) "w"

/-- Two white kings: the cached one on (7,7), not attacked and hemmed in by the
black rooks on (6,0) and (0,6), and a second one on (3,3); black king (0,0). -/
def twoKingsStalemate : BoardState :=
  stateOf
    [[88, 32, 32, 32, 32, 32, 82, 32],
     [32, 32, 32, 32, 32, 32, 32, 32],
     [32, 32, 32, 32, 32, 32, 32, 32],
     [32, 32, 32, 120, 32, 32, 32, 32],
     [32, 32, 32, 32, 32, 32, 32, 32],
     [32, 32, 32, 32, 32, 32, 32, 32],
     [82, 32, 32, 32, 32, 32, 32, 32],
     [32, 32, 32, 32, 32, 32, 32, 120]] (7, 7) (0, 0) "w"

/-- The board of `TestIsCheckmate` one move earlier, white to move: the white
queen still on (7,0). -/
def beforeQueenMate : BoardState :=
  stateOf
    [[32, 88, 32, 32, 32, 32, 32, 32],
     [32, 32, 32, 32, 32, 32, 32, 32],
     [32, 32, 32, 98, 32, 32, 32, 32],
     [32, 32, 32, 32, 32, 32, 32, 32],
     [32, 120, 32, 32, 32, 32, 32, 32],
     [32, 32, 32, 32, 32, 32, 32, 32],
     [32, 32, 32, 32, 32, 32, 32, 32],
     [113, 32, 32, 32, 32, 32, 32, 32]] (4, 1) (0, 1) "w"

/-- The first board of `TestRemisPlayer` one move earlier, white to move: the
white rook still on (5,7). -/
def beforeRookStalemate : BoardState :=
  stateOf
    [[32, 88, 32, 32, 32, 32, 32, 32],
     [32, 32, 32, 32, 32, 32, 32, 32],
     [113, 32, 32, 32, 120, 32, 32, 32],
     [32, 32, 32, 32, 32, 32, 32, 32],
     [32, 32, 32, 32, 32, 32, 32, 32],
     [32, 32, 32, 32, 32, 32, 32, 114],
     [32, 32, 32, 32, 32, 32, 32, 32],
     [32, 32, 32, 32, 32, 32, 32, 32]] (2, 4) (0, 1) "w"

/-- The position after "e2 e4", "e7 e5". -/
def afterReply : BoardState := applyMove replyMove afterOpening

/-- The step (7,4) to (6,4) of the white king, "e1 e2". -/
def whiteKingStep : Move := { From := (7, 4), To := (6, 4), Color := 119, Capture := false }

/-- The position after "e2 e4", "e7 e5", "e1 e2". -/
def afterWhiteKingStep : BoardState := applyMove whiteKingStep afterReply

/-- The step (0,4) to (1,4) of the black king, "e8 e7". -/
def blackKingStep : Move := { From := (0, 4), To := (1, 4), Color := 98, Capture := false }

/-! ## Basic facts about squares and cells -/

theorem isValid_iff (row col : Int) :
    isValid row col = true ↔ 0 ≤ row ∧ row < 8 ∧ 0 ≤ col ∧ col < 8 := by
  simp [isValid, and_assoc]

theorem isInBounds_iff (pos : Int × Int) :
    isInBounds pos = true ↔ 0 ≤ pos.1 ∧ pos.1 < 8 ∧ 0 ≤ pos.2 ∧ pos.2 < 8 := by
  simp [isInBounds, and_assoc]

theorem isInBounds_eq_isValid (pos : Int × Int) : isInBounds pos = isValid pos.1 pos.2 := rfl

theorem ofNat_coe (i : Fin 8) : (Fin.ofNat (i : Nat) : Fin 8) = i := by
  apply Fin.ext
  simp [Fin.ofNat]

theorem cell_coe (board : Grid) (i j : Fin 8) :
    cell board ((i : Nat) : Int) ((j : Nat) : Int) = board i j := by
  simp [cell, ofNat_coe]

theorem exists_fin_of_valid {row col : Int} (h : isValid row col = true) :
    ∃ i j : Fin 8, ((i : Nat) : Int) = row ∧ ((j : Nat) : Int) = col := by
  rw [isValid_iff] at h
  refine ⟨⟨row.toNat, by omega⟩, ⟨col.toNat, by omega⟩, ?_, ?_⟩ <;> simp <;> omega

theorem cell_setCell (board : Grid) (row col v : Int) {r c : Int}
    (h : isValid r c = true) :
    cell (setCell board row col v) r c = if r = row ∧ c = col then v else cell board r c := by
  obtain ⟨i, j, rfl, rfl⟩ := exists_fin_of_valid h
  simp only [cell_coe]
  rfl

theorem lowerFirstByte_eq_space (p : Int) : lowerFirstByte p = 32 ↔ p = 32 := by
  unfold lowerFirstByte
  split_ifs <;> omega

theorem lowerFirstByte_eq_x (p : Int) : lowerFirstByte p = 120 ↔ p = 120 ∨ p = 88 := by
  unfold lowerFirstByte
  split_ifs <;> omega

theorem getColorAndPiece_valid {row col : Int} (board : Grid) (h : isValid row col = true) :
    getColorAndPiece row col board =
      if cell board row col = 32 then (110, 32)
      else if 97 ≤ cell board row col ∧ cell board row col ≤ 122 then
        (119, lowerFirstByte (cell board row col))
      else (98, lowerFirstByte (cell board row col)) := by
  rw [isValid_iff] at h
  unfold getColorAndPiece
  rw [if_neg (by omega)]

theorem getColor_of_invalid {row col : Int} (board : Grid) (h : isValid row col = false) :
    getColorAndPiece row col board = (110, 32) := by
  have : ¬ (0 ≤ row ∧ row < 8 ∧ 0 ≤ col ∧ col < 8) := by
    rw [← isValid_iff]; simp [h]
  unfold getColorAndPiece
  rw [if_pos (by omega)]

/-- The colour returned by `getColorAndPiece` is `'n'`, `'w'` or `'b'`. -/
theorem getColor_cases (row col : Int) (board : Grid) :
    (getColorAndPiece row col board).1 = 110 ∨ (getColorAndPiece row col board).1 = 119 ∨
      (getColorAndPiece row col board).1 = 98 := by
  cases h : isValid row col
  · simp [getColor_of_invalid board h]
  · rw [getColorAndPiece_valid board h]
    split_ifs <;> simp

/-- The piece is `Empty` exactly when the colour is `'n'`. -/
theorem getPiece_empty_iff (row col : Int) (board : Grid) :
    (getColorAndPiece row col board).2 = 32 ↔ (getColorAndPiece row col board).1 = 110 := by
  cases h : isValid row col
  · simp [getColor_of_invalid board h]
  · rw [getColorAndPiece_valid board h]
    split_ifs <;> simp [lowerFirstByte_eq_space] <;> assumption

/-- The origin holds the white king exactly when the cell is `'x'`. -/
theorem whiteKing_iff {row col : Int} (board : Grid) (h : isValid row col = true) :
    ((getColorAndPiece row col board).2 = 120 ∧ (getColorAndPiece row col board).1 = 119) ↔
      cell board row col = 120 := by
  rw [getColorAndPiece_valid board h]
  split_ifs with h1 h2
  · simp; omega
  · simp [lowerFirstByte_eq_x]; omega
  · simp [lowerFirstByte_eq_x]; omega

/-- The origin holds the black king exactly when the cell is `'X'`. -/
theorem blackKing_iff {row col : Int} (board : Grid) (h : isValid row col = true) :
    ((getColorAndPiece row col board).2 = 120 ∧ (getColorAndPiece row col board).1 = 98) ↔
      cell board row col = 88 := by
  rw [getColorAndPiece_valid board h]
  split_ifs with h1 h2
  · simp; omega
  · simp [lowerFirstByte_eq_x]; omega
  · simp [lowerFirstByte_eq_x]; omega

/-! ## The generators and probes read the grid and the king cache only -/

theorem rayMoves_congr {S1 S2 : BoardState} (h : S1.Board = S2.Board)
    (sr sc color : Int) (d : Int × Int) :
    ∀ (fuel : Nat) (row col : Int) (moves : List Move),
      rayMoves sr sc color S1 d fuel row col moves = rayMoves sr sc color S2 d fuel row col moves
  | 0, _, _, _ => rfl
  | fuel + 1, row, col, moves => by
    simp only [rayMoves, h, rayMoves_congr h sr sc color d fuel]

theorem lineMoves_congr {S1 S2 : BoardState} (h : S1.Board = S2.Board)
    (sr sc color : Int) (moves : List Move) (direction : String) :
    lineMoves sr sc color S1 moves direction = lineMoves sr sc color S2 moves direction := by
  simp only [lineMoves, rayMoves_congr h]

theorem pawnMoves_congr {S1 S2 : BoardState} (h : S1.Board = S2.Board)
    (row col color : Int) (moves : List Move) :
    pawnMoves row col color S1 moves = pawnMoves row col color S2 moves := by
  simp only [pawnMoves, h]

theorem jumpStep_congr {S1 S2 : BoardState} (h : S1.Board = S2.Board)
    (row col color : Int) :
    jumpStep row col color S1 = jumpStep row col color S2 := by
  funext moves offset
  simp only [jumpStep, h]

theorem GenerateMovesForPiece_congr {S1 S2 : BoardState} (h : S1.Board = S2.Board)
    (row col : Int) (moves : List Move) :
    GenerateMovesForPiece row col S1 moves = GenerateMovesForPiece row col S2 moves := by
  simp only [GenerateMovesForPiece, knightMoves, kingMoves, h, pawnMoves_congr h,
    jumpStep_congr h, lineMoves_congr h]

theorem AllPossibleMoves_congr {S1 S2 : BoardState} (h : S1.Board = S2.Board)
    (color : Int) (exclude : List Int) :
    AllPossibleMoves color S1 exclude = AllPossibleMoves color S2 exclude := by
  have : allMovesStep color S1 exclude = allMovesStep color S2 exclude := by
    funext row head col
    simp only [allMovesStep, h, GenerateMovesForPiece_congr h]
  simp only [AllPossibleMoves, this]

theorem fieldAttacked_congr {S1 S2 : BoardState} (h : S1.Board = S2.Board)
    (row col attackerColor : Int) :
    fieldAttacked row col attackerColor S1 = fieldAttacked row col attackerColor S2 := by
  unfold fieldAttacked
  dsimp only
  split
  · rfl
  · congr 1
    exact AllPossibleMoves_congr (by simp only [h]) _ _

theorem kingMoveableLoop_congr {S1 S2 : BoardState} (h : S1.Board = S2.Board)
    (enemy : Int) : ∀ moves : List Move,
      kingMoveableLoop enemy S1 moves = kingMoveableLoop enemy S2 moves
  | [] => rfl
  | m :: rest => by
    simp only [kingMoveableLoop, fieldAttacked_congr h, kingMoveableLoop_congr h enemy rest]

theorem checkmateLoop_congr {S1 S2 : BoardState} (h : S1.Board = S2.Board)
    (row col enemy : Int) : ∀ (moves : List Move) (i : Nat),
      checkmateLoop row col enemy S1 moves i = checkmateLoop row col enemy S2 moves i
  | [], _ => rfl
  | m :: rest, i => by
    have hf : ∀ g : Grid, fieldAttacked row col enemy { S1 with Board := g } =
        fieldAttacked row col enemy { S2 with Board := g } :=
      fun g => fieldAttacked_congr rfl row col enemy
    simp only [checkmateLoop, h, checkmateLoop_congr h row col enemy rest, hf]

theorem kingAttacked_congr {S1 S2 : BoardState} (h : sameCore S1 S2) (color : Int) :
    kingAttacked color S1 = kingAttacked color S2 := by
  obtain ⟨hb, hw, hk⟩ := h
  simp only [kingAttacked, getKingdataFromColor, hw, hk, fieldAttacked_congr hb]

theorem kingMoveable_congr {S1 S2 : BoardState} (h : sameCore S1 S2) (color : Int) :
    kingMoveable color S1 = kingMoveable color S2 := by
  obtain ⟨hb, hw, hk⟩ := h
  simp only [kingMoveable, getKingdataFromColor, hw, hk, kingMoveableLoop_congr hb,
    GenerateMovesForPiece_congr hb]

theorem isCheckmatePlayer_congr {S1 S2 : BoardState} (h : sameCore S1 S2) (color : Int) :
    isCheckmatePlayer color S1 = isCheckmatePlayer color S2 := by
  have hm := kingMoveable_congr h color
  obtain ⟨hb, hw, hk⟩ := h
  simp only [isCheckmatePlayer, getKingdataFromColor, hw, hk, fieldAttacked_congr hb, hm,
    checkmateLoop_congr hb, AllPossibleMoves_congr hb]

theorem isRemisPlayer_congr {S1 S2 : BoardState} (h : sameCore S1 S2) (color : Int) :
    isRemisPlayer color S1 = isRemisPlayer color S2 := by
  have hm := kingMoveable_congr h color
  obtain ⟨hb, hw, hk⟩ := h
  simp only [isRemisPlayer, getKingdataFromColor, hw, hk, fieldAttacked_congr hb, hm,
    AllPossibleMoves_congr hb]

/-! ## Well-formedness of generated moves -/

theorem foldl_mem_or {α : Type} {P : Move → Prop} (step : List Move → α → List Move)
    (hstep : ∀ acc x m, m ∈ step acc x → m ∈ acc ∨ P m) :
    ∀ (xs : List α) (acc : List Move) (m : Move), m ∈ xs.foldl step acc → m ∈ acc ∨ P m
  | [], _, _, h => Or.inl h
  | x :: xs, acc, m, h => by
    rw [List.foldl_cons] at h
    rcases foldl_mem_or step hstep xs _ m h with h1 | h1
    · exact hstep acc x m h1
    · exact Or.inr h1

theorem mem_addMove {fr fc tr tc color : Int} {cap : Bool} {moves : List Move} {m : Move}
    (h : m ∈ addMove fr fc tr tc color cap moves) :
    m ∈ moves ∨ m = { From := (fr, fc), To := (tr, tc), Color := color, Capture := cap } := by
  simpa [addMove] using h

theorem jumpStep_ok (S : BoardState) (row col : Int)
    (hc : (getColorAndPiece row col S.Board).1 ≠ 110) (acc : List Move) (offset : Int × Int)
    (m : Move)
    (h : m ∈ jumpStep row col (getColorAndPiece row col S.Board).1 S acc offset) :
    m ∈ acc ∨ GenOK S row col m := by
  unfold jumpStep at h
  dsimp only at h
  split_ifs at h with h1 h2 h3
  · exact Or.inl h
  · rcases mem_addMove h with h | rfl
    · exact Or.inl h
    · right
      have h2c := (getPiece_empty_iff _ _ S.Board).1 h2
      refine ⟨rfl, by simpa using h1, rfl, ?_, ?_⟩
      · simp only [h2c]; exact fun e => hc e.symm
      · simp [h2]
  · rcases mem_addMove h with h | rfl
    · exact Or.inl h
    · right
      refine ⟨rfl, by simpa using h1, rfl, fun e => h3 e.symm, ?_⟩
      simpa using h2
  · exact Or.inl h

theorem rayMoves_ok (S : BoardState) (sr sc : Int) (d : Int × Int) :
    ∀ (fuel : Nat) (row col : Int) (acc : List Move) (m : Move),
      m ∈ rayMoves sr sc (getColorAndPiece sr sc S.Board).1 S d fuel row col acc →
      m ∈ acc ∨ GenOK S sr sc m
  | 0, _, _, _, _, h => Or.inl h
  | fuel + 1, row, col, acc, m, h => by
    unfold rayMoves at h
    dsimp only at h
    split_ifs at h with h1 h2 h3
    · exact Or.inl h
    · exact Or.inl h
    · rcases rayMoves_ok S sr sc d fuel _ _ _ m h with h | h
      · rcases mem_addMove h with h | rfl
        · exact Or.inl h
        · right
          refine ⟨rfl, by simpa using h1, rfl, fun e => h2 e.symm, ?_⟩
          simp [h3]
      · exact Or.inr h
    · rcases mem_addMove h with h | rfl
      · exact Or.inl h
      · right
        refine ⟨rfl, by simpa using h1, rfl, fun e => h2 e.symm, ?_⟩
        simpa using h3

theorem lineMoves_ok (S : BoardState) (sr sc : Int) (direction : String) (acc : List Move)
    (m : Move)
    (h : m ∈ lineMoves sr sc (getColorAndPiece sr sc S.Board).1 S acc direction) :
    m ∈ acc ∨ GenOK S sr sc m := by
  unfold lineMoves at h
  exact foldl_mem_or _ (fun acc d m hm => rayMoves_ok S sr sc d 8 sr sc acc m hm) _ _ _ h

theorem pawnCapture_ok (S : BoardState) (row col direction : Int) (acc : List Move)
    (offset : Int) (m : Move)
    (h : m ∈ pawnCapture row col (getColorAndPiece row col S.Board).1 direction S.Board acc
      offset) :
    m ∈ acc ∨ GenOK S row col m := by
  unfold pawnCapture at h
  dsimp only at h
  split_ifs at h with h1 h2 h3
  · exact Or.inl h
  · rcases mem_addMove h with h | rfl
    · exact Or.inl h
    · right
      refine ⟨rfl, h1, rfl, fun e => h3 e.symm, ?_⟩
      simpa using h2
  · exact Or.inl h
  · exact Or.inl h

theorem getColor_of_cell_empty {row col : Int} {board : Grid} (hv : isValid row col = true)
    (h : cell board row col = 32) : getColorAndPiece row col board = (110, 32) := by
  rw [getColorAndPiece_valid board hv, if_pos h]

theorem pawnMoves_ok (S : BoardState) (row col : Int)
    (hc : (getColorAndPiece row col S.Board).1 ≠ 110) (acc : List Move) (m : Move)
    (h : m ∈ pawnMoves row col (getColorAndPiece row col S.Board).1 S acc) :
    m ∈ acc ∨ GenOK S row col m := by
  unfold pawnMoves at h
  dsimp only at h
  generalize (if (getColorAndPiece row col S.Board).1 = 98 then (1 : Int) else -1) = dir at h
  generalize (if (getColorAndPiece row col S.Board).1 = 98 then (1 : Int) else 6) = start at h
  rcases foldl_mem_or _ (fun acc o m hm => pawnCapture_ok S row col _ acc o m hm) _ _ _ h
    with h | h
  · have key : ∀ (r : Int) (acc2 : List Move), isValid r col = true →
        cell S.Board r col = 32 →
        m ∈ addMove row col r col (getColorAndPiece row col S.Board).1 false acc2 →
        m ∈ acc2 ∨ GenOK S row col m := by
      intro r acc2 hv he hm
      rcases mem_addMove hm with hm | rfl
      · exact Or.inl hm
      · right
        refine ⟨rfl, hv, rfl, ?_, ?_⟩
        · simp only [getColor_of_cell_empty hv he]; exact fun e => hc e.symm
        · simp [getColor_of_cell_empty hv he]
    have step1 : ∀ (d : Int), m ∈ (if (isValid (row + d) col &&
          decide (cell S.Board (row + d) col = Empty)) = true then
          addMove row col (row + d) col (getColorAndPiece row col S.Board).1 false acc
        else acc) → m ∈ acc ∨ GenOK S row col m := by
      intro d hm
      split at hm
      · rename_i h1
        simp only [Bool.and_eq_true, decide_eq_true_eq] at h1
        exact key _ _ h1.1 h1.2 hm
      · exact Or.inl hm
    split at h
    · rename_i h2
      simp only [Bool.and_eq_true, decide_eq_true_eq] at h2
      rcases key _ _ h2.1.1.2 h2.2 h with h | h
      · exact step1 _ h
      · exact Or.inr h
    · exact step1 _ h
  · exact Or.inr h

/-- Every move `GenerateMovesForPiece` adds is well formed. -/
theorem GenerateMovesForPiece_ok (S : BoardState) (row col : Int) (acc : List Move) (m : Move)
    (h : m ∈ GenerateMovesForPiece row col S acc) : m ∈ acc ∨ GenOK S row col m := by
  unfold GenerateMovesForPiece at h
  dsimp only at h
  have hc : ∀ v : Int, v ≠ 32 → (getColorAndPiece row col S.Board).2 = v →
      (getColorAndPiece row col S.Board).1 ≠ 110 := by
    intro v hv he hn
    rw [← getPiece_empty_iff] at hn
    omega
  split_ifs at h with h1 h2 h3 h4 h5 h6
  · exact pawnMoves_ok S row col (by rcases h1 with e | e <;> exact hc _ (by decide) e) acc m h
  · unfold knightMoves at h
    exact foldl_mem_or _ (jumpStep_ok S row col
      (by rcases h2 with e | e <;> exact hc _ (by decide) e)) _ _ _ h
  · exact lineMoves_ok S row col _ acc m h
  · exact lineMoves_ok S row col _ acc m h
  · rcases lineMoves_ok S row col _ _ m h with h | h
    · exact lineMoves_ok S row col _ acc m h
    · exact Or.inr h
  · unfold kingMoves at h
    exact foldl_mem_or _ (jumpStep_ok S row col
      (by rcases h6 with e | e <;> exact hc _ (by decide) e)) _ _ _ h
  · exact Or.inl h

/-! ## Generated lists extend the list they are given -/

theorem foldl_append_of_step {α : Type} (step : List Move → α → List Move)
    (hstep : ∀ acc x, step acc x = acc ++ step [] x) :
    ∀ (xs : List α) (acc : List Move), xs.foldl step acc = acc ++ xs.flatMap (step [])
  | [], acc => by simp
  | x :: xs, acc => by
    rw [List.foldl_cons, foldl_append_of_step step hstep xs, hstep acc x, List.flatMap_cons,
      List.append_assoc]

theorem jumpStep_append (row col color : Int) (S : BoardState) (acc : List Move)
    (offset : Int × Int) :
    jumpStep row col color S acc offset = acc ++ jumpStep row col color S [] offset := by
  unfold jumpStep
  dsimp only
  split_ifs <;> simp [addMove]

theorem pawnCapture_append (row col color direction : Int) (board : Grid) (acc : List Move)
    (offset : Int) :
    pawnCapture row col color direction board acc offset =
      acc ++ pawnCapture row col color direction board [] offset := by
  unfold pawnCapture
  dsimp only
  split_ifs <;> simp [addMove]

theorem rayMoves_append (sr sc color : Int) (S : BoardState) (d : Int × Int) :
    ∀ (fuel : Nat) (row col : Int) (acc : List Move),
      rayMoves sr sc color S d fuel row col acc = acc ++ rayMoves sr sc color S d fuel row col []
  | 0, _, _, _ => by simp [rayMoves]
  | fuel + 1, row, col, acc => by
    unfold rayMoves
    dsimp only
    split_ifs
    · simp
    · simp
    · rw [rayMoves_append sr sc color S d fuel _ _ (addMove _ _ _ _ _ _ acc),
        rayMoves_append sr sc color S d fuel _ _ (addMove _ _ _ _ _ _ [])]
      simp [addMove]
    · simp [addMove]

theorem lineMoves_append (sr sc color : Int) (S : BoardState) (acc : List Move)
    (direction : String) :
    lineMoves sr sc color S acc direction = acc ++ lineMoves sr sc color S [] direction := by
  unfold lineMoves
  rw [foldl_append_of_step _ (fun acc d => rayMoves_append sr sc color S d 8 sr sc acc),
    foldl_append_of_step _ (fun acc d => rayMoves_append sr sc color S d 8 sr sc acc) _ []]
  simp

theorem pawnMoves_append (row col color : Int) (S : BoardState) (acc : List Move) :
    pawnMoves row col color S acc = acc ++ pawnMoves row col color S [] := by
  unfold pawnMoves
  dsimp only
  generalize (if color = 98 then (1 : Int) else -1) = dir
  generalize (if color = 98 then (1 : Int) else 6) = start
  rw [foldl_append_of_step _ (pawnCapture_append row col color _ S.Board),
    foldl_append_of_step _ (pawnCapture_append row col color _ S.Board) _ (ite _ _ _)]
  split_ifs <;> simp [addMove]

/-- `GenerateMovesForPiece` appends to the list it is given. -/
theorem GenerateMovesForPiece_append (row col : Int) (S : BoardState) (acc : List Move) :
    GenerateMovesForPiece row col S acc = acc ++ GenerateMovesForPiece row col S [] := by
  unfold GenerateMovesForPiece knightMoves kingMoves
  dsimp only
  split_ifs
  · exact pawnMoves_append _ _ _ _ _
  · rw [foldl_append_of_step _ (jumpStep_append row col _ S),
      foldl_append_of_step _ (jumpStep_append row col _ S) _ []]
    simp
  · exact lineMoves_append _ _ _ _ _ _
  · exact lineMoves_append _ _ _ _ _ _
  · rw [lineMoves_append, lineMoves_append _ _ _ _ acc,
      lineMoves_append _ _ _ _ (lineMoves _ _ _ _ [] _)]
    simp
  · rw [foldl_append_of_step _ (jumpStep_append row col _ S),
      foldl_append_of_step _ (jumpStep_append row col _ S) _ []]
    simp
  · simp

theorem allMovesStep_append (color : Int) (S : BoardState) (exclude : List Int) (row : Nat)
    (acc : List Move) (col : Nat) :
    allMovesStep color S exclude row acc col = acc ++ allMovesStep color S exclude row [] col := by
  unfold allMovesStep
  dsimp only
  split_ifs
  · simp
  · simp
  · exact GenerateMovesForPiece_append _ _ _ _
  · simp

theorem allMoves_foldl_eq (color : Int) (S : BoardState) (exclude : List Int)
    (rs cs : List Nat) :
    rs.foldl (fun head row => cs.foldl (allMovesStep color S exclude row) head) [] =
      rs.flatMap (fun row => cs.flatMap (fun col => allMovesStep color S exclude row [] col)) := by
  have inner : ∀ (row : Nat) (acc : List Move),
      cs.foldl (allMovesStep color S exclude row) acc =
        acc ++ cs.flatMap (fun col => allMovesStep color S exclude row [] col) :=
    fun row acc => foldl_append_of_step _ (allMovesStep_append color S exclude row) _ acc
  rw [foldl_append_of_step
    (fun head row => cs.foldl (allMovesStep color S exclude row) head)
    (fun acc row => by simp only [inner row acc, inner row [], List.nil_append])]
  simp only [List.nil_append, inner, List.nil_append]

/-- `AllPossibleMoves` is the concatenation over the 64 squares, row by row. -/
theorem AllPossibleMoves_eq_flatMap (color : Int) (S : BoardState) (exclude : List Int) :
    AllPossibleMoves color S exclude =
      (List.range 8).flatMap (fun row =>
        (List.range 8).flatMap (fun col => allMovesStep color S exclude row [] col)) := by
  unfold AllPossibleMoves
  exact allMoves_foldl_eq color S exclude _ _

/-- Membership in `AllPossibleMoves`: the move was generated for a square that
holds a piece of the colour whose type is not excluded. -/
theorem mem_AllPossibleMoves {color : Int} {S : BoardState} {exclude : List Int} {m : Move} :
    m ∈ AllPossibleMoves color S exclude ↔
      ∃ row col : Int, isValid row col = true ∧
        (getColorAndPiece row col S.Board).1 = color ∧
        (getColorAndPiece row col S.Board).2 ≠ 32 ∧
        isExcluded (getColorAndPiece row col S.Board).2 exclude = false ∧
        m ∈ GenerateMovesForPiece row col S [] := by
  rw [AllPossibleMoves_eq_flatMap]
  simp only [List.mem_flatMap, List.mem_range]
  constructor
  · rintro ⟨row, hr, col, hc, hm⟩
    refine ⟨row, col, by rw [isValid_iff]; omega, ?_⟩
    unfold allMovesStep at hm
    dsimp only at hm
    split_ifs at hm with h1 h2 h3
    · simp at hm
    · simp at hm
    · exact ⟨h2.symm, h1, by simpa using h3, hm⟩
    · simp at hm
  · rintro ⟨row, col, hv, hcol, hp, hex, hm⟩
    rw [isValid_iff] at hv
    refine ⟨row.toNat, by omega, col.toNat, by omega, ?_⟩
    have e1 : ((row.toNat : Nat) : Int) = row := by omega
    have e2 : ((col.toNat : Nat) : Int) = col := by omega
    unfold allMovesStep
    dsimp only
    rw [e1, e2, if_neg hp, if_pos hcol.symm, hex]
    simpa using hm

/-! ## Panics -/

theorem attackScan_ne_panic (row col : Int) :
    ∀ (ms : List Move) (i : Nat), attackScan row col ms i ≠ .panic
  | [], _ => by simp [attackScan]
  | m :: rest, i => by
    unfold attackScan
    split_ifs
    · simp
    · exact attackScan_ne_panic row col rest _
    · exact attackScan_ne_panic row col rest _
    · simp

theorem attackScan_fail_false (row col : Int) :
    ∀ (ms : List Move) (i : Nat) (b : Bool) (e : Err),
      attackScan row col ms i = .fail b e → b = false
  | [], _, _, _, h => by simp [attackScan] at h
  | m :: rest, i, b, e, h => by
    unfold attackScan at h
    split_ifs at h
    · simp at h; exact h.1
    · exact attackScan_fail_false row col rest _ b e h
    · exact attackScan_fail_false row col rest _ b e h

theorem fieldAttacked_of_valid {row col : Int} (h : isValid row col = true) (a : Int)
    (S : BoardState) :
    fieldAttacked row col a S =
      attackScan row col
        (AllPossibleMoves a
          { S with Board := setCell S.Board row col (if a = 119 then 88 else 120) } []) 0 := by
  simp [fieldAttacked, h]

theorem fieldAttacked_panic_iff (row col a : Int) (S : BoardState) :
    fieldAttacked row col a S = .panic ↔ isValid row col = false := by
  cases h : isValid row col
  · simp [fieldAttacked, h]
  · rw [fieldAttacked_of_valid h]
    simp [attackScan_ne_panic]

theorem kingMoveableLoop_ne_panic (enemy : Int) (S : BoardState) :
    ∀ ms : List Move, (∀ m ∈ ms, isValid m.To.1 m.To.2 = true) →
      kingMoveableLoop enemy S ms ≠ .panic
  | [], _ => by simp [kingMoveableLoop]
  | m :: rest, h => by
    unfold kingMoveableLoop
    have hv := h m (List.mem_cons_self _ _)
    have hp : fieldAttacked m.To.1 m.To.2 enemy S ≠ .panic := by
      rw [Ne, fieldAttacked_panic_iff, hv]; simp
    split
    · rename_i e; exact absurd e hp
    · simp
    · split_ifs
      · simp
      · exact kingMoveableLoop_ne_panic enemy S rest
          (fun x hx => h x (List.mem_cons_of_mem _ hx))

theorem GenerateMovesForPiece_valid {row col : Int} {S : BoardState} {m : Move}
    (h : m ∈ GenerateMovesForPiece row col S []) : GenOK S row col m := by
  rcases GenerateMovesForPiece_ok S row col [] m h with h | h
  · simp at h
  · exact h

theorem kingMoveable_ne_panic (color : Int) (S : BoardState) :
    kingMoveable color S ≠ .panic := by
  unfold kingMoveable
  exact kingMoveableLoop_ne_panic _ S _ (fun m hm => (GenerateMovesForPiece_valid hm).2.1)

theorem checkmateLoop_ne_panic {row col : Int} (hv : isValid row col = true) (enemy : Int)
    (S : BoardState) : ∀ (ms : List Move) (i : Nat), checkmateLoop row col enemy S ms i ≠ .panic
  | [], _ => by simp [checkmateLoop]
  | m :: rest, i => by
    unfold checkmateLoop
    dsimp only
    split_ifs
    · simp
    · split
      · rename_i e
        rw [fieldAttacked_panic_iff, hv] at e
        simp at e
      · simp
      · split_ifs
        · simp
        · exact checkmateLoop_ne_panic hv enemy S rest _

theorem getKingdata_eq (color : Int) (S : BoardState) :
    getKingdataFromColor color S =
      ((kingSquare color S).1, (kingSquare color S).2, enemyOf color) := by
  unfold getKingdataFromColor kingSquare enemyOf
  split_ifs <;> rfl

theorem isCheckmatePlayer_panic_iff (color : Int) (S : BoardState) :
    isCheckmatePlayer color S = .panic ↔ isInBounds (kingSquare color S) = false := by
  unfold isCheckmatePlayer
  rw [getKingdata_eq]
  dsimp only
  cases hv : isInBounds (kingSquare color S)
  · have : fieldAttacked (kingSquare color S).1 (kingSquare color S).2 (enemyOf color) S =
        .panic := (fieldAttacked_panic_iff _ _ _ _).2 hv
    simp [this]
  · have hp : fieldAttacked (kingSquare color S).1 (kingSquare color S).2 (enemyOf color) S ≠
        .panic := by
      rw [Ne, fieldAttacked_panic_iff]; simp [← isInBounds_eq_isValid, hv]
    rw [iff_false_right (by simp)]
    split
    · rename_i e; exact absurd e hp
    · simp
    · split_ifs
      · simp
      · split
        · rename_i e; exact absurd e (kingMoveable_ne_panic _ _)
        · simp
        · split_ifs
          · simp
          · exact checkmateLoop_ne_panic hv _ _ _ _

theorem isRemisPlayer_panic_iff (color : Int) (S : BoardState) :
    isRemisPlayer color S = .panic ↔ isInBounds (kingSquare color S) = false := by
  unfold isRemisPlayer
  rw [getKingdata_eq]
  dsimp only
  cases hv : isInBounds (kingSquare color S)
  · have : fieldAttacked (kingSquare color S).1 (kingSquare color S).2 (enemyOf color) S =
        .panic := (fieldAttacked_panic_iff _ _ _ _).2 hv
    simp [this]
  · have hp : fieldAttacked (kingSquare color S).1 (kingSquare color S).2 (enemyOf color) S ≠
        .panic := by
      rw [Ne, fieldAttacked_panic_iff]; simp [← isInBounds_eq_isValid, hv]
    rw [iff_false_right (by simp)]
    intro h
    cases hf : fieldAttacked (kingSquare color S).1 (kingSquare color S).2 (enemyOf color) S with
    | panic => exact hp hf
    | fail b e => simp [hf] at h
    | ok b =>
      cases hk : kingMoveable color S with
      | panic => exact kingMoveable_ne_panic _ _ hk
      | fail b2 e => rw [hf, hk] at h; dsimp only at h; split_ifs at h
      | ok b2 => rw [hf, hk] at h; dsimp only at h; split_ifs at h

/-! ## Move application -/

theorem MakeMove_false_eq (m : Move) (S : BoardState) (hf : isInBounds m.From = true)
    (ht : isInBounds m.To = true) : MakeMove m S false = some (applyMove m S) := by
  simp [MakeMove, hf, ht]

theorem MakeMove_bounds {m : Move} {S R : BoardState} {r : Bool} (h : MakeMove m S r = some R) :
    isInBounds m.From = true ∧ isInBounds m.To = true := by
  unfold MakeMove at h
  split_ifs at h with h1
  all_goals
    simp only [Bool.or_eq_true, Bool.not_eq_true', not_or, Bool.not_eq_false] at h1
    exact h1

/-- Whatever `MakeMove` returns is `applyMove` up to the winner and the turn. -/
theorem MakeMove_shape {m : Move} {S R : BoardState} {r : Bool} (h : MakeMove m S r = some R) :
    ∃ w t, R = { applyMove m S with Winner := w, TurnColor := t } := by
  obtain ⟨hf, ht⟩ := MakeMove_bounds h
  cases r
  · rw [MakeMove_false_eq m S hf ht] at h
    exact ⟨_, _, (Option.some.inj h).symm⟩
  · simp only [MakeMove, hf, ht, Bool.not_true, Bool.or_self, Bool.false_eq_true, if_false,
      if_true] at h
    split at h
    · simp at h
    · split at h
      · simp at h
      · split_ifs at h <;> exact ⟨_, _, (Option.some.inj h).symm⟩

theorem flag_isSome_iff (x : Res Bool) : x.flag ≠ none ↔ x ≠ .panic := by
  cases x <;> simp [Res.flag]

theorem applyMove_kingSquare_bounds (m : Move) (S : BoardState) (color : Int)
    (ht : isInBounds m.To = true) (hw : isInBounds S.WhiteKingPos = true)
    (hb : isInBounds S.BlackKingPos = true) :
    isInBounds (kingSquare color (applyMove m S)) = true := by
  unfold kingSquare applyMove
  dsimp only
  split_ifs <;> assumption

/-- With in-bounds squares and an in-bounds king cache `MakeMove` returns. -/
theorem MakeMove_total (m : Move) (S : BoardState) (r : Bool) (hf : isInBounds m.From = true)
    (ht : isInBounds m.To = true) (hw : isInBounds S.WhiteKingPos = true)
    (hb : isInBounds S.BlackKingPos = true) : ∃ R, MakeMove m S r = some R := by
  cases r
  · exact ⟨_, MakeMove_false_eq m S hf ht⟩
  · simp only [MakeMove, hf, ht, Bool.not_true, Bool.or_self, Bool.false_eq_true, if_false,
      if_true]
    generalize (if (getColorAndPiece m.From.1 m.From.2 S.Board).1 = 119 then (98 : Int)
      else 119) = enemy
    have h1 : isCheckmatePlayer enemy (applyMove m S) ≠ .panic := by
      rw [Ne, isCheckmatePlayer_panic_iff, applyMove_kingSquare_bounds m S enemy ht hw hb]
      simp
    have h2 : ∀ s1, sameCore s1 (applyMove m S) → (isRemisPlayer enemy s1).flag ≠ none := by
      intro s1 hs
      rw [isRemisPlayer_congr hs, flag_isSome_iff, Ne, isRemisPlayer_panic_iff,
        applyMove_kingSquare_bounds m S enemy ht hw hb]
      simp
    cases hc : (isCheckmatePlayer enemy (applyMove m S)).flag with
    | none => exact absurd hc ((flag_isSome_iff _).2 h1)
    | some c =>
      dsimp only
      split
      · rename_i e
        exact absurd e (h2 _ (by split_ifs <;> exact ⟨rfl, rfl, rfl⟩))
      · split_ifs <;> exact ⟨_, rfl⟩

/-- C7.  Piece relocation and frame of `MakeMove`: for every state `S` and every
move `m` with in-bounds squares and `m.From ≠ m.To`, the call without terminal
check returns, the call with terminal check returns when the king cache is in
bounds, and every returned state has the cell that stood on `m.From` on `m.To`,
has `m.From` empty, agrees with `S` on the 62 other squares, and has
`LastMove = MoveToString m`.  (The state `S` is passed by value and the result
is built from a clone, so the caller's `S` is the same value after the call.) -/
theorem MakeMove_relocates (S : BoardState) (m : Move) (hf : isInBounds m.From = true)
    (ht : isInBounds m.To = true) (hne : m.From ≠ m.To) :
    (∃ R, MakeMove m S false = some R) ∧
    (isInBounds S.WhiteKingPos = true → isInBounds S.BlackKingPos = true →
      ∃ R, MakeMove m S true = some R) ∧
    ∀ (r : Bool) (R : BoardState), MakeMove m S r = some R →
      cell R.Board m.To.1 m.To.2 = cell S.Board m.From.1 m.From.2 ∧
      cell R.Board m.From.1 m.From.2 = 32 ∧
      (∀ i j : Fin 8, (((i : Nat) : Int), ((j : Nat) : Int)) ≠ m.From →
        (((i : Nat) : Int), ((j : Nat) : Int)) ≠ m.To → R.Board i j = S.Board i j) ∧
      R.LastMove = MoveToString m := by
  refine ⟨⟨_, MakeMove_false_eq m S hf ht⟩, fun hw hb => MakeMove_total m S true hf ht hw hb, ?_⟩
  intro r R h
  obtain ⟨w, t, rfl⟩ := MakeMove_shape h
  rw [isInBounds_eq_isValid] at hf ht
  have hne2 : ¬ (m.To.1 = m.From.1 ∧ m.To.2 = m.From.2) := by
    rintro ⟨h1, h2⟩
    exact hne (Prod.ext h1.symm h2.symm)
  refine ⟨?_, ?_, ?_, rfl⟩
  · simp only [applyMove]
    rw [cell_setCell _ _ _ _ ht, if_neg hne2, cell_setCell _ _ _ _ ht]
    simp
  · simp only [applyMove]
    rw [cell_setCell _ _ _ _ hf]
    simp
  · intro i j h1 h2
    simp only [applyMove, setCell]
    have e1 : ¬ (((i : Nat) : Int) = m.From.1 ∧ ((j : Nat) : Int) = m.From.2) := by
      rintro ⟨a, b⟩; exact h1 (Prod.ext a b)
    have e2 : ¬ (((i : Nat) : Int) = m.To.1 ∧ ((j : Nat) : Int) = m.To.2) := by
      rintro ⟨a, b⟩; exact h2 (Prod.ext a b)
    rw [if_neg e1, if_neg e2]

/-- C8.  King cache update in `MakeMove`: for every state `S` and in-bounds move
`m` the call without terminal check returns, and for every returned state: if
the cell on `m.From` is the white king `'x'` then `WhiteKingPos = m.To` and
`WhiteKingMoved = true` while the black fields are those of `S`; symmetrically
for the black king `'X'`; if the cell is neither, the four fields are
unchanged. -/
theorem MakeMove_kingCache (S : BoardState) (m : Move) (hf : isInBounds m.From = true)
    (ht : isInBounds m.To = true) :
    (∃ R, MakeMove m S false = some R) ∧
    ∀ (r : Bool) (R : BoardState), MakeMove m S r = some R →
      (cell S.Board m.From.1 m.From.2 = 120 →
        R.WhiteKingPos = m.To ∧ R.WhiteKingMoved = true ∧
        R.BlackKingPos = S.BlackKingPos ∧ R.BlackKingMoved = S.BlackKingMoved) ∧
      (cell S.Board m.From.1 m.From.2 = 88 →
        R.BlackKingPos = m.To ∧ R.BlackKingMoved = true ∧
        R.WhiteKingPos = S.WhiteKingPos ∧ R.WhiteKingMoved = S.WhiteKingMoved) ∧
      (cell S.Board m.From.1 m.From.2 ≠ 120 → cell S.Board m.From.1 m.From.2 ≠ 88 →
        R.WhiteKingPos = S.WhiteKingPos ∧ R.WhiteKingMoved = S.WhiteKingMoved ∧
        R.BlackKingPos = S.BlackKingPos ∧ R.BlackKingMoved = S.BlackKingMoved) := by
  refine ⟨⟨_, MakeMove_false_eq m S hf ht⟩, ?_⟩
  intro r R h
  obtain ⟨w, t, rfl⟩ := MakeMove_shape h
  rw [isInBounds_eq_isValid] at hf
  have hW := whiteKing_iff S.Board hf
  have hB := blackKing_iff S.Board hf
  refine ⟨fun hx => ?_, fun hx => ?_, fun h1 h2 => ?_⟩
  · have a := hW.2 hx
    have b : ¬ ((getColorAndPiece m.From.1 m.From.2 S.Board).2 = 120 ∧
        (getColorAndPiece m.From.1 m.From.2 S.Board).1 = 98) := by
      rw [hB]; omega
    simp [applyMove, a, b]
  · have a := hB.2 hx
    have b : ¬ ((getColorAndPiece m.From.1 m.From.2 S.Board).2 = 120 ∧
        (getColorAndPiece m.From.1 m.From.2 S.Board).1 = 119) := by
      rw [hW]; omega
    simp [applyMove, a, b]
  · have a : ¬ ((getColorAndPiece m.From.1 m.From.2 S.Board).2 = 120 ∧
        (getColorAndPiece m.From.1 m.From.2 S.Board).1 = 119) := by
      rw [hW]; exact h1
    have b : ¬ ((getColorAndPiece m.From.1 m.From.2 S.Board).2 = 120 ∧
        (getColorAndPiece m.From.1 m.From.2 S.Board).1 = 98) := by
      rw [hB]; exact h2
    simp [applyMove, a, b]

theorem checkmateLoop_fail_false (row col enemy : Int) (S : BoardState) :
    ∀ (ms : List Move) (i : Nat) (b : Bool) (e : Err),
      checkmateLoop row col enemy S ms i = .fail b e → b = false
  | [], _, _, _, h => by simp [checkmateLoop] at h
  | m :: rest, i, b, e, h => by
    unfold checkmateLoop at h
    dsimp only at h
    split_ifs at h with h1
    · simp at h; exact h.1
    · revert h
      split
      · intro h; simp at h
      · intro h; simp at h; exact h.1
      · intro h
        split_ifs at h
        exact checkmateLoop_fail_false row col enemy S rest _ b e h

/-- The probe of the king square that opens `isCheckmatePlayer` and
`isRemisPlayer`. -/
theorem kingAttacked_eq (color : Int) (S : BoardState) :
    kingAttacked color S =
      fieldAttacked (kingSquare color S).1 (kingSquare color S).2 (enemyOf color) S := by
  unfold kingAttacked
  rw [getKingdata_eq]

theorem isCheckmatePlayer_fail_false {color : Int} {S : BoardState} {b : Bool} {e : Err}
    (h : isCheckmatePlayer color S = .fail b e) : b = false := by
  unfold isCheckmatePlayer at h
  rw [getKingdata_eq] at h
  dsimp only at h
  cases hf : fieldAttacked (kingSquare color S).1 (kingSquare color S).2 (enemyOf color) S with
  | panic => simp [hf] at h
  | fail b1 e1 => simp [hf] at h; exact h.1
  | ok b1 =>
    cases hk : kingMoveable color S with
    | panic => rw [hf, hk] at h; dsimp only at h; split_ifs at h
    | fail b2 e2 => rw [hf, hk] at h; dsimp only at h; split_ifs at h; simp at h; exact h.1
    | ok b2 =>
      rw [hf, hk] at h; dsimp only at h
      split_ifs at h
      exact checkmateLoop_fail_false _ _ _ _ _ _ _ _ h

theorem isRemisPlayer_fail_false {color : Int} {S : BoardState} {b : Bool} {e : Err}
    (h : isRemisPlayer color S = .fail b e) : b = false := by
  unfold isRemisPlayer at h
  rw [getKingdata_eq] at h
  dsimp only at h
  cases hf : fieldAttacked (kingSquare color S).1 (kingSquare color S).2 (enemyOf color) S with
  | panic => simp [hf] at h
  | fail b1 e1 => simp [hf] at h; exact h.1
  | ok b1 =>
    cases hk : kingMoveable color S with
    | panic => rw [hf, hk] at h; dsimp only at h; split_ifs at h
    | fail b2 e2 => rw [hf, hk] at h; dsimp only at h; split_ifs at h; simp at h; exact h.1
    | ok b2 => rw [hf, hk] at h; dsimp only at h; split_ifs at h

/-- A checkmate verdict implies that the king square was found attacked. -/
theorem isCheckmatePlayer_true_attacked {color : Int} {S : BoardState}
    (h : isCheckmatePlayer color S = .ok true) : kingAttacked color S = .ok true := by
  rw [kingAttacked_eq]
  unfold isCheckmatePlayer at h
  rw [getKingdata_eq] at h
  dsimp only at h
  cases hf : fieldAttacked (kingSquare color S).1 (kingSquare color S).2 (enemyOf color) S with
  | panic => simp [hf] at h
  | fail b1 e1 => simp [hf] at h
  | ok b1 =>
    cases b1
    · simp [hf] at h
    · rfl

/-- A stalemate verdict implies that the king square was found not attacked. -/
theorem isRemisPlayer_true_not_attacked {color : Int} {S : BoardState}
    (h : isRemisPlayer color S = .ok true) : kingAttacked color S = .ok false := by
  rw [kingAttacked_eq]
  unfold isRemisPlayer at h
  rw [getKingdata_eq] at h
  dsimp only at h
  cases hf : fieldAttacked (kingSquare color S).1 (kingSquare color S).2 (enemyOf color) S with
  | panic => simp [hf] at h
  | fail b1 e1 => simp [hf] at h
  | ok b1 =>
    cases b1
    · rfl
    · simp [hf] at h

theorem flag_true_iff_checkmate (color : Int) (S : BoardState) :
    (isCheckmatePlayer color S).flag = some true ↔ isCheckmatePlayer color S = .ok true := by
  cases h : isCheckmatePlayer color S with
  | panic => simp [Res.flag]
  | fail b e => have := isCheckmatePlayer_fail_false h; subst this; simp [Res.flag]
  | ok b => simp [Res.flag]

theorem flag_true_iff_remis (color : Int) (S : BoardState) :
    (isRemisPlayer color S).flag = some true ↔ isRemisPlayer color S = .ok true := by
  cases h : isRemisPlayer color S with
  | panic => simp [Res.flag]
  | fail b e => have := isRemisPlayer_fail_false h; subst this; simp [Res.flag]
  | ok b => simp [Res.flag]

theorem runeString_w : runeString 119 = "w" := by decide
theorem runeString_b : runeString 98 = "b" := by decide

/-- C6.  Terminal evaluation in `MakeMove`: let `m` have in-bounds squares, let its
origin hold a piece of colour `k` (`'w'` or `'b'`) and let `o` be the other
colour.  `MakeMove m S false` returns a state `N` whose `TurnColor` is `o` and
whose `Winner` is that of `S`.  `MakeMove m S true` returns when the king cache
is in bounds, and whatever it returns is: `N` with `Winner = k`, `TurnColor = "n"`
if `isCheckmatePlayer o N` holds; `N` with `Winner = "r"`, `TurnColor = "n"` if
`isRemisPlayer o N` holds; `N` itself if neither holds. -/
theorem MakeMove_terminal (S : BoardState) (m : Move) (k : Int)
    (hf : isInBounds m.From = true) (ht : isInBounds m.To = true)
    (hk : (getColorAndPiece m.From.1 m.From.2 S.Board).1 = k) (hk2 : k = 119 ∨ k = 98) :
    ∃ N, MakeMove m S false = some N ∧
      N.TurnColor = (if k = 119 then "b" else "w") ∧ N.Winner = S.Winner ∧
      (isInBounds S.WhiteKingPos = true → isInBounds S.BlackKingPos = true →
        ∃ R, MakeMove m S true = some R) ∧
      ∀ R, MakeMove m S true = some R →
        (isCheckmatePlayer (enemyOf k) N = .ok true →
          R = { N with Winner := if k = 119 then "w" else "b", TurnColor := "n" }) ∧
        (isRemisPlayer (enemyOf k) N = .ok true →
          R = { N with Winner := "r", TurnColor := "n" }) ∧
        (isCheckmatePlayer (enemyOf k) N ≠ .ok true → isRemisPlayer (enemyOf k) N ≠ .ok true →
          R = N) := by
  refine ⟨applyMove m S, MakeMove_false_eq m S hf ht, ?_, rfl,
    fun hw hb => MakeMove_total m S true hf ht hw hb, ?_⟩
  · simp [applyMove, hk]
  intro R h
  simp only [MakeMove, hf, ht, Bool.not_true, Bool.or_self, Bool.false_eq_true, if_false,
    if_true, hk] at h
  have hkw : runeString k = if k = 119 then "w" else "b" := by
    rcases hk2 with rfl | rfl
    · exact runeString_w
    · exact runeString_b
  rw [hkw] at h
  simp only [enemyOf]
  generalize (if k = 119 then (98 : Int) else 119) = o at h ⊢
  cases hc : (isCheckmatePlayer o (applyMove m S)).flag with
  | none => rw [hc] at h; simp at h
  | some c =>
    rw [hc] at h
    dsimp only at h
    cases c
    · -- no checkmate
      have hnc : isCheckmatePlayer o (applyMove m S) ≠ .ok true := by
        rw [Ne, ← flag_true_iff_checkmate, hc]; simp
      simp only [Bool.false_eq_true, if_false] at h
      cases hr : (isRemisPlayer o (applyMove m S)).flag with
      | none => rw [hr] at h; simp at h
      | some r =>
        rw [hr] at h
        dsimp only at h
        cases r
        · have hnr : isRemisPlayer o (applyMove m S) ≠ .ok true := by
            rw [Ne, ← flag_true_iff_remis, hr]; simp
          simp only [Bool.false_eq_true, if_false] at h
          exact ⟨fun x => absurd x hnc, fun x => absurd x hnr, fun _ _ => (Option.some.inj h).symm⟩
        · have hyr : isRemisPlayer o (applyMove m S) = .ok true := by
            rw [← flag_true_iff_remis, hr]
          simp only [if_true] at h
          exact ⟨fun x => absurd x hnc, fun _ => (Option.some.inj h).symm, fun _ x => absurd hyr x⟩
    · -- checkmate
      have hyc : isCheckmatePlayer o (applyMove m S) = .ok true := by
        rw [← flag_true_iff_checkmate, hc]
      have hatt := isCheckmatePlayer_true_attacked hyc
      have hnr : ∀ s1, sameCore s1 (applyMove m S) → isRemisPlayer o s1 ≠ .ok true := by
        intro s1 hs hr
        rw [isRemisPlayer_congr hs] at hr
        have := isRemisPlayer_true_not_attacked hr
        rw [hatt] at this
        simp at this
      simp only [if_true] at h
      cases hr : (isRemisPlayer o { applyMove m S with
          Winner := if k = 119 then "w" else "b", TurnColor := "n" }).flag with
      | none => rw [hr] at h; simp at h
      | some r =>
        rw [hr] at h
        dsimp only at h
        cases r
        · simp only [Bool.false_eq_true, if_false] at h
          exact ⟨fun _ => (Option.some.inj h).symm,
            fun x => absurd x (hnr _ ⟨rfl, rfl, rfl⟩), fun x => absurd hyc x⟩
        · rw [flag_true_iff_remis] at hr
          exact absurd hr (hnr _ ⟨rfl, rfl, rfl⟩)

/-! ## The legality filter -/

theorem kingAttacked_panic_iff (color : Int) (S : BoardState) :
    kingAttacked color S = .panic ↔ isInBounds (kingSquare color S) = false := by
  rw [kingAttacked_eq, fieldAttacked_panic_iff, isInBounds_eq_isValid]

theorem filterLoop_ok (S : BoardState) :
    ∀ (ms ret res : List Move), filterLoop S ms ret = .ok res →
      res = ret ++ ms.filter (leavesKingSafe S)
  | [], ret, res, h => by
    simp only [filterLoop, Res.ok.injEq] at h
    simp [h]
  | m :: rest, ret, res, h => by
    unfold filterLoop at h
    cases hm : MakeMove m S false with
    | none => simp [hm] at h
    | some N =>
      rw [hm] at h
      dsimp only at h
      cases hk : kingAttacked m.Color N with
      | panic => simp [hk] at h
      | fail b e => simp [hk] at h
      | ok check =>
        rw [hk] at h
        dsimp only at h
        cases check
        · simp only [Bool.false_eq_true, if_false] at h
          have := filterLoop_ok S rest _ res h
          have hp : leavesKingSafe S m = true := by simp [leavesKingSafe, hm, hk]
          simp [this, List.filter_cons, hp]
        · simp only [if_true] at h
          have := filterLoop_ok S rest _ res h
          have hp : leavesKingSafe S m = false := by simp [leavesKingSafe, hm, hk]
          simp [this, List.filter_cons, hp]

theorem filterLoop_ne_panic (S : BoardState) (hw : isInBounds S.WhiteKingPos = true)
    (hb : isInBounds S.BlackKingPos = true) :
    ∀ (ms ret : List Move),
      (∀ m ∈ ms, isInBounds m.From = true ∧ isInBounds m.To = true) →
      filterLoop S ms ret ≠ .panic
  | [], ret, _ => by simp [filterLoop]
  | m :: rest, ret, hms => by
    obtain ⟨hf, ht⟩ := hms m (List.mem_cons_self _ _)
    have hrest : ∀ x ∈ rest, isInBounds x.From = true ∧ isInBounds x.To = true :=
      fun x hx => hms x (List.mem_cons_of_mem _ hx)
    unfold filterLoop
    rw [MakeMove_false_eq m S hf ht]
    dsimp only
    cases hk : kingAttacked m.Color (applyMove m S) with
    | panic =>
      rw [kingAttacked_panic_iff, applyMove_kingSquare_bounds m S _ ht hw hb] at hk
      simp at hk
    | fail b e => simp
    | ok check =>
      dsimp only
      split_ifs
      · exact filterLoop_ne_panic S hw hb rest _ hrest
      · exact filterLoop_ne_panic S hw hb rest _ hrest

/-- C2.  For every state `S` with in-bounds cached king squares and every list
`ms` of candidates with in-bounds squares, `FilterInvalidMoves ms S` does not
panic, and whenever it returns without error its result is exactly the
sub-sequence of `ms` (same order, same `Move` values) of the candidates `m` for
which `kingAttacked m.Color (MakeMove m S false)` is `false`: every returned
move leaves the mover's king un-attacked and no such candidate is dropped. -/
theorem FilterInvalidMoves_spec (S : BoardState) (ms : List Move)
    (hw : isInBounds S.WhiteKingPos = true) (hb : isInBounds S.BlackKingPos = true)
    (hms : ∀ m ∈ ms, isInBounds m.From = true ∧ isInBounds m.To = true) :
    FilterInvalidMoves ms S ≠ .panic ∧
    ∀ res, FilterInvalidMoves ms S = .ok res →
      res = ms.filter (leavesKingSafe S) ∧
      (∀ m ∈ res, ∃ N, MakeMove m S false = some N ∧ kingAttacked m.Color N = .ok false) ∧
      (∀ m ∈ ms, (∃ N, MakeMove m S false = some N ∧ kingAttacked m.Color N = .ok false) →
        m ∈ res) := by
  refine ⟨filterLoop_ne_panic S hw hb ms [] hms, fun res h => ?_⟩
  have hres : res = ms.filter (leavesKingSafe S) := by
    simpa using filterLoop_ok S ms [] res h
  refine ⟨hres, ?_, ?_⟩
  · intro m hm
    rw [hres, List.mem_filter] at hm
    have h2 := hm.2
    unfold leavesKingSafe at h2
    split at h2
    · rename_i N hN
      exact ⟨N, hN, by simpa using h2⟩
    · simp at h2
  · rintro m hm ⟨N, hN, hk⟩
    rw [hres, List.mem_filter]
    exact ⟨hm, by simp [leavesKingSafe, hN, hk]⟩

/-! ## The order of the checks of `ValidateMove` -/

/-- C10.  `ValidateMove` reports the first failing check, in this order, each
with its own error: wrong turn (whatever else is wrong with the move); a square
out of bounds; an origin not holding a piece of the mover's colour; a
destination holding a piece of the mover's colour; a move not among the
origin's generated candidates; a move not in the king-safety-filtered list.
Here `turn` is the first byte of the non-empty `TurnColor`. -/
theorem ValidateMove_first_failure (S : BoardState) (m : Move) (turn : Int)
    (hturn : (strBytes S.TurnColor).head? = some turn) :
    (m.Color ≠ turn → ValidateMove m S = .fail () (.notTurn m.Color)) ∧
    (m.Color = turn → (isInBounds m.From = false ∨ isInBounds m.To = false) →
      ValidateMove m S = .fail () (.text "move out of bounds")) ∧
    (m.Color = turn → isInBounds m.From = true → isInBounds m.To = true →
      (getColorAndPiece m.From.1 m.From.2 S.Board).1 ≠ m.Color →
      ValidateMove m S = .fail () (.text "the piece to be moved is not owned")) ∧
    (m.Color = turn → isInBounds m.From = true → isInBounds m.To = true →
      (getColorAndPiece m.From.1 m.From.2 S.Board).1 = m.Color →
      (getColorAndPiece m.To.1 m.To.2 S.Board).1 = m.Color →
      ValidateMove m S = .fail () (.text "the target position contains an owned piece")) ∧
    (m.Color = turn → isInBounds m.From = true → isInBounds m.To = true →
      (getColorAndPiece m.From.1 m.From.2 S.Board).1 = m.Color →
      (getColorAndPiece m.To.1 m.To.2 S.Board).1 ≠ m.Color →
      IsMoveInMoves m (GenerateMovesForPiece m.From.1 m.From.2 S []) = false →
      ValidateMove m S = .fail () (.text "move doesn't exist")) ∧
    (m.Color = turn → isInBounds m.From = true → isInBounds m.To = true →
      (getColorAndPiece m.From.1 m.From.2 S.Board).1 = m.Color →
      (getColorAndPiece m.To.1 m.To.2 S.Board).1 ≠ m.Color →
      IsMoveInMoves m (GenerateMovesForPiece m.From.1 m.From.2 S []) = true →
      ∀ valid, FilterInvalidMoves (GenerateMovesForPiece m.From.1 m.From.2 S []) S = .ok valid →
      IsMoveInMoves m valid = false →
      ValidateMove m S = .fail () (.text "move is not valid")) ∧
    [Err.notTurn m.Color, .text "move out of bounds", .text "the piece to be moved is not owned",
      .text "the target position contains an owned piece", .text "move doesn't exist",
      .text "move is not valid"].Nodup := by
  refine ⟨?_, ?_, ?_, ?_, ?_, ?_, ?_⟩
  · intro h
    simp [ValidateMove, hturn, h]
  · intro h hb
    rcases hb with hb | hb <;> simp [ValidateMove, hturn, h, hb]
  · intro h hf ht h1
    subst h
    simp [ValidateMove, hturn, hf, ht, h1]
  · intro h hf ht h1 h2
    subst h
    simp [ValidateMove, hturn, hf, ht, h1, h2]
  · intro h hf ht h1 h2 h3
    subst h
    simp [ValidateMove, hturn, hf, ht, h1, h2, h3]
  · intro h hf ht h1 h2 h3 valid h4 h5
    subst h
    simp [ValidateMove, hturn, hf, ht, h1, h2, h3, h4, h5]
  · simp only [List.nodup_cons, List.mem_cons, List.mem_singleton, List.not_mem_nil,
      List.nodup_nil, Err.text.injEq, or_false, and_true]
    refine ⟨?_, ?_, ?_, ?_, ?_⟩ <;> simp

/-! ## Full move validation -/

theorem IsMoveInMoves_iff (m : Move) : ∀ l : List Move,
    IsMoveInMoves m l = true ↔
      ∃ x ∈ l, x.From = m.From ∧ x.To = m.To ∧ x.Color = m.Color
  | [] => by simp [IsMoveInMoves]
  | x :: rest => by
    unfold IsMoveInMoves
    by_cases h : EqMove m x = true
    · simp only [h, if_true, true_iff]
      simp only [EqMove, Bool.and_eq_true, decide_eq_true_eq] at h
      exact ⟨x, List.mem_cons_self _ _, h.1.1.symm, h.1.2.symm, h.2.symm⟩
    · simp only [h, if_false, Bool.false_eq_true]
      rw [IsMoveInMoves_iff m rest]
      simp only [EqMove, Bool.and_eq_true, decide_eq_true_eq] at h
      constructor
      · rintro ⟨y, hy, hh⟩
        exact ⟨y, List.mem_cons_of_mem _ hy, hh⟩
      · rintro ⟨y, hy, h1, h2, h3⟩
        rcases List.mem_cons.1 hy with rfl | hy
        · exact absurd ⟨⟨h1.symm, h2.symm⟩, h3.symm⟩ h
        · exact ⟨y, hy, h1, h2, h3⟩

theorem charBytes_head_lt (c : Char) (b : Int) (h : (charBytes c).head? = some b)
    (hb : b < 128) : ((c.toNat : Nat) : Int) = b := by
  unfold charBytes at h
  dsimp only at h
  split_ifs at h <;> simp at h <;> omega

theorem charBytes_head_ascii (c : Char) (hc : c.toNat < 128) :
    (charBytes c).head? = some ((c.toNat : Nat) : Int) := by
  unfold charBytes
  dsimp only
  rw [if_pos (by omega)]
  rfl

theorem strBytes_head (s : String) :
    (strBytes s).head? = s.data.head?.bind (fun c => (charBytes c).head?) := by
  unfold strBytes
  cases hs : s.data with
  | nil => simp
  | cons c rest =>
    simp only [List.flatMap_cons, List.head?_cons, Option.some_bind]
    unfold charBytes
    dsimp only
    split_ifs <;> simp

theorem applyMove_congr {m1 m2 : Move} (S : BoardState) (hf : m1.From = m2.From)
    (ht : m1.To = m2.To) : applyMove m1 S = applyMove m2 S := by
  simp [applyMove, MoveToString, hf, ht]

/-- C1.  `ValidateMove m S` returns `nil` if and only if (1) `m.Color` is the
first character of `S.TurnColor`, (2) `m.From` and `m.To` are in bounds, and
(3) `FilterInvalidMoves` applied to the moves `GenerateMovesForPiece` generates
for the square `m.From` succeeds and its result contains a move with the same
`From`, `To` and `Color` as `m`.  The ownership checks and the final re-probe
never change this verdict.  (No assumption on `S` is needed: with an empty
`TurnColor` or a cached king square out of bounds neither side holds.) -/
theorem ValidateMove_nil_iff (S : BoardState) (m : Move) :
    ValidateMove m S = .ok () ↔
      (∃ c : Char, S.TurnColor.data.head? = some c ∧ ((c.toNat : Nat) : Int) = m.Color) ∧
      isInBounds m.From = true ∧ isInBounds m.To = true ∧
      ∃ valid, FilterInvalidMoves (GenerateMovesForPiece m.From.1 m.From.2 S []) S = .ok valid ∧
        ∃ x ∈ valid, x.From = m.From ∧ x.To = m.To ∧ x.Color = m.Color := by
  constructor
  · intro h
    unfold ValidateMove at h
    cases ht : (strBytes S.TurnColor).head? with
    | none => simp [ht] at h
    | some turn =>
      rw [ht] at h
      dsimp only at h
      split_ifs at h with h1 h2 h3 h4 h5
      cases hfl : FilterInvalidMoves (GenerateMovesForPiece m.From.1 m.From.2 S []) S with
      | panic => simp [hfl] at h
      | fail b e => simp [hfl] at h
      | ok valid =>
        rw [hfl] at h
        dsimp only at h
        split_ifs at h with h6
        simp only [Bool.or_eq_true, Bool.not_eq_true', not_or, Bool.not_eq_false] at h2
        simp only [Bool.not_eq_true', Bool.not_eq_false] at h6
        refine ⟨?_, h2.1, h2.2, valid, rfl, (IsMoveInMoves_iff m valid).1 h6⟩
        rw [strBytes_head] at ht
        cases hd : S.TurnColor.data.head? with
        | none => simp [hd] at ht
        | some c =>
          rw [hd] at ht
          simp only [Option.some_bind] at ht
          have hcol : m.Color = turn := by simpa using h1
          refine ⟨c, rfl, ?_⟩
          rw [hcol]
          apply charBytes_head_lt c turn ht
          have hc3 : (getColorAndPiece m.From.1 m.From.2 S.Board).1 = m.Color := by
            simpa using h3
          rcases getColor_cases m.From.1 m.From.2 S.Board with e | e | e <;> omega
  · rintro ⟨⟨c, hc, hcol⟩, hf, ht, valid, hfl, x, hx, hxf, hxt, hxc⟩
    have hvalid : valid = (GenerateMovesForPiece m.From.1 m.From.2 S []).filter
        (leavesKingSafe S) := by
      simpa using filterLoop_ok S _ [] valid hfl
    rw [hvalid, List.mem_filter] at hx
    have hgen := GenerateMovesForPiece_valid hx.1
    have hsafe := hx.2
    obtain ⟨-, -, g3, g4, -⟩ := hgen
    have hfrom : (getColorAndPiece m.From.1 m.From.2 S.Board).1 = m.Color := by
      rw [← hxc, g3]
    have hto : (getColorAndPiece m.To.1 m.To.2 S.Board).1 ≠ m.Color := by
      rw [← hxc, ← hxt]; exact g4
    have hturn : (strBytes S.TurnColor).head? = some m.Color := by
      rw [strBytes_head, hc, Option.some_bind, ← hcol]
      apply charBytes_head_ascii
      have : ((c.toNat : Nat) : Int) < 128 := by
        rw [hcol, ← hfrom]
        rcases getColor_cases m.From.1 m.From.2 S.Board with e | e | e <;> omega
      omega
    have hin1 : IsMoveInMoves m (GenerateMovesForPiece m.From.1 m.From.2 S []) = true :=
      (IsMoveInMoves_iff m _).2 ⟨x, hx.1, hxf, hxt, hxc⟩
    have hin2 : IsMoveInMoves m valid = true := by
      rw [hvalid]
      exact (IsMoveInMoves_iff m _).2 ⟨x, List.mem_filter.2 hx, hxf, hxt, hxc⟩
    have hk : kingAttacked m.Color (applyMove m S) = .ok false := by
      unfold leavesKingSafe at hsafe
      rw [MakeMove_false_eq x S (by rw [hxf]; exact hf) (by rw [hxt]; exact ht)] at hsafe
      rw [← applyMove_congr S hxf hxt, ← hxc]
      simpa using hsafe
    simp [ValidateMove, hturn, hf, ht, hfrom, hto, hin1, hfl, hin2, MakeMove_false_eq m S hf ht,
      hk]

/-! ## Checkmate and stalemate on concrete boards -/

set_option maxRecDepth 1000000 in
/-- C3 (code at the failing input).  On `backRankMate` the cached king squares
hold the kings, black's king is attacked and black has no legal move
(`FilterInvalidMoves` of all of black's pseudo-legal moves is empty), yet
`isCheckmatePlayer` answers `false`: `kingMoveable` probes the square (0,0)
with the king still standing on (0,1), where it shields (0,0) from the rook.
Consequently `MakeMove` with terminal check leaves the game undecided after
the mating move.  On the `TestIsCheckmate` board the answer is `true`. -/
theorem isCheckmatePlayer_misses_xray :
    cell backRankMate.Board 7 4 = 120 ∧ cell backRankMate.Board 0 1 = 88 ∧
    kingAttacked 98 backRankMate = .ok true ∧
    FilterInvalidMoves (AllPossibleMoves 98 backRankMate []) backRankMate = .ok [] ∧
    isCheckmatePlayer 98 backRankMate = .ok false ∧
    ValidateMove backRankMove beforeBackRankMate = .ok () ∧
    (MakeMove backRankMove beforeBackRankMate true).map
      (fun N => (N.Winner, N.TurnColor)) = some ("n", "b") ∧
    isCheckmatePlayer 98 testCheckmateBoard = .ok true := by
  decide

set_option maxRecDepth 1000000 in
/-- C4 (code at the failing input).  On `pinnedKnightStalemate` the cached king
squares hold the kings, black's king is not attacked and black has no legal
move (the knight is pinned, the king has no safe square), yet `isRemisPlayer`
answers `false`, because it asks for the list of pseudo-legal moves of the
other pieces to be empty instead of filtering it.  On the boards of
`TestRemisPlayer` the answers are `true` and `false`. -/
theorem isRemisPlayer_misses_pinned :
    cell pinnedKnightStalemate.Board 7 4 = 120 ∧ cell pinnedKnightStalemate.Board 0 0 = 88 ∧
    kingAttacked 98 pinnedKnightStalemate = .ok false ∧
    FilterInvalidMoves (AllPossibleMoves 98 pinnedKnightStalemate []) pinnedKnightStalemate =
      .ok [] ∧
    AllPossibleMoves 98 pinnedKnightStalemate [120] ≠ [] ∧
    isRemisPlayer 98 pinnedKnightStalemate = .ok false ∧
    isRemisPlayer 98 testRemisBoard = .ok true ∧
    isRemisPlayer 98 testRemisBoardRook = .ok false := by
  decide

/-! ## The king invariant -/

theorem getColor_eq_colorOf {row col : Int} (board : Grid) (h : isValid row col = true) :
    (getColorAndPiece row col board).1 = colorOf (cell board row col) := by
  rw [getColorAndPiece_valid board h]
  unfold colorOf
  split_ifs <;> rfl

theorem getPiece_ne_empty_of_cell {row col : Int} (board : Grid) (h : isValid row col = true)
    (hc : cell board row col ≠ 32) : (getColorAndPiece row col board).2 ≠ 32 := by
  rw [Ne, getPiece_empty_iff, getColor_eq_colorOf board h]
  unfold colorOf
  split_ifs <;> omega

theorem colorOf_kingCell {k : Int} (hk : k = 119 ∨ k = 98) : colorOf (kingCell k) = k := by
  rcases hk with rfl | rfl <;> decide

theorem kingCell_ne_empty (k : Int) : kingCell k ≠ 32 := by
  unfold kingCell; split_ifs <;> decide

theorem applyMove_kingSquare (m : Move) (S : BoardState) {k : Int} (hk : k = 119 ∨ k = 98)
    (hf : isValid m.From.1 m.From.2 = true) :
    kingSquare k (applyMove m S) =
      if cell S.Board m.From.1 m.From.2 = kingCell k then m.To else kingSquare k S := by
  have hW := whiteKing_iff S.Board hf
  have hB := blackKing_iff S.Board hf
  rcases hk with rfl | rfl
  · simp only [kingSquare, applyMove, kingCell, if_true, Bool.and_eq_true, decide_eq_true_eq, hW]
  · simp only [kingSquare, applyMove, kingCell, Bool.and_eq_true, decide_eq_true_eq, hB]
    simp

theorem applyMove_cell (m : Move) (S : BoardState) {r c : Int} (h : isValid r c = true) :
    cell (applyMove m S).Board r c =
      if r = m.From.1 ∧ c = m.From.2 then 32
      else if r = m.To.1 ∧ c = m.To.2 then cell S.Board m.From.1 m.From.2
      else cell S.Board r c := by
  simp only [applyMove]
  rw [cell_setCell _ _ _ _ h]
  split_ifs with h1 h2
  · rfl
  · rw [cell_setCell _ _ _ _ h, if_pos h2]
  · rw [cell_setCell _ _ _ _ h, if_neg h2]

/-- Applying a move keeps the king of `k` in step with the cache, provided the
destination is not the origin and, unless the moved piece is that king, not
the king's square. -/
theorem KingOK_applyMove {m : Move} {S : BoardState} {k : Int} (hk : k = 119 ∨ k = 98)
    (hS : KingOK k S) (hf : isValid m.From.1 m.From.2 = true)
    (ht : isValid m.To.1 m.To.2 = true) (hne : m.To ≠ m.From)
    (hto : cell S.Board m.From.1 m.From.2 ≠ kingCell k → m.To ≠ kingSquare k S) :
    KingOK k (applyMove m S) := by
  obtain ⟨hb, hcells⟩ := hS
  rw [KingOK, applyMove_kingSquare m S hk hf]
  by_cases hv : cell S.Board m.From.1 m.From.2 = kingCell k
  · have hfrom : m.From = kingSquare k S := by
      have := (hcells _ _ hf).1 hv
      simpa using this
    rw [if_pos hv]
    refine ⟨by rw [isInBounds_eq_isValid]; exact ht, fun r c hrc => ?_⟩
    rw [applyMove_cell m S hrc]
    split_ifs with h1 h2
    · constructor
      · intro e; exact absurd e.symm (kingCell_ne_empty k)
      · intro e
        exact absurd (e.symm.trans (Prod.ext h1.1 h1.2)) hne
    · constructor
      · intro _; exact Prod.ext h2.1 h2.2
      · intro _; exact hv
    · constructor
      · intro e
        have := (hcells r c hrc).1 e
        rw [← hfrom] at this
        exact absurd ⟨congrArg Prod.fst this, congrArg Prod.snd this⟩ h1
      · intro e
        exact absurd ⟨congrArg Prod.fst e, congrArg Prod.snd e⟩ h2
  · have hto2 := hto hv
    have hfrom : m.From ≠ kingSquare k S := by
      intro e
      have := (hcells m.From.1 m.From.2 hf).2 (by rw [← e])
      exact hv this
    rw [if_neg hv]
    refine ⟨hb, fun r c hrc => ?_⟩
    rw [applyMove_cell m S hrc]
    split_ifs with h1 h2
    · constructor
      · intro e; exact absurd e.symm (kingCell_ne_empty k)
      · intro e
        exact absurd (e.symm.trans (Prod.ext h1.1 h1.2)).symm hfrom
    · constructor
      · intro e; exact absurd e hv
      · intro e
        exact absurd (e.symm.trans (Prod.ext h2.1 h2.2)).symm hto2
    · exact hcells r c hrc

theorem attackScan_ok_false (row col : Int) :
    ∀ (ms : List Move) (i : Nat), attackScan row col ms i = .ok false →
      ∀ x ∈ ms, ¬ (x.To = (row, col) ∧ x.Capture = true)
  | [], _, _ => by simp
  | m :: rest, i, h => by
    unfold attackScan at h
    split_ifs at h with h1 h2 h3
    · intro x hx
      rcases List.mem_cons.1 hx with rfl | hx
      · rintro ⟨e, -⟩
        rw [e] at h2
        simp at h2
      · exact attackScan_ok_false row col rest _ h x hx
    · intro x hx
      rcases List.mem_cons.1 hx with rfl | hx
      · rintro ⟨-, e⟩
        rw [e] at h3
        simp at h3
      · exact attackScan_ok_false row col rest _ h x hx
    · simp at h

/-- What an accepted move has passed. -/
theorem ValidateMove_ok_facts {m : Move} {S : BoardState} (h : ValidateMove m S = .ok ()) :
    (strBytes S.TurnColor).head? = some m.Color ∧
    isInBounds m.From = true ∧ isInBounds m.To = true ∧
    (getColorAndPiece m.From.1 m.From.2 S.Board).1 = m.Color ∧
    (getColorAndPiece m.To.1 m.To.2 S.Board).1 ≠ m.Color ∧
    IsMoveInMoves m (GenerateMovesForPiece m.From.1 m.From.2 S []) = true ∧
    kingAttacked m.Color (applyMove m S) = .ok false := by
  unfold ValidateMove at h
  cases ht : (strBytes S.TurnColor).head? with
  | none => simp [ht] at h
  | some turn =>
    rw [ht] at h
    dsimp only at h
    split_ifs at h with h1 h2 h3 h4 h5
    simp only [Bool.or_eq_true, Bool.not_eq_true', not_or, Bool.not_eq_false] at h2
    cases hfl : FilterInvalidMoves (GenerateMovesForPiece m.From.1 m.From.2 S []) S with
    | panic => simp [hfl] at h
    | fail b e => simp [hfl] at h
    | ok valid =>
      rw [hfl] at h
      dsimp only at h
      split_ifs at h with h6
      rw [MakeMove_false_eq m S h2.1 h2.2] at h
      dsimp only at h
      cases hk : kingAttacked m.Color (applyMove m S) with
      | panic => simp [hk] at h
      | fail b e => simp [hk] at h
      | ok att =>
        rw [hk] at h
        dsimp only at h
        split_ifs at h with h7
        have hcol : m.Color = turn := by simpa using h1
        refine ⟨by rw [hcol], h2.1, h2.2, by simpa using h3, h4, by simpa using h5, ?_⟩
        simpa using h7

theorem MakeMove_true_shape {m : Move} {S N : BoardState} (h : MakeMove m S true = some N) :
    ∃ w t, N = { applyMove m S with Winner := w, TurnColor := t } ∧
      (t = "n" ∨ t = (applyMove m S).TurnColor) := by
  obtain ⟨hf, ht⟩ := MakeMove_bounds h
  simp only [MakeMove, hf, ht, Bool.not_true, Bool.or_self, Bool.false_eq_true, if_false,
    if_true] at h
  split at h
  · simp at h
  · rename_i c hc
    cases c
    · simp only [Bool.false_eq_true, if_false] at h
      split at h
      · simp at h
      · split_ifs at h
        · exact ⟨_, _, (Option.some.inj h).symm, Or.inl rfl⟩
        · exact ⟨_, _, (Option.some.inj h).symm, Or.inr rfl⟩
    · simp only [if_true] at h
      split at h
      · simp at h
      · split_ifs at h
        · exact ⟨_, _, (Option.some.inj h).symm, Or.inl rfl⟩
        · exact ⟨_, _, (Option.some.inj h).symm, Or.inl rfl⟩

theorem GenerateMovesForPiece_of_empty {row col : Int} {S : BoardState}
    (h : (getColorAndPiece row col S.Board).2 = 32) (acc : List Move) :
    GenerateMovesForPiece row col S acc = acc := by
  unfold GenerateMovesForPiece
  simp [h]

theorem setCell_same {board : Grid} {row col v : Int}
    (h : cell board row col = v) : setCell board row col v = board := by
  funext i j
  unfold setCell
  split_ifs with h1
  · rw [← h, ← h1.1, ← h1.2, cell_coe]
  · rfl

theorem enemyOf_enemyOf {c : Int} (hc : c = 119 ∨ c = 98) : enemyOf (enemyOf c) = c := by
  rcases hc with rfl | rfl <;> decide

theorem strBytes_colorName {c : Int} (hc : c = 119 ∨ c = 98) :
    (strBytes (colorName c)).head? = some c := by
  rcases hc with rfl | rfl <;> decide

/-- After a move that leaves the mover's king un-attacked, no pseudo-legal move
of the other side lands on that king. -/
theorem safeFrom_of_not_attacked {A : BoardState} {c : Int} (hc : c = 119 ∨ c = 98)
    (hK : KingOK c A) (h : kingAttacked c A = .ok false) :
    safeFrom (enemyOf c) A (kingSquare c A) := by
  obtain ⟨hb, hcells⟩ := hK
  rw [isInBounds_eq_isValid] at hb
  rw [kingAttacked_eq, fieldAttacked_of_valid hb] at h
  have hsent : (if enemyOf c = 119 then (88 : Int) else 120) = kingCell c := by
    rcases hc with rfl | rfl <;> decide
  have hcell : cell A.Board (kingSquare c A).1 (kingSquare c A).2 = kingCell c :=
    (hcells _ _ hb).2 rfl
  rw [hsent, @AllPossibleMoves_congr _ A (by simp only [setCell_same hcell])] at h
  intro y hy hto
  have hno := attackScan_ok_false _ _ _ _ h y hy
  obtain ⟨r, c', -, -, -, -, hgen⟩ := mem_AllPossibleMoves.1 hy
  obtain ⟨-, hyv, -, -, hcap⟩ := GenerateMovesForPiece_valid hgen
  apply hno
  refine ⟨hto, hcap.2 ?_⟩
  apply getPiece_ne_empty_of_cell A.Board hyv
  rw [hto, hcell]
  exact kingCell_ne_empty c

theorem valid_of_KingOK {k : Int} {S : BoardState} (h : KingOK k S) :
    isValid (kingSquare k S).1 (kingSquare k S).2 = true := by
  rw [← isInBounds_eq_isValid]; exact h.1

/-- Where an accepted move can land: the mover `c` is the side to move, owns the
piece on the origin, and the destination is neither the origin nor a king's
square. -/
theorem accepted_facts {S : BoardState} {m : Move} (hI : GameInv S)
    (hv : ValidateMove m S = .ok ()) :
    ∃ c : Int, (c = 119 ∨ c = 98) ∧ m.Color = c ∧
      colorOf (cell S.Board m.From.1 m.From.2) = c ∧ m.To ≠ m.From ∧
      m.To ≠ kingSquare c S ∧ m.To ≠ kingSquare (enemyOf c) S := by
  obtain ⟨hturn, hf, ht, hfromc, htoc, hin, -⟩ := ValidateMove_ok_facts hv
  obtain ⟨x, hx, hxf, hxt, hxc⟩ := (IsMoveInMoves_iff m _).1 hin
  obtain ⟨hKW, hKB, hT⟩ := hI
  have hfv : isValid m.From.1 m.From.2 = true := by rw [← isInBounds_eq_isValid]; exact hf
  have htv : isValid m.To.1 m.To.2 = true := by rw [← isInBounds_eq_isValid]; exact ht
  rcases hT with hn | ⟨c, hc, hTc, hsf⟩
  · exfalso
    rw [hn] at hturn
    have h110 : m.Color = 110 := by
      have : (strBytes "n").head? = some (110 : Int) := by decide
      rw [this] at hturn
      exact (Option.some.inj hturn).symm
    rw [h110, ← getPiece_empty_iff] at hfromc
    rw [GenerateMovesForPiece_of_empty hfromc] at hx
    simp at hx
  · have hmc : m.Color = c := by
      rw [hTc, strBytes_colorName hc] at hturn
      exact (Option.some.inj hturn).symm
    have hK : KingOK c S := by
      rcases hc with rfl | rfl
      · exact hKW
      · exact hKB
    have hfromcol : colorOf (cell S.Board m.From.1 m.From.2) = c := by
      rw [← getColor_eq_colorOf S.Board hfv, hfromc, hmc]
    have htocol : colorOf (cell S.Board m.To.1 m.To.2) ≠ c := by
      rw [← getColor_eq_colorOf S.Board htv, ← hmc]; exact htoc
    refine ⟨c, hc, hmc, hfromcol, ?_, ?_, ?_⟩
    · intro e
      rw [e] at htocol
      exact htocol hfromcol
    · intro e
      have := (hK.2 _ _ htv).2 (by rw [e])
      rw [this, colorOf_kingCell hc] at htocol
      exact htocol rfl
    · rw [← hxt]
      apply hsf x
      rw [mem_AllPossibleMoves]
      refine ⟨m.From.1, m.From.2, hfv, by rw [hfromc, hmc], ?_, by simp [isExcluded], hx⟩
      rw [Ne, getPiece_empty_iff, hfromc, hmc]
      rcases hc with rfl | rfl <;> decide

/-- The invariant is kept by every accepted move. -/
theorem GameInv_step {S N : BoardState} {m : Move} (hI : GameInv S)
    (hv : ValidateMove m S = .ok ()) (hm : MakeMove m S true = some N) : GameInv N := by
  obtain ⟨c, hc, hmc, hfromcol, hne, hnotOwnKing, hnotEnemyKing⟩ := accepted_facts hI hv
  obtain ⟨-, hf, ht, hfromc, -, -, hsafe⟩ := ValidateMove_ok_facts hv
  obtain ⟨hKW, hKB, -⟩ := hI
  have hfv : isValid m.From.1 m.From.2 = true := by rw [← isInBounds_eq_isValid]; exact hf
  have htv : isValid m.To.1 m.To.2 = true := by rw [← isInBounds_eq_isValid]; exact ht
  have hK : ∀ k, k = 119 ∨ k = 98 → KingOK k S := by
    rintro k (rfl | rfl)
    · exact hKW
    · exact hKB
  have he : enemyOf c = 119 ∨ enemyOf c = 98 := by
    rcases hc with rfl | rfl <;> decide
  have hA1 : KingOK c (applyMove m S) :=
    KingOK_applyMove hc (hK c hc) hfv htv hne (fun _ => hnotOwnKing)
  have hA2 : KingOK (enemyOf c) (applyMove m S) :=
    KingOK_applyMove he (hK _ he) hfv htv hne (fun _ => hnotEnemyKing)
  have hAK : ∀ k, k = 119 ∨ k = 98 → KingOK k (applyMove m S) := by
    intro k hk
    rcases hc with rfl | rfl <;> rcases hk with rfl | rfl
    · exact hA1
    · exact hA2
    · exact hA2
    · exact hA1
  have hsafeN := safeFrom_of_not_attacked hc hA1 (by rw [← hmc]; exact hsafe)
  obtain ⟨w, t, rfl, htn⟩ := MakeMove_true_shape hm
  refine ⟨hAK 119 (Or.inl rfl), hAK 98 (Or.inr rfl), ?_⟩
  rcases htn with rfl | rfl
  · exact Or.inl rfl
  · right
    refine ⟨enemyOf c, he, ?_, ?_⟩
    · show (applyMove m S).TurnColor = colorName (enemyOf c)
      simp only [applyMove, hfromc, hmc]
      rcases hc with rfl | rfl <;> decide
    · rw [enemyOf_enemyOf hc]
      intro y hy
      have e := @AllPossibleMoves_congr
        { applyMove m S with Winner := w, TurnColor := (applyMove m S).TurnColor }
        (applyMove m S) rfl (enemyOf c) []
      rw [e] at hy
      exact hsafeN y hy

set_option maxRecDepth 1000000 in
theorem GameInv_init : GameInv { initialState with TurnColor := "w" } := by
  have h1 : ∀ r c : Fin 8,
      (initialState.Board r c = 120 ↔ (((r : Nat) : Int), ((c : Nat) : Int)) = (7, 4)) ∧
      (initialState.Board r c = 88 ↔ (((r : Nat) : Int), ((c : Nat) : Int)) = (0, 4)) := by
    decide
  have h2 : ∀ x ∈ AllPossibleMoves 119 { initialState with TurnColor := "w" } [],
      x.To ≠ (0, 4) := by
    decide
  refine ⟨⟨by decide, fun r c hrc => ?_⟩, ⟨by decide, fun r c hrc => ?_⟩,
    Or.inr ⟨119, Or.inl rfl, rfl, h2⟩⟩
  · obtain ⟨i, j, rfl, rfl⟩ := exists_fin_of_valid hrc
    rw [cell_coe]
    exact (h1 i j).1
  · obtain ⟨i, j, rfl, rfl⟩ := exists_fin_of_valid hrc
    rw [cell_coe]
    exact (h1 i j).2

theorem GameInv_of_reachable {S : BoardState} (h : Reachable S) : GameInv S := by
  induction h with
  | init => exact GameInv_init
  | step _ hv hm ih => exact GameInv_step ih hv hm

theorem kingCells_of_KingOK {k : Int} {S : BoardState} (h : KingOK k S) :
    (∀ i j : Fin 8,
      S.Board i j = kingCell k ↔ (((i : Nat) : Int), ((j : Nat) : Int)) = kingSquare k S) ∧
    ∃! p : Fin 8 × Fin 8, S.Board p.1 p.2 = kingCell k := by
  have hcells : ∀ i j : Fin 8,
      S.Board i j = kingCell k ↔ (((i : Nat) : Int), ((j : Nat) : Int)) = kingSquare k S := by
    intro i j
    rw [← cell_coe S.Board i j]
    exact h.2 _ _ (by rw [isValid_iff]; omega)
  refine ⟨hcells, ?_⟩
  obtain ⟨i, j, hi, hj⟩ := exists_fin_of_valid (valid_of_KingOK h)
  refine ⟨(i, j), (hcells i j).2 (Prod.ext hi hj), ?_⟩
  rintro ⟨i2, j2⟩ h2
  have := (hcells i2 j2).1 h2
  have e1 : ((i2 : Nat) : Int) = ((i : Nat) : Int) := by rw [hi]; exact congrArg Prod.fst this
  have e2 : ((j2 : Nat) : Int) = ((j : Nat) : Int) := by rw [hj]; exact congrArg Prod.snd this
  exact Prod.ext (Fin.ext (by exact_mod_cast e1)) (Fin.ext (by exact_mod_cast e2))

/-- C5.  King invariant over reachable states: in every state reachable from the
state built by `InitializeBoard` (with `TurnColor` set to `"w"`) by applying
`MakeMove m S true` to moves accepted by `ValidateMove`, the board holds
exactly one `'x'` and exactly one `'X'`, `WhiteKingPos` is the square of the
`'x'` and `BlackKingPos` the square of the `'X'`; and every move accepted in
such a state is applied without panic and does not land on a king. -/
theorem king_invariant (S : BoardState) (h : Reachable S) :
    (isInBounds S.WhiteKingPos = true ∧ ∀ i j : Fin 8,
      S.Board i j = 120 ↔ (((i : Nat) : Int), ((j : Nat) : Int)) = S.WhiteKingPos) ∧
    (isInBounds S.BlackKingPos = true ∧ ∀ i j : Fin 8,
      S.Board i j = 88 ↔ (((i : Nat) : Int), ((j : Nat) : Int)) = S.BlackKingPos) ∧
    (∃! p : Fin 8 × Fin 8, S.Board p.1 p.2 = 120) ∧
    (∃! p : Fin 8 × Fin 8, S.Board p.1 p.2 = 88) ∧
    ∀ m, ValidateMove m S = .ok () →
      (∃ N, MakeMove m S true = some N) ∧
      cell S.Board m.To.1 m.To.2 ≠ 120 ∧ cell S.Board m.To.1 m.To.2 ≠ 88 := by
  have hI := GameInv_of_reachable h
  obtain ⟨hW, hB, -⟩ := hI
  have cW := kingCells_of_KingOK hW
  have cB := kingCells_of_KingOK hB
  refine ⟨⟨hW.1, cW.1⟩, ⟨hB.1, cB.1⟩, cW.2, cB.2, fun m hv => ?_⟩
  obtain ⟨-, hf, ht, -, -, -, -⟩ := ValidateMove_ok_facts hv
  obtain ⟨c, hc, -, -, -, h1, h2⟩ := accepted_facts (GameInv_of_reachable h) hv
  have htv : isValid m.To.1 m.To.2 = true := by rw [← isInBounds_eq_isValid]; exact ht
  refine ⟨MakeMove_total m S true hf ht hW.1 hB.1, ?_, ?_⟩
  · intro e
    have := (hW.2 _ _ htv).1 e
    rcases hc with rfl | rfl
    · exact h1 this
    · exact h2 this
  · intro e
    have := (hB.2 _ _ htv).1 e
    rcases hc with rfl | rfl
    · exact h2 this
    · exact h1 this

/-! ## Acceptance by `ValidateMove` -/

/-- The checks of `ValidateMove` all pass for a move that is the side to move's
and has a twin (same squares and colour) in the filtered candidates of its
origin. -/
theorem ValidateMove_accepts {S : BoardState} {m x : Move} {valid : List Move}
    (hturn : (strBytes S.TurnColor).head? = some m.Color)
    (hf : isInBounds m.From = true) (ht : isInBounds m.To = true)
    (hfl : FilterInvalidMoves (GenerateMovesForPiece m.From.1 m.From.2 S []) S = .ok valid)
    (hx : x ∈ valid) (hxf : x.From = m.From) (hxt : x.To = m.To) (hxc : x.Color = m.Color) :
    ValidateMove m S = .ok () := by
  have hvalid : valid = (GenerateMovesForPiece m.From.1 m.From.2 S []).filter
      (leavesKingSafe S) := by
    simpa using filterLoop_ok S _ [] valid hfl
  rw [hvalid, List.mem_filter] at hx
  have hgen := GenerateMovesForPiece_valid hx.1
  have hsafe := hx.2
  obtain ⟨-, -, g3, g4, -⟩ := hgen
  have hfrom : (getColorAndPiece m.From.1 m.From.2 S.Board).1 = m.Color := by
    rw [← hxc, g3]
  have hto : (getColorAndPiece m.To.1 m.To.2 S.Board).1 ≠ m.Color := by
    rw [← hxc, ← hxt]; exact g4
  have hin1 : IsMoveInMoves m (GenerateMovesForPiece m.From.1 m.From.2 S []) = true :=
    (IsMoveInMoves_iff m _).2 ⟨x, hx.1, hxf, hxt, hxc⟩
  have hin2 : IsMoveInMoves m valid = true := by
    rw [hvalid]
    exact (IsMoveInMoves_iff m _).2 ⟨x, List.mem_filter.2 hx, hxf, hxt, hxc⟩
  have hk : kingAttacked m.Color (applyMove m S) = .ok false := by
    unfold leavesKingSafe at hsafe
    rw [MakeMove_false_eq x S (by rw [hxf]; exact hf) (by rw [hxt]; exact ht)] at hsafe
    rw [← applyMove_congr S hxf hxt, ← hxc]
    simpa using hsafe
  simp [ValidateMove, hturn, hf, ht, hfrom, hto, hin1, hfl, hin2, MakeMove_false_eq m S hf ht,
    hk]

theorem GenerateMovesForPiece_bounds {row col : Int} {S : BoardState} (hv : isValid row col = true) :
    ∀ m ∈ GenerateMovesForPiece row col S [],
      isInBounds m.From = true ∧ isInBounds m.To = true := by
  intro m hm
  obtain ⟨h1, h2, -⟩ := GenerateMovesForPiece_valid hm
  rw [isInBounds_eq_isValid, isInBounds_eq_isValid, h1]
  exact ⟨hv, h2⟩

theorem AllPossibleMoves_bounds {color : Int} {S : BoardState} {exclude : List Int} :
    ∀ m ∈ AllPossibleMoves color S exclude,
      isInBounds m.From = true ∧ isInBounds m.To = true := by
  intro m hm
  obtain ⟨r, c, hv, -, -, -, hgen⟩ := mem_AllPossibleMoves.1 hm
  exact GenerateMovesForPiece_bounds hv m hgen

/-- With a non-empty `TurnColor` and an in-bounds king cache `ValidateMove`
does not panic. -/
theorem ValidateMove_ne_panic {S : BoardState} (m : Move) {turn : Int}
    (hturn : (strBytes S.TurnColor).head? = some turn)
    (hw : isInBounds S.WhiteKingPos = true) (hb : isInBounds S.BlackKingPos = true) :
    ValidateMove m S ≠ .panic := by
  intro h
  unfold ValidateMove at h
  rw [hturn] at h
  dsimp only at h
  split_ifs at h with h1 h2 h3 h4 h5
  simp only [Bool.or_eq_true, Bool.not_eq_true', not_or, Bool.not_eq_false] at h2
  have hfv : isValid m.From.1 m.From.2 = true := by rw [← isInBounds_eq_isValid]; exact h2.1
  cases hfl : FilterInvalidMoves (GenerateMovesForPiece m.From.1 m.From.2 S []) S with
  | panic => exact filterLoop_ne_panic S hw hb _ [] (GenerateMovesForPiece_bounds hfv) hfl
  | fail b e => simp [hfl] at h
  | ok valid =>
    rw [hfl] at h
    dsimp only at h
    split_ifs at h with h6
    rw [MakeMove_false_eq m S h2.1 h2.2] at h
    dsimp only at h
    cases hk : kingAttacked m.Color (applyMove m S) with
    | panic =>
      rw [kingAttacked_panic_iff, applyMove_kingSquare_bounds m S _ h2.2 hw hb] at hk
      simp at hk
    | fail b e => simp [hk] at h
    | ok att => rw [hk] at h; dsimp only at h; split_ifs at h

theorem filterLoop_ok_each (S : BoardState) :
    ∀ (ms ret res : List Move), filterLoop S ms ret = .ok res →
      ∀ x ∈ ms, ∃ N b, MakeMove x S false = some N ∧ kingAttacked x.Color N = .ok b
  | [], _, _, _ => by simp
  | m :: rest, ret, res, h => by
    unfold filterLoop at h
    cases hm : MakeMove m S false with
    | none => simp [hm] at h
    | some N =>
      rw [hm] at h
      dsimp only at h
      cases hk : kingAttacked m.Color N with
      | panic => simp [hk] at h
      | fail b e => simp [hk] at h
      | ok check =>
        rw [hk] at h
        dsimp only at h
        intro x hx
        rcases List.mem_cons.1 hx with rfl | hx
        · exact ⟨N, check, hm, hk⟩
        · split_ifs at h
          · exact filterLoop_ok_each S rest _ res h x hx
          · exact filterLoop_ok_each S rest _ res h x hx

theorem filterLoop_of_each (S : BoardState) :
    ∀ (ms ret : List Move),
      (∀ x ∈ ms, ∃ N b, MakeMove x S false = some N ∧ kingAttacked x.Color N = .ok b) →
      filterLoop S ms ret = .ok (ret ++ ms.filter (leavesKingSafe S))
  | [], ret, _ => by simp [filterLoop]
  | m :: rest, ret, h => by
    obtain ⟨N, b, hm, hk⟩ := h m (List.mem_cons_self _ _)
    have hrest := fun x hx => h x (List.mem_cons_of_mem _ hx)
    unfold filterLoop
    rw [hm]
    dsimp only
    rw [hk]
    dsimp only
    cases b
    · have hp : leavesKingSafe S m = true := by simp [leavesKingSafe, hm, hk]
      simp only [Bool.false_eq_true, if_false]
      rw [filterLoop_of_each S rest _ hrest, List.filter_cons, hp]
      simp
    · have hp : leavesKingSafe S m = false := by simp [leavesKingSafe, hm, hk]
      simp only [if_true]
      rw [filterLoop_of_each S rest _ hrest, List.filter_cons, hp]
      simp

/-- Every move that survives the filter over all the moves of the side to move
is accepted by `ValidateMove`. -/
theorem ValidateMove_of_filtered {S : BoardState} {c : Int} {valid : List Move} {m : Move}
    (hturn : (strBytes S.TurnColor).head? = some c)
    (hfl : FilterInvalidMoves (AllPossibleMoves c S []) S = .ok valid) (hm : m ∈ valid) :
    ValidateMove m S = .ok () := by
  have hvalid : valid = (AllPossibleMoves c S []).filter (leavesKingSafe S) := by
    simpa using filterLoop_ok S _ [] valid hfl
  rw [hvalid, List.mem_filter] at hm
  obtain ⟨hmall, hsafe⟩ := hm
  obtain ⟨r, col, hv, hcol, hp, hex, hgen⟩ := mem_AllPossibleMoves.1 hmall
  obtain ⟨g1, g2, g3, -, -⟩ := GenerateMovesForPiece_valid hgen
  have hr : m.From.1 = r := by rw [g1]
  have hc : m.From.2 = col := by rw [g1]
  have heach := filterLoop_ok_each S _ [] valid hfl
  have hgenfl : FilterInvalidMoves (GenerateMovesForPiece m.From.1 m.From.2 S []) S =
      .ok ((GenerateMovesForPiece m.From.1 m.From.2 S []).filter (leavesKingSafe S)) := by
    have := filterLoop_of_each S (GenerateMovesForPiece m.From.1 m.From.2 S []) [] (by
      intro x hx
      apply heach x
      rw [mem_AllPossibleMoves]
      exact ⟨r, col, hv, hcol, hp, hex, by rw [hr, hc] at hx; exact hx⟩)
    simpa [FilterInvalidMoves] using this
  refine @ValidateMove_accepts S m m _ ?_ ?_ ?_ hgenfl ?_ rfl rfl rfl
  · rw [hturn, g3, hcol]
  · rw [isInBounds_eq_isValid, g1]; exact hv
  · rw [isInBounds_eq_isValid]; exact g2
  · rw [List.mem_filter]
    exact ⟨by rw [hr, hc]; exact hgen, hsafe⟩

theorem MoveAt_mem : ∀ (l : List Move) (n : Nat) (m : Move), MoveAt l n = some m → m ∈ l
  | [], _, _, h => by simp [MoveAt] at h
  | x :: _, 0, m, h => by
    simp only [MoveAt, Option.some.injEq] at h
    simp [h]
  | [x], n + 1, m, h => by
    simp only [MoveAt, Option.some.injEq] at h
    simp [h]
  | x :: y :: rest, n + 1, m, h => by
    simp only [MoveAt] at h
    exact List.mem_cons_of_mem _ (MoveAt_mem (y :: rest) n m h)

theorem MoveAt_ne_none : ∀ (l : List Move) (n : Nat), l ≠ [] → MoveAt l n ≠ none
  | [], _, h => absurd rfl h
  | x :: _, 0, _ => by simp [MoveAt]
  | [x], n + 1, _ => by simp [MoveAt]
  | x :: y :: rest, n + 1, _ => by
    simp only [MoveAt]
    exact MoveAt_ne_none (y :: rest) n (by simp)

/-! ## The session state machine -/

theorem chessToIndex_ne_panic (pos : List Int) : chessToIndex pos ≠ .panic := by
  unfold chessToIndex
  split
  · dsimp only; split_ifs <;> simp
  · simp

theorem StringToMoveStruct_ne_panic (s : String) (color : Int) :
    StringToMoveStruct s color ≠ .panic := by
  unfold StringToMoveStruct
  dsimp only
  split_ifs
  · simp
  · split
    · rename_i e; exact absurd e (chessToIndex_ne_panic _)
    · simp
    · simp
    · split
      · rename_i e; exact absurd e (chessToIndex_ne_panic _)
      · simp
      · simp
      · simp

/-- A move `chooseMove` settles on is accepted by `ValidateMove`. -/
theorem chooseMove_ok {req : ReqPutGame} {S : BoardState} {idx : Nat} {m : Move} {c : Int}
    (hcolor : (strBytes req.Color).head? = some c) (hT : S.TurnColor = req.Color)
    (hreq : req.ReqType = "move" ∨ req.ReqType = "randommove")
    (h : chooseMove req S idx = .ok m) : ValidateMove m S = .ok () := by
  unfold chooseMove at h
  rw [hcolor] at h
  dsimp only at h
  split_ifs at h with h1 h2
  · cases hs : StringToMoveStruct req.Move c with
    | panic => simp [hs] at h
    | fail b e => simp [hs] at h
    | ok mv =>
      rw [hs] at h
      dsimp only at h
      cases hv : ValidateMove mv S with
      | panic => simp [hv] at h
      | fail b e => simp [hv] at h
      | ok u =>
        rw [hv] at h
        simp only [Res.ok.injEq] at h
        rw [← h]
        exact hv
  · cases hfl : FilterInvalidMoves (AllPossibleMoves c S []) S with
    | panic => simp [hfl] at h
    | fail b e => simp [hfl] at h
    | ok valid =>
      rw [hfl] at h
      dsimp only at h
      split_ifs at h with h3
      cases hm : MoveAt valid (idx % NMoves valid) with
      | none => simp [hm] at h
      | some mv =>
        rw [hm] at h
        simp only [Res.ok.injEq] at h
        rw [← h]
        exact ValidateMove_of_filtered (by rw [hT]; exact hcolor) hfl (MoveAt_mem _ _ _ hm)
  · rcases hreq with e | e
    · exact absurd e h1
    · exact absurd e h2

theorem chooseMove_ne_panic {req : ReqPutGame} {S : BoardState} {idx : Nat} {c : Int}
    (hcolor : (strBytes req.Color).head? = some c) (hT : S.TurnColor = req.Color)
    (hw : isInBounds S.WhiteKingPos = true) (hb : isInBounds S.BlackKingPos = true) :
    chooseMove req S idx ≠ .panic := by
  intro h
  unfold chooseMove at h
  rw [hcolor] at h
  dsimp only at h
  split_ifs at h with h1 h2
  · cases hs : StringToMoveStruct req.Move c with
    | panic => exact StringToMoveStruct_ne_panic _ _ hs
    | fail b e => simp [hs] at h
    | ok mv =>
      rw [hs] at h
      dsimp only at h
      cases hv : ValidateMove mv S with
      | panic => exact ValidateMove_ne_panic mv (by rw [hT]; exact hcolor) hw hb hv
      | fail b e => simp [hv] at h
      | ok u => simp [hv] at h
  · cases hfl : FilterInvalidMoves (AllPossibleMoves c S []) S with
    | panic => exact filterLoop_ne_panic S hw hb _ [] AllPossibleMoves_bounds hfl
    | fail b e => simp [hfl] at h
    | ok valid =>
      rw [hfl] at h
      dsimp only at h
      split_ifs at h with h3
      cases hm : MoveAt valid (idx % NMoves valid) with
      | none =>
        refine MoveAt_ne_none valid _ ?_ hm
        intro e
        rw [e] at h3
        exact h3 rfl
      | some mv => simp [hm] at h

theorem verifyBoardAccess_none {g : Game} {color token : String}
    (h : verifyBoardAccess g color token = none) : color = "w" ∨ color = "b" := by
  unfold verifyBoardAccess at h
  split_ifs at h with h1 h2 h3 h4 h5 h6
  · exact Or.inl h1
  · exact Or.inr h4

theorem strBytes_of_color {color : String} (h : color = "w" ∨ color = "b") :
    ∃ c : Int, (strBytes color).head? = some c := by
  rcases h with rfl | rfl
  · exact ⟨119, by decide⟩
  · exact ⟨98, by decide⟩

/-- The three outcomes of a `PutGame` request on a game that satisfies the
invariant: nothing changes (and the status is not 200), a forfeit rewrites the
last snapshot, or an accepted move is applied and appended. -/
theorem PutGame_cases {g : Game} (hI : HistInv g) (auth : Option String) (req : ReqPutGame)
    (idx : Nat) :
    ∃ g2 status, PutGame g auth req idx = some (g2, status) ∧
      ((g2 = g ∧ status ≠ 200) ∨
       (req.ReqType = "forfeit" ∧ ∃ last w, g.BoardData.getLast? = some last ∧ w ≠ "n" ∧
          g2 = { g with Winner := w, BoardData := g.BoardData.dropLast ++ [forfeited last w] }) ∨
       (req.ReqType ≠ "forfeit" ∧ g.Started = true ∧ g.Winner = "n" ∧ status = 200 ∧
          ∃ last m N, g.BoardData.getLast? = some last ∧ ValidateMove m last = .ok () ∧
            MakeMove m last true = some N ∧
            g2 = { g with Winner := N.Winner, BoardData := g.BoardData ++ [N] })) := by
  obtain ⟨hK, -, -, orig, hne, -, hBD⟩ := hI
  have hnonempty : g.BoardData ≠ [] := by
    rcases hBD with e | ⟨-, last, w, -, e⟩
    · rw [e]; exact hne
    · rw [e]; simp
  unfold PutGame
  cases auth with
  | none => exact ⟨g, 401, rfl, Or.inl ⟨rfl, by decide⟩⟩
  | some token =>
    dsimp only
    by_cases hrt : req.ReqType ≠ "forfeit" ∧ req.ReqType ≠ "move" ∧ req.ReqType ≠ "randommove"
    · rw [if_pos hrt]
      exact ⟨g, 400, rfl, Or.inl ⟨rfl, by decide⟩⟩
    · rw [if_neg hrt]
      cases hva : verifyBoardAccess g req.Color token with
      | some st =>
        dsimp only
        refine ⟨g, st, rfl, Or.inl ⟨rfl, ?_⟩⟩
        unfold verifyBoardAccess at hva
        split_ifs at hva <;> simp at hva <;> omega
      | none =>
        dsimp only
        cases hl : g.BoardData.getLast? with
        | none => exact absurd (List.getLast?_eq_none_iff.1 hl) hnonempty
        | some latest =>
          dsimp only
          have hmem : latest ∈ g.BoardData := List.mem_of_getLast?_eq_some hl
          by_cases hff : req.ReqType = "forfeit"
          · rw [if_pos hff]
            refine ⟨_, 200, rfl, Or.inr (Or.inl ⟨hff, latest, _, rfl, ?_, rfl⟩)⟩
            split_ifs <;> decide
          · rw [if_neg hff]
            have hreq : req.ReqType = "move" ∨ req.ReqType = "randommove" := by
              by_contra hcon
              exact hrt ⟨hff, fun e => hcon (Or.inl e), fun e => hcon (Or.inr e)⟩
            by_cases hst : g.Started = true
            · by_cases hwin : g.Winner = "n"
              · by_cases htc : latest.TurnColor = req.Color
                · obtain ⟨c, hc⟩ := strBytes_of_color (verifyBoardAccess_none hva)
                  cases hcm : chooseMove req latest idx with
                  | panic => exact absurd hcm (chooseMove_ne_panic hc htc (hK _ hmem).1 (hK _ hmem).2)
                  | fail b e =>
                    refine ⟨g, if req.ReqType = "move" then 400 else 500, ?_, Or.inl ⟨rfl, ?_⟩⟩
                    · simp [hst, hwin, htc]
                    · split_ifs <;> decide
                  | ok mv =>
                    have hv := chooseMove_ok hc htc hreq hcm
                    obtain ⟨-, hf, ht, -⟩ := ValidateMove_ok_facts hv
                    obtain ⟨N, hN⟩ := MakeMove_total mv latest true hf ht (hK _ hmem).1
                      (hK _ hmem).2
                    refine ⟨{ g with Winner := N.Winner, BoardData := g.BoardData ++ [N] }, 200, ?_,
                      Or.inr (Or.inr ⟨hff, hst, hwin, rfl, latest, mv, N, rfl, hv, hN, rfl⟩)⟩
                    simp [hst, hwin, htc, hN]
                · refine ⟨g, 400, ?_, Or.inl ⟨rfl, by decide⟩⟩
                  simp [hst, hwin, htc]
              · refine ⟨g, 400, ?_, Or.inl ⟨rfl, by decide⟩⟩
                simp [hst, hwin]
            · refine ⟨g, 400, ?_, Or.inl ⟨rfl, by decide⟩⟩
              simp [hst]

theorem HistInv_nonempty {g : Game} (hI : HistInv g) : g.BoardData ≠ [] := by
  obtain ⟨-, -, -, orig, hne, -, hBD⟩ := hI
  rcases hBD with e | ⟨-, last, w, -, e⟩
  · rw [e]; exact hne
  · rw [e]; simp

theorem HistInv_init (name : String) (id : Int) (password : String) :
    HistInv (initializeNewGame name id password) := by
  refine ⟨?_, ?_, ?_, [initialState], by simp, List.chain'_singleton _, Or.inl rfl⟩
  · intro S hS
    have : S = initialState := by simpa [initializeNewGame, InitializeBoard] using hS
    rw [this]
    exact ⟨by decide, by decide⟩
  · intro h
    simp [initializeNewGame] at h
  · intro h
    simp [initializeNewGame, InitializeBoard] at h

/-- The outcomes of a `PutSessions` request on a game that satisfies the
invariant: nothing changes, a first seat is taken, or the second seat is taken
and the game starts on its single snapshot. -/
theorem PutSessions_cases {g : Game} (hI : HistInv g) (auth : Option String)
    (color token : String) :
    ∃ g2 status, PutSessions g auth color token = some (g2, status) ∧
      (g2 = g ∨
       (g.Started = false ∧ g2.Started = false ∧ g2.BoardData = g.BoardData ∧
          g2.Winner = g.Winner) ∨
       (∃ S0, g.BoardData = [S0] ∧ g2.BoardData = [{ S0 with TurnColor := "w" }] ∧
          g2.Started = true ∧ g2.HasWPlayer = true ∧ g2.HasBPlayer = true ∧
          g2.Winner = g.Winner)) := by
  have hne := HistInv_nonempty hI
  obtain ⟨-, hSt, hLen, -⟩ := hI
  have hsingle : ¬ (g.HasWPlayer = true ∧ g.HasBPlayer = true) →
      g.Started = false ∧ ∃ S0, g.BoardData = [S0] := by
    intro hnot
    have h1 : g.Started = false := by
      cases h : g.Started
      · rfl
      · exact absurd (hSt h) hnot
    refine ⟨h1, ?_⟩
    cases hb : g.BoardData with
    | nil => exact absurd hb hne
    | cons S0 rest =>
      cases rest with
      | nil => exact ⟨S0, rfl⟩
      | cons S1 rest2 =>
        have := hLen (by rw [hb]; simp)
        rw [h1] at this
        exact absurd this (by decide)
  unfold PutSessions
  cases auth with
  | none => exact ⟨g, 401, rfl, Or.inl rfl⟩
  | some password =>
    dsimp only
    by_cases hp : password ≠ g.Password
    · rw [if_pos hp]; exact ⟨g, 401, rfl, Or.inl rfl⟩
    rw [if_neg hp]
    by_cases hfull : (g.HasWPlayer && g.HasBPlayer) = true
    · rw [if_pos hfull]; exact ⟨g, 403, rfl, Or.inl rfl⟩
    rw [if_neg hfull]
    have hnot : ¬ (g.HasWPlayer = true ∧ g.HasBPlayer = true) := by
      simpa using hfull
    obtain ⟨hst, S0, hS0⟩ := hsingle hnot
    by_cases hcw : color = "w"
    · rw [if_pos hcw]
      by_cases hW : g.HasWPlayer = true
      · rw [if_pos hW]; exact ⟨g, 403, rfl, Or.inl rfl⟩
      rw [if_neg hW]
      by_cases hB : g.HasBPlayer = true
      · rw [if_pos hB, hS0]
        exact ⟨_, 200, rfl, Or.inr (Or.inr ⟨S0, rfl, rfl, rfl, rfl, hB, rfl⟩)⟩
      · rw [if_neg hB]
        exact ⟨_, 200, rfl, Or.inr (Or.inl ⟨hst, hst, rfl, rfl⟩)⟩
    rw [if_neg hcw]
    by_cases hcb : color = "b"
    · rw [if_pos hcb]
      by_cases hB : g.HasBPlayer = true
      · rw [if_pos hB]; exact ⟨g, 403, rfl, Or.inl rfl⟩
      rw [if_neg hB]
      by_cases hW : g.HasWPlayer = true
      · rw [if_pos hW, hS0]
        exact ⟨_, 200, rfl, Or.inr (Or.inr ⟨S0, rfl, rfl, rfl, hW, rfl, rfl⟩)⟩
      · rw [if_neg hW]
        exact ⟨_, 200, rfl, Or.inr (Or.inl ⟨hst, hst, rfl, rfl⟩)⟩
    rw [if_neg hcb]
    exact ⟨g, 400, rfl, Or.inl rfl⟩

theorem Extends_refl (g : Game) : Extends g g :=
  ⟨le_refl _, fun _ S h => ⟨S, h, rfl⟩⟩

theorem getElem?_concat_same_grid (pre : List BoardState) (a b : BoardState)
    (hab : b.Board = a.Board) (i : Nat) (S : BoardState) (h : (pre ++ [a])[i]? = some S) :
    ∃ S2, (pre ++ [b])[i]? = some S2 ∧ S2.Board = S.Board := by
  by_cases hi : i < pre.length
  · rw [List.getElem?_append_left hi] at h ⊢
    exact ⟨S, h, rfl⟩
  · have hi2 : pre.length ≤ i := Nat.le_of_not_lt hi
    rw [List.getElem?_append_right hi2] at h ⊢
    cases hk : i - pre.length with
    | zero =>
      rw [hk] at h
      simp only [List.getElem?_cons_zero, Option.some.injEq] at h
      exact ⟨b, by simp, by rw [hab, h]⟩
    | succ k =>
      rw [hk] at h
      simp at h

theorem applyMove_kings_bounds (m : Move) (S : BoardState) (ht : isInBounds m.To = true)
    (hw : isInBounds S.WhiteKingPos = true) (hb : isInBounds S.BlackKingPos = true) :
    isInBounds (applyMove m S).WhiteKingPos = true ∧
      isInBounds (applyMove m S).BlackKingPos = true :=
  ⟨applyMove_kingSquare_bounds m S 119 ht hw hb, applyMove_kingSquare_bounds m S 98 ht hw hb⟩

theorem HistInv_putSessions {g g2 : Game} {status : Nat} {auth : Option String}
    {color token : String} (hI : HistInv g)
    (h : PutSessions g auth color token = some (g2, status)) : HistInv g2 ∧ Extends g g2 := by
  obtain ⟨g3, st, h3, hcases⟩ := PutSessions_cases hI auth color token
  rw [h3] at h
  obtain ⟨rfl, -⟩ := Prod.mk.inj (Option.some.inj h)
  rcases hcases with rfl | ⟨hs, hs2, hbd, hwin⟩ | ⟨S0, hbd, hbd2, hst, hW, hB, hwin⟩
  · exact ⟨hI, Extends_refl _⟩
  · obtain ⟨hK, -, hLen, hch⟩ := hI
    refine ⟨⟨by rw [hbd]; exact hK, ?_, ?_, by rw [hbd, hwin]; exact hch⟩, ?_⟩
    · intro e; rw [hs2] at e; exact absurd e (by decide)
    · intro e
      rw [hbd] at e
      have := hLen e
      rw [hs] at this
      exact absurd this (by decide)
    · exact ⟨by rw [hbd], fun i S hS => ⟨S, by rw [hbd]; exact hS, rfl⟩⟩
  · obtain ⟨hK, -, -, -⟩ := hI
    refine ⟨⟨?_, fun _ => ⟨hW, hB⟩, fun _ => hst, _, by simp, List.chain'_singleton _,
      Or.inl hbd2⟩, ?_⟩
    · intro S hS
      rw [hbd2] at hS
      have : S = { S0 with TurnColor := "w" } := by simpa using hS
      rw [this]
      exact hK S0 (by rw [hbd]; simp)
    · refine ⟨by rw [hbd, hbd2]; simp, fun i S hS => ?_⟩
      rw [hbd] at hS
      rw [hbd2]
      cases i with
      | zero =>
        simp only [List.getElem?_cons_zero, Option.some.injEq] at hS
        exact ⟨{ S0 with TurnColor := "w" }, by simp, by rw [← hS]⟩
      | succ k => simp at hS

theorem HistInv_putGame {g g2 : Game} {status : Nat} {auth : Option String}
    {req : ReqPutGame} {idx : Nat} (hI : HistInv g)
    (h : PutGame g auth req idx = some (g2, status)) : HistInv g2 ∧ Extends g g2 := by
  obtain ⟨g3, st, h3, hcases⟩ := PutGame_cases hI auth req idx
  rw [h3] at h
  obtain ⟨rfl, -⟩ := Prod.mk.inj (Option.some.inj h)
  rcases hcases with ⟨rfl, -⟩ | ⟨-, last, w, hl, hw, rfl⟩ |
    ⟨-, hst, hwin, -, last, m, N, hl, hv, hN, rfl⟩
  · exact ⟨hI, Extends_refl _⟩
  · -- forfeit
    obtain ⟨hK, hSt, hLen, orig, hne, hch, hBD⟩ := hI
    have hsplit : g.BoardData.dropLast ++ [last] = g.BoardData :=
      List.dropLast_append_getLast? last hl
    have hmem : last ∈ g.BoardData := List.mem_of_getLast?_eq_some hl
    refine ⟨⟨?_, hSt, ?_, orig, hne, hch, Or.inr ⟨hw, ?_⟩⟩, ?_⟩
    · intro S hS
      rcases List.mem_append.1 hS with hS | hS
      · exact hK S (List.dropLast_subset _ hS)
      · have : S = forfeited last w := by simpa using hS
        rw [this]
        exact hK last hmem
    · intro e
      apply hLen
      rw [← hsplit]
      simpa using e
    · rcases hBD with e | ⟨-, last0, w0, hl0, e⟩
      · exact ⟨last, w, by rw [← e]; exact hl, by rw [← e]⟩
      · refine ⟨last0, w, hl0, ?_⟩
        have h1 : last = forfeited last0 w0 := by
          rw [e, List.getLast?_concat] at hl
          exact (Option.some.inj hl).symm
        have h2 : g.BoardData.dropLast = orig.dropLast := by
          rw [e, List.dropLast_concat]
        show g.BoardData.dropLast ++ [forfeited last w] = orig.dropLast ++ [forfeited last0 w]
        rw [h2, h1]
        rfl
    · refine ⟨?_, fun i S hS => ?_⟩
      · show g.BoardData.length ≤ (g.BoardData.dropLast ++ [forfeited last w]).length
        rw [← hsplit]
        simp
      · rw [← hsplit] at hS
        exact getElem?_concat_same_grid _ last (forfeited last w) rfl i S hS
  · -- move
    obtain ⟨hK, hSt, hLen, orig, hne, hch, hBD⟩ := hI
    have hmem : last ∈ g.BoardData := List.mem_of_getLast?_eq_some hl
    obtain ⟨-, hf, ht, -⟩ := ValidateMove_ok_facts hv
    obtain ⟨w, t, rfl⟩ := MakeMove_shape hN
    have hBDo : g.BoardData = orig := by
      rcases hBD with e | ⟨hnw, -⟩
      · exact e
      · exact absurd hwin hnw
    refine ⟨⟨?_, hSt, fun _ => hst, orig ++ [_], by simp, ?_, Or.inl (by rw [hBDo])⟩, ?_⟩
    · intro S hS
      rcases List.mem_append.1 hS with hS | hS
      · exact hK S hS
      · have hSe : S = { applyMove m last with Winner := w, TurnColor := t } := by
          simpa using hS
        rw [hSe]
        exact applyMove_kings_bounds m last ht (hK _ hmem).1 (hK _ hmem).2
    · refine List.Chain'.append hch (List.chain'_singleton _) ?_
      intro x hx y hy
      rw [← hBDo, hl] at hx
      have hx2 : x = last := by simpa using hx.symm
      have hy2 : y = { applyMove m last with Winner := w, TurnColor := t } := by
        simpa using hy.symm
      rw [hx2, hy2]
      exact ⟨m, hv, hN⟩
    · refine ⟨by simp, fun i S hS => ⟨S, ?_, rfl⟩⟩
      have hi : i < g.BoardData.length := by
        by_contra hcon
        rw [List.getElem?_eq_none (Nat.le_of_not_lt hcon)] at hS
        simp at hS
      show (g.BoardData ++ [_])[i]? = some S
      rw [List.getElem?_append_left hi]
      exact hS

theorem HistInv_of_reachable {g : Game} (h : GameReachable g) : HistInv g := by
  induction h with
  | init name id password => exact HistInv_init name id password
  | putSessions auth color token _ hstep ih => exact (HistInv_putSessions ih hstep).1
  | putGame auth req idx _ hstep ih => exact (HistInv_putGame ih hstep).1

theorem chain_getElem? {R : BoardState → BoardState → Prop} :
    ∀ (l : List BoardState), List.Chain' R l → ∀ (i : Nat) (S T : BoardState),
      l[i]? = some S → l[i + 1]? = some T → R S T
  | [], _, i, S, T, h, _ => by simp at h
  | [a], _, i, S, T, _, h2 => by simp at h2
  | a :: b :: rest, hch, 0, S, T, h1, h2 => by
    simp only [List.getElem?_cons_zero, Option.some.injEq, List.getElem?_cons_succ] at h1 h2
    rw [← h1, ← h2]
    exact (List.chain'_cons.1 hch).1
  | a :: b :: rest, hch, i + 1, S, T, h1, h2 => by
    rw [List.getElem?_cons_succ] at h1 h2
    exact chain_getElem? (b :: rest) (List.chain'_cons.1 hch).2 i S T h1 h2

/-- The history of a game satisfying the invariant, read by index. -/
theorem HistInv_index {g : Game} (hI : HistInv g) (i : Nat) (S T : BoardState)
    (hS : g.BoardData[i]? = some S) (hT : g.BoardData[i + 1]? = some T) :
    ∃ m N, ValidateMove m S = .ok () ∧ MakeMove m S true = some N ∧
      (T = N ∨ (i + 2 = g.BoardData.length ∧ ∃ w, T = forfeited N w)) := by
  obtain ⟨-, -, -, orig, hne, hch, hBD⟩ := hI
  rcases hBD with e | ⟨-, last, w, hl, e⟩
  · rw [e] at hS hT
    obtain ⟨m, hv, hN⟩ := chain_getElem? orig hch i S T hS hT
    exact ⟨m, T, hv, hN, Or.inl rfl⟩
  · have hsplit : orig.dropLast ++ [last] = orig := List.dropLast_append_getLast? last hl
    rw [e] at hS hT
    have hlen : g.BoardData.length = orig.dropLast.length + 1 := by rw [e]; simp
    by_cases h1 : i + 1 < orig.dropLast.length
    · rw [List.getElem?_append_left (by omega)] at hS
      rw [List.getElem?_append_left h1] at hT
      have hS2 : orig[i]? = some S := by
        rw [← hsplit, List.getElem?_append_left (by omega)]; exact hS
      have hT2 : orig[i + 1]? = some T := by
        rw [← hsplit, List.getElem?_append_left h1]; exact hT
      obtain ⟨m, hv, hN⟩ := chain_getElem? orig hch i S T hS2 hT2
      exact ⟨m, T, hv, hN, Or.inl rfl⟩
    · by_cases h2 : i + 1 = orig.dropLast.length
      · rw [List.getElem?_append_left (by omega)] at hS
        rw [List.getElem?_append_right (by omega), h2] at hT
        simp only [Nat.sub_self, List.getElem?_cons_zero, Option.some.injEq] at hT
        have hS2 : orig[i]? = some S := by
          rw [← hsplit, List.getElem?_append_left (by omega)]; exact hS
        have hT2 : orig[i + 1]? = some last := by
          rw [← hsplit, List.getElem?_append_right (by omega), h2]
          simp
        obtain ⟨m, hv, hN⟩ := chain_getElem? orig hch i S last hS2 hT2
        exact ⟨m, last, hv, hN, Or.inr ⟨by omega, w, hT.symm⟩⟩
      · rw [List.getElem?_eq_none (by
          rw [List.length_append, List.length_singleton]; omega)] at hT
        simp at hT

/-- C9.  History validity, requests executed one at a time.  In every `Game`
reachable from `initializeNewGame` by `PutSessions` and `PutGame` requests:
`BoardData` is non-empty; every request returns (no panic), does not shorten
the history and leaves the grid of every existing entry as it was; a `move` or
`randommove` request answered with status 200 appends exactly one entry, the
state `MakeMove m last true` for a move `m` that `ValidateMove` accepts on the
last entry; and every entry after index 0 is `MakeMove m S true` for a move `m`
that `ValidateMove` accepts on its predecessor `S`, where only the last entry
may since have had its `TurnColor` and `Winner` overwritten by a forfeit. -/
theorem history_valid (g : Game) (h : GameReachable g) :
    g.BoardData ≠ [] ∧
    (∀ (auth : Option String) (color token : String),
      ∃ g2 status, PutSessions g auth color token = some (g2, status) ∧ Extends g g2) ∧
    (∀ (auth : Option String) (req : ReqPutGame) (randomIdx : Nat),
      ∃ g2 status, PutGame g auth req randomIdx = some (g2, status) ∧ Extends g g2 ∧
        ((req.ReqType = "move" ∨ req.ReqType = "randommove") → status = 200 →
          ∃ last m N, g.BoardData.getLast? = some last ∧ ValidateMove m last = .ok () ∧
            MakeMove m last true = some N ∧ g2.BoardData = g.BoardData ++ [N])) ∧
    (∀ (i : Nat) (S T : BoardState),
      g.BoardData[i]? = some S → g.BoardData[i + 1]? = some T →
      ∃ m N, ValidateMove m S = .ok () ∧ MakeMove m S true = some N ∧
        (T = N ∨ (i + 2 = g.BoardData.length ∧ ∃ w, T = forfeited N w))) := by
  have hI := HistInv_of_reachable h
  refine ⟨HistInv_nonempty hI, ?_, ?_, fun i S T => HistInv_index hI i S T⟩
  · intro auth color token
    obtain ⟨g2, st, h2, -⟩ := PutSessions_cases hI auth color token
    exact ⟨g2, st, h2, (HistInv_putSessions hI h2).2⟩
  · intro auth req idx
    obtain ⟨g2, st, h2, hcases⟩ := PutGame_cases hI auth req idx
    refine ⟨g2, st, h2, (HistInv_putGame hI h2).2, fun hreq h200 => ?_⟩
    rcases hcases with ⟨-, hne⟩ | ⟨hff, -⟩ | ⟨-, -, -, -, last, m, N, hl, hv, hN, rfl⟩
    · exact absurd h200 hne
    · rw [hff] at hreq
      rcases hreq with e | e <;> exact absurd e (by decide)
    · exact ⟨last, m, N, hl, hv, hN, rfl⟩

/-! ## Concrete instances -/

set_option maxRecDepth 1000000 in
theorem opening_accepted : ValidateMove openingMove startState = .ok () := by decide

set_option maxRecDepth 1000000 in
theorem opening_applied : MakeMove openingMove startState true = some afterOpening := by
  have h1 : (isCheckmatePlayer 98 (applyMove openingMove startState)).flag = some false := by
    decide
  have h2 : (isRemisPlayer 98 (applyMove openingMove startState)).flag = some false := by
    decide
  have h3 : (getColorAndPiece openingMove.From.1 openingMove.From.2 startState.Board).1 = 119 := by
    decide
  have h4 : isInBounds openingMove.From = true := by decide
  have h5 : isInBounds openingMove.To = true := by decide
  simp only [MakeMove, h3, h4, h5, Bool.not_true, Bool.or_self, Bool.false_eq_true, if_false,
    if_true, h1, h2]
  rfl

theorem afterOpening_reachable : Reachable afterOpening :=
  Reachable.step Reachable.init opening_accepted opening_applied

/-- Witness of C7 on the opening move "e2 e4" from the starting position. -/
theorem MakeMove_relocates_witness :
    isInBounds openingMove.From = true ∧ isInBounds openingMove.To = true ∧
    openingMove.From ≠ openingMove.To ∧
    ((∃ R, MakeMove openingMove startState false = some R) ∧
    (isInBounds startState.WhiteKingPos = true → isInBounds startState.BlackKingPos = true →
      ∃ R, MakeMove openingMove startState true = some R) ∧
    ∀ (r : Bool) (R : BoardState), MakeMove openingMove startState r = some R →
      cell R.Board openingMove.To.1 openingMove.To.2 = cell startState.Board openingMove.From.1 openingMove.From.2 ∧
      cell R.Board openingMove.From.1 openingMove.From.2 = 32 ∧
      (∀ i j : Fin 8, (((i : Nat) : Int), ((j : Nat) : Int)) ≠ openingMove.From →
        (((i : Nat) : Int), ((j : Nat) : Int)) ≠ openingMove.To → R.Board i j = startState.Board i j) ∧
      R.LastMove = MoveToString openingMove) :=
  ⟨by decide, by decide, by decide,
    MakeMove_relocates startState openingMove (by decide) (by decide) (by decide)⟩

set_option maxRecDepth 1000000 in
/-- Witness of C8 at a move of each king and at a pawn move.  After "e2 e4",
"e7 e5" the white king steps (7,4) to (6,4): the white cache follows, the black
one is kept.  Then the black king steps (0,4) to (1,4): the black cache
follows, the white one is kept.  The pawn move "e2 e4" changes neither. -/
theorem MakeMove_kingCache_witness :
    (cell afterReply.Board 7 4 = 120 ∧ afterReply.WhiteKingPos = (7, 4) ∧
      afterReply.WhiteKingMoved = false ∧
      ∃ R, MakeMove whiteKingStep afterReply true = some R ∧
        R.WhiteKingPos = (6, 4) ∧ R.WhiteKingMoved = true ∧
        R.BlackKingPos = (0, 4) ∧ R.BlackKingMoved = false) ∧
    (cell afterWhiteKingStep.Board 0 4 = 88 ∧ afterWhiteKingStep.BlackKingPos = (0, 4) ∧
      afterWhiteKingStep.BlackKingMoved = false ∧
      ∃ R, MakeMove blackKingStep afterWhiteKingStep true = some R ∧
        R.BlackKingPos = (1, 4) ∧ R.BlackKingMoved = true ∧
        R.WhiteKingPos = (6, 4) ∧ R.WhiteKingMoved = true) ∧
    (cell startState.Board 6 4 = 112 ∧
      ∃ R, MakeMove openingMove startState true = some R ∧
        R.WhiteKingPos = (7, 4) ∧ R.WhiteKingMoved = false ∧
        R.BlackKingPos = (0, 4) ∧ R.BlackKingMoved = false) := by
  refine ⟨?_, ?_, ?_⟩
  · obtain ⟨R, hR⟩ := MakeMove_total whiteKingStep afterReply true (by decide) (by decide)
      (by decide) (by decide)
    have h := ((MakeMove_kingCache afterReply whiteKingStep (by decide) (by decide)).2 true R
      hR).1 (by decide)
    exact ⟨by decide, rfl, rfl, R, hR, h.1, h.2.1, h.2.2.1, h.2.2.2⟩
  · obtain ⟨R, hR⟩ := MakeMove_total blackKingStep afterWhiteKingStep true (by decide)
      (by decide) (by decide) (by decide)
    have h := ((MakeMove_kingCache afterWhiteKingStep blackKingStep (by decide) (by decide)).2
      true R hR).2.1 (by decide)
    exact ⟨by decide, rfl, rfl, R, hR, h.1, h.2.1, h.2.2.1, h.2.2.2⟩
  · obtain ⟨R, hR⟩ := MakeMove_total openingMove startState true (by decide) (by decide)
      (by decide) (by decide)
    have h := ((MakeMove_kingCache startState openingMove (by decide) (by decide)).2 true R
      hR).2.2 (by decide) (by decide)
    exact ⟨by decide, R, hR, h.1, h.2.1, h.2.2.1, h.2.2.2⟩

set_option maxRecDepth 1000000 in
/-- Witness of C6 at a mating, a stalemating and a quiet move.  The queen move
(7,0) to (2,0) on `beforeQueenMate` mates black: `Winner = "w"`,
`TurnColor = "n"`.  The rook move (5,7) to (5,2) on `beforeRookStalemate`
stalemates black: `Winner = "r"`, `TurnColor = "n"`.  The opening move "e2 e4"
does neither: the state returned is the moved board, black to move. -/
theorem MakeMove_terminal_witness :
    (isCheckmatePlayer 98 (applyMove (moveTo 7 0 119 (2, 0) false) beforeQueenMate) = .ok true ∧
      ∃ R, MakeMove (moveTo 7 0 119 (2, 0) false) beforeQueenMate true = some R ∧
        R = { applyMove (moveTo 7 0 119 (2, 0) false) beforeQueenMate with
              Winner := "w", TurnColor := "n" } ∧
        R.Winner = "w" ∧ R.TurnColor = "n") ∧
    (isRemisPlayer 98 (applyMove (moveTo 5 7 119 (5, 2) false) beforeRookStalemate) = .ok true ∧
      ∃ R, MakeMove (moveTo 5 7 119 (5, 2) false) beforeRookStalemate true = some R ∧
        R = { applyMove (moveTo 5 7 119 (5, 2) false) beforeRookStalemate with
              Winner := "r", TurnColor := "n" } ∧
        R.Winner = "r" ∧ R.TurnColor = "n") ∧
    (isCheckmatePlayer 98 (applyMove openingMove startState) ≠ .ok true ∧
      isRemisPlayer 98 (applyMove openingMove startState) ≠ .ok true ∧
      ∃ R, MakeMove openingMove startState true = some R ∧
        R = applyMove openingMove startState ∧ R.Winner = "n" ∧ R.TurnColor = "b") := by
  refine ⟨?_, ?_, ?_⟩
  · have hc : isCheckmatePlayer 98 (applyMove (moveTo 7 0 119 (2, 0) false) beforeQueenMate) =
        .ok true := by decide
    obtain ⟨N, hN, -, -, htot, hall⟩ := MakeMove_terminal beforeQueenMate
      (moveTo 7 0 119 (2, 0) false) 119 (by decide) (by decide) (by decide) (Or.inl rfl)
    rw [MakeMove_false_eq _ _ (by decide) (by decide)] at hN
    have e := Option.some.inj hN
    subst e
    obtain ⟨R, hR⟩ := htot (by decide) (by decide)
    have hRe := (hall R hR).1 hc
    refine ⟨hc, R, hR, hRe, ?_, ?_⟩
    · rw [hRe]; rfl
    · rw [hRe]
  · have hr : isRemisPlayer 98 (applyMove (moveTo 5 7 119 (5, 2) false) beforeRookStalemate) =
        .ok true := by decide
    obtain ⟨N, hN, -, -, htot, hall⟩ := MakeMove_terminal beforeRookStalemate
      (moveTo 5 7 119 (5, 2) false) 119 (by decide) (by decide) (by decide) (Or.inl rfl)
    rw [MakeMove_false_eq _ _ (by decide) (by decide)] at hN
    have e := Option.some.inj hN
    subst e
    obtain ⟨R, hR⟩ := htot (by decide) (by decide)
    have hRe := (hall R hR).2.1 hr
    refine ⟨hr, R, hR, hRe, ?_, ?_⟩ <;> rw [hRe]
  · have hc : isCheckmatePlayer 98 (applyMove openingMove startState) ≠ .ok true := by decide
    have hr : isRemisPlayer 98 (applyMove openingMove startState) ≠ .ok true := by decide
    obtain ⟨N, hN, -, -, htot, hall⟩ := MakeMove_terminal startState openingMove 119
      (by decide) (by decide) (by decide) (Or.inl rfl)
    rw [MakeMove_false_eq _ _ (by decide) (by decide)] at hN
    have e := Option.some.inj hN
    subst e
    obtain ⟨R, hR⟩ := htot (by decide) (by decide)
    have hRe := (hall R hR).2.2 hc hr
    refine ⟨hc, hr, R, hR, hRe, ?_, ?_⟩ <;> rw [hRe] <;> decide

set_option maxRecDepth 1000000 in
/-- Witness of C2 on all the white moves of the starting position. -/
theorem FilterInvalidMoves_spec_witness :
    isInBounds startState.WhiteKingPos = true ∧ isInBounds startState.BlackKingPos = true ∧
    (∀ m ∈ AllPossibleMoves 119 startState [],
      isInBounds m.From = true ∧ isInBounds m.To = true) ∧
    (FilterInvalidMoves (AllPossibleMoves 119 startState []) startState ≠ .panic ∧
    ∀ res, FilterInvalidMoves (AllPossibleMoves 119 startState []) startState = .ok res →
      res = (AllPossibleMoves 119 startState []).filter (leavesKingSafe startState) ∧
      (∀ m ∈ res, ∃ N, MakeMove m startState false = some N ∧ kingAttacked m.Color N = .ok false) ∧
      (∀ m ∈ (AllPossibleMoves 119 startState []), (∃ N, MakeMove m startState false = some N ∧ kingAttacked m.Color N = .ok false) →
        m ∈ res)) :=
  ⟨by decide, by decide, by decide,
    FilterInvalidMoves_spec startState (AllPossibleMoves 119 startState []) (by decide)
      (by decide) (by decide)⟩

set_option maxRecDepth 1000000 in
/-- Witness of C10 at six rejected moves, one for each check.  On the starting
position, white to move: a black move from a square off the board (wrong turn
comes first); a white move from (8,4); a white move of the black pawn on (1,4);
the rook (7,0) onto its own pawn on (6,0); the pawn (6,4) three squares ahead.
On `pinnedKnightStalemate`, black to move: the pinned knight (0,1) to (2,2),
which is generated and filtered out. -/
theorem ValidateMove_first_failure_witness :
    (strBytes startState.TurnColor).head? = some 119 ∧
    ValidateMove (moveTo 8 4 98 (9, 4) false) startState = .fail () (.notTurn 98) ∧
    ValidateMove (moveTo 8 4 119 (6, 4) false) startState =
      .fail () (.text "move out of bounds") ∧
    ValidateMove (moveTo 1 4 119 (2, 4) false) startState =
      .fail () (.text "the piece to be moved is not owned") ∧
    ValidateMove (moveTo 7 0 119 (6, 0) false) startState =
      .fail () (.text "the target position contains an owned piece") ∧
    ValidateMove (moveTo 6 4 119 (3, 4) false) startState =
      .fail () (.text "move doesn't exist") ∧
    (strBytes pinnedKnightStalemate.TurnColor).head? = some 98 ∧
    IsMoveInMoves (moveTo 0 1 98 (2, 2) false)
      (GenerateMovesForPiece 0 1 pinnedKnightStalemate []) = true ∧
    FilterInvalidMoves (GenerateMovesForPiece 0 1 pinnedKnightStalemate [])
      pinnedKnightStalemate = .ok [] ∧
    ValidateMove (moveTo 0 1 98 (2, 2) false) pinnedKnightStalemate =
      .fail () (.text "move is not valid") :=
  ⟨by decide,
    (ValidateMove_first_failure startState (moveTo 8 4 98 (9, 4) false) 119 (by decide)).1
      (by decide),
    (ValidateMove_first_failure startState (moveTo 8 4 119 (6, 4) false) 119 (by decide)).2.1
      (by decide) (Or.inl (by decide)),
    (ValidateMove_first_failure startState (moveTo 1 4 119 (2, 4) false) 119
      (by decide)).2.2.1 (by decide) (by decide) (by decide) (by decide),
    (ValidateMove_first_failure startState (moveTo 7 0 119 (6, 0) false) 119
      (by decide)).2.2.2.1 (by decide) (by decide) (by decide) (by decide) (by decide),
    (ValidateMove_first_failure startState (moveTo 6 4 119 (3, 4) false) 119
      (by decide)).2.2.2.2.1 (by decide) (by decide) (by decide) (by decide) (by decide)
      (by decide),
    by decide, by decide, by decide,
    (ValidateMove_first_failure pinnedKnightStalemate (moveTo 0 1 98 (2, 2) false) 98
      (by decide)).2.2.2.2.2.1 (by decide) (by decide) (by decide) (by decide) (by decide)
      (by decide) [] (by decide) (by decide)⟩

/-- Witness of C5 on the position after "e2 e4". -/
theorem king_invariant_witness :
    Reachable afterOpening ∧
    ((isInBounds afterOpening.WhiteKingPos = true ∧ ∀ i j : Fin 8,
      afterOpening.Board i j = 120 ↔ (((i : Nat) : Int), ((j : Nat) : Int)) = afterOpening.WhiteKingPos) ∧
    (isInBounds afterOpening.BlackKingPos = true ∧ ∀ i j : Fin 8,
      afterOpening.Board i j = 88 ↔ (((i : Nat) : Int), ((j : Nat) : Int)) = afterOpening.BlackKingPos) ∧
    (∃! p : Fin 8 × Fin 8, afterOpening.Board p.1 p.2 = 120) ∧
    (∃! p : Fin 8 × Fin 8, afterOpening.Board p.1 p.2 = 88) ∧
    ∀ m, ValidateMove m afterOpening = .ok () →
      (∃ N, MakeMove m afterOpening true = some N) ∧
      cell afterOpening.Board m.To.1 m.To.2 ≠ 120 ∧ cell afterOpening.Board m.To.1 m.To.2 ≠ 88) :=
  ⟨afterOpening_reachable, king_invariant afterOpening afterOpening_reachable⟩

theorem demo_join_white : PutSessions demoGame0 (some "secret") "w" "tw" = some (demoGame1, 200) := by
  rfl

theorem demo_join_black : PutSessions demoGame1 (some "secret") "b" "tb" = some (demoGame2, 200) := by
  rfl

set_option maxRecDepth 1000000 in
theorem demo_parse : StringToMoveStruct "e2 e4" 119 = .ok openingMove := by decide

theorem demo_choose : chooseMove demoRequest startState 0 = .ok openingMove := by
  have h1 : (strBytes demoRequest.Color).head? = some 119 := by decide
  have h2 : demoRequest.ReqType = "move" := rfl
  have h3 : demoRequest.Move = "e2 e4" := rfl
  simp only [chooseMove, h1, h2, h3, if_true, demo_parse, opening_accepted]

theorem demo_move : PutGame demoGame2 (some "tw") demoRequest 0 = some (demoGame3, 200) := by
  have h1 : verifyBoardAccess demoGame2 demoRequest.Color "tw" = none := by decide
  have h2 : demoGame2.BoardData.getLast? = some startState := rfl
  have h3 : demoRequest.ReqType = "move" := rfl
  have h4 : demoGame2.Started = true := rfl
  have h5 : demoGame2.Winner = "n" := rfl
  have h6 : startState.TurnColor = demoRequest.Color := rfl
  unfold PutGame
  simp only [h1, h2, h3, h4, h5, h6, demo_choose, opening_applied]
  simp
  rfl

theorem demoGame3_reachable : GameReachable demoGame3 :=
  GameReachable.putGame (some "tw") demoRequest 0
    (GameReachable.putSessions (some "secret") "b" "tb"
      (GameReachable.putSessions (some "secret") "w" "tw"
        (GameReachable.init "game" 1 "secret") demo_join_white)
      demo_join_black)
    demo_move

/-- Witness of C9 on the session in which both seats are taken and white has played
"e2 e4". -/
theorem history_valid_witness :
    GameReachable demoGame3 ∧
    (demoGame3.BoardData ≠ [] ∧
    (∀ (auth : Option String) (color token : String),
      ∃ g2 status, PutSessions demoGame3 auth color token = some (g2, status) ∧ Extends demoGame3 g2) ∧
    (∀ (auth : Option String) (req : ReqPutGame) (randomIdx : Nat),
      ∃ g2 status, PutGame demoGame3 auth req randomIdx = some (g2, status) ∧ Extends demoGame3 g2 ∧
        ((req.ReqType = "move" ∨ req.ReqType = "randommove") → status = 200 →
          ∃ last m N, demoGame3.BoardData.getLast? = some last ∧ ValidateMove m last = .ok () ∧
            MakeMove m last true = some N ∧ g2.BoardData = demoGame3.BoardData ++ [N])) ∧
    (∀ (i : Nat) (S T : BoardState),
      demoGame3.BoardData[i]? = some S → demoGame3.BoardData[i + 1]? = some T →
      ∃ m N, ValidateMove m S = .ok () ∧ MakeMove m S true = some N ∧
        (T = N ∨ (i + 2 = demoGame3.BoardData.length ∧ ∃ w, T = forfeited N w)))) :=
  ⟨demoGame3_reachable, history_valid demoGame3 demoGame3_reachable⟩

/-! ## The rules of the single pieces -/

theorem getPiece_empty_iff_cell {row col : Int} (board : Grid) (h : isValid row col = true) :
    (getColorAndPiece row col board).2 = 32 ↔ cell board row col = 32 := by
  rw [getColorAndPiece_valid board h]
  split_ifs with h1 h2
  · simp [h1]
  · simp [lowerFirstByte_eq_space, h1]
  · simp [lowerFirstByte_eq_space, h1]

theorem other_colour_iff {row col : Int} (board : Grid) (hv : isValid row col = true)
    {k : Int} (hk : k = 119 ∨ k = 98) :
    (getColorAndPiece row col board).1 = enemyOf k ↔
      cell board row col ≠ 32 ∧ (getColorAndPiece row col board).1 ≠ k := by
  have h1 := getPiece_empty_iff row col board
  have h2 := getPiece_empty_iff_cell board hv
  rw [Ne, ← h2, h1]
  rcases getColor_cases row col board with e | e | e <;> rw [e] <;>
    rcases hk with rfl | rfl <;> decide

/-- C19.  For every board and every square that is out of bounds or empty,
`GenerateMovesForPiece` adds no move: called with an empty list the list stays
empty, and called with any list the list is returned as it was. -/
theorem GenerateMovesForPiece_empty_square (S : BoardState) (row col : Int)
    (h : isValid row col = false ∨ cell S.Board row col = 32) :
    GenerateMovesForPiece row col S [] = [] ∧
    ∀ acc : List Move, GenerateMovesForPiece row col S acc = acc := by
  have hp : (getColorAndPiece row col S.Board).2 = 32 := by
    rcases h with h | h
    · rw [getColor_of_invalid S.Board h]
    · cases hv : isValid row col
      · rw [getColor_of_invalid S.Board hv]
      · exact (getPiece_empty_iff_cell S.Board hv).2 h
  exact ⟨GenerateMovesForPiece_of_empty hp [], fun acc => GenerateMovesForPiece_of_empty hp acc⟩

/-- Witness of C19 on the board of `TestGenerateMovesForEmptySquare`, square
(0,0). -/
theorem GenerateMovesForPiece_empty_square_witness :
    (isValid 0 0 = false ∨ cell emptyBoard.Board 0 0 = 32) ∧
    (GenerateMovesForPiece 0 0 emptyBoard [] = [] ∧
    ∀ acc : List Move, GenerateMovesForPiece 0 0 emptyBoard acc = acc) :=
  ⟨Or.inr (by decide), GenerateMovesForPiece_empty_square emptyBoard 0 0 (Or.inr (by decide))⟩

theorem isExcluded_iff (piece : Int) (exclude : List Int) :
    isExcluded piece exclude = true ↔ piece ∈ exclude := by
  unfold isExcluded
  simp [List.any_eq_true]

theorem allMovesStep_nil (color : Int) (S : BoardState) (exclude : List Int) (row col : Nat) :
    allMovesStep color S exclude row [] col =
      if (getColorAndPiece row col S.Board).2 ≠ 32 ∧
          (getColorAndPiece row col S.Board).1 = color ∧
          (getColorAndPiece row col S.Board).2 ∉ exclude then
        GenerateMovesForPiece row col S []
      else [] := by
  unfold allMovesStep
  dsimp only
  by_cases h1 : (getColorAndPiece row col S.Board).2 = 32
  · simp [h1]
  · by_cases h2 : color = (getColorAndPiece row col S.Board).1
    · by_cases h3 : (getColorAndPiece row col S.Board).2 ∈ exclude
      · simp [h1, h2, (isExcluded_iff _ _).2 h3, h3]
      · have : isExcluded (getColorAndPiece row col S.Board).2 exclude = false := by
          rw [← Bool.not_eq_true, isExcluded_iff]; exact h3
        simp [h1, h2, this, h3]
    · have h2b : ¬ (getColorAndPiece row col S.Board).1 = color := fun e => h2 e.symm
      simp [h1, h2, h2b]

theorem flatMap_congr_fun {α β : Type} (l : List α) (f g : α → List β) (h : ∀ a, f a = g a) :
    l.flatMap f = l.flatMap g := by
  have : f = g := funext h
  rw [this]

/-- C18.  `AllPossibleMoves color S exclude` is the concatenation, over the 64
squares in row-major order, of the list `GenerateMovesForPiece` produces for
each square holding a piece of the given colour whose lower-case type letter
is not in `exclude`; the other squares contribute nothing.  Hence every move
of the result has `Color = color`, and with `exclude = ['x']` no move of the
result starts on a square holding a king (`'x'` or `'X'`). -/
theorem AllPossibleMoves_concat (color : Int) (S : BoardState) (exclude : List Int) :
    AllPossibleMoves color S exclude =
      (List.range 8).flatMap (fun row =>
        (List.range 8).flatMap (fun col =>
          if (getColorAndPiece row col S.Board).2 ≠ 32 ∧
              (getColorAndPiece row col S.Board).1 = color ∧
              (getColorAndPiece row col S.Board).2 ∉ exclude then
            GenerateMovesForPiece row col S []
          else [])) ∧
    (∀ m ∈ AllPossibleMoves color S exclude, m.Color = color) ∧
    (∀ m ∈ AllPossibleMoves color S [120],
      cell S.Board m.From.1 m.From.2 ≠ 120 ∧ cell S.Board m.From.1 m.From.2 ≠ 88) := by
  refine ⟨?_, ?_, ?_⟩
  · rw [AllPossibleMoves_eq_flatMap]
    exact flatMap_congr_fun _ _ _ (fun row =>
      flatMap_congr_fun _ _ _ (fun col => allMovesStep_nil color S exclude row col))
  · intro m hm
    obtain ⟨r, c, -, hcol, -, -, hgen⟩ := mem_AllPossibleMoves.1 hm
    rw [(GenerateMovesForPiece_valid hgen).2.2.1, hcol]
  · intro m hm
    obtain ⟨r, c, hv, -, -, hex, hgen⟩ := mem_AllPossibleMoves.1 hm
    have hfrom := (GenerateMovesForPiece_valid hgen).1
    have hne : (getColorAndPiece r c S.Board).2 ≠ 120 := by
      intro e
      rw [e] at hex
      simp [isExcluded] at hex
    rw [hfrom]
    rw [getColorAndPiece_valid S.Board hv] at hne
    constructor
    · intro e
      simp only [e] at hne
      revert hne
      decide
    · intro e
      simp only [e] at hne
      revert hne
      decide

set_option maxRecDepth 1000000 in
/-- Instance of C18 on the initial position: white has twenty moves when the
king is excluded, all of colour `'w'`, none starting on a king. -/
theorem AllPossibleMoves_concat_witness :
    (AllPossibleMoves 119 initialState [120]).length = 20 ∧
    (∀ m ∈ AllPossibleMoves 119 initialState [120], m.Color = 119) ∧
    (∀ m ∈ AllPossibleMoves 119 initialState [120],
      cell initialState.Board m.From.1 m.From.2 ≠ 120 ∧
      cell initialState.Board m.From.1 m.From.2 ≠ 88) :=
  ⟨by decide, (AllPossibleMoves_concat 119 initialState [120]).2.1,
    (AllPossibleMoves_concat 119 initialState [120]).2.2⟩

theorem jumpStep_nil (S : BoardState) (r c k : Int) (hk : k = 119 ∨ k = 98) (o : Int × Int) :
    jumpStep r c k S [] o =
      if isValid (r + o.1) (c + o.2) = true ∧
          (getColorAndPiece (r + o.1) (c + o.2) S.Board).1 ≠ k then
        [moveTo r c k (r + o.1, c + o.2)
          (decide ((getColorAndPiece (r + o.1) (c + o.2) S.Board).1 = enemyOf k))]
      else [] := by
  unfold jumpStep
  dsimp only
  cases hv : isValid (r + o.1) (c + o.2)
  · simp
  · have hiff := getPiece_empty_iff_cell S.Board hv
    have hoth := other_colour_iff S.Board hv hk
    simp only [Bool.not_true, Bool.false_eq_true, if_false, true_and]
    by_cases he : (getColorAndPiece (r + o.1) (c + o.2) S.Board).2 = Empty
    · have hc : (getColorAndPiece (r + o.1) (c + o.2) S.Board).1 = 110 :=
        (getPiece_empty_iff _ _ _).1 he
      have hne : (getColorAndPiece (r + o.1) (c + o.2) S.Board).1 ≠ k := by
        rw [hc]
        rcases hk with rfl | rfl <;> decide
      have hno : ¬ (getColorAndPiece (r + o.1) (c + o.2) S.Board).1 = enemyOf k :=
        fun e => (hoth.1 e).1 (hiff.1 he)
      rw [if_pos he, if_pos hne, decide_eq_false hno]
      rfl
    · have hcell : cell S.Board (r + o.1) (c + o.2) ≠ 32 := fun e => he (hiff.2 e)
      by_cases hcol : k = (getColorAndPiece (r + o.1) (c + o.2) S.Board).1
      · rw [if_neg he, if_neg (fun h => h hcol), if_neg (fun h => h hcol.symm)]
      · have hne : (getColorAndPiece (r + o.1) (c + o.2) S.Board).1 ≠ k := fun h => hcol h.symm
        rw [if_neg he, if_pos hcol, if_pos hne, decide_eq_true (hoth.2 ⟨hcell, hne⟩)]
        rfl

theorem jump_foldl_eq (S : BoardState) (r c k : Int) (hk : k = 119 ∨ k = 98) (offsets : List (Int × Int)) :
    offsets.foldl (jumpStep r c k S) [] = jumpRule S r c k offsets := by
  rw [foldl_append_of_step (jumpStep r c k S) (fun acc o => jumpStep_append r c k S acc o)]
  rw [List.nil_append]
  unfold jumpRule
  exact flatMap_congr_fun _ _ _ (fun o => jumpStep_nil S r c k hk o)

theorem getColorAndPiece_of_cell {row col : Int} (board : Grid) (h : isValid row col = true) :
    (cell board row col = 112 → getColorAndPiece row col board = (119, 112)) ∧
    (cell board row col = 80 → getColorAndPiece row col board = (98, 112)) ∧
    (cell board row col = 107 → getColorAndPiece row col board = (119, 107)) ∧
    (cell board row col = 75 → getColorAndPiece row col board = (98, 107)) ∧
    (cell board row col = 120 → getColorAndPiece row col board = (119, 120)) ∧
    (cell board row col = 88 → getColorAndPiece row col board = (98, 120)) ∧
    (cell board row col = 98 → getColorAndPiece row col board = (119, 98)) ∧
    (cell board row col = 66 → getColorAndPiece row col board = (98, 98)) ∧
    (cell board row col = 114 → getColorAndPiece row col board = (119, 114)) ∧
    (cell board row col = 82 → getColorAndPiece row col board = (98, 114)) ∧
    (cell board row col = 113 → getColorAndPiece row col board = (119, 113)) ∧
    (cell board row col = 81 → getColorAndPiece row col board = (98, 113)) := by
  rw [getColorAndPiece_valid board h]
  refine ⟨?_, ?_, ?_, ?_, ?_, ?_, ?_, ?_, ?_, ?_, ?_, ?_⟩ <;> intro e <;> rw [e] <;> decide

theorem pawnCapture_nil (S : BoardState) (r c k d off : Int) (hk : k = 119 ∨ k = 98) :
    pawnCapture r c k d S.Board [] off =
      if isValid (r + d) (c + off) = true ∧
          (getColorAndPiece (r + d) (c + off) S.Board).1 = enemyOf k then
        [moveTo r c k (r + d, c + off) true]
      else [] := by
  unfold pawnCapture
  dsimp only
  cases hv : isValid (r + d) (c + off)
  · simp
  · have hiff := getPiece_empty_iff_cell S.Board hv
    have hoth := other_colour_iff S.Board hv hk
    simp only [if_true, true_and]
    by_cases he : (getColorAndPiece (r + d) (c + off) S.Board).2 = Empty
    · have hno : ¬ (getColorAndPiece (r + d) (c + off) S.Board).1 = enemyOf k :=
        fun e => (hoth.1 e).1 (hiff.1 he)
      rw [if_pos he, if_neg hno]
    · have hcell : cell S.Board (r + d) (c + off) ≠ 32 := fun e => he (hiff.2 e)
      by_cases hcol : k = (getColorAndPiece (r + d) (c + off) S.Board).1
      · have hno : ¬ (getColorAndPiece (r + d) (c + off) S.Board).1 = enemyOf k :=
          fun e => (hoth.1 e).2 hcol.symm
        rw [if_neg he, if_neg (fun h => h hcol), if_neg hno]
      · have hne : (getColorAndPiece (r + d) (c + off) S.Board).1 ≠ k := fun h => hcol h.symm
        rw [if_neg he, if_pos hcol, if_pos (hoth.2 ⟨hcell, hne⟩)]
        rfl

theorem pawnFront_eq (S : BoardState) (r c k d start : Int)
    (hd2 : r = start → isValid (r + 2 * d) c = true) :
    (if (decide (r = start) && isValid (r + 2 * d) c && decide (cell S.Board (r + d) c = Empty) &&
          decide (cell S.Board (r + 2 * d) c = Empty)) = true then
        addMove r c (r + 2 * d) c k false
          (if (isValid (r + d) c && decide (cell S.Board (r + d) c = Empty)) = true then
            addMove r c (r + d) c k false []
          else [])
      else
        if (isValid (r + d) c && decide (cell S.Board (r + d) c = Empty)) = true then
          addMove r c (r + d) c k false []
        else []) =
    (if isValid (r + d) c = true ∧ cell S.Board (r + d) c = 32 then
        [moveTo r c k (r + d, c) false] else []) ++
    (if r = start ∧ cell S.Board (r + d) c = 32 ∧ cell S.Board (r + 2 * d) c = 32 then
        [moveTo r c k (r + 2 * d, c) false] else []) := by
  by_cases h2 : r = start
  · have h3 := hd2 h2
    subst h2
    by_cases h5 : cell S.Board (r + d) c = 32
    · by_cases h4 : cell S.Board (r + 2 * d) c = 32
      · cases h6 : isValid (r + d) c <;> simp [h6, h5, h3, h4, addMove, moveTo, Empty]
      · cases h6 : isValid (r + d) c <;> simp [h6, h5, h3, h4, addMove, moveTo, Empty]
    · simp [h5, addMove, moveTo, Empty]
  · simp [h2, addMove, moveTo, Empty]

theorem pawnMoves_eq_rule (S : BoardState) (r c k : Int) (hv : isValid r c = true)
    (hk : k = 119 ∨ k = 98) :
    pawnMoves r c k S [] =
      pawnRule S r c k (if k = 98 then 1 else -1) (if k = 98 then 1 else 6) := by
  unfold pawnMoves pawnRule
  dsimp only
  have hd : ∀ d start : Int, (d = 1 ∧ start = 1) ∨ (d = -1 ∧ start = 6) →
      r = start → isValid (r + 2 * d) c = true := by
    intro d start h e
    rw [isValid_iff] at hv ⊢
    omega
  have hcase : ((if k = 98 then (1 : Int) else -1) = 1 ∧ (if k = 98 then (1 : Int) else 6) = 1) ∨
      ((if k = 98 then (1 : Int) else -1) = -1 ∧ (if k = 98 then (1 : Int) else 6) = 6) := by
    split_ifs <;> simp
  have hd2 := hd _ _ hcase
  generalize (if k = 98 then (1 : Int) else -1) = d at hd2 ⊢
  generalize (if k = 98 then (1 : Int) else 6) = start at hd2 ⊢
  rw [foldl_append_of_step _ (pawnCapture_append r c k d S.Board)]
  simp only [List.flatMap_cons, List.flatMap_nil, List.append_nil, pawnCapture_nil S r c k d _ hk]
  have hsub : c + -1 = c - 1 := by ring
  rw [hsub, pawnFront_eq S r c k d start hd2, List.append_assoc, List.append_assoc, List.append_assoc]

/-- C16.  For an in-bounds square holding a pawn, `GenerateMovesForPiece`
called with an empty list returns exactly the list of the pawn rule, in its
order: a white pawn (`'p'`) moves in direction -1 from start row 6, a black pawn
(`'P'`) in direction +1 from start row 1.  In the initial position the pawn on
(6,4) has exactly the two non-capturing moves to (5,4) and (4,4). -/
theorem pawn_rule (S : BoardState) (r c : Int) (hv : isValid r c = true) :
    (cell S.Board r c = 112 → GenerateMovesForPiece r c S [] = pawnRule S r c 119 (-1) 6) ∧
    (cell S.Board r c = 80 → GenerateMovesForPiece r c S [] = pawnRule S r c 98 1 1) ∧
    GenerateMovesForPiece 6 4 initialState [] =
      [{ From := (6, 4), To := (5, 4), Color := 119, Capture := false },
       { From := (6, 4), To := (4, 4), Color := 119, Capture := false }] := by
  have hc := getColorAndPiece_of_cell S.Board hv
  refine ⟨?_, ?_, by decide⟩
  · intro e
    have h := hc.1 e
    unfold GenerateMovesForPiece
    simp only [h, true_or, if_true]
    rw [pawnMoves_eq_rule S r c 119 hv (Or.inl rfl)]
    rfl
  · intro e
    have h := hc.2.1 e
    unfold GenerateMovesForPiece
    simp only [h, true_or, if_true]
    rw [pawnMoves_eq_rule S r c 98 hv (Or.inr rfl)]
    rfl

/-- Witness of C16: the white pawn on (6,4) of the initial position. -/
theorem pawn_rule_witness :
    isValid 6 4 = true ∧ cell initialState.Board 6 4 = 112 ∧
    GenerateMovesForPiece 6 4 initialState [] = pawnRule initialState 6 4 119 (-1) 6 :=
  ⟨by decide, by decide, (pawn_rule initialState 6 4 (by decide)).1 (by decide)⟩

/-- C17.  For an in-bounds square holding a knight (`'k'` white, `'K'` black) or
a king (`'x'` white, `'X'` black), `GenerateMovesForPiece` called with an empty
list returns exactly the list of the jump rule over `knightOffsets`,
respectively `kingOffsets`, in the order of the table.  On the boards of
`TestGenerateMovesForPiece` the lone white king in the corner has its three
moves and the white knight on (5,5) its five, one of them the capture on
(3,4). -/
theorem jump_rule (S : BoardState) (r c : Int) (hv : isValid r c = true) :
    (cell S.Board r c = 107 →
      GenerateMovesForPiece r c S [] = jumpRule S r c 119 knightOffsets) ∧
    (cell S.Board r c = 75 →
      GenerateMovesForPiece r c S [] = jumpRule S r c 98 knightOffsets) ∧
    (cell S.Board r c = 120 →
      GenerateMovesForPiece r c S [] = jumpRule S r c 119 kingOffsets) ∧
    (cell S.Board r c = 88 →
      GenerateMovesForPiece r c S [] = jumpRule S r c 98 kingOffsets) ∧
    GenerateMovesForPiece 0 0 testCornerKing [] =
      [{ From := (0, 0), To := (0, 1), Color := 119, Capture := false },
       { From := (0, 0), To := (1, 0), Color := 119, Capture := false },
       { From := (0, 0), To := (1, 1), Color := 119, Capture := false }] ∧
    GenerateMovesForPiece 5 5 testKnightBoard [] =
      [{ From := (5, 5), To := (3, 4), Color := 119, Capture := true },
       { From := (5, 5), To := (3, 6), Color := 119, Capture := false },
       { From := (5, 5), To := (4, 3), Color := 119, Capture := false },
       { From := (5, 5), To := (4, 7), Color := 119, Capture := false },
       { From := (5, 5), To := (7, 6), Color := 119, Capture := false }] := by
  have hc := getColorAndPiece_of_cell S.Board hv
  refine ⟨?_, ?_, ?_, ?_, by decide, by decide⟩
  · intro e
    have h := hc.2.2.1 e
    unfold GenerateMovesForPiece knightMoves
    simp only [h]
    exact jump_foldl_eq S r c 119 (Or.inl rfl) knightOffsets
  · intro e
    have h := hc.2.2.2.1 e
    unfold GenerateMovesForPiece knightMoves
    simp only [h]
    exact jump_foldl_eq S r c 98 (Or.inr rfl) knightOffsets
  · intro e
    have h := hc.2.2.2.2.1 e
    unfold GenerateMovesForPiece kingMoves
    simp only [h]
    exact jump_foldl_eq S r c 119 (Or.inl rfl) kingOffsets
  · intro e
    have h := hc.2.2.2.2.2.1 e
    unfold GenerateMovesForPiece kingMoves
    simp only [h]
    exact jump_foldl_eq S r c 98 (Or.inr rfl) kingOffsets

/-- Witness of C17: the white knight on (5,5) of the second board of
`TestGenerateMovesForPiece`. -/
theorem jump_rule_witness :
    isValid 5 5 = true ∧ cell testKnightBoard.Board 5 5 = 107 ∧
    GenerateMovesForPiece 5 5 testKnightBoard [] = jumpRule testKnightBoard 5 5 119 knightOffsets :=
  ⟨by decide, by decide, (jump_rule testKnightBoard 5 5 (by decide)).1 (by decide)⟩

/-! ## The initial position -/

set_option maxRecDepth 1000000 in
/-- C20.  `InitializeBoard` appends exactly one state to the history and leaves
the entries before it as they were.  The board of that state is the one its
assignments build, the standard starting position row by row; the cached king
squares (7,4) and (0,4) hold `'x'` and `'X'`; both moved flags are false,
`Winner` and `TurnColor` are `"n"`, `EnPassant` is (-1,-1), `LastMove` is
empty; and neither king is attacked. -/
theorem InitializeBoard_spec (hist : List BoardState) :
    InitializeBoard hist = hist ++ [initialState] ∧
    (InitializeBoard hist).length = hist.length + 1 ∧
    (InitializeBoard hist).take hist.length = hist ∧
    (InitializeBoard hist).getLast? = some initialState ∧
    initialState.Board = assignedBoard ∧
    rowOf initialState.Board 0 = [82, 75, 66, 81, 88, 66, 75, 82] ∧
    rowOf initialState.Board 1 = [80, 80, 80, 80, 80, 80, 80, 80] ∧
    rowOf initialState.Board 2 = [32, 32, 32, 32, 32, 32, 32, 32] ∧
    rowOf initialState.Board 3 = [32, 32, 32, 32, 32, 32, 32, 32] ∧
    rowOf initialState.Board 4 = [32, 32, 32, 32, 32, 32, 32, 32] ∧
    rowOf initialState.Board 5 = [32, 32, 32, 32, 32, 32, 32, 32] ∧
    rowOf initialState.Board 6 = [112, 112, 112, 112, 112, 112, 112, 112] ∧
    rowOf initialState.Board 7 = [114, 107, 98, 113, 120, 98, 107, 114] ∧
    initialState.WhiteKingPos = (7, 4) ∧ cell initialState.Board 7 4 = 120 ∧
    initialState.BlackKingPos = (0, 4) ∧ cell initialState.Board 0 4 = 88 ∧
    initialState.WhiteKingMoved = false ∧ initialState.BlackKingMoved = false ∧
    initialState.Winner = "n" ∧ initialState.TurnColor = "n" ∧
    initialState.EnPassant = (-1, -1) ∧ initialState.LastMove = "" ∧
    kingAttacked 119 initialState = .ok false ∧
    kingAttacked 98 initialState = .ok false := by
  refine ⟨rfl, by simp [InitializeBoard], by simp [InitializeBoard], by simp [InitializeBoard],
    ?_, by decide, by decide, by decide, by decide, by decide, by decide, by decide, by decide,
    rfl, by decide, rfl, by decide, rfl, rfl, rfl, rfl, rfl, rfl, by decide, by decide⟩
  funext i j
  revert i j
  decide

theorem strBytes_append (s t : String) : strBytes (s ++ t) = strBytes s ++ strBytes t := by
  unfold strBytes
  rw [String.data_append, List.flatMap_append]

theorem strBytes_runeString (x : Int) (h0 : 0 ≤ x) (h1 : x < 128) :
    strBytes (runeString x) = [x] := by
  have hx : ∃ n : Nat, x = n ∧ n < 128 := ⟨x.toNat, by omega, by omega⟩
  obtain ⟨n, rfl, hn⟩ := hx
  interval_cases n <;> rfl

theorem rowColToField_bytes (r c : Int) (h : isValid r c = true) :
    strBytes (rowColToField (r, c)) = [97 + c, 56 - r] := by
  rw [isValid_iff] at h
  unfold rowColToField
  rw [strBytes_append, strBytes_runeString _ (by dsimp only; omega) (by dsimp only; omega),
    strBytes_runeString _ (by dsimp only; omega) (by dsimp only; omega)]
  simp
  omega

theorem MoveToString_bytes (m : Move) (hf : isValid m.From.1 m.From.2 = true)
    (ht : isValid m.To.1 m.To.2 = true) :
    strBytes (MoveToString m) =
      [97 + m.From.2, 56 - m.From.1, 32, 97 + m.To.2, 56 - m.To.1] := by
  unfold MoveToString
  rw [strBytes_append, strBytes_append, rowColToField_bytes _ _ hf, rowColToField_bytes _ _ ht]
  rfl

theorem chessToIndex_field (r c : Int) (h : isValid r c = true) :
    chessToIndex [97 + c, 56 - r] = .ok (r, c) := by
  rw [isValid_iff] at h
  unfold chessToIndex
  dsimp only
  have h1 : (97 + c - 97) % 256 = c := by omega
  have h2 : 8 - (56 - r - 48) % 256 = r := by omega
  rw [h1, h2, if_neg (by omega)]

theorem StringToMoveStruct_of_bytes (s : String) (c : Int) (r1 c1 r2 c2 : Int)
    (h1 : isValid r1 c1 = true) (h2 : isValid r2 c2 = true)
    (hb : strBytes s = [97 + c1, 56 - r1, 32, 97 + c2, 56 - r2]) :
    StringToMoveStruct s c =
      .ok { From := (r1, c1), To := (r2, c2), Color := c, Capture := false } := by
  unfold StringToMoveStruct
  simp only [hb]
  have e1 : List.take 2 [97 + c1, 56 - r1, 32, 97 + c2, 56 - r2] = [97 + c1, 56 - r1] := rfl
  have e2 : List.take 2 (List.drop 3 [97 + c1, 56 - r1, 32, 97 + c2, 56 - r2]) =
      [97 + c2, 56 - r2] := rfl
  rw [e1, e2, chessToIndex_field _ _ h1, chessToIndex_field _ _ h2]
  simp

/-! ## Move notation -/

/-- C11.  For every move `m` whose `From` and `To` are in bounds and every
colour `c`, parsing the text `MoveToString m` succeeds and yields the move with
`From = m.From`, `To = m.To`, `Color = c` and `Capture = false`. -/
theorem MoveToString_roundtrip (m : Move) (c : Int)
    (hf : isValid m.From.1 m.From.2 = true) (ht : isValid m.To.1 m.To.2 = true) :
    StringToMoveStruct (MoveToString m) c =
      .ok { From := m.From, To := m.To, Color := c, Capture := false } :=
  StringToMoveStruct_of_bytes _ c _ _ _ _ hf ht (MoveToString_bytes m hf ht)

/-- Witness of C11: the capture from (3,4) to (2,3), parsed for colour `'b'`. -/
theorem MoveToString_roundtrip_witness :
    isValid 3 4 = true ∧ isValid 2 3 = true ∧
    StringToMoveStruct
        (MoveToString { From := (3, 4), To := (2, 3), Color := 119, Capture := true }) 98 =
      .ok { From := (3, 4), To := (2, 3), Color := 98, Capture := false } :=
  ⟨by decide, by decide,
    MoveToString_roundtrip { From := (3, 4), To := (2, 3), Color := 119, Capture := true } 98
      (by decide) (by decide)⟩

theorem char_toNat_lt (ch : Char) : ch.toNat < 1114112 := by
  have h := ch.valid
  unfold UInt32.isValidChar Nat.isValidChar at h
  have : ch.toNat = ch.val.toNat := rfl
  omega

theorem charBytes_range (ch : Char) : ∀ b ∈ charBytes ch, 0 ≤ b ∧ b < 256 := by
  have hlt := char_toNat_lt ch
  intro b hb
  unfold charBytes at hb
  dsimp only at hb
  split_ifs at hb <;> simp at hb <;> omega

theorem strBytes_range (s : String) : ∀ b ∈ strBytes s, 0 ≤ b ∧ b < 256 := by
  intro b hb
  unfold strBytes at hb
  rw [List.mem_flatMap] at hb
  obtain ⟨ch, -, h⟩ := hb
  exact charBytes_range ch b h

theorem charBytes_ascii_or (ch : Char) :
    charBytes ch = [((ch.toNat : Nat) : Int)] ∨ ∃ b rest, charBytes ch = b :: rest ∧ 128 ≤ b := by
  unfold charBytes
  dsimp only
  split_ifs
  · exact Or.inl rfl
  · exact Or.inr ⟨_, _, rfl, by omega⟩
  · exact Or.inr ⟨_, _, rfl, by omega⟩
  · exact Or.inr ⟨_, _, rfl, by omega⟩

theorem ascii_data : ∀ (l : List Char), (∀ b ∈ l.flatMap charBytes, b < 128) →
    l.flatMap charBytes = l.map (fun ch => ((ch.toNat : Nat) : Int))
  | [], _ => rfl
  | ch :: rest, h => by
    rw [List.flatMap_cons] at h ⊢
    rcases charBytes_ascii_or ch with e | ⟨b, tl, e, hb⟩
    · rw [e] at h ⊢
      rw [List.map_cons, List.singleton_append,
        ascii_data rest (fun b hb => h b (List.mem_append_right _ hb))]
    · exfalso
      have := h b (by rw [e]; exact List.mem_append_left _ (List.mem_cons_self _ _))
      omega

theorem char_toNat_cast_injective :
    Function.Injective (fun ch : Char => ((ch.toNat : Nat) : Int)) := by
  intro a b h
  have h1 : ((a.toNat : Nat) : Int) = ((b.toNat : Nat) : Int) := h
  have h2 : a.toNat = b.toNat := by exact_mod_cast h1
  rw [← Char.ofNat_toNat a, ← Char.ofNat_toNat b, h2]

theorem eq_of_strBytes_ascii (s t : String) (h : strBytes s = strBytes t)
    (ha : ∀ b ∈ strBytes s, b < 128) : s = t := by
  have h1 := ascii_data s.data ha
  have h2 := ascii_data t.data (by rw [← strBytes, ← h]; exact ha)
  unfold strBytes at h
  rw [h1, h2] at h
  have := List.map_injective_iff.2 char_toNat_cast_injective h
  exact String.ext this

theorem chessToIndex_ok_iff (b0 b1 : Int) (h0 : 0 ≤ b0 ∧ b0 < 256) (h1 : 0 ≤ b1 ∧ b1 < 256) :
    (∃ p, chessToIndex [b0, b1] = .ok p) ↔ (97 ≤ b0 ∧ b0 ≤ 104 ∧ 49 ≤ b1 ∧ b1 ≤ 56) := by
  unfold chessToIndex
  dsimp only
  constructor
  · rintro ⟨p, hp⟩
    split_ifs at hp with h
    omega
  · intro h
    rw [if_neg (by omega)]
    exact ⟨_, rfl⟩

theorem StringToMoveStruct_ok_bytes (s : String) (c : Int) (mv : Move)
    (h : StringToMoveStruct s c = .ok mv) :
    ∃ b0 b1 b3 b4, strBytes s = [b0, b1, 32, b3, b4] ∧ 97 ≤ b0 ∧ b0 ≤ 104 ∧ 49 ≤ b1 ∧ b1 ≤ 56 ∧
      97 ≤ b3 ∧ b3 ≤ 104 ∧ 49 ≤ b4 ∧ b4 ≤ 56 := by
  have hr := strBytes_range s
  unfold StringToMoveStruct at h
  dsimp only at h
  split_ifs at h with hshape
  push_neg at hshape
  obtain ⟨hlen, h2⟩ := hshape
  generalize strBytes s = bytes at hr hlen h2 h
  match bytes, hlen with
  | [b0, b1, b2, b3, b4], _ =>
    simp only [List.getD_cons_succ, List.getD_cons_zero] at h2
    subst h2
    have e1 : List.take 2 [b0, b1, 32, b3, b4] = [b0, b1] := rfl
    have e2 : List.take 2 (List.drop 3 [b0, b1, 32, b3, b4]) = [b3, b4] := rfl
    rw [e1, e2] at h
    have r0 := hr b0 (by simp)
    have r1 := hr b1 (by simp)
    have r3 := hr b3 (by simp)
    have r4 := hr b4 (by simp)
    cases hx : chessToIndex [b0, b1] with
    | panic => rw [hx] at h; simp at h
    | fail v e => rw [hx] at h; cases e <;> simp at h
    | ok src =>
      rw [hx] at h
      dsimp only at h
      cases hy : chessToIndex [b3, b4] with
      | panic => rw [hy] at h; simp at h
      | fail v e => rw [hy] at h; cases e <;> simp at h
      | ok dst =>
        have a := (chessToIndex_ok_iff b0 b1 r0 r1).1 ⟨_, hx⟩
        have b := (chessToIndex_ok_iff b3 b4 r3 r4).1 ⟨_, hy⟩
        exact ⟨b0, b1, b3, b4, rfl, a.1, a.2.1, a.2.2.1, a.2.2.2, b.1, b.2.1, b.2.2.1, b.2.2.2⟩

theorem StringToMoveStruct_of_shape (s : String) (c : Int) (b0 b1 b3 b4 : Int)
    (hb : strBytes s = [b0, b1, 32, b3, b4])
    (h0 : 97 ≤ b0 ∧ b0 ≤ 104) (h1 : 49 ≤ b1 ∧ b1 ≤ 56)
    (h3 : 97 ≤ b3 ∧ b3 ≤ 104) (h4 : 49 ≤ b4 ∧ b4 ≤ 56) :
    StringToMoveStruct s c =
        .ok { From := (8 - (b1 - 48), b0 - 97), To := (8 - (b4 - 48), b3 - 97), Color := c,
              Capture := false } ∧
    MoveToString { From := (8 - (b1 - 48), b0 - 97), To := (8 - (b4 - 48), b3 - 97), Color := c,
                   Capture := false } = s := by
  have v1 : isValid (8 - (b1 - 48)) (b0 - 97) = true := by rw [isValid_iff]; omega
  have v2 : isValid (8 - (b4 - 48)) (b3 - 97) = true := by rw [isValid_iff]; omega
  have hb2 : strBytes s = [97 + (b0 - 97), 56 - (8 - (b1 - 48)), 32, 97 + (b3 - 97),
      56 - (8 - (b4 - 48))] := by
    rw [hb]
    have e0 : 97 + (b0 - 97) = b0 := by omega
    have e1 : 56 - (8 - (b1 - 48)) = b1 := by omega
    have e3 : 97 + (b3 - 97) = b3 := by omega
    have e4 : 56 - (8 - (b4 - 48)) = b4 := by omega
    rw [e0, e1, e3, e4]
  refine ⟨StringToMoveStruct_of_bytes s c _ _ _ _ v1 v2 hb2, ?_⟩
  have hm := MoveToString_bytes
    ({ From := (8 - (b1 - 48), b0 - 97), To := (8 - (b4 - 48), b3 - 97), Color := c,
       Capture := false } : Move) v1 v2
  symm
  apply eq_of_strBytes_ascii
  · rw [hm, hb2]
  · intro b hmem
    rw [hb] at hmem
    simp at hmem
    omega

/-- C12.  `StringToMoveStruct s c` succeeds exactly when `s` is five bytes long,
its third byte is a space, bytes 0 and 3 lie in `'a'..'h'` and bytes 1 and 4 in
`'1'..'8'`.  On success the move has `From = (8 - digit(s[1]), s[0] - 'a')`,
`To = (8 - digit(s[4]), s[3] - 'a')`, colour `c` and `Capture = false`, and
`MoveToString` of it is `s` again.  `"e2 e4"` parses to (6,4), (4,4). -/
theorem StringToMoveStruct_spec (s : String) (c : Int) :
    ((∃ mv, StringToMoveStruct s c = .ok mv) ↔
      ∃ b0 b1 b3 b4, strBytes s = [b0, b1, 32, b3, b4] ∧ 97 ≤ b0 ∧ b0 ≤ 104 ∧ 49 ≤ b1 ∧
        b1 ≤ 56 ∧ 97 ≤ b3 ∧ b3 ≤ 104 ∧ 49 ≤ b4 ∧ b4 ≤ 56) ∧
    (∀ mv, StringToMoveStruct s c = .ok mv →
      ∃ b0 b1 b3 b4, strBytes s = [b0, b1, 32, b3, b4] ∧
        mv = { From := (8 - (b1 - 48), b0 - 97), To := (8 - (b4 - 48), b3 - 97), Color := c,
               Capture := false } ∧
        MoveToString mv = s) ∧
    StringToMoveStruct "e2 e4" c =
      .ok { From := (6, 4), To := (4, 4), Color := c, Capture := false } := by
  refine ⟨⟨?_, ?_⟩, ?_, ?_⟩
  · rintro ⟨mv, h⟩
    exact StringToMoveStruct_ok_bytes s c mv h
  · rintro ⟨b0, b1, b3, b4, hb, h0, h0', h1, h1', h3, h3', h4, h4'⟩
    exact ⟨_, (StringToMoveStruct_of_shape s c b0 b1 b3 b4 hb ⟨h0, h0'⟩ ⟨h1, h1'⟩ ⟨h3, h3'⟩
      ⟨h4, h4'⟩).1⟩
  · intro mv h
    obtain ⟨b0, b1, b3, b4, hb, h0, h0', h1, h1', h3, h3', h4, h4'⟩ :=
      StringToMoveStruct_ok_bytes s c mv h
    have hs := StringToMoveStruct_of_shape s c b0 b1 b3 b4 hb ⟨h0, h0'⟩ ⟨h1, h1'⟩ ⟨h3, h3'⟩
      ⟨h4, h4'⟩
    rw [hs.1] at h
    have e : mv = _ := (Res.ok.inj h).symm
    exact ⟨b0, b1, b3, b4, hb, e, e ▸ hs.2⟩
  · exact (StringToMoveStruct_of_shape "e2 e4" c 101 50 101 52 (by decide) (by decide)
      (by decide) (by decide) (by decide)).1

/-- Witness of C12: `"e2 e4"` for white parses, and printing the result gives
`"e2 e4"` back. -/
theorem StringToMoveStruct_spec_witness :
    StringToMoveStruct "e2 e4" 119 =
        .ok { From := (6, 4), To := (4, 4), Color := 119, Capture := false } ∧
    ∃ b0 b1 b3 b4, strBytes "e2 e4" = [b0, b1, 32, b3, b4] ∧
      ({ From := (6, 4), To := (4, 4), Color := 119, Capture := false } : Move) =
        { From := (8 - (b1 - 48), b0 - 97), To := (8 - (b4 - 48), b3 - 97), Color := 119,
          Capture := false } ∧
      MoveToString { From := (6, 4), To := (4, 4), Color := 119, Capture := false } = "e2 e4" :=
  ⟨(StringToMoveStruct_spec "e2 e4" 119).2.2,
    (StringToMoveStruct_spec "e2 e4" 119).2.1 _ (StringToMoveStruct_spec "e2 e4" 119).2.2⟩

/-! ## The attack probe -/

theorem attackScan_ok_true (row col : Int) :
    ∀ (ms : List Move) (i : Nat), attackScan row col ms i = .ok true →
      ∃ x ∈ ms, x.To = (row, col) ∧ x.Capture = true
  | [], _, h => by simp [attackScan] at h
  | m :: rest, i, h => by
    unfold attackScan at h
    split_ifs at h with h1 h2 h3
    · obtain ⟨x, hx, hx2⟩ := attackScan_ok_true row col rest _ h
      exact ⟨x, List.mem_cons_of_mem _ hx, hx2⟩
    · obtain ⟨x, hx, hx2⟩ := attackScan_ok_true row col rest _ h
      exact ⟨x, List.mem_cons_of_mem _ hx, hx2⟩
    · refine ⟨m, List.mem_cons_self _ _, ?_, ?_⟩
      · push_neg at h2
        exact Prod.ext h2.1 h2.2
      · simpa using h3

theorem setCell_setCell (board : Grid) (row col v w : Int) :
    setCell (setCell board row col v) row col w = setCell board row col w := by
  funext i j
  unfold setCell
  split_ifs <;> rfl

theorem setCell_eq_of_agree {B1 B2 : Grid} {row col : Int} (v : Int)
    (h : ∀ r c : Int, isValid r c = true → (r, c) ≠ (row, col) → cell B1 r c = cell B2 r c) :
    setCell B1 row col v = setCell B2 row col v := by
  funext i j
  unfold setCell
  split_ifs with h1
  · rfl
  · have hv : isValid ((i : Nat) : Int) ((j : Nat) : Int) = true := by
      rw [isValid_iff]
      have := i.isLt
      have := j.isLt
      omega
    have := h _ _ hv (by
      intro e
      exact h1 ⟨congrArg Prod.fst e, congrArg Prod.snd e⟩)
    rwa [cell_coe, cell_coe] at this

/-- C13.  For every state `S`, in-bounds square `(r, c)` and attacker colour `a`
(`'w'` or `'b'`), `fieldAttacked r c a S` returns, and when it returns without
error its result is true exactly when, on the board of `S` with `(r, c)`
replaced by the king of the other colour, some move of `AllPossibleMoves a . []`
has `To = (r, c)` and `Capture = true`.  The outcome is the same on every state
whose board differs from that of `S` at most on `(r, c)`.  On the boards of
`TestFieldAttacked` the white bishop on (0,0) attacks (1,1) and the black bishop
on (2,1) attacks (4,3). -/
theorem fieldAttacked_spec (S : BoardState) (r c a : Int) (hv : isValid r c = true)
    (ha : a = 119 ∨ a = 98) :
    fieldAttacked r c a S ≠ .panic ∧
    (∀ b, fieldAttacked r c a S = .ok b →
      (b = true ↔
        ∃ m ∈ AllPossibleMoves a
            { S with Board := setCell S.Board r c (kingCell (enemyOf a)) } [],
          m.To = (r, c) ∧ m.Capture = true)) ∧
    (∀ S2 : BoardState,
      (∀ r2 c2 : Int, isValid r2 c2 = true → (r2, c2) ≠ (r, c) →
        cell S2.Board r2 c2 = cell S.Board r2 c2) →
      fieldAttacked r c a S2 = fieldAttacked r c a S) ∧
    fieldAttacked 1 1 119 testAttackBoard1 = .ok true ∧
    fieldAttacked 4 3 98 testAttackBoard2 = .ok true := by
  have hk : kingCell (enemyOf a) = (if a = 119 then 88 else 120) := by
    rcases ha with rfl | rfl <;> decide
  refine ⟨?_, ?_, ?_, by decide, by decide⟩
  · rw [Ne, fieldAttacked_panic_iff, hv]
    simp
  · intro b hb
    rw [fieldAttacked_of_valid hv] at hb
    rw [hk]
    cases b
    · constructor
      · intro e
        cases e
      · rintro ⟨m, hm, h1, h2⟩
        exact absurd ⟨h1, h2⟩ (attackScan_ok_false r c _ _ hb m hm)
    · simp only [true_iff]
      exact attackScan_ok_true r c _ _ hb
  · intro S2 h
    rw [fieldAttacked_of_valid hv, fieldAttacked_of_valid hv]
    congr 1
    apply AllPossibleMoves_congr
    exact setCell_eq_of_agree _ h

/-- Witness of C13: the first probe of `TestFieldAttacked`. -/
theorem fieldAttacked_spec_witness :
    isValid 1 1 = true ∧ ((119 : Int) = 119 ∨ (119 : Int) = 98) ∧
    fieldAttacked 1 1 119 testAttackBoard1 ≠ .panic ∧
    (∀ b, fieldAttacked 1 1 119 testAttackBoard1 = .ok b →
      (b = true ↔
        ∃ m ∈ AllPossibleMoves 119
            { testAttackBoard1 with
              Board := setCell testAttackBoard1.Board 1 1 (kingCell (enemyOf 119)) } [],
          m.To = (1, 1) ∧ m.Capture = true)) :=
  ⟨by decide, Or.inl rfl,
    (fieldAttacked_spec testAttackBoard1 1 1 119 (by decide) (Or.inl rfl)).1,
    (fieldAttacked_spec testAttackBoard1 1 1 119 (by decide) (Or.inl rfl)).2.1⟩

theorem setCell_restore (board : Grid) (row col v : Int) :
    setCell (setCell board row col v) row col (cell board row col) = board := by
  rw [setCell_setCell]
  exact setCell_same rfl

theorem fieldAttackedSt_eq (row col a : Int) (S : BoardState) :
    fieldAttackedSt row col a S = (fieldAttacked row col a S, S) := by
  unfold fieldAttackedSt fieldAttacked
  dsimp only
  cases isValid row col
  · rfl
  · simp only [Bool.not_true, Bool.false_eq_true, if_false, setCell_restore]

theorem kingMoveableLoopSt_eq (enemy : Int) (S : BoardState) :
    ∀ ms : List Move, kingMoveableLoopSt enemy S ms = (kingMoveableLoop enemy S ms, S)
  | [] => rfl
  | m :: rest => by
    unfold kingMoveableLoopSt kingMoveableLoop
    rw [fieldAttackedSt_eq]
    cases fieldAttacked m.To.1 m.To.2 enemy S with
    | panic => rfl
    | fail v e => rfl
    | ok attacked =>
      dsimp only
      cases attacked
      · rfl
      · simp only [Bool.not_true, Bool.false_eq_true, if_false]
        exact kingMoveableLoopSt_eq enemy S rest

/-- C14.  No residual mutation: for every state, square and colour, the state
`fieldAttacked`, `kingAttacked` and `kingMoveable` are given by reference is,
after the call, equal to the state before it in the board and in every other
field, whatever the outcome; and the outcome is the one of the embedding without
the threaded state. -/
theorem no_residual_mutation (S : BoardState) (r c a : Int) :
    (fieldAttackedSt r c a S).2 = S ∧ (fieldAttackedSt r c a S).1 = fieldAttacked r c a S ∧
    (kingAttackedSt a S).2 = S ∧ (kingAttackedSt a S).1 = kingAttacked a S ∧
    (kingMoveableSt a S).2 = S ∧ (kingMoveableSt a S).1 = kingMoveable a S := by
  refine ⟨?_, ?_, ?_, ?_, ?_, ?_⟩
  · rw [fieldAttackedSt_eq]
  · rw [fieldAttackedSt_eq]
  · unfold kingAttackedSt
    dsimp only
    rw [fieldAttackedSt_eq]
  · unfold kingAttackedSt kingAttacked
    dsimp only
    rw [fieldAttackedSt_eq]
  · unfold kingMoveableSt
    dsimp only
    rw [kingMoveableLoopSt_eq]
  · unfold kingMoveableSt kingMoveable
    dsimp only
    rw [kingMoveableLoopSt_eq]

/-! ## The sliding pieces -/

theorem pathClear_iff (S : BoardState) (r c : Int) (d : Int × Int) (n : Nat) :
    pathClear S r c d n = true ↔
      ∀ j : Nat, 1 ≤ j → j < n → cell S.Board (r + (j : Int) * d.1) (c + (j : Int) * d.2) = 32 := by
  unfold pathClear
  rw [List.all_eq_true]
  constructor
  · intro h j h1 h2
    have := h j (by rw [List.mem_range'_1]; omega)
    simpa using this
  · intro h j hj
    rw [List.mem_range'_1] at hj
    simpa using h j hj.1 (by omega)

theorem rayStep_blocked (S : BoardState) (r c k : Int) (d : Int × Int)
    (hconv : ∀ n j : Nat, j ≤ n → isValid (r + (n : Int) * d.1) (c + (n : Int) * d.2) = true →
      isValid (r + (j : Int) * d.1) (c + (j : Int) * d.2) = true)
    (i fuel : Nat)
    (h : isValid (r + ((i + 1 : Nat) : Int) * d.1) (c + ((i + 1 : Nat) : Int) * d.2) = false ∨
      cell S.Board (r + ((i + 1 : Nat) : Int) * d.1) (c + ((i + 1 : Nat) : Int) * d.2) ≠ 32) :
    (List.range' (i + 1 + 1) fuel).flatMap (rayStep S r c k d) = [] := by
  rw [List.flatMap_eq_nil_iff]
  intro n hn
  rw [List.mem_range'_1] at hn
  unfold rayStep
  rw [if_neg]
  rintro ⟨hvn, hpc, -⟩
  rcases h with h | h
  · rw [hconv n (i + 1) (by omega) hvn] at h
    cases h
  · exact h ((pathClear_iff S r c d n).1 hpc (i + 1) (by omega) (by omega))

theorem rayMoves_eq_steps (S : BoardState) (r c k : Int) (d : Int × Int)
    (hk : k = 119 ∨ k = 98)
    (hconv : ∀ n j : Nat, j ≤ n → isValid (r + (n : Int) * d.1) (c + (n : Int) * d.2) = true →
      isValid (r + (j : Int) * d.1) (c + (j : Int) * d.2) = true) :
    ∀ (fuel i : Nat),
      (∀ j : Nat, 1 ≤ j → j ≤ i →
        cell S.Board (r + (j : Int) * d.1) (c + (j : Int) * d.2) = 32) →
      rayMoves r c k S d fuel (r + (i : Int) * d.1) (c + (i : Int) * d.2) [] =
        (List.range' (i + 1) fuel).flatMap (rayStep S r c k d)
  | 0, i, _ => by simp [rayMoves]
  | fuel + 1, i, hinv => by
    have e1 : r + (i : Int) * d.1 + d.1 = r + ((i + 1 : Nat) : Int) * d.1 := by
      push_cast; ring
    have e2 : c + (i : Int) * d.2 + d.2 = c + ((i + 1 : Nat) : Int) * d.2 := by
      push_cast; ring
    have hblock := rayStep_blocked S r c k d hconv i fuel
    have ih := rayMoves_eq_steps S r c k d hk hconv fuel (i + 1)
    have hclear : pathClear S r c d (i + 1) = true := by
      rw [pathClear_iff]
      intro j h1 h2
      exact hinv j h1 (by omega)
    have hinv2 : cell S.Board (r + ((i + 1 : Nat) : Int) * d.1)
        (c + ((i + 1 : Nat) : Int) * d.2) = 32 → ∀ j : Nat, 1 ≤ j → j ≤ i + 1 →
          cell S.Board (r + (j : Int) * d.1) (c + (j : Int) * d.2) = 32 := by
      intro h j h1 h2
      rcases Nat.lt_or_ge j (i + 1) with h3 | h3
      · exact hinv j h1 (by omega)
      · have : j = i + 1 := by omega
        subst this
        exact h
    have hstep : rayStep S r c k d (i + 1) =
        if isValid (r + ((i + 1 : Nat) : Int) * d.1) (c + ((i + 1 : Nat) : Int) * d.2) = true ∧
            pathClear S r c d (i + 1) = true ∧
            (getColorAndPiece (r + ((i + 1 : Nat) : Int) * d.1)
              (c + ((i + 1 : Nat) : Int) * d.2) S.Board).1 ≠ k then
          [moveTo r c k (r + ((i + 1 : Nat) : Int) * d.1, c + ((i + 1 : Nat) : Int) * d.2)
            (decide (cell S.Board (r + ((i + 1 : Nat) : Int) * d.1)
              (c + ((i + 1 : Nat) : Int) * d.2) ≠ 32))]
        else [] := rfl
    unfold rayMoves
    dsimp only
    rw [e1, e2, List.range'_succ, List.flatMap_cons, hstep]
    generalize ((i + 1 : Nat) : Int) = q at hblock ih hinv2 ⊢
    cases hv : isValid (r + q * d.1) (c + q * d.2)
    · rw [hblock (Or.inl hv)]
      simp
    · have hiff := getPiece_empty_iff_cell S.Board hv
      simp only [Bool.not_true, Bool.false_eq_true, if_false]
      by_cases hcol : k = (getColorAndPiece (r + q * d.1) (c + q * d.2) S.Board).1
      · have hne : cell S.Board (r + q * d.1) (c + q * d.2) ≠ 32 := by
          intro e
          rw [getColor_of_cell_empty hv e] at hcol
          rcases hk with rfl | rfl <;> simp at hcol
        rw [hblock (Or.inr hne), if_pos hcol]
        simp [← hcol]
      · have hcol2 : (getColorAndPiece (r + q * d.1) (c + q * d.2) S.Board).1 ≠ k :=
          fun e => hcol e.symm
        rw [if_neg hcol]
        by_cases hemp : (getColorAndPiece (r + q * d.1) (c + q * d.2) S.Board).2 = Empty
        · have hcell := hiff.1 hemp
          rw [if_pos hemp, rayMoves_append, ih (hinv2 hcell), if_pos ⟨trivial, hclear, hcol2⟩]
          simp [addMove, moveTo, hcell]
        · have hne : cell S.Board (r + q * d.1) (c + q * d.2) ≠ 32 := fun e => hemp (hiff.2 e)
          have hcol3 : k ≠ (getColorAndPiece (r + q * d.1) (c + q * d.2) S.Board).1 := hcol
          rw [if_neg hemp, if_pos hcol3, hblock (Or.inr hne),
            if_pos ⟨trivial, hclear, hcol2⟩]
          simp [addMove, moveTo, hne]

theorem delta_cases {d : Int × Int} (h : d ∈ straightDeltas ∨ d ∈ diagonalDeltas) :
    (d.1 = -1 ∨ d.1 = 0 ∨ d.1 = 1) ∧ (d.2 = -1 ∨ d.2 = 0 ∨ d.2 = 1) ∧ (d.1 ≠ 0 ∨ d.2 ≠ 0) := by
  unfold straightDeltas diagonalDeltas at h
  simp only [List.mem_cons, List.mem_singleton, List.not_mem_nil, or_false] at h
  rcases h with (rfl | rfl | rfl | rfl) | (rfl | rfl | rfl | rfl) <;> simp

theorem ray_convex {r c : Int} {d : Int × Int} (hv : isValid r c = true)
    (hd : d ∈ straightDeltas ∨ d ∈ diagonalDeltas) (n j : Nat) (hj : j ≤ n)
    (h : isValid (r + (n : Int) * d.1) (c + (n : Int) * d.2) = true) :
    isValid (r + (j : Int) * d.1) (c + (j : Int) * d.2) = true := by
  obtain ⟨h1, h2, -⟩ := delta_cases hd
  rw [isValid_iff] at hv h ⊢
  rcases h1 with e1 | e1 | e1 <;> rcases h2 with e2 | e2 | e2 <;> rw [e1, e2] at h ⊢ <;> omega

theorem ray_bound {r c : Int} {d : Int × Int} (hv : isValid r c = true)
    (hd : d ∈ straightDeltas ∨ d ∈ diagonalDeltas) (n : Nat)
    (h : isValid (r + (n : Int) * d.1) (c + (n : Int) * d.2) = true) : n ≤ 7 := by
  obtain ⟨h1, h2, h3⟩ := delta_cases hd
  rw [isValid_iff] at hv h
  rcases h1 with e1 | e1 | e1 <;> rcases h2 with e2 | e2 | e2 <;> rw [e1, e2] at h <;>
    omega

theorem rayMoves_eq_rule (S : BoardState) {r c : Int} (k : Int) {d : Int × Int}
    (hv : isValid r c = true) (hk : k = 119 ∨ k = 98)
    (hd : d ∈ straightDeltas ∨ d ∈ diagonalDeltas) :
    rayMoves r c k S d 8 r c [] = rayRule S r c k d := by
  have h := rayMoves_eq_steps S r c k d hk (ray_convex hv hd) 8 0 (fun j h1 h2 => by omega)
  simp only [Nat.cast_zero, zero_mul, add_zero, zero_add] at h
  rw [h]
  unfold rayRule
  have e : List.range' 1 8 = List.range' 1 7 ++ [8] := by decide
  rw [e, List.flatMap_append]
  have h8 : rayStep S r c k d 8 = [] := by
    unfold rayStep
    rw [if_neg]
    rintro ⟨h1, -, -⟩
    have := ray_bound hv hd 8 h1
    omega
  simp [h8]

theorem flatMap_congr_mem {α β : Type} (l : List α) (f g : α → List β)
    (h : ∀ a ∈ l, f a = g a) : l.flatMap f = l.flatMap g := by
  induction l with
  | nil => rfl
  | cons a rest ih =>
    rw [List.flatMap_cons, List.flatMap_cons, h a (List.mem_cons_self _ _),
      ih (fun b hb => h b (List.mem_cons_of_mem _ hb))]

theorem lineMoves_eq_rule (S : BoardState) {r c : Int} (k : Int) (hv : isValid r c = true)
    (hk : k = 119 ∨ k = 98) :
    lineMoves r c k S [] "straight" = slideRule S r c k straightDeltas ∧
    lineMoves r c k S [] "diagonal" = slideRule S r c k diagonalDeltas := by
  have hs : getDeltas "straight" = straightDeltas := by decide
  have hg : getDeltas "diagonal" = diagonalDeltas := by decide
  unfold lineMoves slideRule
  rw [hs, hg]
  constructor
  · rw [foldl_append_of_step _ (fun acc d => rayMoves_append r c k S d 8 r c acc), List.nil_append]
    exact flatMap_congr_mem _ _ _ (fun d hd => rayMoves_eq_rule S k hv hk (Or.inl hd))
  · rw [foldl_append_of_step _ (fun acc d => rayMoves_append r c k S d 8 r c acc), List.nil_append]
    exact flatMap_congr_mem _ _ _ (fun d hd => rayMoves_eq_rule S k hv hk (Or.inr hd))

theorem mem_rayStep {S : BoardState} {r c k : Int} {d : Int × Int} {n : Nat} {m : Move} :
    m ∈ rayStep S r c k d n ↔
      (isValid (r + (n : Int) * d.1) (c + (n : Int) * d.2) = true ∧ pathClear S r c d n = true ∧
        (getColorAndPiece (r + (n : Int) * d.1) (c + (n : Int) * d.2) S.Board).1 ≠ k) ∧
      m = moveTo r c k (r + (n : Int) * d.1, c + (n : Int) * d.2)
        (decide (cell S.Board (r + (n : Int) * d.1) (c + (n : Int) * d.2) ≠ 32)) := by
  unfold rayStep
  split_ifs with h
  · simp [h]
  · simp [h]

theorem mem_slideRule {S : BoardState} {r c k : Int} {deltas : List (Int × Int)} {m : Move} :
    m ∈ slideRule S r c k deltas ↔
      ∃ d ∈ deltas, ∃ n : Nat, 1 ≤ n ∧ n ≤ 7 ∧ m ∈ rayStep S r c k d n := by
  unfold slideRule rayRule
  simp only [List.mem_flatMap, List.mem_range'_1]
  constructor
  · rintro ⟨d, hd, n, hn, hm⟩
    exact ⟨d, hd, n, hn.1, by omega, hm⟩
  · rintro ⟨d, hd, n, h1, h2, hm⟩
    exact ⟨d, hd, n, ⟨h1, by omega⟩, hm⟩

theorem sublist_flatMap {α β : Type} (l : List α) (f g : α → List β)
    (h : ∀ a, List.Sublist (f a) (g a)) : List.Sublist (l.flatMap f) (l.flatMap g) := by
  induction l with
  | nil => exact List.Sublist.refl _
  | cons a rest ih =>
    rw [List.flatMap_cons, List.flatMap_cons]
    exact List.Sublist.append (h a) ih

theorem sublist_flatMap_map {α β : Type} (l : List α) (f : α → List β) (g : α → β)
    (h : ∀ a, List.Sublist (f a) [g a]) : List.Sublist (l.flatMap f) (l.map g) := by
  induction l with
  | nil => exact List.Sublist.refl _
  | cons a rest ih =>
    rw [List.flatMap_cons, List.map_cons]
    exact List.Sublist.append (h a) ih

theorem slideRule_targets_sublist (S : BoardState) (r c k : Int) (deltas : List (Int × Int)) :
    List.Sublist ((slideRule S r c k deltas).map (fun m => m.To))
      ((deltas.flatMap (fun d =>
        (List.range' 1 7).map (fun n : Nat => ((n : Int) * d.1, (n : Int) * d.2)))).map
        (fun p => (r + p.1, c + p.2))) := by
  unfold slideRule rayRule
  rw [List.map_flatMap, List.map_flatMap]
  apply sublist_flatMap
  intro d
  rw [List.map_flatMap, List.map_map]
  apply sublist_flatMap_map
  intro n
  unfold rayStep
  split_ifs
  · exact List.Sublist.refl _
  · exact List.nil_sublist _

theorem slideRule_nodup (S : BoardState) (r c k : Int) {deltas : List (Int × Int)}
    (hd : deltas = straightDeltas ∨ deltas = diagonalDeltas) :
    ((slideRule S r c k deltas).map (fun m => m.To)).Nodup := by
  refine List.Nodup.sublist (slideRule_targets_sublist S r c k deltas) ?_
  apply List.Nodup.map
  · intro p q h
    have h1 := congrArg Prod.fst h
    have h2 := congrArg Prod.snd h
    dsimp only at h1 h2
    exact Prod.ext (by omega) (by omega)
  · rcases hd with rfl | rfl <;> decide

theorem slideRule_spec (S : BoardState) {r c : Int} (k : Int) {deltas : List (Int × Int)}
    (hv : isValid r c = true) (hd : deltas = straightDeltas ∨ deltas = diagonalDeltas) :
    SlideSpec S r c k deltas (slideRule S r c k deltas) := by
  refine ⟨?_, slideRule_nodup S r c k hd⟩
  intro m
  rw [mem_slideRule]
  constructor
  · rintro ⟨d, hdm, n, h1, -, hm⟩
    obtain ⟨⟨hval, hclear, hcol⟩, rfl⟩ := mem_rayStep.1 hm
    refine ⟨rfl, rfl, hval, ⟨d, hdm, n, h1, rfl, (pathClear_iff S r c d n).1 hclear⟩, hcol, ?_⟩
    simp [moveTo]
  · rintro ⟨hf, hc, hval, ⟨d, hdm, n, h1, hto, hclear⟩, hcol, hcap⟩
    have hd2 : d ∈ straightDeltas ∨ d ∈ diagonalDeltas := by
      rcases hd with rfl | rfl
      · exact Or.inl hdm
      · exact Or.inr hdm
    have hto1 : m.To.1 = r + (n : Int) * d.1 := congrArg Prod.fst hto
    have hto2 : m.To.2 = c + (n : Int) * d.2 := congrArg Prod.snd hto
    rw [hto1, hto2] at hval hcol hcap
    refine ⟨d, hdm, n, h1, ray_bound hv hd2 n hval, ?_⟩
    rw [mem_rayStep]
    refine ⟨⟨hval, (pathClear_iff S r c d n).2 hclear, hcol⟩, ?_⟩
    cases m with
    | mk mFrom mTo mColor mCapture =>
      dsimp only at hf hc hto hcap
      subst hf hc hto
      unfold moveTo
      congr 1
      by_cases hcell : cell S.Board (r + (n : Int) * d.1) (c + (n : Int) * d.2) = 32
      · have : ¬ mCapture = true := fun e => (hcap.1 e) hcell
        simp [hcell, this]
      · simp [hcell, hcap.2 hcell]

set_option maxRecDepth 1000000 in
/-- C15.  For an in-bounds square holding a rook (`'r'` white, `'R'` black) or
a bishop (`'b'`, `'B'`) of colour `k`, `GenerateMovesForPiece` called with an
empty list returns exactly the list of the sliding rule over the four
orthogonal, respectively diagonal, directions; for a queen (`'q'`, `'Q'`) it
returns the diagonal list followed by the orthogonal list.  The list of the
sliding rule holds a move to `T` exactly when `T` is in bounds on one of the
four rays, every square strictly between is empty and `T` does not hold a piece
of colour `k`; no target occurs twice; a move is a capture exactly when its
target is occupied.  On the board of `TestGenerateMoves` the white rook on
(3,2) has its thirteen moves, the one to (6,2) a capture. -/
theorem sliding_rule (S : BoardState) (r c : Int) (hv : isValid r c = true) :
    (cell S.Board r c = 114 →
      GenerateMovesForPiece r c S [] = slideRule S r c 119 straightDeltas) ∧
    (cell S.Board r c = 82 →
      GenerateMovesForPiece r c S [] = slideRule S r c 98 straightDeltas) ∧
    (cell S.Board r c = 98 →
      GenerateMovesForPiece r c S [] = slideRule S r c 119 diagonalDeltas) ∧
    (cell S.Board r c = 66 →
      GenerateMovesForPiece r c S [] = slideRule S r c 98 diagonalDeltas) ∧
    (cell S.Board r c = 113 →
      GenerateMovesForPiece r c S [] =
        slideRule S r c 119 diagonalDeltas ++ slideRule S r c 119 straightDeltas) ∧
    (cell S.Board r c = 81 →
      GenerateMovesForPiece r c S [] =
        slideRule S r c 98 diagonalDeltas ++ slideRule S r c 98 straightDeltas) ∧
    (∀ k : Int, SlideSpec S r c k straightDeltas (slideRule S r c k straightDeltas) ∧
      SlideSpec S r c k diagonalDeltas (slideRule S r c k diagonalDeltas)) ∧
    GenerateMovesForPiece 3 2 testGenerateBoard [] =
      [{ From := (3, 2), To := (2, 2), Color := 119, Capture := false },
       { From := (3, 2), To := (1, 2), Color := 119, Capture := false },
       { From := (3, 2), To := (0, 2), Color := 119, Capture := false },
       { From := (3, 2), To := (4, 2), Color := 119, Capture := false },
       { From := (3, 2), To := (5, 2), Color := 119, Capture := false },
       { From := (3, 2), To := (6, 2), Color := 119, Capture := true },
       { From := (3, 2), To := (3, 1), Color := 119, Capture := false },
       { From := (3, 2), To := (3, 0), Color := 119, Capture := false },
       { From := (3, 2), To := (3, 3), Color := 119, Capture := false },
       { From := (3, 2), To := (3, 4), Color := 119, Capture := false },
       { From := (3, 2), To := (3, 5), Color := 119, Capture := false },
       { From := (3, 2), To := (3, 6), Color := 119, Capture := false },
       { From := (3, 2), To := (3, 7), Color := 119, Capture := false }] := by
  have hc := getColorAndPiece_of_cell S.Board hv
  have hw := lineMoves_eq_rule S 119 hv (Or.inl rfl)
  have hb := lineMoves_eq_rule S 98 hv (Or.inr rfl)
  refine ⟨?_, ?_, ?_, ?_, ?_, ?_, ?_, by decide⟩
  · intro e
    have h := hc.2.2.2.2.2.2.2.2.1 e
    unfold GenerateMovesForPiece
    simp only [h]
    exact hw.1
  · intro e
    have h := hc.2.2.2.2.2.2.2.2.2.1 e
    unfold GenerateMovesForPiece
    simp only [h]
    exact hb.1
  · intro e
    have h := hc.2.2.2.2.2.2.1 e
    unfold GenerateMovesForPiece
    simp only [h]
    exact hw.2
  · intro e
    have h := hc.2.2.2.2.2.2.2.1 e
    unfold GenerateMovesForPiece
    simp only [h]
    exact hb.2
  · intro e
    have h := hc.2.2.2.2.2.2.2.2.2.2.1 e
    unfold GenerateMovesForPiece
    simp only [h]
    show lineMoves r c 119 S (lineMoves r c 119 S [] "diagonal") "straight" = _
    rw [lineMoves_append, hw.1, hw.2]
  · intro e
    have h := hc.2.2.2.2.2.2.2.2.2.2.2 e
    unfold GenerateMovesForPiece
    simp only [h]
    show lineMoves r c 98 S (lineMoves r c 98 S [] "diagonal") "straight" = _
    rw [lineMoves_append, hb.1, hb.2]
  · intro k
    exact ⟨slideRule_spec S k hv (Or.inl rfl), slideRule_spec S k hv (Or.inr rfl)⟩

/-- Witness of C15: the white rook on (3,2) of the board of
`TestGenerateMoves`. -/
theorem sliding_rule_witness :
    isValid 3 2 = true ∧ cell testGenerateBoard.Board 3 2 = 114 ∧
    GenerateMovesForPiece 3 2 testGenerateBoard [] =
      slideRule testGenerateBoard 3 2 119 straightDeltas ∧
    SlideSpec testGenerateBoard 3 2 119 straightDeltas
      (slideRule testGenerateBoard 3 2 119 straightDeltas) :=
  ⟨by decide, by decide, (sliding_rule testGenerateBoard 3 2 (by decide)).1 (by decide),
    ((sliding_rule testGenerateBoard 3 2 (by decide)).2.2.2.2.2.2.1 119).1⟩

/-! ## En passant, idempotence of the filter, the winner of a checkmate -/

theorem lowerFirstByte_eq_p (p : Int) : lowerFirstByte p = 112 ↔ p = 112 ∨ p = 80 := by
  unfold lowerFirstByte
  split_ifs <;> omega

theorem pawn_iff_cell {row col : Int} (board : Grid) (h : isValid row col = true) :
    (getColorAndPiece row col board).2 = 112 ↔
      cell board row col = 112 ∨ cell board row col = 80 := by
  rw [getColorAndPiece_valid board h]
  split_ifs with h1 h2
  · simp [h1, Empty]
  · simp [lowerFirstByte_eq_p]
  · simp [lowerFirstByte_eq_p]

theorem applyMove_enPassant (S : BoardState) (m : Move) (hf : isInBounds m.From = true) :
    (applyMove m S).EnPassant =
      if (cell S.Board m.From.1 m.From.2 = 112 ∨ cell S.Board m.From.1 m.From.2 = 80) ∧
          (m.From.1 - m.To.1 = 2 ∨ m.To.1 - m.From.1 = 2) then m.To
      else (-1, -1) := by
  rw [isInBounds_eq_isValid] at hf
  have hp := pawn_iff_cell S.Board hf
  have habs : (m.From.1 - m.To.1).natAbs = 2 ↔ (m.From.1 - m.To.1 = 2 ∨ m.To.1 - m.From.1 = 2) := by
    omega
  unfold applyMove
  dsimp only
  simp only [hp, habs]

set_option maxRecDepth 1000000 in
/-- C21.  For every state `S` and move `m` with in-bounds squares, `MakeMove`
without terminal check returns, with terminal check it returns when the king
cache is in bounds, and whatever it returns has `EnPassant = m.To` when the
origin holds a pawn (`'p'` or `'P'`) and the rows of origin and destination
differ by exactly 2, and `EnPassant = (-1, -1)` in every other case, whatever
`S.EnPassant` was.  The advance (6,3) to (4,3) from the starting position gives
(4,3). -/
theorem MakeMove_enPassant (S : BoardState) (m : Move) (hf : isInBounds m.From = true)
    (ht : isInBounds m.To = true) :
    (∃ N, MakeMove m S false = some N) ∧
    (isInBounds S.WhiteKingPos = true → isInBounds S.BlackKingPos = true →
      ∃ N, MakeMove m S true = some N) ∧
    (∀ (r : Bool) (N : BoardState), MakeMove m S r = some N →
      N.EnPassant =
        if (cell S.Board m.From.1 m.From.2 = 112 ∨ cell S.Board m.From.1 m.From.2 = 80) ∧
            (m.From.1 - m.To.1 = 2 ∨ m.To.1 - m.From.1 = 2) then m.To
        else (-1, -1)) ∧
    (MakeMove queenPawnMove startState true).map (fun N => N.EnPassant) = some (4, 3) := by
  refine ⟨⟨_, MakeMove_false_eq m S hf ht⟩, fun hw hb => MakeMove_total m S true hf ht hw hb,
    ?_, by decide⟩
  intro r N h
  obtain ⟨w, t, rfl⟩ := MakeMove_shape h
  exact applyMove_enPassant S m hf

set_option maxRecDepth 1000000 in
/-- Witness of C21: "d2 d4" from the starting position, where the en-passant
field held (-1,-1). -/
theorem MakeMove_enPassant_witness :
    isInBounds queenPawnMove.From = true ∧ isInBounds queenPawnMove.To = true ∧
    startState.EnPassant = (-1, -1) ∧
    ∃ N, MakeMove queenPawnMove startState true = some N ∧ N.EnPassant = (4, 3) := by
  obtain ⟨N, hN⟩ := (MakeMove_enPassant startState queenPawnMove (by decide) (by decide)).2.1
    (by decide) (by decide)
  refine ⟨by decide, by decide, rfl, N, hN, ?_⟩
  rw [(MakeMove_enPassant startState queenPawnMove (by decide) (by decide)).2.2.1 true N hN]
  decide

theorem FilterInvalidMoves_again (S : BoardState) (ms res : List Move)
    (h : FilterInvalidMoves ms S = .ok res) : FilterInvalidMoves res S = .ok res := by
  have hres : res = ms.filter (leavesKingSafe S) := by
    simpa using filterLoop_ok S ms [] res h
  have heach := filterLoop_ok_each S ms [] res h
  have h2 := filterLoop_of_each S res [] (fun x hx => heach x (by
    rw [hres] at hx
    exact (List.mem_filter.1 hx).1))
  unfold FilterInvalidMoves
  rw [h2, List.nil_append]
  congr 1
  rw [hres, List.filter_filter]
  simp

/-- C22.  `FilterInvalidMoves` is idempotent: for every state `S` and list `ms`
on which it succeeds with the list `res`, filtering `res` again succeeds and
returns `res`, the same sequence of moves. -/
theorem FilterInvalidMoves_idempotent (S : BoardState) (ms res : List Move)
    (h : FilterInvalidMoves ms S = .ok res) : FilterInvalidMoves res S = .ok res :=
  FilterInvalidMoves_again S ms res h

set_option maxRecDepth 1000000 in
/-- Witness of C22 on the second board of `TestFieldAttacked`, black to move:
the moves of the pinned bishop are dropped, the moves of the king stay, and
filtering the result again changes nothing. -/
theorem FilterInvalidMoves_idempotent_witness :
    FilterInvalidMoves (AllPossibleMoves 98 testAttackBoard2 []) testAttackBoard2 =
        .ok ((AllPossibleMoves 98 testAttackBoard2 []).filter (leavesKingSafe testAttackBoard2)) ∧
    ((AllPossibleMoves 98 testAttackBoard2 []).filter (leavesKingSafe testAttackBoard2)).length <
        (AllPossibleMoves 98 testAttackBoard2 []).length ∧
    FilterInvalidMoves
        ((AllPossibleMoves 98 testAttackBoard2 []).filter (leavesKingSafe testAttackBoard2))
        testAttackBoard2 =
      .ok ((AllPossibleMoves 98 testAttackBoard2 []).filter (leavesKingSafe testAttackBoard2)) :=
  ⟨by decide, by decide,
    FilterInvalidMoves_idempotent testAttackBoard2 (AllPossibleMoves 98 testAttackBoard2 [])
      ((AllPossibleMoves 98 testAttackBoard2 []).filter (leavesKingSafe testAttackBoard2))
      (by decide)⟩

set_option maxRecDepth 1000000 in
/-- C23.  `isCheckmate` names the winner: it returns `'b'` when
`isCheckmatePlayer 'w'` holds, otherwise `'w'` when `isCheckmatePlayer 'b'`
holds, otherwise `'n'`, and it returns nothing else without error.  On the
board of `TestIsCheckmate`, where black is checkmated, it returns `'w'`. -/
theorem isCheckmate_winner (S : BoardState) :
    (isCheckmatePlayer 119 S = .ok true → isCheckmate S = .ok 98) ∧
    (isCheckmatePlayer 119 S = .ok false → isCheckmatePlayer 98 S = .ok true →
      isCheckmate S = .ok 119) ∧
    (isCheckmatePlayer 119 S = .ok false → isCheckmatePlayer 98 S = .ok false →
      isCheckmate S = .ok 110) ∧
    (∀ v, isCheckmate S = .ok v →
      (v = 98 ∧ isCheckmatePlayer 119 S = .ok true) ∨
      (v = 119 ∧ isCheckmatePlayer 119 S = .ok false ∧ isCheckmatePlayer 98 S = .ok true) ∨
      (v = 110 ∧ isCheckmatePlayer 119 S = .ok false ∧ isCheckmatePlayer 98 S = .ok false)) ∧
    isCheckmatePlayer 98 testCheckmateBoard = .ok true ∧
    isCheckmate testCheckmateBoard = .ok 119 := by
  refine ⟨?_, ?_, ?_, ?_, by decide, by decide⟩
  · intro h
    simp [isCheckmate, h]
  · intro h1 h2
    simp [isCheckmate, h1, h2]
  · intro h1 h2
    simp [isCheckmate, h1, h2]
  · intro v h
    unfold isCheckmate at h
    cases hw : isCheckmatePlayer 119 S with
    | panic => simp [hw] at h
    | fail b e => simp [hw] at h
    | ok w =>
      rw [hw] at h
      dsimp only at h
      cases w
      · simp only [Bool.false_eq_true, if_false] at h
        cases hb : isCheckmatePlayer 98 S with
        | panic => simp [hb] at h
        | fail b e => simp [hb] at h
        | ok b =>
          rw [hb] at h
          dsimp only at h
          cases b
          · simp only [Bool.false_eq_true, if_false, Res.ok.injEq] at h
            exact Or.inr (Or.inr ⟨h.symm, rfl, rfl⟩)
          · simp only [if_true, Res.ok.injEq] at h
            exact Or.inr (Or.inl ⟨h.symm, rfl, rfl⟩)
      · simp only [if_true, Res.ok.injEq] at h
        exact Or.inl ⟨h.symm, rfl⟩

set_option maxRecDepth 1000000 in
/-- Witness of C23 on the board of `TestIsCheckmate`. -/
theorem isCheckmate_winner_witness :
    isCheckmatePlayer 119 testCheckmateBoard = .ok false ∧
    isCheckmatePlayer 98 testCheckmateBoard = .ok true ∧
    isCheckmate testCheckmateBoard = .ok 119 :=
  ⟨by decide, by decide, (isCheckmate_winner testCheckmateBoard).2.1 (by decide) (by decide)⟩

/-! ## Pins and direction deltas -/

theorem isLinearCorrelated_of_line {r c kr kc : Int} (h : onCommonLine r c kr kc) :
    isLinearCorrelated r c kr kc = true := by
  unfold isLinearCorrelated
  rcases h with h | h | h
  · simp [h]
  · simp [h]
  · by_cases hc : c = kc
    · simp [hc]
    · have hc2 : c - kc ≠ 0 := by omega
      have : (Int.tdiv (r - kr) (c - kc)).natAbs = 1 := by
        rcases Int.natAbs_eq_natAbs_iff.1 h with e | e
        · rw [e, Int.tdiv_self hc2]
          rfl
        · rw [e, Int.neg_tdiv, Int.tdiv_self hc2]
          rfl
      simp [hc2, this]

theorem getDirectionDeltas_of_line {r c kr kc : Int} (h : onCommonLine r c kr kc)
    (hne : (r, c) ≠ (kr, kc)) :
    getDirectionDeltas r c kr kc = .ok (Int.sign (r - kr), Int.sign (c - kc)) := by
  have hcorr := isLinearCorrelated_of_line h
  have hne2 : r ≠ kr ∨ c ≠ kc := by
    by_contra hcon
    push_neg at hcon
    exact hne (Prod.ext hcon.1 hcon.2)
  unfold getDirectionDeltas
  rw [hcorr]
  simp only [Bool.not_true, Bool.false_eq_true, if_false]
  have hs : ∀ x : Int, (x < 0 → Int.sign x = -1) ∧ (x = 0 → Int.sign x = 0) ∧
      (0 < x → Int.sign x = 1) := fun x =>
    ⟨Int.sign_eq_neg_one_of_neg, fun e => by rw [e]; rfl, Int.sign_eq_one_of_pos⟩
  obtain ⟨r1, r2, r3⟩ := hs (r - kr)
  obtain ⟨c1, c2, c3⟩ := hs (c - kc)
  split_ifs <;>
    first
    | (rw [r1 (by omega), c1 (by omega)])
    | (rw [r1 (by omega), c2 (by omega)])
    | (rw [r1 (by omega), c3 (by omega)])
    | (rw [r2 (by omega), c1 (by omega)])
    | (rw [r2 (by omega), c3 (by omega)])
    | (rw [r3 (by omega), c1 (by omega)])
    | (rw [r3 (by omega), c2 (by omega)])
    | (rw [r3 (by omega), c3 (by omega)])
    | (exfalso; omega)

/-- C25.  `getDirectionDeltas` fails with the "uncorrelated fields" error
exactly when `isLinearCorrelated` is false, and for two distinct squares on a
common row, column or diagonal it returns the unit step from the king's square
towards the piece's square; the two calls of `TestGetDirectionDeltas` give
(-1,-1) and (-1,1).  But it does not fail for every other pair: the squares
(0,0) and (3,2) are on no common line, and the call succeeds with (-1,-1),
because the integer quotient (0-3)/(0-2) is 1. -/
theorem getDirectionDeltas_accepts_unaligned :
    (∀ r c kr kc : Int, onCommonLine r c kr kc → (r, c) ≠ (kr, kc) →
      getDirectionDeltas r c kr kc = .ok (Int.sign (r - kr), Int.sign (c - kc))) ∧
    (∀ r c kr kc : Int, isLinearCorrelated r c kr kc = false →
      getDirectionDeltas r c kr kc =
        .fail (0, 0) (.text "can't generate direction deltas for uncorrelated fields")) ∧
    getDirectionDeltas 3 3 5 5 = .ok (-1, -1) ∧
    getDirectionDeltas 2 3 5 0 = .ok (-1, 1) ∧
    ¬ onCommonLine 0 0 3 2 ∧
    isLinearCorrelated 0 0 3 2 = true ∧
    getDirectionDeltas 0 0 3 2 = .ok (-1, -1) := by
  refine ⟨fun r c kr kc h hne => getDirectionDeltas_of_line h hne, ?_, by decide, by decide,
    by decide, by decide, by decide⟩
  intro r c kr kc h
  unfold getDirectionDeltas
  rw [h]
  rfl

/-- Instance of C25: the first call of `TestGetDirectionDeltas`. -/
theorem getDirectionDeltas_accepts_unaligned_witness :
    onCommonLine 3 3 5 5 ∧ ((3, 3) : Int × Int) ≠ (5, 5) ∧
    getDirectionDeltas 3 3 5 5 = .ok (Int.sign (3 - 5), Int.sign (3 - 5)) :=
  ⟨by decide, by decide,
    getDirectionDeltas_accepts_unaligned.1 3 3 5 5 (by decide) (by decide)⟩

set_option maxRecDepth 1000000 in
/-- C24.  On the two boards of `TestIsPinned` `isPinned` agrees with the pin of
the specification, and on a king's own square it returns false.  On three
boards whose cached king squares hold the kings it returns true for a white
rook that is not pinned: a rook on no line with its king (the integer quotient
of the distances is 1), a rook with a pawn of its own colour between it and its
king, and a rook whose first neighbour beyond is a knight with a bishop behind
it. -/
theorem isPinned_reports_unpinned :
    (∀ (S : BoardState) (r c : Int), (getColorAndPiece r c S.Board).2 = 120 →
      isPinned r c S = .ok false) ∧
    (isPinned 2 2 testPinBoard1 = .ok true ∧ pinSpec testPinBoard1 2 2 98 = true) ∧
    (isPinned 2 2 testPinBoard2 = .ok false ∧ pinSpec testPinBoard2 2 2 98 = false) ∧
    (cell unalignedPinBoard.Board 5 4 = 120 ∧ unalignedPinBoard.WhiteKingPos = (5, 4) ∧
      cell unalignedPinBoard.Board 0 7 = 88 ∧ unalignedPinBoard.BlackKingPos = (0, 7) ∧
      cell unalignedPinBoard.Board 2 2 = 114 ∧ ¬ onCommonLine 2 2 5 4 ∧
      isPinned 2 2 unalignedPinBoard = .ok true ∧ pinSpec unalignedPinBoard 2 2 119 = false) ∧
    (cell shieldedPinBoard.Board 4 4 = 120 ∧ shieldedPinBoard.WhiteKingPos = (4, 4) ∧
      cell shieldedPinBoard.Board 0 7 = 88 ∧ shieldedPinBoard.BlackKingPos = (0, 7) ∧
      cell shieldedPinBoard.Board 2 2 = 114 ∧ cell shieldedPinBoard.Board 3 3 = 112 ∧
      isPinned 2 2 shieldedPinBoard = .ok true ∧ pinSpec shieldedPinBoard 2 2 119 = false) ∧
    (cell screenedPinBoard.Board 4 4 = 120 ∧ screenedPinBoard.WhiteKingPos = (4, 4) ∧
      cell screenedPinBoard.Board 0 7 = 88 ∧ screenedPinBoard.BlackKingPos = (0, 7) ∧
      cell screenedPinBoard.Board 3 3 = 114 ∧ cell screenedPinBoard.Board 2 2 = 75 ∧
      isPinned 3 3 screenedPinBoard = .ok true ∧ pinSpec screenedPinBoard 3 3 119 = false) := by
  refine ⟨?_, by decide, by decide, by decide, by decide, by decide⟩
  intro S r c h
  simp [isPinned, h]

set_option maxRecDepth 1000000 in
/-- Instance of C24 on a king's own square: the black king on (3,3) of the
first board of `TestIsPinned`. -/
theorem isPinned_reports_unpinned_witness :
    (getColorAndPiece 3 3 testPinBoard1.Board).2 = 120 ∧
    isPinned 3 3 testPinBoard1 = .ok false :=
  ⟨by decide, isPinned_reports_unpinned.1 testPinBoard1 3 3 (by decide)⟩

/-! ## Invariants of a session -/

theorem MirrorInv_init (name : String) (id : Int) (password : String) :
    MirrorInv (initializeNewGame name id password) :=
  ⟨initialState, rfl, rfl⟩

theorem MirrorInv_putSessions {g g2 : Game} {status : Nat} {auth : Option String}
    {color token : String} (hH : HistInv g) (hM : MirrorInv g)
    (h : PutSessions g auth color token = some (g2, status)) : MirrorInv g2 := by
  obtain ⟨g3, st, h3, hcases⟩ := PutSessions_cases hH auth color token
  rw [h3] at h
  obtain ⟨rfl, -⟩ := Prod.mk.inj (Option.some.inj h)
  obtain ⟨last, hl, hw⟩ := hM
  rcases hcases with rfl | ⟨-, -, hbd, hwin⟩ | ⟨S0, hbd, hbd2, -, -, -, hwin⟩
  · exact ⟨last, hl, hw⟩
  · exact ⟨last, by rw [hbd]; exact hl, by rw [hwin]; exact hw⟩
  · rw [hbd] at hl
    have : last = S0 := by simpa using hl.symm
    subst this
    exact ⟨_, by rw [hbd2]; rfl, by rw [hwin]; exact hw⟩

theorem MirrorInv_putGame {g g2 : Game} {status : Nat} {auth : Option String}
    {req : ReqPutGame} {idx : Nat} (hH : HistInv g) (hM : MirrorInv g)
    (h : PutGame g auth req idx = some (g2, status)) : MirrorInv g2 := by
  obtain ⟨g3, st, h3, hcases⟩ := PutGame_cases hH auth req idx
  rw [h3] at h
  obtain ⟨rfl, -⟩ := Prod.mk.inj (Option.some.inj h)
  rcases hcases with ⟨rfl, -⟩ | ⟨-, last, w, -, -, rfl⟩ | ⟨-, -, -, -, last, m, N, -, -, -, rfl⟩
  · exact hM
  · exact ⟨forfeited last w, by simp, rfl⟩
  · exact ⟨N, by simp, rfl⟩

theorem MirrorInv_of_reachable {g : Game} (h : GameReachable g) : MirrorInv g := by
  induction h with
  | init name id password => exact MirrorInv_init name id password
  | putSessions auth color token hg hstep ih =>
    exact MirrorInv_putSessions (HistInv_of_reachable hg) ih hstep
  | putGame auth req idx hg hstep ih =>
    exact MirrorInv_putGame (HistInv_of_reachable hg) ih hstep

/-- C28.  Winner mirror: in every game reachable from `initializeNewGame` by
`PutSessions` and `PutGame` requests executed one at a time, the history is not
empty and the `Winner` of the game equals the `Winner` of the last snapshot. -/
theorem winner_mirror (g : Game) (h : GameReachable g) :
    ∃ last : BoardState, g.BoardData.getLast? = some last ∧ g.Winner = last.Winner :=
  MirrorInv_of_reachable h

/-- Witness of C28: the session after both players joined and white played
"e2 e4". -/
theorem winner_mirror_witness :
    GameReachable demoGame3 ∧
    ∃ last : BoardState, demoGame3.BoardData.getLast? = some last ∧
      demoGame3.Winner = last.Winner :=
  ⟨demoGame3_reachable, winner_mirror demoGame3 demoGame3_reachable⟩

theorem StartInv_init (name : String) (id : Int) (password : String) :
    StartInv (initializeNewGame name id password) := by
  refine ⟨?_, fun _ => ⟨initialState, rfl, rfl⟩⟩
  simp [initializeNewGame]

theorem PutSessions_start {g g2 : Game} {status : Nat} {auth : Option String}
    {color token : String} (hI : StartInv g)
    (h : PutSessions g auth color token = some (g2, status)) :
    StartInv g2 ∧
    (¬ (g.HasWPlayer = true ∧ g.HasBPlayer = true) →
      g2.HasWPlayer = true ∧ g2.HasBPlayer = true →
      ∃ S0 : BoardState, g.BoardData = [S0] ∧ g2.BoardData = [{ S0 with TurnColor := "w" }] ∧
        g2.Started = true) := by
  obtain ⟨hiff, hsingle⟩ := hI
  have keep : g2 = g → StartInv g2 ∧
      (¬ (g.HasWPlayer = true ∧ g.HasBPlayer = true) →
        g2.HasWPlayer = true ∧ g2.HasBPlayer = true →
        ∃ S0 : BoardState, g.BoardData = [S0] ∧
          g2.BoardData = [{ S0 with TurnColor := "w" }] ∧ g2.Started = true) := by
    rintro rfl
    exact ⟨⟨hiff, hsingle⟩, fun h1 h2 => absurd h2 h1⟩
  unfold PutSessions at h
  cases auth with
  | none =>
    simp only [Option.some.injEq, Prod.mk.injEq] at h
    exact keep h.1.symm
  | some password =>
    dsimp only at h
    split_ifs at h with h1 h2 h3 h4 h5 h6 h7 h8
    all_goals try (simp only [Option.some.injEq, Prod.mk.injEq] at h; exact keep h.1.symm)
    · -- white takes the second seat
      have hS : g.Started = false := by
        cases hs : g.Started
        · rfl
        · have := (hiff.1 hs).1
          rw [this] at h4
          exact absurd rfl h4
      obtain ⟨S0, hbd, hturn⟩ := hsingle hS
      rw [hbd] at h
      simp only [startHistory, Option.some.injEq, Prod.mk.injEq] at h
      obtain ⟨rfl, -⟩ := h
      exact ⟨⟨by simp [h5], by simp⟩, fun _ _ => ⟨S0, hbd, rfl, rfl⟩⟩
    · -- white takes the first seat
      simp only [Option.some.injEq, Prod.mk.injEq] at h
      obtain ⟨rfl, -⟩ := h
      have hS : g.Started = false := by
        cases hs : g.Started
        · rfl
        · exact absurd (hiff.1 hs).2 h5
      refine ⟨⟨by simp [hS, h5], fun _ => hsingle hS⟩, fun _ hb => absurd hb.2 h5⟩
    · -- black takes the second seat
      have hS : g.Started = false := by
        cases hs : g.Started
        · rfl
        · have := (hiff.1 hs).2
          rw [this] at h7
          exact absurd rfl h7
      obtain ⟨S0, hbd, hturn⟩ := hsingle hS
      rw [hbd] at h
      simp only [startHistory, Option.some.injEq, Prod.mk.injEq] at h
      obtain ⟨rfl, -⟩ := h
      exact ⟨⟨by simp [h8], by simp⟩, fun _ _ => ⟨S0, hbd, rfl, rfl⟩⟩
    · -- black takes the first seat
      simp only [Option.some.injEq, Prod.mk.injEq] at h
      obtain ⟨rfl, -⟩ := h
      have hS : g.Started = false := by
        cases hs : g.Started
        · rfl
        · exact absurd (hiff.1 hs).1 h8
      refine ⟨⟨by simp [hS, h8], fun _ => hsingle hS⟩, fun _ hb => absurd hb.1 h8⟩

theorem StartInv_putGame {g g2 : Game} {status : Nat} {auth : Option String}
    {req : ReqPutGame} {idx : Nat} (hH : HistInv g) (hI : StartInv g)
    (h : PutGame g auth req idx = some (g2, status)) : StartInv g2 := by
  obtain ⟨g3, st, h3, hcases⟩ := PutGame_cases hH auth req idx
  rw [h3] at h
  obtain ⟨rfl, -⟩ := Prod.mk.inj (Option.some.inj h)
  obtain ⟨hiff, hsingle⟩ := hI
  rcases hcases with ⟨rfl, -⟩ | ⟨-, last, w, hl, -, rfl⟩ |
    ⟨-, hst, -, -, last, m, N, -, -, -, rfl⟩
  · exact ⟨hiff, hsingle⟩
  · refine ⟨hiff, fun hs => ?_⟩
    obtain ⟨S0, hbd, -⟩ := hsingle hs
    rw [hbd] at hl
    have : last = S0 := by simpa using hl.symm
    subst this
    exact ⟨forfeited last w, by simp [hbd], rfl⟩
  · refine ⟨hiff, fun hs => ?_⟩
    rw [hst] at hs
    cases hs

theorem StartInv_of_reachable {g : Game} (h : GameReachable g) : StartInv g := by
  induction h with
  | init name id password => exact StartInv_init name id password
  | putSessions auth color token hg hstep ih => exact (PutSessions_start ih hstep).1
  | putGame auth req idx hg hstep ih =>
    exact StartInv_putGame (HistInv_of_reachable hg) ih hstep

/-- C29.  In every game reachable from `initializeNewGame` by requests executed
one at a time: `Started` is true exactly when both seats are taken; while
`Started` is false the history is a single snapshot with `TurnColor = "n"`; and
a `PutSessions` request after which both seats are taken, while before it they
were not, leaves `BoardData[0].TurnColor = "w"` and `Started = true`. -/
theorem game_start (g : Game) (h : GameReachable g) :
    (g.Started = true ↔ (g.HasWPlayer = true ∧ g.HasBPlayer = true)) ∧
    (g.Started = false → ∃ S0 : BoardState, g.BoardData = [S0] ∧ S0.TurnColor = "n") ∧
    (∀ (auth : Option String) (color token : String) (g2 : Game) (status : Nat),
      PutSessions g auth color token = some (g2, status) →
      ¬ (g.HasWPlayer = true ∧ g.HasBPlayer = true) →
      g2.HasWPlayer = true ∧ g2.HasBPlayer = true →
      ∃ S0 : BoardState, g2.BoardData[0]? = some S0 ∧ S0.TurnColor = "w" ∧
        g2.Started = true) := by
  have hI := StartInv_of_reachable h
  refine ⟨hI.1, hI.2, ?_⟩
  intro auth color token g2 status hstep h1 h2
  obtain ⟨S0, -, hbd, hst⟩ := (PutSessions_start hI hstep).2 h1 h2
  exact ⟨_, by rw [hbd]; rfl, rfl, hst⟩

/-- Witness of C29: the session with white seated, and the request by which
black takes the second seat. -/
theorem game_start_witness :
    GameReachable demoGame1 ∧ demoGame1.Started = false ∧
    PutSessions demoGame1 (some "secret") "b" "tb" = some (demoGame2, 200) ∧
    ∃ S0 : BoardState, demoGame2.BoardData[0]? = some S0 ∧ S0.TurnColor = "w" ∧
      demoGame2.Started = true :=
  ⟨GameReachable.putSessions (some "secret") "w" "tw" (GameReachable.init "game" 1 "secret")
      demo_join_white,
    rfl, demo_join_black,
    (game_start demoGame1
      (GameReachable.putSessions (some "secret") "w" "tw" (GameReachable.init "game" 1 "secret")
        demo_join_white)).2.2 (some "secret") "b" "tb" demoGame2 200 demo_join_black
      (by decide) (by decide)⟩

/-! ## The registry -/

theorem DeleteSessions_counter (reg : Registry) (auth : Option String) (boardID : Option Int) :
    (DeleteSessions reg auth boardID).1.NextFreeBoardID = reg.NextFreeBoardID := by
  unfold DeleteSessions
  cases auth with
  | none => rfl
  | some password =>
    cases boardID with
    | none => rfl
    | some id =>
      dsimp only
      cases verifyGameAccess reg id password <;> rfl

theorem wrapInt32_succ {c : Int} (h0 : -2147483648 ≤ c) (h1 : c < 2147483647) :
    wrapInt32 (c + 1) = c + 1 := by
  unfold wrapInt32
  omega

theorem serveAll_ids : ∀ (reqs : List RegistryRequest) (reg : Registry),
    1 ≤ reg.NextFreeBoardID →
    reg.NextFreeBoardID + ((serveAll reg reqs).2.length : Int) ≤ 2147483647 →
    (serveAll reg reqs).2 = idsFrom reg.NextFreeBoardID (serveAll reg reqs).2.length
  | [], reg, _, _ => rfl
  | .post none password :: rest, reg, h1, h2 => by
    have e : serveAll reg (.post none password :: rest) = serveAll reg rest := rfl
    rw [e] at h2 ⊢
    exact serveAll_ids rest reg h1 h2
  | .post (some name) password :: rest, reg, h1, h2 => by
    have e : serveAll reg (.post (some name) password :: rest) =
        ((serveAll (PostSessions reg (some name) password).1 rest).1,
          reg.NextFreeBoardID :: (serveAll (PostSessions reg (some name) password).1 rest).2) :=
      rfl
    rw [e] at h2 ⊢
    simp only [List.length_cons, Nat.cast_add, Nat.cast_one] at h2
    have hc : (PostSessions reg (some name) password).1.NextFreeBoardID =
        reg.NextFreeBoardID + 1 := by
      show wrapInt32 (reg.NextFreeBoardID + 1) = _
      exact wrapInt32_succ (by omega) (by omega)
    have ih := serveAll_ids rest (PostSessions reg (some name) password).1
      (by rw [hc]; omega) (by rw [hc]; omega)
    rw [hc] at ih
    simp only [List.length_cons, idsFrom]
    rw [← ih]
  | .delete auth boardID :: rest, reg, h1, h2 => by
    have e : serveAll reg (.delete auth boardID :: rest) =
        serveAll (DeleteSessions reg auth boardID).1 rest := rfl
    rw [e] at h2 ⊢
    have ih := serveAll_ids rest (DeleteSessions reg auth boardID).1
      (by rw [DeleteSessions_counter]; exact h1) (by rw [DeleteSessions_counter]; exact h2)
    rw [DeleteSessions_counter] at ih
    exact ih

theorem idsFrom_ge : ∀ (n : Nat) (c x : Int), x ∈ idsFrom c n → c ≤ x
  | 0, _, _, h => by simp [idsFrom] at h
  | n + 1, c, x, h => by
    simp only [idsFrom, List.mem_cons] at h
    rcases h with rfl | h
    · exact le_refl _
    · have := idsFrom_ge n (c + 1) x h
      omega

theorem idsFrom_increasing : ∀ (n : Nat) (c : Int), (idsFrom c n).Pairwise (fun a b => a < b)
  | 0, _ => List.Pairwise.nil
  | n + 1, c => by
    simp only [idsFrom, List.pairwise_cons]
    refine ⟨fun x hx => ?_, idsFrom_increasing n (c + 1)⟩
    have := idsFrom_ge n (c + 1) x hx
    omega

/-- C27.  Game ids are never reused.  `PostSessions` gives the new game the
current value of the counter and, below the largest `int32`, leaves the counter
one higher; `DeleteSessions` leaves the counter as it was.  Hence for every
sequence of creations and deletions served from program start which hands out
fewer than 2^31 - 1 ids, the ids are 1, 2, 3, ... in creation order: strictly
increasing, none issued twice, whatever was deleted in between. -/
theorem ids_never_reused (reqs : List RegistryRequest)
    (hn : (serveAll initialRegistry reqs).2.length < 2147483647) :
    (∀ (reg : Registry) (name password : String),
      (PostSessions reg (some name) password).2 = some reg.NextFreeBoardID ∧
      ((PostSessions reg (some name) password).1.GamesMap reg.NextFreeBoardID).map
        (fun g => g.ID) = some reg.NextFreeBoardID ∧
      (-2147483648 ≤ reg.NextFreeBoardID → reg.NextFreeBoardID < 2147483647 →
        (PostSessions reg (some name) password).1.NextFreeBoardID =
          reg.NextFreeBoardID + 1)) ∧
    (∀ (reg : Registry) (auth : Option String) (boardID : Option Int),
      (DeleteSessions reg auth boardID).1.NextFreeBoardID = reg.NextFreeBoardID) ∧
    (serveAll initialRegistry reqs).2 = idsFrom 1 (serveAll initialRegistry reqs).2.length ∧
    (serveAll initialRegistry reqs).2.Pairwise (fun a b => a < b) ∧
    (serveAll initialRegistry reqs).2.Nodup := by
  have hids := serveAll_ids reqs initialRegistry (by decide) (by
    show (1 : Int) + _ ≤ _
    omega)
  have hinc : (serveAll initialRegistry reqs).2.Pairwise (fun a b => a < b) := by
    rw [hids]
    exact idsFrom_increasing _ _
  refine ⟨?_, DeleteSessions_counter, hids, hinc, ?_⟩
  · intro reg name password
    refine ⟨rfl, ?_, fun h0 h1 => wrapInt32_succ h0 h1⟩
    simp [PostSessions, initializeNewGame]
  · exact hinc.imp (fun h => ne_of_lt h)

/-- Witness of C27: two creations, the deletion of game 1, a third creation;
the ids are 1, 2, 3. -/
theorem ids_never_reused_witness :
    (serveAll initialRegistry demoRequests).2.length < 2147483647 ∧
    (serveAll initialRegistry demoRequests).2 = [1, 2, 3] ∧
    (serveAll initialRegistry demoRequests).1.GamesMap 1 = none ∧
    (serveAll initialRegistry demoRequests).2.Nodup :=
  ⟨by decide, by decide, rfl, (ids_never_reused demoRequests (by decide)).2.2.2.2⟩

/-- C30.  For every `GetGame` request that carries a bearer header and a valid
`reqtype` but names a board id that is not in the registry, the handler does
not answer 404: it panics, because it reads `BoardData` of the missing game
before it tests whether the game exists. -/
theorem GetGame_missing_board_panics (reg : Registry) (token : String) (req : ReqGetGame)
    (ht : req.ReqType = "state" ∨ req.ReqType = "turn" ∨ req.ReqType = "moves")
    (hm : reg.GamesMap req.BoardID = none) :
    GetGame reg (some token) (some req) = none ∧
    GetGame reg (some token) (some req) ≠ some 404 := by
  have h : GetGame reg (some token) (some req) = none := by
    unfold GetGame
    dsimp only
    rw [if_neg (by
      rintro ⟨h1, h2, h3⟩
      rcases ht with h | h | h
      · exact h1 h
      · exact h2 h
      · exact h3 h), hm]
  exact ⟨h, by rw [h]; simp⟩

/-- Instance of C30: a `"state"` request for board 7 on a registry that holds
only game 1. -/
theorem GetGame_missing_board_panics_witness :
    (demoGetRequest.ReqType = "state" ∨ demoGetRequest.ReqType = "turn" ∨
      demoGetRequest.ReqType = "moves") ∧
    demoRegistry.GamesMap demoGetRequest.BoardID = none ∧
    GetGame demoRegistry (some "tw") (some demoGetRequest) = none ∧
    GetGame demoRegistry (some "tw") (some demoGetRequest) ≠ some 404 :=
  ⟨Or.inl rfl, rfl,
    (GetGame_missing_board_panics demoRegistry "tw" demoGetRequest (Or.inl rfl) rfl).1,
    (GetGame_missing_board_panics demoRegistry "tw" demoGetRequest (Or.inl rfl) rfl).2⟩

/-! ## A bound on the number of generated moves -/

theorem mem_kingOffsets_iff (u : Int × Int) :
    u ∈ kingOffsets ↔
      (u.1 = -1 ∨ u.1 = 0 ∨ u.1 = 1) ∧ (u.2 = -1 ∨ u.2 = 0 ∨ u.2 = 1) ∧ (u.1 ≠ 0 ∨ u.2 ≠ 0) := by
  obtain ⟨a, b⟩ := u
  constructor
  · intro h
    unfold kingOffsets at h
    simp only [List.mem_cons, Prod.mk.injEq, List.mem_singleton, List.not_mem_nil, or_false] at h
    dsimp only
    omega
  · rintro ⟨h1, h2, h3⟩
    dsimp only at h1 h2 h3
    rcases h1 with rfl | rfl | rfl <;> rcases h2 with rfl | rfl | rfl <;>
      first
      | decide
      | (exfalso; omega)

theorem mem_knightOffsets_iff (v : Int × Int) :
    v ∈ knightOffsets ↔
      ((v.1 = 1 ∨ v.1 = -1) ∧ (v.2 = 2 ∨ v.2 = -2)) ∨
      ((v.1 = 2 ∨ v.1 = -2) ∧ (v.2 = 1 ∨ v.2 = -1)) := by
  obtain ⟨a, b⟩ := v
  constructor
  · intro h
    unfold knightOffsets at h
    simp only [List.mem_cons, Prod.mk.injEq, List.mem_singleton, List.not_mem_nil, or_false] at h
    dsimp only
    omega
  · rintro (⟨h1, h2⟩ | ⟨h1, h2⟩) <;> dsimp only at h1 h2 <;>
      rcases h1 with rfl | rfl <;> rcases h2 with rfl | rfl <;> decide

theorem sgn_mul {n : Nat} (hn : 1 ≤ n) {a : Int} (ha : a = -1 ∨ a = 0 ∨ a = 1) :
    sgn ((n : Int) * a) = a := by
  unfold sgn
  rcases ha with rfl | rfl | rfl <;> split_ifs <;> omega

theorem moveKey_knight {m : Move}
    (h : (m.From.1 - m.To.1, m.From.2 - m.To.2) ∈ knightOffsets) :
    moveKey m = (m.To, (m.From.1 - m.To.1, m.From.2 - m.To.2)) := by
  unfold moveKey
  dsimp only
  rw [if_pos h]

theorem moveKey_line {m : Move} {u : Int × Int} {n : Nat} (hu : u ∈ kingOffsets) (hn : 1 ≤ n)
    (h : m.From = (m.To.1 + (n : Int) * u.1, m.To.2 + (n : Int) * u.2)) :
    moveKey m = (m.To, u) := by
  obtain ⟨h1, h2, h3⟩ := (mem_kingOffsets_iff u).1 hu
  have e1 : m.From.1 - m.To.1 = (n : Int) * u.1 := by rw [h]; ring
  have e2 : m.From.2 - m.To.2 = (n : Int) * u.2 := by rw [h]; ring
  unfold moveKey
  dsimp only
  rw [e1, e2, if_neg, sgn_mul hn h1, sgn_mul hn h2]
  intro hk
  rw [mem_knightOffsets_iff] at hk
  dsimp only at hk
  rcases h1 with e | e | e <;> rcases h2 with f | f | f <;> rw [e, f] at hk <;> omega

theorem source_unique (S : BoardState) {m1 m2 : Move} (h1 : Sourced S m1) (h2 : Sourced S m2)
    (hk : moveKey m1 = moveKey m2) : m1.From = m2.From := by
  obtain ⟨-, -, hne1, hs1⟩ := h1
  obtain ⟨-, -, hne2, hs2⟩ := h2
  rcases hs1 with k1 | ⟨u1, hu1, n1, hn1, hf1, hc1⟩ <;>
    rcases hs2 with k2 | ⟨u2, hu2, n2, hn2, hf2, hc2⟩
  · rw [moveKey_knight k1, moveKey_knight k2] at hk
    obtain ⟨hto, hv⟩ := Prod.mk.inj hk
    obtain ⟨e1, e2⟩ := Prod.mk.inj hv
    have t1 := congrArg Prod.fst hto
    have t2 := congrArg Prod.snd hto
    exact Prod.ext (by omega) (by omega)
  · rw [moveKey_knight k1, moveKey_line hu2 hn2 hf2] at hk
    obtain ⟨-, hv⟩ := Prod.mk.inj hk
    rw [hv] at k1
    obtain ⟨a1, a2, -⟩ := (mem_kingOffsets_iff u2).1 hu2
    rw [mem_knightOffsets_iff] at k1
    omega
  · rw [moveKey_line hu1 hn1 hf1, moveKey_knight k2] at hk
    obtain ⟨-, hv⟩ := Prod.mk.inj hk
    rw [← hv] at k2
    obtain ⟨a1, a2, -⟩ := (mem_kingOffsets_iff u1).1 hu1
    rw [mem_knightOffsets_iff] at k2
    omega
  · rw [moveKey_line hu1 hn1 hf1, moveKey_line hu2 hn2 hf2] at hk
    obtain ⟨hto, hv⟩ := Prod.mk.inj hk
    subst hv
    rw [hto] at hf1 hc1
    rcases Nat.lt_trichotomy n1 n2 with hlt | heq | hgt
    · exfalso
      have := hc2 n1 hn1 hlt
      rw [hf1] at hne1
      exact hne1 this
    · rw [hf1, hf2, heq]
    · exfalso
      have := hc1 n2 hn2 hgt
      rw [hf2] at hne2
      exact hne2 this

theorem mem_allKeys {T v : Int × Int} (hT : isValid T.1 T.2 = true)
    (hv : v ∈ kingOffsets ∨ v ∈ knightOffsets)
    (hTv : isValid (T.1 + v.1) (T.2 + v.2) = true) : (T, v) ∈ allKeys := by
  obtain ⟨i, j, hi, hj⟩ := exists_fin_of_valid hT
  unfold allKeys
  simp only [List.mem_flatMap, List.mem_range, List.mem_map, List.mem_filter, List.mem_append]
  refine ⟨i, i.isLt, j, j.isLt, v, ⟨hv, ?_⟩, ?_⟩
  · rw [hi, hj]
    exact hTv
  · rw [hi, hj]

theorem moveKey_mem_allKeys (S : BoardState) {m : Move} (h : Sourced S m) :
    moveKey m ∈ allKeys := by
  obtain ⟨hvf, hvt, -, hs⟩ := h
  rcases hs with k | ⟨u, hu, n, hn, hf, -⟩
  · rw [moveKey_knight k]
    refine mem_allKeys hvt (Or.inr k) ?_
    have e1 : m.To.1 + (m.From.1 - m.To.1) = m.From.1 := by ring
    have e2 : m.To.2 + (m.From.2 - m.To.2) = m.From.2 := by ring
    dsimp only
    rw [e1, e2]
    exact hvf
  · rw [moveKey_line hu hn hf]
    refine mem_allKeys hvt (Or.inl hu) ?_
    obtain ⟨a1, a2, -⟩ := (mem_kingOffsets_iff u).1 hu
    rw [hf] at hvf
    rw [isValid_iff] at hvf hvt ⊢
    dsimp only at hvf
    rcases a1 with e | e | e <;> rcases a2 with f | f | f <;> rw [e, f] at hvf ⊢ <;> omega

set_option maxRecDepth 1000000 in
theorem allKeys_length : allKeys.length = 756 := by decide

theorem GoodList_nil (S : BoardState) (r c : Int) : GoodList S r c [] :=
  ⟨fun m hm => by simp at hm, by simp⟩

theorem add_injective (r c : Int) :
    Function.Injective (fun p : Int × Int => (r + p.1, c + p.2)) := by
  intro p q h
  have h1 := congrArg Prod.fst h
  have h2 := congrArg Prod.snd h
  dsimp only at h1 h2
  exact Prod.ext (by omega) (by omega)

theorem slideRule_good (S : BoardState) {r c : Int} (k : Int) {deltas : List (Int × Int)}
    (hv : isValid r c = true) (hne : cell S.Board r c ≠ 32)
    (hsub : ∀ d ∈ deltas, d ∈ kingOffsets)
    (hnd : (deltas.flatMap (fun d =>
      (List.range' 1 7).map (fun n : Nat => ((n : Int) * d.1, (n : Int) * d.2)))).Nodup) :
    GoodList S r c (slideRule S r c k deltas) := by
  constructor
  · intro m hm
    obtain ⟨d, hd, n, hn1, -, hstep⟩ := mem_slideRule.1 hm
    obtain ⟨⟨hval, hclear, -⟩, rfl⟩ := mem_rayStep.1 hstep
    obtain ⟨a1, a2, a3⟩ := (mem_kingOffsets_iff d).1 (hsub d hd)
    refine ⟨rfl, hv, hval, hne, Or.inr ⟨(-d.1, -d.2), ?_, n, hn1, ?_, ?_⟩⟩
    · rw [mem_kingOffsets_iff]
      dsimp only
      omega
    · show (r, c) = _
      dsimp only [moveTo]
      exact Prod.ext (by dsimp only; ring) (by dsimp only; ring)
    · intro j hj1 hj2
      have hc := (pathClear_iff S r c d n).1 hclear (n - j) (by omega) (by omega)
      have e : ((n - j : Nat) : Int) = (n : Int) - (j : Int) := by omega
      rw [e] at hc
      dsimp only [moveTo]
      have e1 : r + (n : Int) * d.1 + (j : Int) * -d.1 = r + ((n : Int) - (j : Int)) * d.1 := by
        ring
      have e2 : c + (n : Int) * d.2 + (j : Int) * -d.2 = c + ((n : Int) - (j : Int)) * d.2 := by
        ring
      rw [e1, e2]
      exact hc
  · refine List.Nodup.sublist (slideRule_targets_sublist S r c k deltas) ?_
    exact List.Nodup.map (add_injective r c) hnd

theorem mem_jumpRule {S : BoardState} {r c k : Int} {offsets : List (Int × Int)} {m : Move} :
    m ∈ jumpRule S r c k offsets ↔
      ∃ o ∈ offsets, (isValid (r + o.1) (c + o.2) = true ∧
          (getColorAndPiece (r + o.1) (c + o.2) S.Board).1 ≠ k) ∧
        m = moveTo r c k (r + o.1, c + o.2)
          (decide ((getColorAndPiece (r + o.1) (c + o.2) S.Board).1 = enemyOf k)) := by
  unfold jumpRule
  simp only [List.mem_flatMap]
  constructor
  · rintro ⟨o, ho, hm⟩
    split_ifs at hm with h
    · exact ⟨o, ho, h, by simpa using hm⟩
    · simp at hm
  · rintro ⟨o, ho, h, rfl⟩
    exact ⟨o, ho, by rw [if_pos h]; simp⟩

theorem jumpRule_targets_nodup (S : BoardState) (r c k : Int) {offsets : List (Int × Int)}
    (hnd : offsets.Nodup) : ((jumpRule S r c k offsets).map (fun m => m.To)).Nodup := by
  have hsub : List.Sublist ((jumpRule S r c k offsets).map (fun m => m.To))
      (offsets.map (fun o => (r + o.1, c + o.2))) := by
    unfold jumpRule
    rw [List.map_flatMap]
    apply sublist_flatMap_map
    intro o
    split_ifs
    · exact List.Sublist.refl _
    · exact List.nil_sublist _
  exact List.Nodup.sublist hsub (List.Nodup.map (add_injective r c) hnd)

theorem jumpRule_good (S : BoardState) {r c : Int} (k : Int) {offsets : List (Int × Int)}
    (hv : isValid r c = true) (hne : cell S.Board r c ≠ 32)
    (ho : offsets = kingOffsets ∨ offsets = knightOffsets) :
    GoodList S r c (jumpRule S r c k offsets) := by
  constructor
  · intro m hm
    obtain ⟨o, hmem, ⟨hval, -⟩, rfl⟩ := mem_jumpRule.1 hm
    refine ⟨rfl, hv, hval, hne, ?_⟩
    dsimp only [moveTo]
    rcases ho with rfl | rfl
    · right
      obtain ⟨a1, a2, a3⟩ := (mem_kingOffsets_iff o).1 hmem
      refine ⟨(-o.1, -o.2), ?_, 1, le_refl _, ?_, ?_⟩
      · rw [mem_kingOffsets_iff]
        dsimp only
        omega
      · exact Prod.ext (by dsimp only; push_cast; ring) (by dsimp only; push_cast; ring)
      · intro j h1 h2
        omega
    · left
      have hk := (mem_knightOffsets_iff o).1 hmem
      rw [mem_knightOffsets_iff]
      dsimp only
      omega
  · rcases ho with rfl | rfl
    · exact jumpRule_targets_nodup S r c k (by decide)
    · exact jumpRule_targets_nodup S r c k (by decide)

theorem pawnRule_good (S : BoardState) {r c : Int} (k : Int) {d start : Int}
    (hv : isValid r c = true) (hne : cell S.Board r c ≠ 32)
    (hd : (d = 1 ∧ start = 1) ∨ (d = -1 ∧ start = 6)) :
    GoodList S r c (pawnRule S r c k d start) := by
  have src : ∀ (dest : Int × Int) (cap : Bool) (u : Int × Int) (n : Nat),
      isValid dest.1 dest.2 = true → u ∈ kingOffsets → 1 ≤ n →
      (r, c) = (dest.1 + (n : Int) * u.1, dest.2 + (n : Int) * u.2) →
      (∀ j : Nat, 1 ≤ j → j < n →
        cell S.Board (dest.1 + (j : Int) * u.1) (dest.2 + (j : Int) * u.2) = 32) →
      (moveTo r c k dest cap).From = (r, c) ∧ Sourced S (moveTo r c k dest cap) :=
    fun dest cap u n h1 h2 h3 h4 h5 => ⟨rfl, hv, h1, hne, Or.inr ⟨u, h2, n, h3, h4, h5⟩⟩
  constructor
  · intro m hm
    unfold pawnRule at hm
    simp only [List.mem_append] at hm
    rcases hm with ((hm | hm) | hm) | hm
    · split_ifs at hm with h
      · have e : m = moveTo r c k (r + d, c) false := by simpa using hm
        rw [e]
        refine src _ _ (-d, 0) 1 h.1 ?_ (le_refl _) ?_ (fun j h1 h2 => by omega)
        · rw [mem_kingOffsets_iff]; dsimp only; omega
        · exact Prod.ext (by dsimp only; push_cast; ring) (by dsimp only; push_cast; ring)
      · simp at hm
    · split_ifs at hm with h
      · have e : m = moveTo r c k (r + 2 * d, c) false := by simpa using hm
        rw [e]
        have hval : isValid (r + 2 * d) c = true := by
          have h0 := h.1
          rw [isValid_iff] at hv ⊢
          omega
        refine src _ _ (-d, 0) 2 hval ?_ (by decide) ?_ ?_
        · rw [mem_kingOffsets_iff]; dsimp only; omega
        · exact Prod.ext (by dsimp only; push_cast; ring) (by dsimp only; push_cast; ring)
        · intro j h1 h2
          have : j = 1 := by omega
          subst this
          dsimp only
          have e1 : r + 2 * d + ((1 : Nat) : Int) * -d = r + d := by push_cast; ring
          have e2 : c + ((1 : Nat) : Int) * 0 = c := by push_cast; ring
          rw [e1, e2]
          exact h.2.1
      · simp at hm
    · split_ifs at hm with h
      · have e : m = moveTo r c k (r + d, c - 1) true := by simpa using hm
        rw [e]
        refine src _ _ (-d, 1) 1 h.1 ?_ (le_refl _) ?_ (fun j h1 h2 => by omega)
        · rw [mem_kingOffsets_iff]; dsimp only; omega
        · exact Prod.ext (by dsimp only; push_cast; ring) (by dsimp only; push_cast; ring)
      · simp at hm
    · split_ifs at hm with h
      · have e : m = moveTo r c k (r + d, c + 1) true := by simpa using hm
        rw [e]
        refine src _ _ (-d, -1) 1 h.1 ?_ (le_refl _) ?_ (fun j h1 h2 => by omega)
        · rw [mem_kingOffsets_iff]; dsimp only; omega
        · exact Prod.ext (by dsimp only; push_cast; ring) (by dsimp only; push_cast; ring)
      · simp at hm
  · have hsub : List.Sublist ((pawnRule S r c k d start).map (fun m => m.To))
        [(r + d, c), (r + 2 * d, c), (r + d, c - 1), (r + d, c + 1)] := by
      unfold pawnRule
      simp only [List.map_append]
      have e : [(r + d, c), (r + 2 * d, c), (r + d, c - 1), (r + d, c + 1)] =
          [(r + d, c)] ++ [(r + 2 * d, c)] ++ [(r + d, c - 1)] ++ [(r + d, c + 1)] := rfl
      rw [e]
      refine List.Sublist.append (List.Sublist.append (List.Sublist.append ?_ ?_) ?_) ?_ <;>
        split_ifs <;> first | exact List.Sublist.refl _ | exact List.nil_sublist _
    refine List.Nodup.sublist hsub ?_
    simp only [List.nodup_cons, List.mem_cons, Prod.mk.injEq, List.mem_singleton,
      List.not_mem_nil, not_false_eq_true, List.nodup_nil, and_true, not_or]
    omega

theorem GenerateMovesForPiece_good (S : BoardState) {r c : Int} (hv : isValid r c = true)
    (hne : cell S.Board r c ≠ 32) : GoodList S r c (GenerateMovesForPiece r c S []) := by
  have hp : (getColorAndPiece r c S.Board).2 ≠ 32 :=
    fun e => hne ((getPiece_empty_iff_cell S.Board hv).1 e)
  have hk : (getColorAndPiece r c S.Board).1 = 119 ∨ (getColorAndPiece r c S.Board).1 = 98 := by
    rcases getColor_cases r c S.Board with e | e | e
    · exact absurd ((getPiece_empty_iff r c S.Board).2 e) hp
    · exact Or.inl e
    · exact Or.inr e
  have hlm := lineMoves_eq_rule S (getColorAndPiece r c S.Board).1 hv hk
  have hdiag : ∀ d ∈ diagonalDeltas, d ∈ kingOffsets := by decide
  have hstr : ∀ d ∈ straightDeltas, d ∈ kingOffsets := by decide
  have hboth : ∀ d ∈ diagonalDeltas ++ straightDeltas, d ∈ kingOffsets := by decide
  unfold GenerateMovesForPiece
  dsimp only
  split_ifs
  · rw [pawnMoves_eq_rule S r c _ hv hk]
    refine pawnRule_good S _ hv hne ?_
    split_ifs <;> simp
  · unfold knightMoves
    rw [jump_foldl_eq S r c _ hk]
    exact jumpRule_good S _ hv hne (Or.inr rfl)
  · rw [hlm.2]
    exact slideRule_good S _ hv hne hdiag (by decide)
  · rw [hlm.1]
    exact slideRule_good S _ hv hne hstr (by decide)
  · rw [lineMoves_append, hlm.1, hlm.2]
    have e : slideRule S r c (getColorAndPiece r c S.Board).1 diagonalDeltas ++
        slideRule S r c (getColorAndPiece r c S.Board).1 straightDeltas =
        slideRule S r c (getColorAndPiece r c S.Board).1 (diagonalDeltas ++ straightDeltas) := by
      unfold slideRule
      rw [List.flatMap_append]
    rw [e]
    exact slideRule_good S _ hv hne hboth (by decide)
  · unfold kingMoves
    rw [jump_foldl_eq S r c _ hk]
    exact jumpRule_good S _ hv hne (Or.inl rfl)
  · exact GoodList_nil S r c

theorem allMovesStep_good (color : Int) (S : BoardState) (exclude : List Int) {row col : Nat}
    (hr : row < 8) (hc : col < 8) :
    GoodList S row col (allMovesStep color S exclude row [] col) := by
  have hv : isValid (row : Int) (col : Int) = true := by rw [isValid_iff]; omega
  rw [allMovesStep_nil]
  split_ifs with h
  · exact GenerateMovesForPiece_good S hv
      (fun e => h.1 ((getPiece_empty_iff_cell S.Board hv).2 e))
  · exact GoodList_nil S _ _

theorem nodup_flatMap_of {α β : Type} {l : List α} {f : α → List β} (hl : l.Nodup)
    (h1 : ∀ a ∈ l, (f a).Nodup)
    (h2 : ∀ a ∈ l, ∀ b ∈ l, ∀ x, x ∈ f a → x ∈ f b → a = b) : (l.flatMap f).Nodup := by
  rw [List.nodup_flatMap]
  refine ⟨h1, ?_⟩
  refine List.Pairwise.imp_of_mem ?_ hl
  intro a b ha hb hne x hxa hxb
  exact hne (h2 a ha b hb x hxa hxb)

theorem GoodList_keys_nodup {S : BoardState} {r c : Int} {L : List Move}
    (h : GoodList S r c L) : (L.map moveKey).Nodup := by
  have e : (L.map moveKey).map Prod.fst = L.map (fun m => m.To) := by
    rw [List.map_map]
    rfl
  exact List.Nodup.of_map Prod.fst (by rw [e]; exact h.2)

theorem good_key_unique {S : BoardState} {r1 c1 r2 c2 : Int} {L1 L2 : List Move}
    (h1 : GoodList S r1 c1 L1) (h2 : GoodList S r2 c2 L2) {x : (Int × Int) × (Int × Int)}
    (hx1 : x ∈ L1.map moveKey) (hx2 : x ∈ L2.map moveKey) : (r1, c1) = (r2, c2) := by
  obtain ⟨m1, hm1, rfl⟩ := List.mem_map.1 hx1
  obtain ⟨m2, hm2, e⟩ := List.mem_map.1 hx2
  obtain ⟨f1, s1⟩ := h1.1 m1 hm1
  obtain ⟨f2, s2⟩ := h2.1 m2 hm2
  rw [← f1, ← f2]
  exact source_unique S s1 s2 e.symm

theorem AllPossibleMoves_keys_nodup (color : Int) (S : BoardState) (exclude : List Int) :
    ((AllPossibleMoves color S exclude).map moveKey).Nodup := by
  rw [AllPossibleMoves_eq_flatMap, List.map_flatMap]
  refine nodup_flatMap_of (List.nodup_range 8) ?_ ?_
  · intro row hrow
    rw [List.mem_range] at hrow
    rw [List.map_flatMap]
    refine nodup_flatMap_of (List.nodup_range 8) ?_ ?_
    · intro col hcol
      rw [List.mem_range] at hcol
      exact GoodList_keys_nodup (allMovesStep_good color S exclude hrow hcol)
    · intro a ha b hb x hxa hxb
      rw [List.mem_range] at ha hb
      have := good_key_unique (allMovesStep_good color S exclude hrow ha)
        (allMovesStep_good color S exclude hrow hb) hxa hxb
      have h2 := congrArg Prod.snd this
      dsimp only at h2
      omega
  · intro a ha b hb x hxa hxb
    rw [List.mem_range] at ha hb
    rw [List.map_flatMap, List.mem_flatMap] at hxa hxb
    obtain ⟨ca, hca, hxa⟩ := hxa
    obtain ⟨cb, hcb, hxb⟩ := hxb
    rw [List.mem_range] at hca hcb
    have := good_key_unique (allMovesStep_good color S exclude ha hca)
      (allMovesStep_good color S exclude hb hcb) hxa hxb
    have h1 := congrArg Prod.fst this
    dsimp only at h1
    omega

theorem AllPossibleMoves_sourced {color : Int} {S : BoardState} {exclude : List Int} {m : Move}
    (h : m ∈ AllPossibleMoves color S exclude) : Sourced S m := by
  rw [AllPossibleMoves_eq_flatMap] at h
  simp only [List.mem_flatMap, List.mem_range] at h
  obtain ⟨row, hrow, col, hcol, hm⟩ := h
  exact ((allMovesStep_good color S exclude hrow hcol).1 m hm).2

/-- One colour has at most 756 pseudo-legal moves on any board. -/
theorem AllPossibleMoves_length_le (color : Int) (S : BoardState) (exclude : List Int) :
    (AllPossibleMoves color S exclude).length ≤ 756 := by
  have hsub : (AllPossibleMoves color S exclude).map moveKey ⊆ allKeys := by
    intro x hx
    obtain ⟨m, hm, rfl⟩ := List.mem_map.1 hx
    exact moveKey_mem_allKeys S (AllPossibleMoves_sourced hm)
  have hle := ((AllPossibleMoves_keys_nodup color S exclude).subperm hsub).length_le
  rw [List.length_map, allKeys_length] at hle
  exact hle

/-! ## The iteration caps -/

theorem attackScan_ok_of_short (row col : Int) :
    ∀ (ms : List Move) (i : Nat), ms.length + i ≤ 1000 → ∃ b, attackScan row col ms i = .ok b
  | [], _, _ => ⟨false, rfl⟩
  | m :: rest, i, h => by
    simp only [List.length_cons] at h
    unfold attackScan
    rw [if_neg (by omega)]
    split_ifs
    · exact attackScan_ok_of_short row col rest (i + 1) (by omega)
    · exact attackScan_ok_of_short row col rest (i + 1) (by omega)
    · exact ⟨true, rfl⟩

theorem fieldAttacked_ok {row col : Int} (hv : isValid row col = true) (a : Int)
    (S : BoardState) : ∃ b, fieldAttacked row col a S = .ok b := by
  rw [fieldAttacked_of_valid hv]
  refine attackScan_ok_of_short row col _ 0 ?_
  have := AllPossibleMoves_length_le a
    { S with Board := setCell S.Board row col (if a = 119 then 88 else 120) } []
  omega

theorem kingMoveableLoop_ok (enemy : Int) (S : BoardState) :
    ∀ ms : List Move, (∀ m ∈ ms, isValid m.To.1 m.To.2 = true) →
      ∃ b, kingMoveableLoop enemy S ms = .ok b
  | [], _ => ⟨false, rfl⟩
  | m :: rest, h => by
    obtain ⟨b, hb⟩ := fieldAttacked_ok (h m (List.mem_cons_self _ _)) enemy S
    unfold kingMoveableLoop
    rw [hb]
    dsimp only
    split_ifs
    · exact ⟨true, rfl⟩
    · exact kingMoveableLoop_ok enemy S rest (fun x hx => h x (List.mem_cons_of_mem _ hx))

theorem kingMoveable_ok (color : Int) (S : BoardState) : ∃ b, kingMoveable color S = .ok b := by
  unfold kingMoveable
  exact kingMoveableLoop_ok _ S _ (fun m hm => (GenerateMovesForPiece_valid hm).2.1)

theorem checkmateLoop_ok {row col : Int} (hv : isValid row col = true) (enemy : Int)
    (S : BoardState) :
    ∀ (ms : List Move) (i : Nat), ms.length + i < 1000 →
      ∃ b, checkmateLoop row col enemy S ms i = .ok b
  | [], _, _ => ⟨true, rfl⟩
  | m :: rest, i, h => by
    simp only [List.length_cons] at h
    unfold checkmateLoop
    rw [if_neg (by omega)]
    dsimp only
    obtain ⟨b, hb⟩ := fieldAttacked_ok hv enemy
      { S with Board := setCell (setCell S.Board m.From.1 m.From.2 Empty) m.To.1 m.To.2
                          (cell S.Board m.From.1 m.From.2) }
    rw [hb]
    dsimp only
    split_ifs
    · exact ⟨false, rfl⟩
    · exact checkmateLoop_ok hv enemy S rest (i + 1) (by omega)

theorem isCheckmatePlayer_ok (color : Int) (S : BoardState)
    (hk : isInBounds (kingSquare color S) = true) : ∃ b, isCheckmatePlayer color S = .ok b := by
  rw [isInBounds_eq_isValid] at hk
  obtain ⟨a, ha⟩ := fieldAttacked_ok hk (enemyOf color) S
  obtain ⟨d, hd⟩ := kingMoveable_ok color S
  unfold isCheckmatePlayer
  rw [getKingdata_eq]
  dsimp only
  rw [ha]
  dsimp only
  split_ifs
  · exact ⟨false, rfl⟩
  · rw [hd]
    dsimp only
    split_ifs
    · exact ⟨false, rfl⟩
    · refine checkmateLoop_ok hk _ S _ 0 ?_
      have := AllPossibleMoves_length_le color S [120]
      omega

theorem isRemisPlayer_ok (color : Int) (S : BoardState)
    (hk : isInBounds (kingSquare color S) = true) : ∃ b, isRemisPlayer color S = .ok b := by
  rw [isInBounds_eq_isValid] at hk
  obtain ⟨a, ha⟩ := fieldAttacked_ok hk (enemyOf color) S
  obtain ⟨d, hd⟩ := kingMoveable_ok color S
  unfold isRemisPlayer
  rw [getKingdata_eq]
  dsimp only
  rw [ha]
  dsimp only
  cases a
  · simp only [Bool.false_eq_true, if_false]
    rw [hd]
    dsimp only
    cases d
    · simp only [Bool.false_eq_true, if_false]
      split_ifs
      · exact ⟨false, rfl⟩
      · exact ⟨true, rfl⟩
    · exact ⟨false, by simp⟩
  · exact ⟨false, by simp⟩

theorem kingAttacked_ok (color : Int) (S : BoardState)
    (hk : isInBounds (kingSquare color S) = true) : ∃ b, kingAttacked color S = .ok b := by
  rw [kingAttacked_eq]
  rw [isInBounds_eq_isValid] at hk
  exact fieldAttacked_ok hk _ S

theorem filterLoop_total (S : BoardState) (hw : isInBounds S.WhiteKingPos = true)
    (hb : isInBounds S.BlackKingPos = true) :
    ∀ (ms ret : List Move), (∀ m ∈ ms, isInBounds m.From = true ∧ isInBounds m.To = true) →
      ∃ res, filterLoop S ms ret = .ok res
  | [], ret, _ => ⟨ret, rfl⟩
  | m :: rest, ret, h => by
    obtain ⟨hf, ht⟩ := h m (List.mem_cons_self _ _)
    have hrest := fun x hx => h x (List.mem_cons_of_mem _ hx)
    obtain ⟨b, hb2⟩ := kingAttacked_ok m.Color (applyMove m S)
      (applyMove_kingSquare_bounds m S m.Color ht hw hb)
    unfold filterLoop
    rw [MakeMove_false_eq m S hf ht]
    dsimp only
    rw [hb2]
    dsimp only
    split_ifs
    · exact filterLoop_total S hw hb rest ret hrest
    · exact filterLoop_total S hw hb rest _ hrest

set_option maxRecDepth 1000000 in
/-- C26.  The iteration caps are never reached.  On every board one colour has
at most 756 pseudo-legal moves, fewer than either cap.  Hence for every state
whose cached king squares are in bounds, `fieldAttacked` on any in-bounds
square, `kingMoveable`, `isCheckmatePlayer`, `isRemisPlayer`, and
`FilterInvalidMoves` on any list of candidates with in-bounds squares all
return without error. -/
theorem caps_never_reached (S : BoardState) (hw : isInBounds S.WhiteKingPos = true)
    (hb : isInBounds S.BlackKingPos = true) :
    (∀ (color : Int) (exclude : List Int), (AllPossibleMoves color S exclude).length < 1000) ∧
    (∀ row col a : Int, isValid row col = true → ∃ b, fieldAttacked row col a S = .ok b) ∧
    (∀ color : Int, ∃ b, kingMoveable color S = .ok b) ∧
    (∀ color : Int, ∃ b, isCheckmatePlayer color S = .ok b) ∧
    (∀ color : Int, ∃ b, isRemisPlayer color S = .ok b) ∧
    (∀ ms : List Move, (∀ m ∈ ms, isInBounds m.From = true ∧ isInBounds m.To = true) →
      ∃ res, FilterInvalidMoves ms S = .ok res) := by
  have hk : ∀ color : Int, isInBounds (kingSquare color S) = true := by
    intro color
    unfold kingSquare
    split_ifs <;> assumption
  refine ⟨?_, fun row col a hv => fieldAttacked_ok hv a S, fun color => kingMoveable_ok color S,
    fun color => isCheckmatePlayer_ok color S (hk color),
    fun color => isRemisPlayer_ok color S (hk color),
    fun ms hms => filterLoop_total S hw hb ms [] hms⟩
  intro color exclude
  have := AllPossibleMoves_length_le color S exclude
  omega

set_option maxRecDepth 1000000 in
/-- Witness of C26 on the starting position. -/
theorem caps_never_reached_witness :
    isInBounds startState.WhiteKingPos = true ∧ isInBounds startState.BlackKingPos = true ∧
    (AllPossibleMoves 119 startState []).length = 20 ∧
    (∃ b, isCheckmatePlayer 98 startState = .ok b) ∧
    (∃ res, FilterInvalidMoves (AllPossibleMoves 119 startState []) startState = .ok res) :=
  ⟨by decide, by decide, by decide,
    (caps_never_reached startState (by decide) (by decide)).2.2.2.1 98,
    (caps_never_reached startState (by decide) (by decide)).2.2.2.2.2
      (AllPossibleMoves 119 startState []) (fun m hm => AllPossibleMoves_bounds m hm)⟩

/-! ## Checkmate and stalemate exclude each other -/

theorem runeString_n : runeString 110 = "n" := by decide

theorem runeString_colour_ne_r (row col : Int) (board : Grid) :
    runeString (getColorAndPiece row col board).1 ≠ "r" := by
  rcases getColor_cases row col board with h | h | h <;> rw [h] <;> decide

/-- C36.  Checkmate and stalemate exclude each other: for every state `S` and
colour `c` the booleans returned by `isCheckmatePlayer c S` and
`isRemisPlayer c S` are never both `true`.  Hence, when `MakeMove m S true`
returns `R` and the checkmate test on the moved board is `true` for the enemy of
the mover `k` (the colour on the origin), `R` is the moved board with
`Winner = k` and `TurnColor = "n"`: the stalemate test that follows does not
replace it, and `R.Winner` is not `"r"`. -/
theorem checkmate_excludes_remis (S : BoardState) (c : Int) :
    ¬ ((isCheckmatePlayer c S).flag = some true ∧ (isRemisPlayer c S).flag = some true) ∧
    ∀ (m : Move) (R : BoardState), MakeMove m S true = some R →
      (isCheckmatePlayer (enemyOf (getColorAndPiece m.From.1 m.From.2 S.Board).1)
        (applyMove m S)).flag = some true →
      R = { applyMove m S with
            Winner := runeString (getColorAndPiece m.From.1 m.From.2 S.Board).1,
            TurnColor := "n" } ∧
      R.Winner ≠ "r" := by
  constructor
  · rintro ⟨h1, h2⟩
    rw [flag_true_iff_checkmate] at h1
    rw [flag_true_iff_remis] at h2
    have a1 := isCheckmatePlayer_true_attacked h1
    have a2 := isRemisPlayer_true_not_attacked h2
    rw [a1] at a2
    simp at a2
  · intro m R h hc
    obtain ⟨hf, ht⟩ := MakeMove_bounds h
    simp only [MakeMove, hf, ht, Bool.not_true, Bool.or_self, Bool.false_eq_true, if_false,
      if_true] at h
    unfold enemyOf at hc
    rw [hc] at h
    simp only [if_true] at h
    have hyc := (flag_true_iff_checkmate _ _).1 hc
    have hatt := isCheckmatePlayer_true_attacked hyc
    have hnr : ∀ s1, sameCore s1 (applyMove m S) →
        (isRemisPlayer (if (getColorAndPiece m.From.1 m.From.2 S.Board).1 = 119 then 98
          else 119) s1).flag ≠ some true := by
      intro s1 hs hr
      rw [flag_true_iff_remis, isRemisPlayer_congr hs] at hr
      have := isRemisPlayer_true_not_attacked hr
      rw [hatt] at this
      simp at this
    cases hr : (isRemisPlayer (if (getColorAndPiece m.From.1 m.From.2 S.Board).1 = 119 then 98
        else 119) { applyMove m S with
          Winner := runeString (getColorAndPiece m.From.1 m.From.2 S.Board).1,
          TurnColor := "n" }).flag with
    | none => rw [hr] at h; simp at h
    | some r =>
      rw [hr] at h
      dsimp only at h
      cases r
      · simp only [Bool.false_eq_true, if_false] at h
        have e := (Option.some.inj h).symm
        refine ⟨e, ?_⟩
        rw [e]
        exact runeString_colour_ne_r _ _ _
      · exact absurd hr (hnr _ ⟨rfl, rfl, rfl⟩)

/-! ## Well-formedness of the generated moves, in full -/

theorem GenOK_facts {S : BoardState} {row col : Int} {m : Move} (h : GenOK S row col m) :
    m.From = (row, col) ∧ isInBounds m.To = true ∧ m.To ≠ m.From ∧
      m.Color = (getColorAndPiece row col S.Board).1 ∧
      (getColorAndPiece m.To.1 m.To.2 S.Board).1 ≠ m.Color ∧
      (m.Capture = true ↔ cell S.Board m.To.1 m.To.2 ≠ 32) := by
  obtain ⟨hfrom, hto, hcol, hdest, hcap⟩ := h
  refine ⟨hfrom, by rw [isInBounds_eq_isValid]; exact hto, ?_, hcol, hdest, ?_⟩
  · intro e
    apply hdest
    rw [e, hfrom, hcol]
  · rw [hcap, Ne, Ne, getPiece_empty_iff_cell S.Board hto]

/-- C37.  Well-formedness of generated moves: on every board and for every
in-bounds square `(r, c)`, each move `GenerateMovesForPiece` adds to the list it
is given has `From = (r, c)`, a `To` square that is in bounds and differs from
`From`, `Color` equal to the colour of the piece on `(r, c)`, a destination that
does not hold a piece of that colour, and `Capture = true` exactly when the
destination is not empty.  Every move returned by `AllPossibleMoves` has the
same properties, its `From` being an in-bounds square whose piece has the asked
colour. -/
theorem generated_moves_wellformed (S : BoardState) :
    (∀ (r c : Int) (acc : List Move) (m : Move), isValid r c = true →
      m ∈ GenerateMovesForPiece r c S acc → m ∈ acc ∨
        (m.From = (r, c) ∧ isInBounds m.To = true ∧ m.To ≠ m.From ∧
          m.Color = (getColorAndPiece r c S.Board).1 ∧
          (getColorAndPiece m.To.1 m.To.2 S.Board).1 ≠ m.Color ∧
          (m.Capture = true ↔ cell S.Board m.To.1 m.To.2 ≠ 32))) ∧
    (∀ (color : Int) (exclude : List Int) (m : Move), m ∈ AllPossibleMoves color S exclude →
      isInBounds m.From = true ∧ isInBounds m.To = true ∧ m.To ≠ m.From ∧
        m.Color = color ∧ m.Color = (getColorAndPiece m.From.1 m.From.2 S.Board).1 ∧
        (getColorAndPiece m.To.1 m.To.2 S.Board).1 ≠ m.Color ∧
        (m.Capture = true ↔ cell S.Board m.To.1 m.To.2 ≠ 32)) := by
  constructor
  · intro r c acc m hv hm
    rcases GenerateMovesForPiece_ok S r c acc m hm with h | h
    · exact Or.inl h
    · exact Or.inr (GenOK_facts h)
  · intro color exclude m hm
    obtain ⟨row, col, hv, hcol, -, -, hgen⟩ := mem_AllPossibleMoves.1 hm
    obtain ⟨h1, h2, h3, h4, h5, h6⟩ := GenOK_facts (GenerateMovesForPiece_valid hgen)
    refine ⟨?_, h2, h3, by rw [h4, hcol], ?_, h5, h6⟩
    · rw [h1, isInBounds_eq_isValid]; exact hv
    · rw [h1]; exact h4

set_option maxRecDepth 1000000 in
/-- Witness of C37: the knight move b1-c3 of the starting position. -/
theorem generated_moves_wellformed_witness :
    isValid 7 1 = true ∧
    moveTo 7 1 119 (5, 2) false ∈ GenerateMovesForPiece 7 1 startState [] ∧
    (moveTo 7 1 119 (5, 2) false ∈ ([] : List Move) ∨
      ((moveTo 7 1 119 (5, 2) false).From = (7, 1) ∧
        isInBounds (moveTo 7 1 119 (5, 2) false).To = true ∧
        (moveTo 7 1 119 (5, 2) false).To ≠ (moveTo 7 1 119 (5, 2) false).From ∧
        (moveTo 7 1 119 (5, 2) false).Color = (getColorAndPiece 7 1 startState.Board).1 ∧
        (getColorAndPiece (moveTo 7 1 119 (5, 2) false).To.1 (moveTo 7 1 119 (5, 2) false).To.2
          startState.Board).1 ≠ (moveTo 7 1 119 (5, 2) false).Color ∧
        ((moveTo 7 1 119 (5, 2) false).Capture = true ↔
          cell startState.Board (moveTo 7 1 119 (5, 2) false).To.1
            (moveTo 7 1 119 (5, 2) false).To.2 ≠ 32))) :=
  ⟨by decide, by decide,
    (generated_moves_wellformed startState).1 7 1 [] (moveTo 7 1 119 (5, 2) false) (by decide)
      (by decide)⟩

/-! ## The last check of `ValidateMove` -/

theorem kingAttacked_not_fail (color : Int) (S : BoardState) (b : Bool) (e : Err) :
    kingAttacked color S ≠ .fail b e := by
  intro h
  cases hv : isInBounds (kingSquare color S)
  · rw [(kingAttacked_panic_iff color S).2 hv] at h
    simp at h
  · obtain ⟨b2, hb2⟩ := kingAttacked_ok color S hv
    rw [hb2] at h
    simp at h

theorem filterLoop_not_fail (S : BoardState) :
    ∀ (ms ret r : List Move) (e : Err), filterLoop S ms ret ≠ .fail r e
  | [], ret, r, e => by simp [filterLoop]
  | m :: rest, ret, r, e => by
    unfold filterLoop
    cases hm : MakeMove m S false with
    | none => simp
    | some N =>
      dsimp only
      cases hk : kingAttacked m.Color N with
      | panic => simp
      | fail b e2 => exact absurd hk (kingAttacked_not_fail _ _ _ _)
      | ok b =>
        dsimp only
        split_ifs
        · exact filterLoop_not_fail S rest _ r e
        · exact filterLoop_not_fail S rest _ r e

/-- C38.  The last check of `ValidateMove` is redundant: whenever the filtered
candidates of the origin square contain a move with the `From`, `To` and `Color`
of `m` (the membership test `IsMoveInMoves`), re-applying `m` returns a state in
which the mover's king is not attacked; and `ValidateMove` never returns the
error "king is under attack", for any state and any move. -/
theorem ValidateMove_last_check_redundant (S : BoardState) (m : Move) :
    (∀ valid : List Move,
      FilterInvalidMoves (GenerateMovesForPiece m.From.1 m.From.2 S []) S = .ok valid →
      IsMoveInMoves m valid = true →
      ∃ N, MakeMove m S false = some N ∧ kingAttacked m.Color N = .ok false) ∧
    ValidateMove m S ≠ .fail () (.text "king is under attack") := by
  have key : ∀ valid : List Move,
      FilterInvalidMoves (GenerateMovesForPiece m.From.1 m.From.2 S []) S = .ok valid →
      IsMoveInMoves m valid = true →
      ∃ N, MakeMove m S false = some N ∧ kingAttacked m.Color N = .ok false := by
    intro valid hfl hin
    obtain ⟨x, hx, hxf, hxt, hxc⟩ := (IsMoveInMoves_iff m valid).1 hin
    have hvalid : valid = (GenerateMovesForPiece m.From.1 m.From.2 S []).filter
        (leavesKingSafe S) := by
      simpa using filterLoop_ok S _ [] valid hfl
    rw [hvalid, List.mem_filter] at hx
    have h2 := hx.2
    unfold leavesKingSafe at h2
    cases hN : MakeMove x S false with
    | none => rw [hN] at h2; simp at h2
    | some N =>
      rw [hN] at h2
      simp only [decide_eq_true_eq] at h2
      obtain ⟨hf, ht⟩ := MakeMove_bounds hN
      rw [MakeMove_false_eq x S hf ht] at hN
      rw [hxf] at hf
      rw [hxt] at ht
      refine ⟨applyMove m S, MakeMove_false_eq m S hf ht, ?_⟩
      rw [← applyMove_congr S hxf hxt, Option.some.inj hN, ← hxc]
      exact h2
  refine ⟨key, ?_⟩
  intro h
  unfold ValidateMove at h
  cases ht : (strBytes S.TurnColor).head? with
  | none => rw [ht] at h; simp at h
  | some turn =>
    rw [ht] at h
    dsimp only at h
    split_ifs at h with h1 h2 h3 h4 h5
    any_goals (simp at h; done)
    cases hfl : FilterInvalidMoves (GenerateMovesForPiece m.From.1 m.From.2 S []) S with
    | panic => rw [hfl] at h; simp at h
    | fail r e => exact absurd hfl (filterLoop_not_fail S _ _ r e)
    | ok valid =>
      rw [hfl] at h
      dsimp only at h
      split_ifs at h with h6
      · simp at h
      simp only [Bool.not_eq_true, Bool.not_eq_false, Bool.not_eq_false'] at h6
      obtain ⟨N, hN, hk⟩ := key valid hfl h6
      rw [hN] at h
      dsimp only at h
      rw [hk] at h
      simp at h

set_option maxRecDepth 1000000 in
/-- Witness of C38 on the opening move "e2 e4" from the starting position. -/
theorem ValidateMove_last_check_redundant_witness :
    FilterInvalidMoves (GenerateMovesForPiece openingMove.From.1 openingMove.From.2 startState [])
        startState = .ok [moveTo 6 4 119 (5, 4) false, moveTo 6 4 119 (4, 4) false] ∧
    IsMoveInMoves openingMove [moveTo 6 4 119 (5, 4) false, moveTo 6 4 119 (4, 4) false] = true ∧
    ∃ N, MakeMove openingMove startState false = some N ∧
      kingAttacked openingMove.Color N = .ok false :=
  ⟨by decide, by decide,
    (ValidateMove_last_check_redundant startState openingMove).1
      [moveTo 6 4 119 (5, 4) false, moveTo 6 4 119 (4, 4) false] (by decide) (by decide)⟩

/-! ## The en-passant field after a double advance -/

/-- C32 (as the code has it).  Let the square `(r, c)` hold a pawn and let `m`
be its two-square advance to `(r + 2d, c)`, with `d = -1` for a white pawn and
`d = 1` for a black one, both squares in bounds.  `MakeMove` without terminal
check returns, with terminal check it returns when the king cache is in
bounds, and the `EnPassant` field of every state it returns is the landing
square `(r + 2d, c)`, not the square `(r + d, c)` the pawn passed over. -/
theorem MakeMove_enPassant_landing (S : BoardState) (m : Move) (r c d : Int)
    (hfrom : m.From = (r, c)) (hto : m.To = (r + 2 * d, c))
    (hf : isInBounds m.From = true) (ht : isInBounds m.To = true)
    (hd : (d = -1 ∧ cell S.Board r c = 112) ∨ (d = 1 ∧ cell S.Board r c = 80)) :
    (∃ N, MakeMove m S false = some N) ∧
    (isInBounds S.WhiteKingPos = true → isInBounds S.BlackKingPos = true →
      ∃ N, MakeMove m S true = some N) ∧
    ∀ (realMove : Bool) (N : BoardState), MakeMove m S realMove = some N →
      N.EnPassant = (r + 2 * d, c) ∧ N.EnPassant ≠ (r + d, c) := by
  refine ⟨⟨_, MakeMove_false_eq m S hf ht⟩, fun hw hb => MakeMove_total m S true hf ht hw hb, ?_⟩
  intro realMove N h
  obtain ⟨w, t, rfl⟩ := MakeMove_shape h
  have he : (applyMove m S).EnPassant = (r + 2 * d, c) := by
    rw [applyMove_enPassant S m hf, hfrom, hto]
    dsimp only
    rw [if_pos]
    refine ⟨?_, by omega⟩
    rcases hd with ⟨-, h⟩ | ⟨-, h⟩
    · exact Or.inl h
    · exact Or.inr h
  refine ⟨he, ?_⟩
  show (applyMove m S).EnPassant ≠ (r + d, c)
  rw [he]
  intro e
  have := congrArg Prod.fst e
  dsimp only at this
  rcases hd with ⟨h, -⟩ | ⟨h, -⟩ <;> omega

set_option maxRecDepth 1000000 in
/-- The advance "d2 d4" from the starting position passes over (5,3); the
`EnPassant` field of the state `MakeMove` returns is (4,3). -/
theorem enPassant_not_passed_over :
    cell startState.Board 6 3 = 112 ∧ queenPawnMove.From = (6, 3) ∧
    queenPawnMove.To = (6 + 2 * (-1), 3) ∧
    ∃ N, MakeMove queenPawnMove startState true = some N ∧ N.EnPassant = (4, 3) ∧
      N.EnPassant ≠ (6 + (-1), 3) := by
  have h : (MakeMove queenPawnMove startState true).map (fun N => N.EnPassant) = some (4, 3) := by
    decide
  cases hN : MakeMove queenPawnMove startState true with
  | none => rw [hN] at h; simp at h
  | some N =>
    rw [hN] at h
    simp only [Option.map_some', Option.some.injEq] at h
    refine ⟨by decide, rfl, by decide, N, rfl, h, ?_⟩
    rw [h]
    decide

set_option maxRecDepth 1000000 in
/-- Witness of C32: the reply "e7 e5" of a black pawn to "e2 e4". -/
theorem MakeMove_enPassant_landing_witness :
    replyMove.From = (1, 4) ∧ replyMove.To = (1 + 2 * 1, 4) ∧
    cell afterOpening.Board 1 4 = 80 ∧
    ∃ N, MakeMove replyMove afterOpening false = some N ∧ N.EnPassant = (3, 4) ∧
      N.EnPassant ≠ (2, 4) := by
  have h := MakeMove_enPassant_landing afterOpening replyMove 1 4 1 rfl (by decide) (by decide)
    (by decide) (Or.inr ⟨rfl, by decide⟩)
  obtain ⟨N, hN⟩ := h.1
  exact ⟨rfl, by decide, by decide, N, hN, (h.2.2 false N hN).1, (h.2.2 false N hN).2⟩

/-! ## Requests on a decided game -/

theorem demoGame2_reachable : GameReachable demoGame2 :=
  GameReachable.putSessions (some "secret") "b" "tb"
    (GameReachable.putSessions (some "secret") "w" "tw"
      (GameReachable.init "game" 1 "secret") demo_join_white)
    demo_join_black

theorem demo_forfeit_white :
    PutGame demoGame2 (some "tw") (forfeitRequest "w") 0 = some (demoResigned, 200) := by
  have h1 : verifyBoardAccess demoGame2 (forfeitRequest "w").Color "tw" = none := by decide
  have h2 : demoGame2.BoardData.getLast? = some startState := rfl
  have h3 : (forfeitRequest "w").ReqType = "forfeit" := rfl
  have h4 : (forfeitRequest "w").Color = "w" := rfl
  unfold PutGame
  simp only [h1, h2, h3, h4]
  simp
  rfl

theorem demo_forfeit_black :
    PutGame demoResigned (some "tb") (forfeitRequest "b") 0 = some (demoResignedTwice, 200) := by
  have h1 : verifyBoardAccess demoResigned (forfeitRequest "b").Color "tb" = none := by decide
  have h2 : demoResigned.BoardData.getLast? = some (forfeited startState "b") := rfl
  have h3 : (forfeitRequest "b").ReqType = "forfeit" := rfl
  have h4 : (forfeitRequest "b").Color = "b" := rfl
  unfold PutGame
  simp only [h1, h2, h3, h4]
  simp
  rfl

theorem startHistory_winners {l l2 : List BoardState} (h : startHistory l = some l2) :
    l2.map (fun S => S.Winner) = l.map (fun S => S.Winner) := by
  cases l with
  | nil => simp [startHistory] at h
  | cons S rest =>
    simp only [startHistory, Option.some.injEq] at h
    subst h
    rfl

/-- C39.  What holds of a decided game and what does not.  A `move` or
`randommove` request on a game whose `Winner` is not `"n"` is refused and
changes nothing, and no `PutSessions` request changes the `Winner` of the game
or of a snapshot.  A `forfeit` request is not refused: on the reachable session
`demoResigned`, which white has forfeited (`Winner = "b"`), the forfeit of black
is answered with 200 and leaves `Winner = "w"` in the game and in its last
snapshot. -/
theorem decided_game_forfeit_overwrites :
    (∀ (g g2 : Game) (auth : Option String) (req : ReqPutGame) (idx status : Nat),
      g.Winner ≠ "n" → req.ReqType ≠ "forfeit" →
      PutGame g auth req idx = some (g2, status) → g2 = g ∧ status ≠ 200) ∧
    (∀ (g g2 : Game) (auth : Option String) (color token : String) (status : Nat),
      PutSessions g auth color token = some (g2, status) →
      g2.Winner = g.Winner ∧
        g2.BoardData.map (fun S => S.Winner) = g.BoardData.map (fun S => S.Winner)) ∧
    GameReachable demoResigned ∧ demoResigned.Winner = "b" ∧
    demoResigned.BoardData.map (fun S => S.Winner) = ["b"] ∧
    PutGame demoResigned (some "tb") (forfeitRequest "b") 0 = some (demoResignedTwice, 200) ∧
    demoResignedTwice.Winner = "w" ∧
    demoResignedTwice.BoardData.map (fun S => S.Winner) = ["w"] := by
  refine ⟨?_, ?_, GameReachable.putGame (some "tw") (forfeitRequest "w") 0 demoGame2_reachable
    demo_forfeit_white, rfl, rfl, demo_forfeit_black, rfl, rfl⟩
  · intro g g2 auth req idx status hw hreq h
    unfold PutGame at h
    cases auth with
    | none =>
      simp only [Option.some.injEq, Prod.mk.injEq] at h
      exact ⟨h.1.symm, by omega⟩
    | some token =>
      dsimp only at h
      by_cases h1 : req.ReqType ≠ "forfeit" ∧ req.ReqType ≠ "move" ∧ req.ReqType ≠ "randommove"
      · rw [if_pos h1] at h
        simp only [Option.some.injEq, Prod.mk.injEq] at h
        exact ⟨h.1.symm, by omega⟩
      · rw [if_neg h1] at h
        cases ha : verifyBoardAccess g req.Color token with
        | some st =>
          rw [ha] at h
          simp only [Option.some.injEq, Prod.mk.injEq] at h
          refine ⟨h.1.symm, ?_⟩
          rw [← h.2]
          unfold verifyBoardAccess at ha
          split_ifs at ha <;> simp only [Option.some.injEq] at ha <;> omega
        | none =>
          rw [ha] at h
          dsimp only at h
          cases hl : g.BoardData.getLast? with
          | none => rw [hl] at h; simp at h
          | some last =>
            rw [hl] at h
            dsimp only at h
            rw [if_neg hreq] at h
            by_cases h2 : (!g.Started) = true
            · rw [if_pos h2] at h
              simp only [Option.some.injEq, Prod.mk.injEq] at h
              exact ⟨h.1.symm, by omega⟩
            · rw [if_neg h2, if_pos hw] at h
              simp only [Option.some.injEq, Prod.mk.injEq] at h
              exact ⟨h.1.symm, by omega⟩
  · intro g g2 auth color token status h
    unfold PutSessions at h
    cases auth with
    | none =>
      simp only [Option.some.injEq, Prod.mk.injEq] at h
      rw [← h.1]
      exact ⟨rfl, rfl⟩
    | some password =>
      dsimp only at h
      split_ifs at h
      all_goals first
        | (simp only [Option.some.injEq, Prod.mk.injEq] at h
           rw [← h.1]
           exact ⟨rfl, rfl⟩)
        | (cases hs : startHistory g.BoardData with
           | none => rw [hs] at h; simp at h
           | some history =>
             rw [hs] at h
             simp only [Option.some.injEq, Prod.mk.injEq] at h
             rw [← h.1]
             exact ⟨rfl, startHistory_winners hs⟩)

/-! ## A decided game with a side to move -/

theorem demo_early_forfeit :
    PutGame demoGame1 (some "tw") (forfeitRequest "w") 0 = some (demoEarlyForfeit, 200) := by
  have h1 : verifyBoardAccess demoGame1 (forfeitRequest "w").Color "tw" = none := by decide
  have h2 : demoGame1.BoardData.getLast? = some initialState := rfl
  have h3 : (forfeitRequest "w").ReqType = "forfeit" := rfl
  have h4 : (forfeitRequest "w").Color = "w" := rfl
  unfold PutGame
  simp only [h1, h2, h3, h4]
  simp
  rfl

theorem demo_late_join :
    PutSessions demoEarlyForfeit (some "secret") "b" "tb" = some (demoLateStart, 200) := by
  rfl

/-- C40.  A reachable game that is decided and has a side to move: white joins a
new session and forfeits, then black joins.  `PutSessions` starts the game and
writes `TurnColor = "w"` into the only snapshot, whose `Winner` is `"b"` (as is
the game's); a turn query of white on this game is answered with 200. -/
theorem decided_game_with_side_to_move :
    PutSessions demoGame0 (some "secret") "w" "tw" = some (demoGame1, 200) ∧
    PutGame demoGame1 (some "tw") (forfeitRequest "w") 0 = some (demoEarlyForfeit, 200) ∧
    PutSessions demoEarlyForfeit (some "secret") "b" "tb" = some (demoLateStart, 200) ∧
    GameReachable demoLateStart ∧
    demoLateStart.Winner = "b" ∧
    ∃ last, demoLateStart.BoardData.getLast? = some last ∧ last.Winner = "b" ∧
      last.Winner ≠ "n" ∧ last.TurnColor = "w" ∧ last.TurnColor ≠ "n" ∧
      GetGame (registryOf demoLateStart) (some "secret") (some (turnRequest "w")) = some 200 := by
  have hr : GameReachable demoLateStart :=
    GameReachable.putSessions (some "secret") "b" "tb"
      (GameReachable.putGame (some "tw") (forfeitRequest "w") 0
        (GameReachable.putSessions (some "secret") "w" "tw"
          (GameReachable.init "game" 1 "secret") demo_join_white)
        demo_early_forfeit)
      demo_late_join
  refine ⟨demo_join_white, demo_early_forfeit, demo_late_join, hr, rfl, _, rfl, rfl, by decide,
    rfl, by decide, ?_⟩
  have h1 : (registryOf demoLateStart).GamesMap (turnRequest "w").BoardID = some demoLateStart :=
    rfl
  have h2 : verifyGameAccess (registryOf demoLateStart) (turnRequest "w").BoardID "secret" =
      none := by
    simp only [verifyGameAccess, h1]
    decide
  have h3 : (turnRequest "w").ReqType = "turn" := rfl
  have h4 : demoLateStart.BoardData.getLast? =
      some { forfeited initialState "b" with TurnColor := "w" } := rfl
  simp only [GetGame, h1, h2, h3, h4]
  decide

/-! ## The index of a `"state"` request -/

theorem GetGame_state_eq (reg : Registry) (token : String) (req : ReqGetGame) (game : Game)
    (hreq : req.ReqType = "state") (hgame : reg.GamesMap req.BoardID = some game)
    (hacc : verifyBoardAccess game req.Color token = none) :
    GetGame reg (some token) (some req) = (GetGameState game req.Moveidx).map Prod.fst := by
  have hne : ("state" : String) ≠ "turn" := by decide
  unfold GetGame GetGameState
  simp only [hreq, hgame, hacc, hne, if_false, if_true, ne_eq, not_true_eq_false, false_and]
  generalize (if req.Moveidx = -1 then (game.BoardData.length : Int) - 1 else req.Moveidx) = idx
  split_ifs with h1 h2
  · rfl
  · rfl
  · split
    · rename_i hg
      exfalso
      rw [List.getElem?_eq_none_iff] at hg
      omega
    · rfl

/-- C31.  An authorised `"state"` request on a game whose history has `n`
entries.  The status of `GetGame` is that of its `"state"` branch
`GetGameState`.  With `moveidx = -1` and a non-empty history the answer is 200
with the last entry; with `0 ≤ moveidx < n` it is 200 with `BoardData[moveidx]`;
with `moveidx ≥ n` it is the error 404.  With `moveidx ≤ -2` there is no error
response: the handler indexes `BoardData` with the negative `moveidx` and
panics. -/
theorem GetGame_state_index (reg : Registry) (token : String) (req : ReqGetGame) (game : Game)
    (hreq : req.ReqType = "state") (hgame : reg.GamesMap req.BoardID = some game)
    (hacc : verifyBoardAccess game req.Color token = none) :
    GetGame reg (some token) (some req) = (GetGameState game req.Moveidx).map Prod.fst ∧
    (req.Moveidx = -1 → game.BoardData ≠ [] →
      ∃ S, game.BoardData.getLast? = some S ∧
        GetGameState game req.Moveidx = some (200, some S)) ∧
    (∀ i : Nat, req.Moveidx = i → i < game.BoardData.length →
      ∃ S, game.BoardData[i]? = some S ∧ GetGameState game req.Moveidx = some (200, some S)) ∧
    ((game.BoardData.length : Int) ≤ req.Moveidx →
      GetGameState game req.Moveidx = some (404, none)) ∧
    (req.Moveidx ≤ -2 →
      GetGameState game req.Moveidx = none ∧ GetGame reg (some token) (some req) = none) := by
  have heq := GetGame_state_eq reg token req game hreq hgame hacc
  refine ⟨heq, ?_, ?_, ?_, ?_⟩
  · intro h hne
    have hlen : 0 < game.BoardData.length := List.length_pos.2 hne
    obtain ⟨S, hS⟩ : ∃ S, game.BoardData.getLast? = some S := by
      cases hl : game.BoardData.getLast? with
      | none => rw [List.getLast?_eq_none_iff] at hl; exact absurd hl hne
      | some S => exact ⟨S, rfl⟩
    refine ⟨S, hS, ?_⟩
    rw [List.getLast?_eq_getElem?] at hS
    unfold GetGameState
    simp only [h, if_true]
    rw [if_neg (by omega), if_neg (by omega)]
    have e : ((game.BoardData.length : Int) - 1).toNat = game.BoardData.length - 1 := by omega
    rw [e, hS]
  · intro i h hi
    obtain ⟨S, hS⟩ : ∃ S, game.BoardData[i]? = some S :=
      ⟨_, List.getElem?_eq_getElem hi⟩
    refine ⟨S, hS, ?_⟩
    unfold GetGameState
    simp only [h]
    rw [if_neg (by omega), if_neg (by omega), if_neg (by omega)]
    simp only [Int.toNat_ofNat, hS]
  · intro h
    unfold GetGameState
    dsimp only
    rw [if_neg (by omega : ¬ req.Moveidx = -1), if_pos (by omega)]
  · intro h
    have hs : GetGameState game req.Moveidx = none := by
      unfold GetGameState
      dsimp only
      rw [if_neg (by omega : ¬ req.Moveidx = -1), if_neg (by omega), if_pos (by omega)]
    exact ⟨hs, by rw [heq, hs]; rfl⟩

/-- Instance of C31: white asks for the index -2 of a game with two snapshots. -/
theorem GetGame_state_index_witness :
    (stateRequest (-2)).ReqType = "state" ∧
    (registryOf demoGame3).GamesMap (stateRequest (-2)).BoardID = some demoGame3 ∧
    verifyBoardAccess demoGame3 (stateRequest (-2)).Color "tw" = none ∧
    demoGame3.BoardData.length = 2 ∧
    GetGameState demoGame3 (-2) = none ∧
    GetGame (registryOf demoGame3) (some "tw") (some (stateRequest (-2))) = none :=
  ⟨rfl, rfl, by decide, rfl,
    ((GetGame_state_index (registryOf demoGame3) "tw" (stateRequest (-2)) demoGame3 rfl rfl
      (by decide)).2.2.2.2 (by decide)).1,
    ((GetGame_state_index (registryOf demoGame3) "tw" (stateRequest (-2)) demoGame3 rfl rfl
      (by decide)).2.2.2.2 (by decide)).2⟩

/-! ## Two move requests at the same time -/

/-- Run without another request in between, the two parts of `PutGame` are
`PutGame`. -/
theorem PutGame_eq_phases (game : Game) (auth : Option String) (req : ReqPutGame)
    (randomIdx : Nat) :
    PutGame game auth req randomIdx =
      match PutGamePrepare game auth req randomIdx with
      | none => none
      | some (.answer g2 status) => some (g2, status)
      | some (.proceed move) => PutGameCommit game move := by
  unfold PutGame PutGamePrepare PutGameCommit
  cases auth with
  | none => rfl
  | some token =>
    dsimp only
    by_cases h1 : req.ReqType ≠ "forfeit" ∧ req.ReqType ≠ "move" ∧ req.ReqType ≠ "randommove"
    · rw [if_pos h1, if_pos h1]
    · rw [if_neg h1, if_neg h1]
      cases ha : verifyBoardAccess game req.Color token with
      | some st => rfl
      | none =>
        dsimp only
        cases hl : game.BoardData.getLast? with
        | none => rfl
        | some last =>
          dsimp only
          split_ifs
          all_goals first
            | rfl
            | (cases hc : chooseMove req last randomIdx <;> rfl)

set_option maxRecDepth 1000000 in
theorem second_opening_applied : MakeMove openingMove afterOpening true = some lostPawn := by
  have h1 : (isCheckmatePlayer 119 (applyMove openingMove afterOpening)).flag = some false := by
    decide
  have h2 : (isRemisPlayer 119 (applyMove openingMove afterOpening)).flag = some false := by
    decide
  have h3 : (getColorAndPiece openingMove.From.1 openingMove.From.2 afterOpening.Board).1 =
      110 := by decide
  have h4 : isInBounds openingMove.From = true := by decide
  have h5 : isInBounds openingMove.To = true := by decide
  simp only [MakeMove, h3, h4, h5, Bool.not_true, Bool.or_self, Bool.false_eq_true, if_false,
    if_true, h1, h2]
  rfl

set_option maxRecDepth 1000000 in
theorem lostPawn_keeps_black :
    ∀ i j : Fin 8, (getColorAndPiece ((i : Nat) : Int) ((j : Nat) : Int) afterOpening.Board).1 = 98 →
      cell lostPawn.Board ((i : Nat) : Int) ((j : Nat) : Int) ≠ 32 := by
  decide

set_option maxRecDepth 1000000 in
theorem lostPawn_not_legal : ¬ LegalStep afterOpening lostPawn := by
  rintro ⟨m, hv, hm⟩
  obtain ⟨hturn, hf, ht, hfromc, -, -, -⟩ := ValidateMove_ok_facts hv
  obtain ⟨w, t, e⟩ := MakeMove_shape hm
  have hb : lostPawn.Board = (applyMove m afterOpening).Board := by rw [e]
  have hc : m.Color = 98 := by
    have h98 : (strBytes afterOpening.TurnColor).head? = some 98 := by decide
    rw [h98] at hturn
    exact (Option.some.inj hturn).symm
  rw [isInBounds_eq_isValid] at hf
  have h1 : cell lostPawn.Board m.From.1 m.From.2 = 32 := by
    rw [hb, applyMove_cell m afterOpening hf, if_pos ⟨rfl, rfl⟩]
  obtain ⟨i, j, hi, hj⟩ := exists_fin_of_valid hf
  rw [hc, ← hi, ← hj] at hfromc
  rw [← hi, ← hj] at h1
  exact lostPawn_keeps_black i j hfromc h1

set_option maxRecDepth 1000000 in
/-- C33.  `PutGame` validates a move and applies it in two separate critical
sections, `PutGamePrepare` (read lock) and `PutGameCommit` (write lock); run back
to back they are `PutGame`.  Two `"e2 e4"` requests of white that both pass
`PutGamePrepare` on the started session `demoGame2` before either commits: each
is validated against the starting position; the first commit appends the position
after "e2 e4"; the second commit is applied to that position, not to the one it
was validated against, where `ValidateMove` rejects the move (it is black's
turn), and appends a snapshot that is no legal successor: the history is no
longer a chain of accepted moves. -/
theorem concurrent_moves_break_chain :
    (∀ (game : Game) (auth : Option String) (req : ReqPutGame) (randomIdx : Nat),
      PutGame game auth req randomIdx =
        match PutGamePrepare game auth req randomIdx with
        | none => none
        | some (.answer g2 status) => some (g2, status)
        | some (.proceed move) => PutGameCommit game move) ∧
    GameReachable demoGame2 ∧ demoGame2.BoardData = [startState] ∧
    PutGamePrepare demoGame2 (some "tw") demoRequest 0 = some (.proceed openingMove) ∧
    ValidateMove openingMove startState = .ok () ∧
    PutGameCommit demoGame2 openingMove = some (demoGame3, 200) ∧
    demoGame3.BoardData = [startState, afterOpening] ∧
    PutGameCommit demoGame3 openingMove = some (demoGame4, 200) ∧
    demoGame4.BoardData = [startState, afterOpening, lostPawn] ∧
    ValidateMove openingMove afterOpening = .fail () (.notTurn 119) ∧
    ¬ LegalStep afterOpening lostPawn ∧
    ¬ List.Chain' LegalStep demoGame4.BoardData := by
  refine ⟨PutGame_eq_phases, demoGame2_reachable, rfl, ?_, opening_accepted, ?_, rfl, ?_, rfl,
    by decide, lostPawn_not_legal, ?_⟩
  · have h1 : verifyBoardAccess demoGame2 demoRequest.Color "tw" = none := by decide
    have h2 : demoGame2.BoardData.getLast? = some startState := rfl
    have h3 : demoRequest.ReqType = "move" := rfl
    have h4 : demoGame2.Started = true := rfl
    have h5 : demoGame2.Winner = "n" := rfl
    have h6 : startState.TurnColor = demoRequest.Color := rfl
    unfold PutGamePrepare
    simp only [h1, h2, h3, h4, h5, h6, demo_choose]
    simp
  · have h2 : demoGame2.BoardData.getLast? = some startState := rfl
    unfold PutGameCommit
    simp only [h2, opening_applied]
    rfl
  · have h2 : demoGame3.BoardData.getLast? = some afterOpening := rfl
    unfold PutGameCommit
    simp only [h2, second_opening_applied]
    rfl
  · intro h
    have hb : demoGame4.BoardData = [startState, afterOpening, lostPawn] := rfl
    rw [hb] at h
    simp only [List.chain'_cons, List.chain'_singleton, and_true] at h
    exact lostPawn_not_legal h.2

/-! ## Captures survive the vacating of a square -/

theorem getColorAndPiece_vacated {K : Int × Int} {S1 S2 : BoardState} (h : Vacated K S1 S2)
    {r c : Int} (hv : isValid r c = true) (hne : (r, c) ≠ K) :
    getColorAndPiece r c S2.Board = getColorAndPiece r c S1.Board := by
  rw [getColorAndPiece_valid S2.Board hv, getColorAndPiece_valid S1.Board hv, h.1 r c hv hne]

theorem GenerateMovesForPiece_rules (S : BoardState) {r c : Int} (hv : isValid r c = true)
    (hk : (getColorAndPiece r c S.Board).1 = 119 ∨ (getColorAndPiece r c S.Board).1 = 98) :
    GenerateMovesForPiece r c S [] =
      pieceRule S r c (getColorAndPiece r c S.Board).1 (getColorAndPiece r c S.Board).2 := by
  have hl := lineMoves_eq_rule S (getColorAndPiece r c S.Board).1 hv hk
  have hp := pawnMoves_eq_rule S r c _ hv hk
  unfold GenerateMovesForPiece pieceRule
  dsimp only
  split_ifs
  · exact hp
  · exact jump_foldl_eq S r c _ hk knightOffsets
  · exact hl.2
  · exact hl.1
  · rw [lineMoves_append, hl.1, hl.2]
  · exact jump_foldl_eq S r c _ hk kingOffsets
  · rfl

theorem pawnRule_vacated {K : Int × Int} {S1 S2 : BoardState} (h : Vacated K S1 S2)
    {r c k d start : Int} {m : Move} (hm : m ∈ pawnRule S1 r c k d start)
    (hcap : m.Capture = true) (hT : m.To ≠ K) : m ∈ pawnRule S2 r c k d start := by
  unfold pawnRule at hm ⊢
  simp only [List.mem_append] at hm ⊢
  rcases hm with ((hm | hm) | hm) | hm
  · split_ifs at hm
    · simp only [List.mem_singleton] at hm
      rw [hm] at hcap
      simp [moveTo] at hcap
    · simp at hm
  · split_ifs at hm
    · simp only [List.mem_singleton] at hm
      rw [hm] at hcap
      simp [moveTo] at hcap
    · simp at hm
  · split_ifs at hm with h1
    · simp only [List.mem_singleton] at hm
      have hne : (r + d, c - 1) ≠ K := by rw [hm] at hT; exact hT
      refine Or.inl (Or.inr ?_)
      rw [getColorAndPiece_vacated h h1.1 hne, if_pos h1]
      simp [hm]
    · simp at hm
  · split_ifs at hm with h1
    · simp only [List.mem_singleton] at hm
      have hne : (r + d, c + 1) ≠ K := by rw [hm] at hT; exact hT
      refine Or.inr ?_
      rw [getColorAndPiece_vacated h h1.1 hne, if_pos h1]
      simp [hm]
    · simp at hm

theorem jumpRule_vacated {K : Int × Int} {S1 S2 : BoardState} (h : Vacated K S1 S2)
    {r c k : Int} {offsets : List (Int × Int)} {m : Move} (hm : m ∈ jumpRule S1 r c k offsets)
    (hT : m.To ≠ K) : m ∈ jumpRule S2 r c k offsets := by
  rw [mem_jumpRule] at hm ⊢
  obtain ⟨o, ho, ⟨hv, hc⟩, e⟩ := hm
  have hne : (r + o.1, c + o.2) ≠ K := by rw [e] at hT; exact hT
  refine ⟨o, ho, ?_, ?_⟩
  · rw [getColorAndPiece_vacated h hv hne]
    exact ⟨hv, hc⟩
  · rw [getColorAndPiece_vacated h hv hne]
    exact e

theorem slideRule_vacated {K : Int × Int} {S1 S2 : BoardState} (h : Vacated K S1 S2)
    {r c k : Int} (hv : isValid r c = true) {deltas : List (Int × Int)}
    (hd : ∀ d ∈ deltas, d ∈ straightDeltas ∨ d ∈ diagonalDeltas) {m : Move}
    (hm : m ∈ slideRule S1 r c k deltas) (hT : m.To ≠ K) : m ∈ slideRule S2 r c k deltas := by
  rw [mem_slideRule] at hm ⊢
  obtain ⟨d, hdm, n, h1, h7, hstep⟩ := hm
  refine ⟨d, hdm, n, h1, h7, ?_⟩
  rw [mem_rayStep] at hstep ⊢
  obtain ⟨⟨hvT, hclear, hc⟩, e⟩ := hstep
  have hne : (r + (n : Int) * d.1, c + (n : Int) * d.2) ≠ K := by rw [e] at hT; exact hT
  refine ⟨⟨hvT, ?_, ?_⟩, ?_⟩
  · rw [pathClear_iff] at hclear ⊢
    intro j hj1 hjn
    have hvj := ray_convex hv (hd d hdm) n j (by omega) hvT
    by_cases hK : (r + (j : Int) * d.1, c + (j : Int) * d.2) = K
    · have := h.2
      rw [← hK] at this
      exact this
    · rw [h.1 _ _ hvj hK]
      exact hclear j hj1 hjn
  · rw [getColorAndPiece_vacated h hvT hne]
    exact hc
  · rw [h.1 _ _ hvT hne]
    exact e

theorem delta_straight : ∀ d ∈ straightDeltas, d ∈ straightDeltas ∨ d ∈ diagonalDeltas :=
  fun _ h => Or.inl h

theorem delta_diagonal : ∀ d ∈ diagonalDeltas, d ∈ straightDeltas ∨ d ∈ diagonalDeltas :=
  fun _ h => Or.inr h

/-- A capture generated for a piece is still generated when another square,
not its destination, is emptied. -/
theorem GenerateMovesForPiece_vacated {K : Int × Int} {S1 S2 : BoardState}
    (h : Vacated K S1 S2) {r c : Int} (hv : isValid r c = true) (hne : (r, c) ≠ K)
    (hk : (getColorAndPiece r c S1.Board).1 = 119 ∨ (getColorAndPiece r c S1.Board).1 = 98)
    {m : Move} (hm : m ∈ GenerateMovesForPiece r c S1 []) (hcap : m.Capture = true)
    (hT : m.To ≠ K) : m ∈ GenerateMovesForPiece r c S2 [] := by
  have hcp := getColorAndPiece_vacated h hv hne
  rw [GenerateMovesForPiece_rules S1 hv hk] at hm
  rw [GenerateMovesForPiece_rules S2 hv (by rw [hcp]; exact hk), hcp]
  unfold pieceRule at hm ⊢
  split_ifs at hm ⊢
  · exact pawnRule_vacated h hm hcap hT
  · exact jumpRule_vacated h hm hT
  · exact slideRule_vacated h hv delta_diagonal hm hT
  · exact slideRule_vacated h hv delta_straight hm hT
  · rw [List.mem_append] at hm ⊢
    rcases hm with hm | hm
    · exact Or.inl (slideRule_vacated h hv delta_diagonal hm hT)
    · exact Or.inr (slideRule_vacated h hv delta_straight hm hT)
  · exact jumpRule_vacated h hm hT
  · exact hm

/-- A capture among all moves of colour `a` is still among them when a square
that holds no piece of colour `a`, and is not the destination, is emptied. -/
theorem AllPossibleMoves_vacated {K : Int × Int} {S1 S2 : BoardState} (h : Vacated K S1 S2)
    {a : Int} (ha : a = 119 ∨ a = 98)
    (hK : isValid K.1 K.2 = true → (getColorAndPiece K.1 K.2 S1.Board).1 ≠ a)
    {m : Move} (hm : m ∈ AllPossibleMoves a S1 []) (hcap : m.Capture = true) (hT : m.To ≠ K) :
    m ∈ AllPossibleMoves a S2 [] := by
  rw [mem_AllPossibleMoves] at hm ⊢
  obtain ⟨row, col, hv, hcol, hp, hex, hgen⟩ := hm
  have hne : (row, col) ≠ K := by
    intro e
    subst e
    exact hK hv hcol
  have hcp := getColorAndPiece_vacated h hv hne
  refine ⟨row, col, hv, by rw [hcp]; exact hcol, by rw [hcp]; exact hp, by rw [hcp]; exact hex,
    ?_⟩
  exact GenerateMovesForPiece_vacated h hv hne (by rw [hcol]; exact ha) hgen hcap hT

/-- An attack on `T` found with a piece standing on `K` is still found when `K`
is emptied. -/
theorem attackScan_vacated {K : Int × Int} {S1 S2 : BoardState} (h : Vacated K S1 S2)
    {a : Int} (ha : a = 119 ∨ a = 98)
    (hK : isValid K.1 K.2 = true → (getColorAndPiece K.1 K.2 S1.Board).1 ≠ a)
    {T : Int × Int} (hT : T ≠ K)
    (h1 : attackScan T.1 T.2 (AllPossibleMoves a S1 []) 0 = .ok true) :
    attackScan T.1 T.2 (AllPossibleMoves a S2 []) 0 = .ok true := by
  obtain ⟨x, hx, hxT, hxc⟩ := attackScan_ok_true T.1 T.2 _ 0 h1
  have hx2 := AllPossibleMoves_vacated h ha hK hx hxc (by rw [hxT]; exact hT)
  obtain ⟨b, hb⟩ := attackScan_ok_of_short T.1 T.2 (AllPossibleMoves a S2 []) 0 (by
    have := AllPossibleMoves_length_le a S2 []
    omega)
  cases b
  · exact absurd ⟨hxT, hxc⟩ (attackScan_ok_false T.1 T.2 _ 0 hb x hx2)
  · exact hb

/-! ## Soundness of the checkmate and stalemate tests -/

theorem kingMoveableLoop_false (enemy : Int) (S : BoardState) :
    ∀ ms : List Move, kingMoveableLoop enemy S ms = .ok false →
      ∀ m ∈ ms, fieldAttacked m.To.1 m.To.2 enemy S = .ok true
  | [], _ => by simp
  | x :: rest, h => by
    unfold kingMoveableLoop at h
    cases hf : fieldAttacked x.To.1 x.To.2 enemy S with
    | panic => rw [hf] at h; simp at h
    | fail b e => rw [hf] at h; simp at h
    | ok b =>
      rw [hf] at h
      dsimp only at h
      cases b
      · simp at h
      · simp only [Bool.not_true, Bool.false_eq_true, if_false] at h
        intro m hm
        rcases List.mem_cons.1 hm with rfl | hm
        · exact hf
        · exact kingMoveableLoop_false enemy S rest h m hm

theorem checkmateLoop_true (row col enemy : Int) (S : BoardState) :
    ∀ (ms : List Move) (i : Nat), checkmateLoop row col enemy S ms i = .ok true →
      ∀ m ∈ ms, fieldAttacked row col enemy
        { S with Board := setCell (setCell S.Board m.From.1 m.From.2 Empty) m.To.1 m.To.2
                            (cell S.Board m.From.1 m.From.2) } = .ok true
  | [], _, _ => by simp
  | x :: rest, i, h => by
    unfold checkmateLoop at h
    split_ifs at h with h0
    dsimp only at h
    cases hf : fieldAttacked row col enemy
        { S with Board := setCell (setCell S.Board x.From.1 x.From.2 Empty) x.To.1 x.To.2
                            (cell S.Board x.From.1 x.From.2) } with
    | panic => rw [hf] at h; simp at h
    | fail b e => rw [hf] at h; simp at h
    | ok b =>
      rw [hf] at h
      dsimp only at h
      cases b
      · simp at h
      · simp only [Bool.not_true, Bool.false_eq_true, if_false] at h
        intro m hm
        rcases List.mem_cons.1 hm with rfl | hm
        · exact hf
        · exact checkmateLoop_true row col enemy S rest _ h m hm

theorem isCheckmatePlayer_true_parts {color : Int} {S : BoardState}
    (h : isCheckmatePlayer color S = .ok true) :
    kingMoveable color S = .ok false ∧
      checkmateLoop (kingSquare color S).1 (kingSquare color S).2 (enemyOf color) S
        (AllPossibleMoves color S [120]) 0 = .ok true := by
  unfold isCheckmatePlayer at h
  rw [getKingdata_eq] at h
  dsimp only at h
  cases hf : fieldAttacked (kingSquare color S).1 (kingSquare color S).2 (enemyOf color) S with
  | panic => simp [hf] at h
  | fail b1 e1 => simp [hf] at h
  | ok b1 =>
    rw [hf] at h
    dsimp only at h
    cases b1
    · simp at h
    · simp only [Bool.not_true, Bool.false_eq_true, if_false] at h
      cases hk : kingMoveable color S with
      | panic => simp [hk] at h
      | fail b2 e2 => simp [hk] at h
      | ok b2 =>
        rw [hk] at h
        dsimp only at h
        cases b2
        · simp only [Bool.false_eq_true, if_false] at h
          exact ⟨rfl, h⟩
        · simp at h

theorem isRemisPlayer_true_parts {color : Int} {S : BoardState}
    (h : isRemisPlayer color S = .ok true) :
    kingMoveable color S = .ok false ∧ AllPossibleMoves color S [120] = [] := by
  unfold isRemisPlayer at h
  rw [getKingdata_eq] at h
  dsimp only at h
  cases hf : fieldAttacked (kingSquare color S).1 (kingSquare color S).2 (enemyOf color) S with
  | panic => simp [hf] at h
  | fail b1 e1 => simp [hf] at h
  | ok b1 =>
    rw [hf] at h
    dsimp only at h
    cases b1
    · simp only [Bool.false_eq_true, if_false] at h
      cases hk : kingMoveable color S with
      | panic => simp [hk] at h
      | fail b2 e2 => simp [hk] at h
      | ok b2 =>
        rw [hk] at h
        dsimp only at h
        cases b2
        · simp only [Bool.false_eq_true, if_false] at h
          split_ifs at h with h3
          · simp at h
          · exact ⟨rfl, not_not.1 h3⟩
        · simp at h
    · simp at h

theorem kingMoveable_false_each {color : Int} {S : BoardState}
    (h : kingMoveable color S = .ok false) :
    ∀ m ∈ GenerateMovesForPiece (kingSquare color S).1 (kingSquare color S).2 S [],
      fieldAttacked m.To.1 m.To.2 (enemyOf color) S = .ok true := by
  unfold kingMoveable at h
  rw [getKingdata_eq] at h
  exact kingMoveableLoop_false _ S _ h

theorem setCell_comm (board : Grid) {r1 c1 r2 c2 : Int} (v w : Int)
    (hne : (r1, c1) ≠ (r2, c2)) :
    setCell (setCell board r1 c1 v) r2 c2 w = setCell (setCell board r2 c2 w) r1 c1 v := by
  funext i j
  unfold setCell
  split_ifs with h1 h2 h2
  · exfalso
    apply hne
    rw [← h1.1, ← h1.2, ← h2.1, ← h2.2]
  · rfl
  · rfl
  · rfl

theorem applyMove_board (m : Move) (S : BoardState) :
    (applyMove m S).Board =
      setCell (setCell S.Board m.To.1 m.To.2 (cell S.Board m.From.1 m.From.2))
        m.From.1 m.From.2 Empty := rfl

theorem sentinel_eq_kingCell {c : Int} (hc : c = 119 ∨ c = 98) :
    (if enemyOf c = 119 then (88 : Int) else 120) = kingCell c := by
  rcases hc with rfl | rfl <;> decide

theorem enemyOf_ne_self {c : Int} (hc : c = 119 ∨ c = 98) : c ≠ enemyOf c := by
  rcases hc with rfl | rfl <;> decide

theorem enemyOf_colour {c : Int} (hc : c = 119 ∨ c = 98) :
    enemyOf c = 119 ∨ enemyOf c = 98 := by
  rcases hc with rfl | rfl <;> decide

/-- A king move to a square that is attacked while the king still stands on its
origin leaves the king attacked. -/
theorem king_move_attacked {c : Int} {S : BoardState} (hc : c = 119 ∨ c = 98)
    (hK : KingOK c S) {m : Move}
    (hm : m ∈ GenerateMovesForPiece (kingSquare c S).1 (kingSquare c S).2 S [])
    (ha : fieldAttacked m.To.1 m.To.2 (enemyOf c) S = .ok true) :
    kingAttacked c (applyMove m S) = .ok true := by
  have hvK := valid_of_KingOK hK
  have hcellK : cell S.Board (kingSquare c S).1 (kingSquare c S).2 = kingCell c :=
    (hK.2 _ _ hvK).2 rfl
  obtain ⟨hfrom, hto, hne, -, -, -⟩ := GenOK_facts (GenerateMovesForPiece_valid hm)
  have hfromK : m.From = kingSquare c S := hfrom
  rw [isInBounds_eq_isValid] at hto
  have hvF : isValid m.From.1 m.From.2 = true := by rw [hfromK]; exact hvK
  have hTK : m.To ≠ kingSquare c S := by rw [← hfromK]; exact hne
  have hsq : kingSquare c (applyMove m S) = m.To := by
    rw [applyMove_kingSquare m S hc hvF, hfromK, if_pos hcellK]
  rw [kingAttacked_eq, hsq, fieldAttacked_of_valid hto]
  rw [fieldAttacked_of_valid hto] at ha
  refine attackScan_vacated (K := kingSquare c S) ?_ (enemyOf_colour hc) ?_ hTK ha
  · constructor
    · intro r c2 hv hrc
      show cell (setCell (applyMove m S).Board m.To.1 m.To.2 _) r c2 =
        cell (setCell S.Board m.To.1 m.To.2 _) r c2
      rw [cell_setCell _ _ _ _ hv, cell_setCell _ _ _ _ hv, applyMove_cell m S hv]
      by_cases h1 : r = m.To.1 ∧ c2 = m.To.2
      · rw [if_pos h1, if_pos h1]
      · rw [if_neg h1, if_neg h1, if_neg h1, if_neg]
        rintro ⟨e1, e2⟩
        apply hrc
        rw [← hfromK, e1, e2]
    · show cell (setCell (applyMove m S).Board m.To.1 m.To.2 _) _ _ = 32
      rw [cell_setCell _ _ _ _ hvK, if_neg, applyMove_cell m S hvK, if_pos]
      · rw [hfromK]; exact ⟨rfl, rfl⟩
      · rintro ⟨e1, e2⟩
        apply hTK
        exact (Prod.ext e1 e2).symm
  · intro _
    show (getColorAndPiece _ _ (setCell S.Board m.To.1 m.To.2 _)).1 ≠ enemyOf c
    rw [getColor_eq_colorOf _ hvK, cell_setCell _ _ _ _ hvK, if_neg, hcellK,
      colorOf_kingCell hc]
    · exact enemyOf_ne_self hc
    · rintro ⟨e1, e2⟩
      apply hTK
      exact (Prod.ext e1 e2).symm

/-- A move of another piece after which the probe of `isCheckmatePlayer` finds
the king attacked leaves the king attacked. -/
theorem other_move_attacked {c : Int} {S : BoardState} (hc : c = 119 ∨ c = 98)
    (hK : KingOK c S) {m : Move} (hvF : isValid m.From.1 m.From.2 = true)
    (hFK : m.From ≠ kingSquare c S) (hne : m.To ≠ m.From)
    (ha : fieldAttacked (kingSquare c S).1 (kingSquare c S).2 (enemyOf c)
      { S with Board := setCell (setCell S.Board m.From.1 m.From.2 Empty) m.To.1 m.To.2
                          (cell S.Board m.From.1 m.From.2) } = .ok true) :
    kingAttacked c (applyMove m S) = .ok true := by
  have hcell : cell S.Board m.From.1 m.From.2 ≠ kingCell c := by
    intro e
    exact hFK ((hK.2 _ _ hvF).1 e)
  have hsq : kingSquare c (applyMove m S) = kingSquare c S := by
    rw [applyMove_kingSquare m S hc hvF, if_neg hcell]
  rw [kingAttacked_eq, hsq, ← ha]
  apply fieldAttacked_congr
  show (applyMove m S).Board = _
  rw [applyMove_board]
  exact setCell_comm S.Board _ _ (fun e => hne e)

theorem FilterInvalidMoves_none_safe (S : BoardState) (ms : List Move)
    (h : ∀ m ∈ ms, MakeMove m S false = some (applyMove m S) ∧
      kingAttacked m.Color (applyMove m S) = .ok true) :
    FilterInvalidMoves ms S = .ok [] := by
  unfold FilterInvalidMoves
  rw [filterLoop_of_each S ms [] (fun x hx => ⟨_, _, (h x hx).1, (h x hx).2⟩), List.nil_append]
  congr 1
  rw [List.filter_eq_nil_iff]
  intro x hx
  simp [leavesKingSafe, (h x hx).1, (h x hx).2]

theorem not_king_piece {c : Int} {S : BoardState} (hc : c = 119 ∨ c = 98) (hK : KingOK c S)
    {row col : Int} (hv : isValid row col = true)
    (hcol : (getColorAndPiece row col S.Board).1 = c) (hne : (row, col) ≠ kingSquare c S) :
    (getColorAndPiece row col S.Board).2 ≠ 120 := by
  intro hp
  apply hne
  apply (hK.2 row col hv).1
  rcases hc with rfl | rfl
  · exact (whiteKing_iff S.Board hv).1 ⟨hp, hcol⟩
  · exact (blackKing_iff S.Board hv).1 ⟨hp, hcol⟩

/-- With the only king of colour `c` on its cached square: if the king has no
square the probe of `kingMoveable` finds free and every move of another piece
of `c` fails the probe of `isCheckmatePlayer`, then every move of `c` leaves
the king attacked. -/
theorem all_moves_attacked {c : Int} {S : BoardState} (hc : c = 119 ∨ c = 98)
    (hK : KingOK c S) (hking : kingMoveable c S = .ok false)
    (hother : ∀ m ∈ AllPossibleMoves c S [120],
      fieldAttacked (kingSquare c S).1 (kingSquare c S).2 (enemyOf c)
        { S with Board := setCell (setCell S.Board m.From.1 m.From.2 Empty) m.To.1 m.To.2
                            (cell S.Board m.From.1 m.From.2) } = .ok true) :
    ∀ m ∈ AllPossibleMoves c S [], MakeMove m S false = some (applyMove m S) ∧
      kingAttacked m.Color (applyMove m S) = .ok true := by
  intro m hm
  obtain ⟨row, col, hv, hcol, hp, -, hgen⟩ := mem_AllPossibleMoves.1 hm
  obtain ⟨hfrom, hto, hne, hmc, -, -⟩ := GenOK_facts (GenerateMovesForPiece_valid hgen)
  have hf : isInBounds m.From = true := by rw [hfrom, isInBounds_eq_isValid]; exact hv
  refine ⟨MakeMove_false_eq m S hf hto, ?_⟩
  rw [hmc, hcol]
  by_cases hk : (row, col) = kingSquare c S
  · have hgen2 : m ∈ GenerateMovesForPiece (kingSquare c S).1 (kingSquare c S).2 S [] := by
      rw [← hk]; exact hgen
    exact king_move_attacked hc hK hgen2 (kingMoveable_false_each hking m hgen2)
  · have hmem : m ∈ AllPossibleMoves c S [120] := by
      rw [mem_AllPossibleMoves]
      refine ⟨row, col, hv, hcol, hp, ?_, hgen⟩
      have := not_king_piece hc hK hv hcol hk
      cases hx : isExcluded (getColorAndPiece row col S.Board).2 [120]
      · rfl
      · rw [isExcluded_iff] at hx
        simp at hx
        exact absurd hx this
    rw [isInBounds_eq_isValid] at hf
    exact other_move_attacked hc hK hf (by rw [hfrom]; exact hk) hne (hother m hmem)

/-- C34 (with the king unique).  Checkmate detection is sound: let the board of
`S` hold the king of colour `c` on the cached square and nowhere else.  If
`isCheckmatePlayer c S` returns `true`, then the king of `c` is attacked, every
pseudo-legal move of `c`, king moves included, is applied by `MakeMove` to a
state in which the king of `c` is attacked, and
`FilterInvalidMoves (AllPossibleMoves c S []) S` returns the empty list. -/
theorem isCheckmatePlayer_sound (S : BoardState) (c : Int) (hc : c = 119 ∨ c = 98)
    (hK : KingOK c S) (h : isCheckmatePlayer c S = .ok true) :
    kingAttacked c S = .ok true ∧
    (∀ m ∈ AllPossibleMoves c S [], ∃ N, MakeMove m S false = some N ∧
      kingAttacked c N = .ok true) ∧
    FilterInvalidMoves (AllPossibleMoves c S []) S = .ok [] := by
  obtain ⟨hking, hloop⟩ := isCheckmatePlayer_true_parts h
  have hall := all_moves_attacked hc hK hking (checkmateLoop_true _ _ _ S _ 0 hloop)
  refine ⟨isCheckmatePlayer_true_attacked h, ?_, FilterInvalidMoves_none_safe S _ hall⟩
  intro m hm
  obtain ⟨h1, h2⟩ := hall m hm
  have hmc : m.Color = c := by
    obtain ⟨row, col, hv, hcol, -, -, hgen⟩ := mem_AllPossibleMoves.1 hm
    rw [(GenOK_facts (GenerateMovesForPiece_valid hgen)).2.2.2.1, hcol]
  rw [hmc] at h2
  exact ⟨_, h1, h2⟩

/-- C35 (with the king unique).  Stalemate detection is sound: let the board
of `S` hold the king of colour `c` on the cached square and nowhere else.  If
`isRemisPlayer c S` returns `true`, then the king of `c` is not attacked and
`FilterInvalidMoves (AllPossibleMoves c S []) S` returns the empty list;
equivalently, whenever that list is not empty `isRemisPlayer c S` returns
`false`. -/
theorem isRemisPlayer_sound (S : BoardState) (c : Int) (hc : c = 119 ∨ c = 98)
    (hK : KingOK c S) :
    (isRemisPlayer c S = .ok true →
      kingAttacked c S = .ok false ∧
      FilterInvalidMoves (AllPossibleMoves c S []) S = .ok []) ∧
    (∀ res, FilterInvalidMoves (AllPossibleMoves c S []) S = .ok res → res ≠ [] →
      isRemisPlayer c S = .ok false) := by
  have key : isRemisPlayer c S = .ok true →
      FilterInvalidMoves (AllPossibleMoves c S []) S = .ok [] := by
    intro h
    obtain ⟨hking, hnone⟩ := isRemisPlayer_true_parts h
    exact FilterInvalidMoves_none_safe S _
      (all_moves_attacked hc hK hking (by rw [hnone]; simp))
  refine ⟨fun h => ⟨isRemisPlayer_true_not_attacked h, key h⟩, ?_⟩
  intro res hres hne
  obtain ⟨b, hb⟩ := isRemisPlayer_ok c S hK.1
  cases b
  · exact hb
  · rw [key hb] at hres
    simp only [Res.ok.injEq] at hres
    exact absurd hres.symm hne

theorem KingOK_of_cells {c : Int} {S : BoardState} (hb : isInBounds (kingSquare c S) = true)
    (h : ∀ i j : Fin 8,
      S.Board i j = kingCell c ↔ (((i : Nat) : Int), ((j : Nat) : Int)) = kingSquare c S) :
    KingOK c S := by
  refine ⟨hb, fun r c2 hrc => ?_⟩
  obtain ⟨i, j, rfl, rfl⟩ := exists_fin_of_valid hrc
  rw [cell_coe]
  exact h i j

set_option maxRecDepth 1000000 in
theorem testCheckmateBoard_KingOK : KingOK 98 testCheckmateBoard :=
  KingOK_of_cells (by decide) (by decide)

set_option maxRecDepth 1000000 in
theorem testRemisBoard_KingOK : KingOK 98 testRemisBoard :=
  KingOK_of_cells (by decide) (by decide)

set_option maxRecDepth 1000000 in
/-- On `twoKingsMate` each cached king square holds the king of its colour and
`isCheckmatePlayer` returns `true` for white, while five moves of the second
white king pass `FilterInvalidMoves`. -/
theorem isCheckmatePlayer_two_kings :
    twoKingsMate.WhiteKingPos = (7, 7) ∧ cell twoKingsMate.Board 7 7 = 120 ∧
    twoKingsMate.BlackKingPos = (4, 2) ∧ cell twoKingsMate.Board 4 2 = 88 ∧
    isCheckmatePlayer 119 twoKingsMate = .ok true ∧
    FilterInvalidMoves (AllPossibleMoves 119 twoKingsMate []) twoKingsMate =
      .ok [moveTo 0 4 119 (0, 3) false, moveTo 0 4 119 (0, 5) false,
        moveTo 0 4 119 (1, 3) false, moveTo 0 4 119 (1, 4) false,
        moveTo 0 4 119 (1, 5) false] ∧
    FilterInvalidMoves (AllPossibleMoves 119 twoKingsMate []) twoKingsMate ≠ .ok [] := by
  have h : FilterInvalidMoves (AllPossibleMoves 119 twoKingsMate []) twoKingsMate =
      .ok [moveTo 0 4 119 (0, 3) false, moveTo 0 4 119 (0, 5) false,
        moveTo 0 4 119 (1, 3) false, moveTo 0 4 119 (1, 4) false,
        moveTo 0 4 119 (1, 5) false] := by decide
  refine ⟨rfl, by decide, rfl, by decide, by decide, h, ?_⟩
  rw [h]
  simp

set_option maxRecDepth 1000000 in
/-- On `twoKingsStalemate` each cached king square holds the king of its colour
and `isRemisPlayer` returns `true` for white, while the eight moves of the
second white king pass `FilterInvalidMoves`. -/
theorem isRemisPlayer_two_kings :
    twoKingsStalemate.WhiteKingPos = (7, 7) ∧ cell twoKingsStalemate.Board 7 7 = 120 ∧
    twoKingsStalemate.BlackKingPos = (0, 0) ∧ cell twoKingsStalemate.Board 0 0 = 88 ∧
    isRemisPlayer 119 twoKingsStalemate = .ok true ∧
    kingAttacked 119 twoKingsStalemate = .ok false ∧
    FilterInvalidMoves (AllPossibleMoves 119 twoKingsStalemate []) twoKingsStalemate =
      .ok [moveTo 3 3 119 (2, 2) false, moveTo 3 3 119 (2, 3) false,
        moveTo 3 3 119 (2, 4) false, moveTo 3 3 119 (3, 2) false,
        moveTo 3 3 119 (3, 4) false, moveTo 3 3 119 (4, 2) false,
        moveTo 3 3 119 (4, 3) false, moveTo 3 3 119 (4, 4) false] ∧
    FilterInvalidMoves (AllPossibleMoves 119 twoKingsStalemate []) twoKingsStalemate ≠
      .ok [] := by
  have h : FilterInvalidMoves (AllPossibleMoves 119 twoKingsStalemate []) twoKingsStalemate =
      .ok [moveTo 3 3 119 (2, 2) false, moveTo 3 3 119 (2, 3) false,
        moveTo 3 3 119 (2, 4) false, moveTo 3 3 119 (3, 2) false,
        moveTo 3 3 119 (3, 4) false, moveTo 3 3 119 (4, 2) false,
        moveTo 3 3 119 (4, 3) false, moveTo 3 3 119 (4, 4) false] := by decide
  refine ⟨rfl, by decide, rfl, by decide, by decide, by decide, h, ?_⟩
  rw [h]
  simp

set_option maxRecDepth 1000000 in
/-- Witness of C34: black on the board of `TestIsCheckmate`. -/
theorem isCheckmatePlayer_sound_witness :
    KingOK 98 testCheckmateBoard ∧ isCheckmatePlayer 98 testCheckmateBoard = .ok true ∧
    kingAttacked 98 testCheckmateBoard = .ok true ∧
    FilterInvalidMoves (AllPossibleMoves 98 testCheckmateBoard []) testCheckmateBoard = .ok [] :=
  ⟨testCheckmateBoard_KingOK, by decide,
    (isCheckmatePlayer_sound testCheckmateBoard 98 (Or.inr rfl) testCheckmateBoard_KingOK
      (by decide)).1,
    (isCheckmatePlayer_sound testCheckmateBoard 98 (Or.inr rfl) testCheckmateBoard_KingOK
      (by decide)).2.2⟩

set_option maxRecDepth 1000000 in
/-- Witness of C35: black on the first board of `TestRemisPlayer`. -/
theorem isRemisPlayer_sound_witness :
    KingOK 98 testRemisBoard ∧ isRemisPlayer 98 testRemisBoard = .ok true ∧
    kingAttacked 98 testRemisBoard = .ok false ∧
    FilterInvalidMoves (AllPossibleMoves 98 testRemisBoard []) testRemisBoard = .ok [] :=
  ⟨testRemisBoard_KingOK, by decide,
    ((isRemisPlayer_sound testRemisBoard 98 (Or.inr rfl) testRemisBoard_KingOK).1
      (by decide)).1,
    ((isRemisPlayer_sound testRemisBoard 98 (Or.inr rfl) testRemisBoard_KingOK).1
      (by decide)).2⟩

set_option maxRecDepth 1000000 in
/-- Witness of C36: the queen move (7,0) to (2,0), "a1 a6", mates black on the
board of `TestIsCheckmate`; the state `MakeMove` returns has `Winner = "w"`. -/
theorem checkmate_excludes_remis_witness :
    (isCheckmatePlayer (enemyOf (getColorAndPiece 7 0 beforeQueenMate.Board).1)
      (applyMove (moveTo 7 0 119 (2, 0) false) beforeQueenMate)).flag = some true ∧
    ∃ R, MakeMove (moveTo 7 0 119 (2, 0) false) beforeQueenMate true = some R ∧
      R.Winner = "w" ∧ R.TurnColor = "n" ∧ R.Winner ≠ "r" := by
  obtain ⟨R, hR⟩ := MakeMove_total (moveTo 7 0 119 (2, 0) false) beforeQueenMate true
    (by decide) (by decide) (by decide) (by decide)
  have h := (checkmate_excludes_remis beforeQueenMate 119).2 (moveTo 7 0 119 (2, 0) false) R hR
    (by decide)
  refine ⟨by decide, R, hR, ?_, ?_, h.2⟩
  · rw [h.1]; decide
  · rw [h.1]

end Chess
